import Mathlib

/-!
# go-event: a two-tier event dispatcher

Shallow embedding of `handle.go`, `dispatch.go` and `event.go`.

* A Go `map[K]V` is an association list read through `mapLookup`; `mapStore`
  overwrites in place or appends, `mapDelete` drops every binding of the key.
* `container/list` is a Lean list of `Element`s.  A `*list.Element` pointer is
  the address `addr` of the element; every list container owns an allocation
  counter `nextAddr` from which `PushBack` draws a fresh address.
* A Go `error` is `Option GoError`; `none` is `nil`.
* A `panic` is `Except.error`.
* A handler is a function from the event to a `Reply`: the error it returns and
  the keys whose removal from the list under iteration it requests while it
  runs (`RemTypeHandler` / `RemHandler` addressed to the very list that is
  invoking it).
* The first part of the development (`callLoop`, `EventDispatcher.Dispatch`)
  covers handlers that make no other call into the dispatcher; there the loop
  walks the elements that were in the list when the pass began.
* The second part (`Scripted`, `Scripted.callLoop`, `Scripted.Dispatch`) covers
  handlers that, while they run, call `AddTypeHandler`, `AddHandler`,
  `RemTypeHandler` and `RemHandler` on any type, value and key: every handler
  has a script of such calls, the loop follows the `Next()` pointer of the
  element under the cursor after every handler, and a step of the loop costs
  one unit of fuel.  A handler that calls `Clear` or `Dispatch` is outside
  both parts; what a nested `Dispatch` meets is a state with `isCalling` set.
-/

namespace GoEvent

/-! ## Go maps -/

/-- Go `m[k]` with the comma-ok result. -/
def mapLookup {K V : Type} [DecidableEq K] : List (K × V) → K → Option V
  | [], _ => none
  | (k, v) :: m, x => if k = x then some v else mapLookup m x

/-- Go `m[k] = v`. -/
def mapStore {K V : Type} [DecidableEq K] : List (K × V) → K → V → List (K × V)
  | [], x, v => [(x, v)]
  | (k, w) :: m, x, v => if k = x then (k, v) :: m else (k, w) :: mapStore m x v

/-- Go `delete(m, k)`. -/
def mapDelete {K V : Type} [DecidableEq K] (m : List (K × V)) (x : K) : List (K × V) :=
  m.filter (fun p => decide (p.1 ≠ x))

/-! ## event.go -/

/-- EventID of event.go: the field `Type` is spelled `Typ`. -/
structure EventID (ET EV : Type) where
  Typ : ET
  Val : EV
deriving DecidableEq

/-- Event of event.go; the two `interface{}` payloads are opaque values. -/
structure Event (ET EV : Type) where
  eventID : EventID ET EV
  param : List Nat
  generator : Nat
deriving DecidableEq

/-- Go `Event.EventID`. -/
def Event.EventID {ET EV : Type} (e : Event ET EV) : EventID ET EV := e.eventID

/-- Go `Event.Param`. -/
def Event.Param {ET EV : Type} (e : Event ET EV) : List Nat := e.param

/-- Go `Event.Generator`. -/
def Event.Generator {ET EV : Type} (e : Event ET EV) : Nat := e.generator

/-! ## handle.go -/

/-- Non-nil Go error values: the sentinel `ErrUnregister` and any other error. -/
inductive GoError where
  | ErrUnregister
  | other (code : Nat)
deriving DecidableEq

/-- The ways the code aborts. -/
inductive Panic where
  | nilEventHandler
  | nestedDispatch
  | nilDereference
deriving DecidableEq

/-- What one run of a handler does: the error it returns and the keys it asks
its own list to remove while it runs. -/
structure Reply (HK : Type) where
  err : Option GoError
  rems : List HK

/-- The interface `EventHandler`. -/
structure EventHandler (ET EV HK : Type) where
  HandleEvent : Event ET EV → Reply HK

/-- The entry `eventHandler`; `h` may be the nil interface. -/
structure eventHandler (ET EV HK : Type) where
  key : HK
  h : Option (EventHandler ET EV HK)
  once : Bool

/-- A `*list.Element` holding an entry. -/
structure Element (ET EV HK : Type) where
  addr : Nat
  Value : eventHandler ET EV HK

/-- The container `eventHandlers`. -/
structure eventHandlers (ET EV HK : Type) where
  calling : Bool
  handlerList : List (Element ET EV HK)
  handlerMap : List (HK × Nat)
  pendingRemList : Option (List HK)
  nextAddr : Nat

/-- One handler invocation seen from a list: the key of the entry and the event handed to it. -/
abbrev Call (ET EV HK : Type) := HK × Event ET EV

section Handlers

variable {ET EV HK : Type} [DecidableEq ET] [DecidableEq EV] [DecidableEq HK]

/-- Go `newEventHandler`: panics on a nil handler. -/
def newEventHandler (key : HK) (h : Option (EventHandler ET EV HK)) (once : Bool) :
    Except Panic (eventHandler ET EV HK) :=
  match h with
  | none => .error Panic.nilEventHandler
  | some f => .ok { key := key, h := some f, once := once }

/-- Go `newEventHandlers`. -/
def newEventHandlers : eventHandlers ET EV HK :=
  { calling := false, handlerList := [], handlerMap := [], pendingRemList := none, nextAddr := 0 }

/-- Go `list.Remove(elem)`: unlinks the element with that address. -/
def listRemove (l : List (Element ET EV HK)) (a : Nat) : List (Element ET EV HK) :=
  l.filter (fun e => decide (e.addr ≠ a))

/-- The in-place update of `add`: `hEntry.h = h; hEntry.once = once` through the element pointer. -/
def listAssign (l : List (Element ET EV HK)) (a : Nat) (h : Option (EventHandler ET EV HK))
    (once : Bool) : List (Element ET EV HK) :=
  l.map (fun e => if e.addr = a then { e with Value := { e.Value with h := h, once := once } } else e)

/-- Go `eventHandlers.add`. -/
def eventHandlers.add (hs : eventHandlers ET EV HK) (key : HK)
    (h : Option (EventHandler ET EV HK)) (once : Bool) : Except Panic (eventHandlers ET EV HK) :=
  match mapLookup hs.handlerMap key with
  | some a => .ok { hs with handlerList := listAssign hs.handlerList a h once }
  | none =>
    match newEventHandler key h once with
    | .error p => .error p
    | .ok hEntry =>
      .ok { hs with
            handlerList := hs.handlerList ++ [{ addr := hs.nextAddr, Value := hEntry }]
            handlerMap := mapStore hs.handlerMap key hs.nextAddr
            nextAddr := hs.nextAddr + 1 }

/-- Go `eventHandlers.rem`. -/
def eventHandlers.rem (hs : eventHandlers ET EV HK) (key : HK) : eventHandlers ET EV HK :=
  match mapLookup hs.handlerMap key with
  | none => hs
  | some a =>
    if hs.calling then
      { hs with pendingRemList := some (hs.pendingRemList.getD [] ++ [key]) }
    else
      { hs with handlerList := listRemove hs.handlerList a
                handlerMap := mapDelete hs.handlerMap key }

/-- Go `eventHandlers.empty`. -/
def eventHandlers.empty (hs : eventHandlers ET EV HK) : Bool :=
  hs.handlerList.length == 0

/-- The condition `err != nil && err != ErrUnregister`. -/
def isHard (err : Option GoError) : Bool :=
  decide (err ≠ none ∧ err ≠ some GoError.ErrUnregister)

/-- The `for elem != nil` loop of `eventHandlers.call`, from the element under the cursor on,
for handlers whose only calls into the dispatcher while they run are the removals of their
reply (`Scripted.callLoop` is the loop for handlers that register and remove anywhere).
The cursor walks the elements that follow it in the list; while the loop runs the list only
loses the element under the cursor, so these are the elements `remaining`.  The result carries
`some err` when the loop left through `return err`. -/
def callLoop (event : Event ET EV) :
    List (Element ET EV HK) → eventHandlers ET EV HK →
      Except Panic (eventHandlers ET EV HK × Option GoError × List (Call ET EV HK))
  | [], hs => .ok (hs, none, [])
  | elem :: remaining, hs =>
    match elem.Value.h with
    | none => .error Panic.nilDereference
    | some f =>
      let reply := f.HandleEvent event
      let hs1 := reply.rems.foldl eventHandlers.rem hs
      if isHard reply.err then
        .ok (hs1, reply.err, [(elem.Value.key, event)])
      else
        let hs2 :=
          if elem.Value.once || decide (reply.err = some GoError.ErrUnregister) then
            { hs1 with handlerList := listRemove hs1.handlerList elem.addr
                       handlerMap := mapDelete hs1.handlerMap elem.Value.key }
          else hs1
        match callLoop event remaining hs2 with
        | .error p => .error p
        | .ok (hs3, r, tr) => .ok (hs3, r, (elem.Value.key, event) :: tr)

/-- The tail of `eventHandlers.call` after the loop: clear the flag, drain the queue. -/
def drainPending (hs : eventHandlers ET EV HK) : eventHandlers ET EV HK :=
  let hs1 := { hs with calling := false }
  match hs1.pendingRemList with
  | none => hs1
  | some q => { q.foldl eventHandlers.rem hs1 with pendingRemList := none }

/-- Go `eventHandlers.call`. -/
def eventHandlers.call (hs : eventHandlers ET EV HK) (evtID : EventID ET EV) (generator : Nat)
    (param : List Nat) :
    Except Panic (eventHandlers ET EV HK × Option GoError × List (Call ET EV HK)) :=
  let event : Event ET EV := { eventID := evtID, param := param, generator := generator }
  match callLoop event hs.handlerList { hs with calling := true } with
  | .error p => .error p
  | .ok (hs1, some err, tr) => .ok (hs1, some err, tr)
  | .ok (hs1, none, tr) => .ok (drainPending hs1, none, tr)

/-- Go `eventHandlers.clear`. -/
def eventHandlers.clear (hs : eventHandlers ET EV HK) : eventHandlers ET EV HK :=
  { hs with calling := false, handlerList := [], handlerMap := [], pendingRemList := none }

end Handlers

/-- The bucket `eventTypeHandlers`: the value map and the embedded type-level container, both nilable. -/
structure eventTypeHandlers (ET EV HK : Type) where
  valHandlers : Option (List (EV × eventHandlers ET EV HK))
  eventHandlers : Option (eventHandlers ET EV HK)

/-- One handler invocation seen from a bucket: `none` for the type-level list, `some v` for the
list of value `v`, then the key and the event. -/
abbrev TypeCall (ET EV HK : Type) := Option EV × HK × Event ET EV

/-- One handler invocation seen from the dispatcher. -/
structure Invocation (ET EV HK : Type) where
  evtType : ET
  evtVal : Option EV
  key : HK
  event : Event ET EV
deriving DecidableEq

/-- The dispatcher `EventDispatcher`. -/
structure EventDispatcher (ET EV HK : Type) where
  typesHandlers : List (ET × eventTypeHandlers ET EV HK)
  isCalling : Bool

section Buckets

variable {ET EV HK : Type} [DecidableEq ET] [DecidableEq EV] [DecidableEq HK]

/-- Go `newEventTypeHandlers`. -/
def newEventTypeHandlers : eventTypeHandlers ET EV HK :=
  { valHandlers := none, eventHandlers := none }

/-- Go `eventTypeHandlers.add`. -/
def eventTypeHandlers.add (hs : eventTypeHandlers ET EV HK) (key : HK)
    (h : Option (EventHandler ET EV HK)) (once : Bool) :
    Except Panic (eventTypeHandlers ET EV HK) :=
  match (hs.eventHandlers.getD newEventHandlers).add key h once with
  | .error p => .error p
  | .ok l => .ok { hs with eventHandlers := some l }

/-- Go `eventTypeHandlers.rem`. -/
def eventTypeHandlers.rem (hs : eventTypeHandlers ET EV HK) (key : HK) :
    eventTypeHandlers ET EV HK :=
  match hs.eventHandlers with
  | none => hs
  | some l =>
    if (l.rem key).empty then { hs with eventHandlers := none }
    else { hs with eventHandlers := some (l.rem key) }

/-- Go `eventTypeHandlers.addVal`. -/
def eventTypeHandlers.addVal (hs : eventTypeHandlers ET EV HK) (ev : EV) (key : HK)
    (h : Option (EventHandler ET EV HK)) (once : Bool) :
    Except Panic (eventTypeHandlers ET EV HK) :=
  let m := hs.valHandlers.getD []
  match ((mapLookup m ev).getD newEventHandlers).add key h once with
  | .error p => .error p
  | .ok container => .ok { hs with valHandlers := some (mapStore m ev container) }

/-- Go `eventTypeHandlers.remVal`; reading a nil map yields nil. -/
def eventTypeHandlers.remVal (hs : eventTypeHandlers ET EV HK) (ev : EV) (key : HK) :
    eventTypeHandlers ET EV HK :=
  let m := hs.valHandlers.getD []
  match mapLookup m ev with
  | none => hs
  | some container =>
    let m1 := if (container.rem key).empty then mapDelete m ev else mapStore m ev (container.rem key)
    if m1.length == 0 then { hs with valHandlers := none } else { hs with valHandlers := some m1 }

/-- Go `eventTypeHandlers.empty`. -/
def eventTypeHandlers.empty (hs : eventTypeHandlers ET EV HK) : Bool :=
  hs.eventHandlers.isNone && hs.valHandlers.isNone

/-- The second half of `eventTypeHandlers.call`: the list of the event value. -/
def eventTypeHandlers.callVal (hs : eventTypeHandlers ET EV HK) (evtID : EventID ET EV)
    (generator : Nat) (param : List Nat) :
    Except Panic (eventTypeHandlers ET EV HK × Option GoError × List (Call ET EV HK)) :=
  match hs.valHandlers with
  | none => .ok (hs, none, [])
  | some m =>
    match mapLookup m evtID.Val with
    | none => .ok (hs, none, [])
    | some container =>
      match container.call evtID generator param with
      | .error p => .error p
      | .ok (c, err, tr) =>
        if c.empty then
          let m1 := mapDelete m evtID.Val
          .ok ({ hs with valHandlers := if m1.length == 0 then none else some m1 }, err, tr)
        else
          .ok ({ hs with valHandlers := some (mapStore m evtID.Val c) }, err, tr)

/-- Go `eventTypeHandlers.call`: the type-level list first, then the list of the value. -/
def eventTypeHandlers.call (hs : eventTypeHandlers ET EV HK) (evtID : EventID ET EV)
    (generator : Nat) (param : List Nat) :
    Except Panic (eventTypeHandlers ET EV HK × Option GoError × List (TypeCall ET EV HK)) :=
  match hs.eventHandlers with
  | none =>
    match hs.callVal evtID generator param with
    | .error p => .error p
    | .ok (hs2, err2, tr2) => .ok (hs2, err2, tr2.map (fun c => (some evtID.Val, c)))
  | some l =>
    match l.call evtID generator param with
    | .error p => .error p
    | .ok (l1, err, tr) =>
      let hs1 := { hs with eventHandlers := if l1.empty then none else some l1 }
      if err ≠ none then .ok (hs1, err, tr.map (fun c => (none, c)))
      else
        match hs1.callVal evtID generator param with
        | .error p => .error p
        | .ok (hs2, err2, tr2) =>
          .ok (hs2, err2, tr.map (fun c => (none, c)) ++ tr2.map (fun c => (some evtID.Val, c)))

/-- Go `eventTypeHandlers.clear`: every value container is cleared, the value map is dropped,
then the type-level container is cleared and dropped. -/
def eventTypeHandlers.clear (hs : eventTypeHandlers ET EV HK) : eventTypeHandlers ET EV HK :=
  let hs1 : eventTypeHandlers ET EV HK :=
    { hs with valHandlers := hs.valHandlers.map (fun m => m.map (fun p => (p.1, p.2.clear))) }
  let hs2 : eventTypeHandlers ET EV HK := { hs1 with valHandlers := none }
  match hs2.eventHandlers with
  | none => hs2
  | some l => { { hs2 with eventHandlers := some l.clear } with eventHandlers := none }

/-! ## dispatch.go -/

/-- Go `NewEventDispatcher`. -/
def NewEventDispatcher : EventDispatcher ET EV HK :=
  { typesHandlers := [], isCalling := false }

/-- Go `addORGetTypeHandlers`: the dispatcher after the call and the bucket it returns. -/
def EventDispatcher.addORGetTypeHandlers (d : EventDispatcher ET EV HK) (evtType : ET) :
    EventDispatcher ET EV HK × eventTypeHandlers ET EV HK :=
  match mapLookup d.typesHandlers evtType with
  | some typeHandlers => (d, typeHandlers)
  | none =>
    ({ d with typesHandlers := mapStore d.typesHandlers evtType newEventTypeHandlers },
      newEventTypeHandlers)

/-- Go `AddTypeHandler`. -/
def EventDispatcher.AddTypeHandler (d : EventDispatcher ET EV HK) (evtType : ET) (key : HK)
    (h : Option (EventHandler ET EV HK)) (once : Bool) : Except Panic (EventDispatcher ET EV HK) :=
  match (d.addORGetTypeHandlers evtType).2.add key h once with
  | .error p => .error p
  | .ok typeHandler =>
    .ok { (d.addORGetTypeHandlers evtType).1 with
          typesHandlers := mapStore (d.addORGetTypeHandlers evtType).1.typesHandlers evtType typeHandler }

/-- Go `AddHandler`. -/
def EventDispatcher.AddHandler (d : EventDispatcher ET EV HK) (evtId : EventID ET EV) (key : HK)
    (h : Option (EventHandler ET EV HK)) (once : Bool) : Except Panic (EventDispatcher ET EV HK) :=
  match (d.addORGetTypeHandlers evtId.Typ).2.addVal evtId.Val key h once with
  | .error p => .error p
  | .ok typeHandlers =>
    .ok { (d.addORGetTypeHandlers evtId.Typ).1 with
          typesHandlers :=
            mapStore (d.addORGetTypeHandlers evtId.Typ).1.typesHandlers evtId.Typ typeHandlers }

/-- Go `RemTypeHandler`. -/
def EventDispatcher.RemTypeHandler (d : EventDispatcher ET EV HK) (evtType : ET) (key : HK) :
    EventDispatcher ET EV HK :=
  match mapLookup d.typesHandlers evtType with
  | none => d
  | some typeHandlers =>
    if (typeHandlers.rem key).empty then
      { d with typesHandlers := mapDelete d.typesHandlers evtType }
    else
      { d with typesHandlers := mapStore d.typesHandlers evtType (typeHandlers.rem key) }

/-- Go `RemHandler`. -/
def EventDispatcher.RemHandler (d : EventDispatcher ET EV HK) (evtId : EventID ET EV) (key : HK) :
    EventDispatcher ET EV HK :=
  match mapLookup d.typesHandlers evtId.Typ with
  | none => d
  | some typeHandlers =>
    if (typeHandlers.remVal evtId.Val key).empty then
      { d with typesHandlers := mapDelete d.typesHandlers evtId.Typ }
    else
      { d with typesHandlers :=
          mapStore d.typesHandlers evtId.Typ (typeHandlers.remVal evtId.Val key) }

/-- Go `Clear`: every bucket is cleared, then the map is replaced by a new empty map and the
flag is reset. -/
def EventDispatcher.Clear (d : EventDispatcher ET EV HK) : EventDispatcher ET EV HK :=
  let d1 : EventDispatcher ET EV HK :=
    { d with typesHandlers := d.typesHandlers.map (fun p => (p.1, p.2.clear)) }
  let d2 : EventDispatcher ET EV HK := { d1 with typesHandlers := [] }
  { d2 with isCalling := false }

/-- Go `Dispatch`: the dispatcher afterwards, the returned error and the handlers invoked. -/
def EventDispatcher.Dispatch (d : EventDispatcher ET EV HK) (evtId : EventID ET EV)
    (generator : Nat) (param : List Nat) :
    Except Panic (EventDispatcher ET EV HK × Option GoError × List (Invocation ET EV HK)) :=
  match mapLookup d.typesHandlers evtId.Typ with
  | none => .ok (d, none, [])
  | some typeHandlers =>
    if d.isCalling then .error Panic.nestedDispatch
    else
      match typeHandlers.call evtId generator param with
      | .error p => .error p
      | .ok (th, err, tr) =>
        .ok ({ typesHandlers :=
                 if th.empty then mapDelete d.typesHandlers evtId.Typ
                 else mapStore d.typesHandlers evtId.Typ th
               isCalling := false },
             err,
             tr.map (fun c => { evtType := evtId.Typ, evtVal := c.1, key := c.2.1, event := c.2.2 }))

end Buckets

/-! ## Vocabulary of the properties -/

section Vocabulary

variable {ET EV HK : Type} [DecidableEq ET] [DecidableEq EV] [DecidableEq HK]

/-- The error the handler of an entry returns on an event; `none` when the handler is nil. -/
def eventHandler.result (e : eventHandler ET EV HK) (event : Event ET EV) :
    Option (Option GoError) :=
  e.h.map (fun f => (f.HandleEvent event).err)

/-- The handler of the entry is present and returns nil on the event. -/
def eventHandler.returnsNil (e : eventHandler ET EV HK) (event : Event ET EV) : Prop :=
  e.result event = some none

/-- The handler of the entry is present and returns nil or `ErrUnregister` on the event. -/
def eventHandler.soft (e : eventHandler ET EV HK) (event : Event ET EV) : Prop :=
  ∃ r, e.result event = some r ∧ isHard r = false

/-- The handler of the entry is present and returns the hard error `err` on the event. -/
def eventHandler.fails (e : eventHandler ET EV HK) (event : Event ET EV) (err : Option GoError) :
    Prop :=
  e.result event = some err ∧ isHard err = true

/-- The entry leaves the list after a successful invocation: fire-once, or `ErrUnregister`. -/
def eventHandler.leaves (e : eventHandler ET EV HK) (event : Event ET EV) : Bool :=
  e.once || decide (e.result event = some (some GoError.ErrUnregister))

/-- The error the handler of an element returns on an event. -/
def Element.result (event : Event ET EV) (e : Element ET EV HK) : Option (Option GoError) :=
  e.Value.result event

/-- The items a pass over `l` invokes, `res` giving the result of each: up to and including
the first hard error, and none from a nil handler on. -/
def invokedBy {α : Type} (res : α → Option (Option GoError)) : List α → List α
  | [] => []
  | e :: l =>
    match res e with
    | none => []
    | some r => if isHard r then [e] else e :: invokedBy res l

/-- The error a pass over `l` returns: the first hard error, else nil. -/
def firstHard {α : Type} (res : α → Option (Option GoError)) : List α → Option GoError
  | [] => none
  | e :: l =>
    match res e with
    | none => none
    | some r => if isHard r then r else firstHard res l

/-- The pass over `l` reaches a nil handler before any hard error. -/
def reachesNil {α : Type} (res : α → Option (Option GoError)) : List α → Bool
  | [] => false
  | e :: l =>
    match res e with
    | none => true
    | some r => if isHard r then false else reachesNil res l

/-- The elements a pass over `l` unlinks while it walks the list. -/
def unlinkedBy (event : Event ET EV) : List (Element ET EV HK) → List (Element ET EV HK)
  | [] => []
  | e :: l =>
    match e.Value.result event with
    | none => []
    | some r =>
      if isHard r then []
      else if e.Value.leaves event then e :: unlinkedBy event l else unlinkedBy event l

/-- The keys the handler of an entry asks its list to remove when it runs on an event. -/
def eventHandler.requests (e : eventHandler ET EV HK) (event : Event ET EV) : List HK :=
  match e.h with
  | none => []
  | some f => (f.HandleEvent event).rems

/-- The keys the handlers invoked by a pass over `l` ask the list to remove, in order. -/
def requestedBy (event : Event ET EV) (l : List (Element ET EV HK)) : List HK :=
  (invokedBy (Element.result event) l).flatMap (fun e => e.Value.requests event)

/-- The calls recorded for a list of invoked elements. -/
def callsOf (event : Event ET EV) (l : List (Element ET EV HK)) : List (Call ET EV HK) :=
  l.map (fun e => (e.Value.key, event))

/-- The keys of a sequence, in order. -/
def keysOf (l : List (Element ET EV HK)) : List HK :=
  l.map (fun e => e.Value.key)

/-- The addresses of a sequence, in order. -/
def addrsOf (l : List (Element ET EV HK)) : List Nat :=
  l.map (fun e => e.addr)

end Vocabulary

section Invariants

variable {ET EV HK : Type} [DecidableEq ET] [DecidableEq EV] [DecidableEq HK]

/-- The key index and the sequence of a container agree: keys and addresses occur once in the
sequence, addresses come from the allocation counter, and the index binds a key to an address
exactly when the element at that address carries the key. -/
structure eventHandlers.Consistent (hs : eventHandlers ET EV HK) : Prop where
  keys_nodup : (keysOf hs.handlerList).Nodup
  addrs_nodup : (addrsOf hs.handlerList).Nodup
  addrs_lt : ∀ e ∈ hs.handlerList, e.addr < hs.nextAddr
  index : ∀ k a, mapLookup hs.handlerMap k = some a ↔
    ∃ e ∈ hs.handlerList, e.Value.key = k ∧ e.addr = a

/-- The container states reached from the empty container by `add`, `rem` and `call`. -/
inductive eventHandlers.Reachable : eventHandlers ET EV HK → Prop where
  | new : eventHandlers.Reachable newEventHandlers
  | add (hs hs1 : eventHandlers ET EV HK) (key : HK) (h : Option (EventHandler ET EV HK))
      (once : Bool) : eventHandlers.Reachable hs → hs.add key h once = .ok hs1 →
      eventHandlers.Reachable hs1
  | rem (hs : eventHandlers ET EV HK) (key : HK) : eventHandlers.Reachable hs →
      eventHandlers.Reachable (hs.rem key)
  | call (hs hs1 : eventHandlers ET EV HK) (evtID : EventID ET EV) (generator : Nat)
      (param : List Nat) (r : Option GoError) (tr : List (Call ET EV HK)) :
      eventHandlers.Reachable hs → hs.call evtID generator param = .ok (hs1, r, tr) →
      eventHandlers.Reachable hs1

end Invariants

section Entries

variable {ET EV HK : Type} [DecidableEq ET] [DecidableEq EV] [DecidableEq HK]

/-- The entries of a sequence, in order. -/
def entriesOf (l : List (Element ET EV HK)) : List (eventHandler ET EV HK) :=
  l.map (fun e => e.Value)

/-- The entry `add` writes for a key that is already bound: handler and flag replaced. -/
def eventHandler.assign (e : eventHandler ET EV HK) (key : HK)
    (h : Option (EventHandler ET EV HK)) (once : Bool) : eventHandler ET EV HK :=
  if e.key = key then { e with h := h, once := once } else e

end Entries

section Access

variable {ET EV HK : Type} [DecidableEq ET] [DecidableEq EV] [DecidableEq HK]

/-- The sequence of the type-level list of a bucket; empty when the list is absent. -/
def eventTypeHandlers.typeElems (b : eventTypeHandlers ET EV HK) : List (Element ET EV HK) :=
  (b.eventHandlers.map (fun l => l.handlerList)).getD []

/-- The sequence of the list of value `v` in a bucket; empty when the list is absent. -/
def eventTypeHandlers.valElems (b : eventTypeHandlers ET EV HK) (v : EV) :
    List (Element ET EV HK) :=
  match b.valHandlers with
  | none => []
  | some m => ((mapLookup m v).map (fun l => l.handlerList)).getD []

/-- The handler list a bucket holds for the bare type (`v = none`) or for the value `w`
(`v = some w`), when there is one. -/
def bucketListAt (b : eventTypeHandlers ET EV HK) (v : Option EV) :
    Option (eventHandlers ET EV HK) :=
  match v with
  | none => b.eventHandlers
  | some w =>
    match b.valHandlers with
    | none => none
    | some m => mapLookup m w

/-- The handler list registered under the bare type `t` (`v = none`) or under `(t, w)`
(`v = some w`), when there is one. -/
def EventDispatcher.listAt (d : EventDispatcher ET EV HK) (t : ET) (v : Option EV) :
    Option (eventHandlers ET EV HK) :=
  match mapLookup d.typesHandlers t with
  | none => none
  | some b =>
    match v with
    | none => b.eventHandlers
    | some w =>
      match b.valHandlers with
      | none => none
      | some m => mapLookup m w

/-- The sequence registered under the bare type `t` or under `(t, w)`, in registration order. -/
def EventDispatcher.elementsAt (d : EventDispatcher ET EV HK) (t : ET) (v : Option EV) :
    List (Element ET EV HK) :=
  ((d.listAt t v).map (fun l => l.handlerList)).getD []

/-- The order in which a dispatch of `evtId` meets the registered entries: the type-level
sequence, then the sequence of the event value; each entry with the list it comes from. -/
def EventDispatcher.dispatchOrder (d : EventDispatcher ET EV HK) (evtId : EventID ET EV) :
    List (Option EV × Element ET EV HK) :=
  (d.elementsAt evtId.Typ none).map (fun e => (none, e)) ++
    (d.elementsAt evtId.Typ (some evtId.Val)).map (fun e => (some evtId.Val, e))

/-- The result of the handler of an entry of the dispatch order. -/
def taggedResult (event : Event ET EV) (x : Option EV × Element ET EV HK) :
    Option (Option GoError) :=
  x.2.Value.result event

/-- The invocation recorded when a dispatch of `event` runs an entry of the dispatch order. -/
def toInvocation (event : Event ET EV) (x : Option EV × Element ET EV HK) :
    Invocation ET EV HK :=
  { evtType := event.eventID.Typ, evtVal := x.1, key := x.2.Value.key, event := event }

end Access

section DispatcherInvariants

variable {ET EV HK : Type} [DecidableEq ET] [DecidableEq EV] [DecidableEq HK]

/-- The lists a bucket holds are consistent and non-empty, and its value map, when present,
has an entry. -/
structure eventTypeHandlers.Sound (b : eventTypeHandlers ET EV HK) : Prop where
  typeLevel : ∀ l, b.eventHandlers = some l → l.Consistent ∧ l.handlerList ≠ []
  valMap : ∀ m, b.valHandlers = some m → m ≠ []
  valLists : ∀ m v l, b.valHandlers = some m → mapLookup m v = some l →
    l.Consistent ∧ l.handlerList ≠ []

/-- No dispatch is in progress and every bucket in the top-level map is sound and not empty. -/
structure EventDispatcher.WellFormed (d : EventDispatcher ET EV HK) : Prop where
  idle : d.isCalling = false
  buckets : ∀ t b, mapLookup d.typesHandlers t = some b → b.Sound ∧ b.empty = false

/-- The dispatcher states reached from a fresh dispatcher by public operations that return. -/
inductive EventDispatcher.Reachable : EventDispatcher ET EV HK → Prop where
  | fresh : EventDispatcher.Reachable NewEventDispatcher
  | addTypeHandler (d d1 : EventDispatcher ET EV HK) (evtType : ET) (key : HK)
      (h : Option (EventHandler ET EV HK)) (once : Bool) : EventDispatcher.Reachable d →
      d.AddTypeHandler evtType key h once = .ok d1 → EventDispatcher.Reachable d1
  | addHandler (d d1 : EventDispatcher ET EV HK) (evtId : EventID ET EV) (key : HK)
      (h : Option (EventHandler ET EV HK)) (once : Bool) : EventDispatcher.Reachable d →
      d.AddHandler evtId key h once = .ok d1 → EventDispatcher.Reachable d1
  | remTypeHandler (d : EventDispatcher ET EV HK) (evtType : ET) (key : HK) :
      EventDispatcher.Reachable d → EventDispatcher.Reachable (d.RemTypeHandler evtType key)
  | remHandler (d : EventDispatcher ET EV HK) (evtId : EventID ET EV) (key : HK) :
      EventDispatcher.Reachable d → EventDispatcher.Reachable (d.RemHandler evtId key)
  | clear (d : EventDispatcher ET EV HK) :
      EventDispatcher.Reachable d → EventDispatcher.Reachable d.Clear
  | dispatch (d d1 : EventDispatcher ET EV HK) (evtId : EventID ET EV) (generator : Nat)
      (param : List Nat) (r : Option GoError) (tr : List (Invocation ET EV HK)) :
      EventDispatcher.Reachable d → d.Dispatch evtId generator param = .ok (d1, r, tr) →
      EventDispatcher.Reachable d1

/-- The number of entries registered for a type: in its type-level list and in the lists of
all its values; zero when the type has no bucket. -/
def EventDispatcher.handlerCount (d : EventDispatcher ET EV HK) (t : ET) : Nat :=
  match mapLookup d.typesHandlers t with
  | none => 0
  | some b =>
    b.typeElems.length + ((b.valHandlers.getD []).map (fun q => q.2.handlerList.length)).sum

/-- A run of dispatches, one after the other: the dispatcher afterwards, the error of each
dispatch and all invocations in order. -/
def DispatchAll :
    List (EventID ET EV × Nat × List Nat) → EventDispatcher ET EV HK →
      Except Panic (EventDispatcher ET EV HK × List (Option GoError) × List (Invocation ET EV HK))
  | [], d => .ok (d, [], [])
  | c :: cs, d =>
    match d.Dispatch c.1 c.2.1 c.2.2 with
    | .error p => .error p
    | .ok (d1, r, tr) =>
      match DispatchAll cs d1 with
      | .error p => .error p
      | .ok (d2, rs, trs) => .ok (d2, r :: rs, tr ++ trs)

/-- The invocation is one of the entry with key `k` in the list registered under the bare type
`t` (`v = none`) or under `(t, w)` (`v = some w`). -/
def Invocation.isOf (t : ET) (v : Option EV) (k : HK) (i : Invocation ET EV HK) : Bool :=
  decide (i.evtType = t ∧ i.evtVal = v ∧ i.key = k)

end DispatcherInvariants

/-! ## Sample handlers and states -/

section Samples

/-- A handler that returns nil. -/
def handlerNil : EventHandler Nat Nat Nat :=
  { HandleEvent := fun _ => { err := none, rems := [] } }

/-- A handler that returns the hard error `code`. -/
def handlerHard (code : Nat) : EventHandler Nat Nat Nat :=
  { HandleEvent := fun _ => { err := some (GoError.other code), rems := [] } }

/-- A handler that returns `ErrUnregister`. -/
def handlerUnregister : EventHandler Nat Nat Nat :=
  { HandleEvent := fun _ => { err := some GoError.ErrUnregister, rems := [] } }

/-- A handler that asks its list to remove the keys `ks` and returns nil. -/
def handlerRem (ks : List Nat) : EventHandler Nat Nat Nat :=
  { HandleEvent := fun _ => { err := none, rems := ks } }

/-- An entry with a handler. -/
def entry (key : Nat) (f : EventHandler Nat Nat Nat) (once : Bool) : eventHandler Nat Nat Nat :=
  { key := key, h := some f, once := once }

/-- The idle container that holds the given entries at the addresses 0, 1, 2, ... -/
def containerOf (l : List (eventHandler Nat Nat Nat)) : eventHandlers Nat Nat Nat :=
  { calling := false
    handlerList := l.enum.map (fun p => { addr := p.1, Value := p.2 })
    handlerMap := l.enum.map (fun p => (p.2.key, p.1))
    pendingRemList := none
    nextAddr := l.length }

/-- A dispatcher with handler 1 under the bare type 1, handler 2 under (1, 1), handler 3 under
(1, 2) and handler 4 under the bare type 2. -/
def sampleDispatcher : EventDispatcher Nat Nat Nat :=
  { typesHandlers :=
      [(1, { valHandlers := some [(1, containerOf [entry 2 handlerNil false]),
                                  (2, containerOf [entry 3 handlerNil false])]
             eventHandlers := some (containerOf [entry 1 handlerNil false]) }),
       (2, { valHandlers := none
             eventHandlers := some (containerOf [entry 4 handlerNil false]) })]
    isCalling := false }

/-- A dispatcher with handler 1 (nil), handler 2 (hard error 7) and handler 3 (nil) under the
bare type 1 and handler 4 under (1, 1). -/
def failingDispatcher : EventDispatcher Nat Nat Nat :=
  { typesHandlers :=
      [(1, { valHandlers := some [(1, containerOf [entry 4 handlerNil false])]
             eventHandlers := some (containerOf
               [entry 1 handlerNil false, entry 2 (handlerHard 7) false,
                entry 3 handlerNil false]) })]
    isCalling := false }

/-- A dispatcher with the fire-once handler 3 under (1, 1). -/
def onceDispatcher : EventDispatcher Nat Nat Nat :=
  { typesHandlers :=
      [(1, { valHandlers := some [(1, containerOf [entry 3 handlerNil true])]
             eventHandlers := none })]
    isCalling := false }

/-- A dispatcher with the key 5 registered under the bare type 1, under (1, 1), under (1, 2)
and under the bare type 2; every handler returns nil. -/
def sharedKeyDispatcher : EventDispatcher Nat Nat Nat :=
  { typesHandlers :=
      [(1, { valHandlers := some [(1, containerOf [entry 5 handlerNil false]),
                                  (2, containerOf [entry 5 handlerNil false])]
             eventHandlers := some (containerOf [entry 5 handlerNil false]) }),
       (2, { valHandlers := none
             eventHandlers := some (containerOf [entry 5 handlerNil false]) })]
    isCalling := false }

/-- A dispatcher with the key 5 registered under the bare type 1 with a handler that returns
the hard error 7, and under (1, 1) with a handler that returns nil. -/
def sharedKeyFailing : EventDispatcher Nat Nat Nat :=
  { typesHandlers :=
      [(1, { valHandlers := some [(1, containerOf [entry 5 handlerNil false])]
             eventHandlers := some (containerOf [entry 5 (handlerHard 7) false]) })]
    isCalling := false }

end Samples

section PrunedDefs

variable {ET EV HK : Type} [DecidableEq ET] [DecidableEq EV] [DecidableEq HK]

/-- Every bucket in the top-level map is sound and not empty, whether or not a dispatch is in
progress. -/
def EventDispatcher.Pruned (d : EventDispatcher ET EV HK) : Prop :=
  ∀ t b, mapLookup d.typesHandlers t = some b → b.Sound ∧ b.empty = false

end PrunedDefs

section AtDefs

variable {ET EV HK : Type} [DecidableEq ET] [DecidableEq EV] [DecidableEq HK]

/-- The removal addressed to the list of the bare type `t` (`v = none`, `RemTypeHandler`) or of
`(t, w)` (`v = some w`, `RemHandler`). -/
def EventDispatcher.remAt (d : EventDispatcher ET EV HK) (t : ET) (v : Option EV) (key : HK) :
    EventDispatcher ET EV HK :=
  match v with
  | none => d.RemTypeHandler t key
  | some w => d.RemHandler ⟨t, w⟩ key

/-- The registration addressed to the list of the bare type `t` (`v = none`, `AddTypeHandler`)
or of `(t, w)` (`v = some w`, `AddHandler`). -/
def EventDispatcher.addAt (d : EventDispatcher ET EV HK) (t : ET) (v : Option EV) (key : HK)
    (h : Option (EventHandler ET EV HK)) (once : Bool) :
    Except Panic (EventDispatcher ET EV HK) :=
  match v with
  | none => d.AddTypeHandler t key h once
  | some w => d.AddHandler ⟨t, w⟩ key h once

end AtDefs

section MoreSamples

/-- A dispatcher with the fire-once handler 1 (nil) followed by handler 2 (hard error 7) under
the bare type 1. -/
def onceThenFailing : EventDispatcher Nat Nat Nat :=
  { typesHandlers :=
      [(1, { valHandlers := none
             eventHandlers := some (containerOf
               [entry 1 handlerNil true, entry 2 (handlerHard 7) false]) })]
    isCalling := false }

end MoreSamples

/-! ## Handlers that call back into the dispatcher -/

/-- A call a handler makes into the dispatcher while it runs: one of the four registration
operations.  A registration carries the handler it registers together with the script of that
handler. -/
inductive Callback (ET EV HK : Type) where
  | addTypeHandler (evtType : ET) (key : HK) (h : Option (EventHandler ET EV HK))
      (script : Event ET EV → List (Callback ET EV HK)) (once : Bool)
  | addHandler (evtId : EventID ET EV) (key : HK) (h : Option (EventHandler ET EV HK))
      (script : Event ET EV → List (Callback ET EV HK)) (once : Bool)
  | remTypeHandler (evtType : ET) (key : HK)
  | remHandler (evtId : EventID ET EV) (key : HK)

/-- The script of a handler: the calls it makes into the dispatcher when it runs on an event,
in order. -/
abbrev Script (ET EV HK : Type) := Event ET EV → List (Callback ET EV HK)

/-- A dispatcher whose handlers call back into it: the dispatcher, and beside each registered
entry, addressed by its type, its value (none for a type-level entry) and its key, the script
of the handler of the entry. -/
structure Scripted (ET EV HK : Type) where
  dispatcher : EventDispatcher ET EV HK
  scripts : List ((ET × Option EV × HK) × Script ET EV HK)

section Reentrant

variable {ET EV HK : Type} [DecidableEq ET] [DecidableEq EV] [DecidableEq HK]

/-- The list a callback is addressed to: the bare type, or the (type, value). -/
def Callback.target : Callback ET EV HK → ET × Option EV
  | .addTypeHandler t _ _ _ _ => (t, none)
  | .addHandler evtId _ _ _ _ => (evtId.Typ, some evtId.Val)
  | .remTypeHandler t _ => (t, none)
  | .remHandler evtId _ => (evtId.Typ, some evtId.Val)

/-- The key a removal callback removes; none for a registration. -/
def Callback.removes : Callback ET EV HK → Option HK
  | .addTypeHandler _ _ _ _ _ => none
  | .addHandler _ _ _ _ _ => none
  | .remTypeHandler _ k => some k
  | .remHandler _ k => some k

/-- The callback registers the nil handler. -/
def Callback.registersNil : Callback ET EV HK → Bool
  | .addTypeHandler _ _ h _ _ => h.isNone
  | .addHandler _ _ h _ _ => h.isNone
  | .remTypeHandler _ _ => false
  | .remHandler _ _ => false

/-- The script kept for the entry with key `k` of the list of the bare type `t` or of
`(t, w)`; the empty script when none is kept. -/
def Scripted.scriptAt (s : Scripted ET EV HK) (t : ET) (v : Option EV) (k : HK) :
    Script ET EV HK :=
  (mapLookup s.scripts (t, v, k)).getD (fun _ => [])

/-- Go `AddTypeHandler` with a handler that has a script. -/
def Scripted.AddTypeHandler (s : Scripted ET EV HK) (evtType : ET) (key : HK)
    (h : Option (EventHandler ET EV HK)) (script : Script ET EV HK) (once : Bool) :
    Except Panic (Scripted ET EV HK) :=
  match s.dispatcher.AddTypeHandler evtType key h once with
  | .error p => .error p
  | .ok d => .ok { dispatcher := d, scripts := mapStore s.scripts (evtType, none, key) script }

/-- Go `AddHandler` with a handler that has a script. -/
def Scripted.AddHandler (s : Scripted ET EV HK) (evtId : EventID ET EV) (key : HK)
    (h : Option (EventHandler ET EV HK)) (script : Script ET EV HK) (once : Bool) :
    Except Panic (Scripted ET EV HK) :=
  match s.dispatcher.AddHandler evtId key h once with
  | .error p => .error p
  | .ok d =>
    .ok { dispatcher := d, scripts := mapStore s.scripts (evtId.Typ, some evtId.Val, key) script }

/-- Go `RemTypeHandler`. -/
def Scripted.RemTypeHandler (s : Scripted ET EV HK) (evtType : ET) (key : HK) :
    Scripted ET EV HK :=
  { s with dispatcher := s.dispatcher.RemTypeHandler evtType key }

/-- Go `RemHandler`. -/
def Scripted.RemHandler (s : Scripted ET EV HK) (evtId : EventID ET EV) (key : HK) :
    Scripted ET EV HK :=
  { s with dispatcher := s.dispatcher.RemHandler evtId key }

/-- A handler makes one call into the dispatcher. -/
def Scripted.perform (s : Scripted ET EV HK) : Callback ET EV HK → Except Panic (Scripted ET EV HK)
  | .addTypeHandler t k h script once => s.AddTypeHandler t k h script once
  | .addHandler evtId k h script once => s.AddHandler evtId k h script once
  | .remTypeHandler t k => .ok (s.RemTypeHandler t k)
  | .remHandler evtId k => .ok (s.RemHandler evtId k)

/-- A handler makes its calls into the dispatcher, one after the other. -/
def Scripted.performAll (s : Scripted ET EV HK) : List (Callback ET EV HK) →
    Except Panic (Scripted ET EV HK)
  | [] => .ok s
  | c :: cs =>
    match s.perform c with
    | .error p => .error p
    | .ok s1 => s1.performAll cs

/-- The removals a handler asks of the list that is invoking it, the list of the bare type `t`
or of `(t, w)`. -/
def Scripted.requestRems (s : Scripted ET EV HK) (t : ET) (v : Option EV) (ks : List HK) :
    Scripted ET EV HK :=
  { s with dispatcher := ks.foldl (fun d k => d.remAt t v k) s.dispatcher }

/-- The element a `*list.Element` pointer points to. -/
def elemAt (l : List (Element ET EV HK)) (a : Nat) : Option (Element ET EV HK) :=
  l.find? (fun e => decide (e.addr = a))

/-- Go `elem.Next()`: the address of the element that follows the element with address `a`. -/
def nextOf : List (Element ET EV HK) → Nat → Option Nat
  | [], _ => none
  | e :: l, a => if e.addr = a then l.head?.map (fun x => x.addr) else nextOf l a

/-- A write through the pointer to the list of the bare type `t` or of `(t, w)`: the list in
that slot becomes `l`. -/
def EventDispatcher.setListAt (d : EventDispatcher ET EV HK) (t : ET) (v : Option EV)
    (l : eventHandlers ET EV HK) : EventDispatcher ET EV HK :=
  match mapLookup d.typesHandlers t with
  | none => d
  | some b =>
    match v with
    | none =>
      match b.eventHandlers with
      | none => d
      | some _ => { d with typesHandlers := mapStore d.typesHandlers t { b with eventHandlers := some l } }
    | some w =>
      match b.valHandlers with
      | none => d
      | some m =>
        match mapLookup m w with
        | none => d
        | some _ =>
          { d with typesHandlers :=
              mapStore d.typesHandlers t { b with valHandlers := some (mapStore m w l) } }

/-- The same write on a dispatcher with scripts. -/
def Scripted.setListAt (s : Scripted ET EV HK) (t : ET) (v : Option EV)
    (l : eventHandlers ET EV HK) : Scripted ET EV HK :=
  { s with dispatcher := s.dispatcher.setListAt t v l }

/-- The `for elem != nil` loop of `eventHandlers.call` on the list of the bare type `t` or of
`(t, w)`, with handlers that call back into the dispatcher.  The cursor is the address of the
element under iteration; the list is read again after every handler, so that `elem.Next()` and
`handler.once` see what the handler did.  The result is none when the fuel runs out (or when
the list under iteration is not in its slot, which no callback brings about). -/
def Scripted.callLoop (t : ET) (v : Option EV) (event : Event ET EV) :
    Nat → Option Nat → Scripted ET EV HK →
      Option (Except Panic (Scripted ET EV HK × Option GoError × List (Call ET EV HK)))
  | _, none, s => some (.ok (s, none, []))
  | 0, some _, _ => none
  | fuel + 1, some a, s =>
    match s.dispatcher.listAt t v with
    | none => none
    | some hs =>
      match elemAt hs.handlerList a with
      | none => none
      | some elem =>
        match elem.Value.h with
        | none => some (.error Panic.nilDereference)
        | some f =>
          let reply := f.HandleEvent event
          match (s.requestRems t v reply.rems).performAll
              (s.scriptAt t v elem.Value.key event) with
          | .error p => some (.error p)
          | .ok s1 =>
            if isHard reply.err then some (.ok (s1, reply.err, [(elem.Value.key, event)]))
            else
              match s1.dispatcher.listAt t v with
              | none => none
              | some hs1 =>
                match elemAt hs1.handlerList a with
                | none => none
                | some handler =>
                  let next := nextOf hs1.handlerList a
                  let s2 :=
                    if handler.Value.once || decide (reply.err = some GoError.ErrUnregister) then
                      s1.setListAt t v
                        { hs1 with handlerList := listRemove hs1.handlerList a
                                   handlerMap := mapDelete hs1.handlerMap handler.Value.key }
                    else s1
                  match Scripted.callLoop t v event fuel next s2 with
                  | none => none
                  | some (.error p) => some (.error p)
                  | some (.ok (s3, r, tr)) => some (.ok (s3, r, (elem.Value.key, event) :: tr))

/-- Go `eventHandlers.call` on the list of the bare type `t` or of `(t, w)`, with handlers that
call back into the dispatcher. -/
def Scripted.call (s : Scripted ET EV HK) (t : ET) (v : Option EV) (event : Event ET EV)
    (fuel : Nat) :
    Option (Except Panic (Scripted ET EV HK × Option GoError × List (Call ET EV HK))) :=
  match s.dispatcher.listAt t v with
  | none => none
  | some hs =>
    match Scripted.callLoop t v event fuel (hs.handlerList.head?.map (fun x => x.addr))
        (s.setListAt t v { hs with calling := true }) with
    | none => none
    | some (.error p) => some (.error p)
    | some (.ok (s1, some err, tr)) => some (.ok (s1, some err, tr))
    | some (.ok (s1, none, tr)) =>
      match s1.dispatcher.listAt t v with
      | none => none
      | some hs1 => some (.ok (s1.setListAt t v (drainPending hs1), none, tr))

/-- The statement `if hs.eventHandlers.empty() { hs.eventHandlers = nil }` on the bucket of
type `t`. -/
def EventDispatcher.dropEmptyTypeList (d : EventDispatcher ET EV HK) (t : ET) :
    EventDispatcher ET EV HK :=
  match mapLookup d.typesHandlers t with
  | none => d
  | some b =>
    match b.eventHandlers with
    | none => d
    | some l =>
      if l.empty then
        { d with typesHandlers := mapStore d.typesHandlers t { b with eventHandlers := none } }
      else d

/-- The statements that follow the pass over the list of `(t, w)`: an empty list leaves the
value map, and a value map without entry becomes nil. -/
def EventDispatcher.dropEmptyValList (d : EventDispatcher ET EV HK) (t : ET) (w : EV) :
    EventDispatcher ET EV HK :=
  match mapLookup d.typesHandlers t with
  | none => d
  | some b =>
    match b.valHandlers with
    | none => d
    | some m =>
      match mapLookup m w with
      | none => d
      | some container =>
        if container.empty then
          let m1 := mapDelete m w
          let b1 : eventTypeHandlers ET EV HK :=
            { b with valHandlers := if m1.length == 0 then none else some m1 }
          { d with typesHandlers := mapStore d.typesHandlers t b1 }
        else d

/-- The statement `if typeHandlers.empty() { delete(d.typesHandlers, evtId.Type) }`. -/
def EventDispatcher.dropEmptyBucket (d : EventDispatcher ET EV HK) (t : ET) :
    EventDispatcher ET EV HK :=
  match mapLookup d.typesHandlers t with
  | none => d
  | some b => if b.empty then { d with typesHandlers := mapDelete d.typesHandlers t } else d

/-- The second half of `eventTypeHandlers.call`, with handlers that call back. -/
def Scripted.callVal (s : Scripted ET EV HK) (evtID : EventID ET EV) (generator : Nat)
    (param : List Nat) (fuel : Nat) :
    Option (Except Panic (Scripted ET EV HK × Option GoError × List (Call ET EV HK))) :=
  match s.dispatcher.listAt evtID.Typ (some evtID.Val) with
  | none => some (.ok (s, none, []))
  | some _ =>
    match s.call evtID.Typ (some evtID.Val) ⟨evtID, param, generator⟩ fuel with
    | none => none
    | some (.error p) => some (.error p)
    | some (.ok (s1, err, tr)) =>
      some (.ok ({ s1 with dispatcher := s1.dispatcher.dropEmptyValList evtID.Typ evtID.Val },
        err, tr))

/-- Go `eventTypeHandlers.call` on the bucket of the dispatched type, with handlers that call
back. -/
def Scripted.callBucket (s : Scripted ET EV HK) (evtID : EventID ET EV) (generator : Nat)
    (param : List Nat) (fuel : Nat) :
    Option (Except Panic (Scripted ET EV HK × Option GoError × List (TypeCall ET EV HK))) :=
  match s.dispatcher.listAt evtID.Typ none with
  | none =>
    match s.callVal evtID generator param fuel with
    | none => none
    | some (.error p) => some (.error p)
    | some (.ok (s2, err2, tr2)) => some (.ok (s2, err2, tr2.map (fun c => (some evtID.Val, c))))
  | some _ =>
    match s.call evtID.Typ none ⟨evtID, param, generator⟩ fuel with
    | none => none
    | some (.error p) => some (.error p)
    | some (.ok (s1, err, tr)) =>
      let s2 : Scripted ET EV HK :=
        { s1 with dispatcher := s1.dispatcher.dropEmptyTypeList evtID.Typ }
      if err ≠ none then some (.ok (s2, err, tr.map (fun c => (none, c))))
      else
        match s2.callVal evtID generator param fuel with
        | none => none
        | some (.error p) => some (.error p)
        | some (.ok (s3, err2, tr2)) =>
          some (.ok (s3, err2,
            tr.map (fun c => (none, c)) ++ tr2.map (fun c => (some evtID.Val, c))))

/-- Go `Dispatch` with handlers that call back into the dispatcher: the state afterwards, the
returned error and the handlers invoked; none when the fuel runs out. -/
def Scripted.Dispatch (s : Scripted ET EV HK) (evtId : EventID ET EV) (generator : Nat)
    (param : List Nat) (fuel : Nat) :
    Option (Except Panic (Scripted ET EV HK × Option GoError × List (Invocation ET EV HK))) :=
  match mapLookup s.dispatcher.typesHandlers evtId.Typ with
  | none => some (.ok (s, none, []))
  | some _ =>
    if s.dispatcher.isCalling then some (.error Panic.nestedDispatch)
    else
      match ({ s with dispatcher := { s.dispatcher with isCalling := true } } :
          Scripted ET EV HK).callBucket evtId generator param fuel with
      | none => none
      | some (.error p) => some (.error p)
      | some (.ok (s1, err, tr)) =>
        some (.ok ({ s1 with dispatcher :=
                       { (s1.dispatcher.dropEmptyBucket evtId.Typ) with isCalling := false } },
          err,
          tr.map (fun c => { evtType := evtId.Typ, evtVal := c.1, key := c.2.1, event := c.2.2 })))

end Reentrant

section QuietDefs

variable {ET EV HK : Type} [DecidableEq ET] [DecidableEq EV] [DecidableEq HK]

/-- The callback is addressed to the list of the bare type `t` or of `(t, w)`. -/
def Callback.touches (t : ET) (v : Option EV) (c : Callback ET EV HK) : Bool :=
  decide (c.target = (t, v))

/-- The callback registers a handler in the list of the bare type `t` or of `(t, w)`. -/
def Callback.registersAt (t : ET) (v : Option EV) (c : Callback ET EV HK) : Bool :=
  decide (c.target = (t, v)) && c.removes.isNone

/-- The keys that the callbacks `cs` ask the list of the bare type `t` or of `(t, w)` to
remove, in order. -/
def ownRems (t : ET) (v : Option EV) (cs : List (Callback ET EV HK)) : List HK :=
  cs.filterMap (fun c => if c.target = (t, v) then c.removes else none)

end QuietDefs

section AbsorbDefs

variable {ET EV HK : Type} [DecidableEq ET] [DecidableEq EV] [DecidableEq HK]

/-- The handler `f` with the keys `extra` added to the removals it asks of its own list. -/
def absorbHandler (extra : Event ET EV → List HK) (f : EventHandler ET EV HK) :
    EventHandler ET EV HK :=
  { HandleEvent := fun ev =>
      { err := (f.HandleEvent ev).err, rems := (f.HandleEvent ev).rems ++ extra ev } }

/-- The element of the list of the bare type `t` or of `(t, w)` whose handler asks, besides
its own removals, for the removals that its script addresses to that list. -/
def absorbElem (t : ET) (v : Option EV) (sc : HK → Script ET EV HK) (e : Element ET EV HK) :
    Element ET EV HK :=
  { addr := e.addr
    Value :=
      { key := e.Value.key
        h := e.Value.h.map (absorbHandler (fun ev => ownRems t v (sc e.Value.key ev)))
        once := e.Value.once } }

/-- The list with every element replaced by `absorbElem`. -/
def absorbList (t : ET) (v : Option EV) (sc : HK → Script ET EV HK)
    (hs : eventHandlers ET EV HK) : eventHandlers ET EV HK :=
  { hs with handlerList := hs.handlerList.map (absorbElem t v sc) }

end AbsorbDefs

section ReachDefs

variable {ET EV HK : Type} [DecidableEq ET] [DecidableEq EV] [DecidableEq HK]

/-- Go `Clear` on a dispatcher whose handlers call back. -/
def Scripted.Clear (s : Scripted ET EV HK) : Scripted ET EV HK :=
  { s with dispatcher := s.dispatcher.Clear }

/-- The states of a dispatcher whose handlers call back into it that are reached from a fresh
dispatcher by public operations that return. -/
inductive Scripted.Reachable : Scripted ET EV HK → Prop where
  | fresh : Scripted.Reachable ⟨NewEventDispatcher, []⟩
  | addTypeHandler (s s1 : Scripted ET EV HK) (evtType : ET) (key : HK)
      (h : Option (EventHandler ET EV HK)) (script : Script ET EV HK) (once : Bool) :
      Scripted.Reachable s → s.AddTypeHandler evtType key h script once = .ok s1 →
      Scripted.Reachable s1
  | addHandler (s s1 : Scripted ET EV HK) (evtId : EventID ET EV) (key : HK)
      (h : Option (EventHandler ET EV HK)) (script : Script ET EV HK) (once : Bool) :
      Scripted.Reachable s → s.AddHandler evtId key h script once = .ok s1 →
      Scripted.Reachable s1
  | remTypeHandler (s : Scripted ET EV HK) (evtType : ET) (key : HK) :
      Scripted.Reachable s → Scripted.Reachable (s.RemTypeHandler evtType key)
  | remHandler (s : Scripted ET EV HK) (evtId : EventID ET EV) (key : HK) :
      Scripted.Reachable s → Scripted.Reachable (s.RemHandler evtId key)
  | clear (s : Scripted ET EV HK) : Scripted.Reachable s → Scripted.Reachable s.Clear
  | dispatch (s s1 : Scripted ET EV HK) (evtId : EventID ET EV) (generator : Nat)
      (param : List Nat) (fuel : Nat) (r : Option GoError) (tr : List (Invocation ET EV HK)) :
      Scripted.Reachable s → s.Dispatch evtId generator param fuel = some (.ok (s1, r, tr)) →
      Scripted.Reachable s1

/-- Every list of the bucket is consistent. -/
def eventTypeHandlers.ListsConsistent (b : eventTypeHandlers ET EV HK) : Prop :=
  ∀ v l, bucketListAt b v = some l → l.Consistent

/-- Every list of the dispatcher is consistent. -/
def EventDispatcher.ListsConsistent (d : EventDispatcher ET EV HK) : Prop :=
  ∀ t b, mapLookup d.typesHandlers t = some b → b.ListsConsistent

end ReachDefs

section RequestDefs

variable {ET EV HK : Type} [DecidableEq ET] [DecidableEq EV] [DecidableEq HK]

/-- The keys the handlers of the entries `l` ask the list of the bare type `t` or of `(t, w)`
to remove when they run on `event`: through their reply, and through the calls of
`RemTypeHandler` or `RemHandler` that they address to that list. -/
def Scripted.requestedAt (s : Scripted ET EV HK) (t : ET) (v : Option EV) (event : Event ET EV)
    (l : List (Element ET EV HK)) : List HK :=
  l.flatMap (fun e => e.Value.requests event ++ ownRems t v (s.scriptAt t v e.Value.key event))

end RequestDefs

section ReentrantSamples

/-- No call into the dispatcher. -/
def silent : Script Nat Nat Nat := fun _ => []

/-- The key 1 under the bare type 1 with a handler that returns nil and, while it runs, removes
the key 2 from the list of (1, 1); the key 2 under (1, 1) with a handler that returns nil. -/
def crossRemoval : Scripted Nat Nat Nat :=
  { dispatcher :=
      { typesHandlers :=
          [(1, { valHandlers := some [(1, containerOf [entry 2 handlerNil false])]
                 eventHandlers := some (containerOf [entry 1 handlerNil false]) })]
        isCalling := false }
    scripts := [((1, none, 1), fun _ => [Callback.remHandler ⟨1, 1⟩ 2]), ((1, some 1, 2), silent)] }

/-- The key 1 under the bare type 1 with a handler that returns nil and, while it runs,
registers the key 9 under the bare type 1 with a handler that returns nil. -/
def lateRegistration : Scripted Nat Nat Nat :=
  { dispatcher :=
      { typesHandlers :=
          [(1, { valHandlers := none
                 eventHandlers := some (containerOf [entry 1 handlerNil false]) })]
        isCalling := false }
    scripts :=
      [((1, none, 1), fun _ => [Callback.addTypeHandler 1 9 (some handlerNil) silent false])] }

end ReentrantSamples

section ReentrantSamples2

/-- The key 1 under the bare type 1 with a handler that returns nil and, while it runs, removes
the key 3 from the list of (1, 2) and its own key from the type-level list; the key 2 under
(1, 1) with a handler that returns nil and, while it runs, registers the key 8 under the bare
type 1; the key 3 under (1, 2). -/
def harmlessCallbacks : Scripted Nat Nat Nat :=
  { dispatcher :=
      { typesHandlers :=
          [(1, { valHandlers := some [(1, containerOf [entry 2 handlerNil false]),
                                      (2, containerOf [entry 3 handlerNil false])]
                 eventHandlers := some (containerOf [entry 1 handlerNil false]) })]
        isCalling := false }
    scripts :=
      [((1, none, 1), fun _ => [Callback.remHandler ⟨1, 2⟩ 3, Callback.remTypeHandler 1 1]),
       ((1, some 1, 2), fun _ => [Callback.addTypeHandler 1 8 (some handlerNil) silent false]),
       ((1, some 2, 3), silent)] }

end ReentrantSamples2

section ReentrantSamples3

/-- Under the bare type 1: the fire-once key 1 (nil), the key 2 (`ErrUnregister`), the key 3
(nil) whose handler, while it runs, removes the key 4 of its own list and registers the key 9
under (1, 1), and the keys 4 and 5 (nil). -/
def passSample : Scripted Nat Nat Nat :=
  { dispatcher :=
      { typesHandlers :=
          [(1, { valHandlers := none
                 eventHandlers := some (containerOf
                   [entry 1 handlerNil true, entry 2 handlerUnregister false,
                    entry 3 handlerNil false, entry 4 handlerNil false,
                    entry 5 handlerNil false]) })]
        isCalling := false }
    scripts :=
      [((1, none, 1), silent), ((1, none, 2), silent),
       ((1, none, 3), fun _ => [Callback.remTypeHandler 1 4,
          Callback.addHandler ⟨1, 1⟩ 9 (some handlerNil) silent false]),
       ((1, none, 4), silent), ((1, none, 5), silent)] }

end ReentrantSamples3

section ReentrantSamples4

/-- The key 5 under the bare type 1 with a handler that returns nil and, while it runs, removes
the key 5 from the list of (1, 1); the key 5 under (1, 1) with a handler that returns nil. -/
def sharedKeyRemoval : Scripted Nat Nat Nat :=
  { dispatcher :=
      { typesHandlers :=
          [(1, { valHandlers := some [(1, containerOf [entry 5 handlerNil false])]
                 eventHandlers := some (containerOf [entry 5 handlerNil false]) })]
        isCalling := false }
    scripts := [((1, none, 5), fun _ => [Callback.remHandler ⟨1, 1⟩ 5]), ((1, some 1, 5), silent)] }

/-- The key 5 under the bare type 1 with a handler that returns nil and, while it runs, removes
its own key from the type-level list; under (1, 1) the key 5 with a handler that returns nil,
followed by the key 6 with a handler that returns the hard error 7. -/
def sharedKeyLaterFailing : Scripted Nat Nat Nat :=
  { dispatcher :=
      { typesHandlers :=
          [(1, { valHandlers := some [(1, containerOf
                   [entry 5 handlerNil false, entry 6 (handlerHard 7) false])]
                 eventHandlers := some (containerOf [entry 5 handlerNil false]) })]
        isCalling := false }
    scripts :=
      [((1, none, 5), fun _ => [Callback.remTypeHandler 1 5]), ((1, some 1, 5), silent),
       ((1, some 1, 6), silent)] }

end ReentrantSamples4

section ApartDefs

variable {ET EV HK : Type} [DecidableEq ET] [DecidableEq EV] [DecidableEq HK]

end ApartDefs

section ShrinkDefs

variable {ET EV HK : Type} [DecidableEq ET] [DecidableEq EV] [DecidableEq HK]

/-- Every call that a registered handler makes into the dispatcher while it runs is a removal:
`RemTypeHandler` or `RemHandler`, for any type, value and key. -/
def Scripted.removalOnly (s : Scripted ET EV HK) : Prop :=
  ∀ t v, ∀ e ∈ s.dispatcher.elementsAt t v, ∀ event,
    ∀ c ∈ s.scriptAt t v e.Value.key event, c.removes.isSome = true

/-- The dispatches `calls`, one after the other, each with the fuel `fuel`: the state
afterwards, the returned errors and the handlers invoked, in order. -/
def Scripted.DispatchAll (fuel : Nat) :
    List (EventID ET EV × Nat × List Nat) → Scripted ET EV HK →
      Option (Except Panic
        (Scripted ET EV HK × List (Option GoError) × List (Invocation ET EV HK)))
  | [], s => some (.ok (s, [], []))
  | c :: cs, s =>
    match s.Dispatch c.1 c.2.1 c.2.2 fuel with
    | none => none
    | some (.error p) => some (.error p)
    | some (.ok (s1, r, tr)) =>
      match Scripted.DispatchAll fuel cs s1 with
      | none => none
      | some (.error p) => some (.error p)
      | some (.ok (s2, rs, trs)) => some (.ok (s2, r :: rs, tr ++ trs))

end ShrinkDefs

section AvoidDefs

variable {ET EV HK : Type} [DecidableEq ET] [DecidableEq EV] [DecidableEq HK]

/-- The callback does not register the key `k` in the list of the bare type `t` (`v = none`)
or of `(t, w)` (`v = some w`), neither itself nor through a handler that it registers. -/
inductive Callback.avoids (t : ET) (v : Option EV) (k : HK) : Callback ET EV HK → Prop where
  | remTypeHandler (t1 : ET) (k1 : HK) : Callback.avoids t v k (.remTypeHandler t1 k1)
  | remHandler (evtId : EventID ET EV) (k1 : HK) : Callback.avoids t v k (.remHandler evtId k1)
  | addTypeHandler (t1 : ET) (k1 : HK) (h : Option (EventHandler ET EV HK))
      (script : Event ET EV → List (Callback ET EV HK)) (once : Bool) :
      (t1, (none : Option EV), k1) ≠ (t, v, k) →
      (∀ event, ∀ c ∈ script event, Callback.avoids t v k c) →
      Callback.avoids t v k (.addTypeHandler t1 k1 h script once)
  | addHandler (evtId : EventID ET EV) (k1 : HK) (h : Option (EventHandler ET EV HK))
      (script : Event ET EV → List (Callback ET EV HK)) (once : Bool) :
      (evtId.Typ, some evtId.Val, k1) ≠ (t, v, k) →
      (∀ event, ∀ c ∈ script event, Callback.avoids t v k c) →
      Callback.avoids t v k (.addHandler evtId k1 h script once)

/-- No registered handler registers the key `k` in the list of the bare type `t` or of
`(t, w)` while it runs, neither itself nor through a handler that it registers. -/
def Scripted.avoids (s : Scripted ET EV HK) (t : ET) (v : Option EV) (k : HK) : Prop :=
  ∀ t1 v1, ∀ e ∈ s.dispatcher.elementsAt t1 v1, ∀ event,
    ∀ c ∈ s.scriptAt t1 v1 e.Value.key event, c.avoids t v k

end AvoidDefs

section ReentrantSamples5

end ReentrantSamples5
/-! ## Facts about Go maps -/

section MapFacts

variable {K V : Type} [DecidableEq K]

theorem mapLookup_mapStore (m : List (K × V)) (k x : K) (v : V) :
    mapLookup (mapStore m k v) x = if k = x then some v else mapLookup m x := by
  induction m with
  | nil => simp [mapStore, mapLookup]
  | cons p m ih =>
    obtain ⟨a, b⟩ := p
    by_cases hak : a = k
    · subst hak
      by_cases hax : a = x <;> simp [mapStore, mapLookup, hax]
    · by_cases hax : a = x
      · subst hax
        simp [mapStore, mapLookup, hak, Ne.symm hak]
      · simp [mapStore, mapLookup, hak, hax, ih]

theorem mapLookup_filter (m : List (K × V)) (p : K → Bool) (x : K) :
    mapLookup (m.filter (fun q => p q.1)) x = if p x then mapLookup m x else none := by
  induction m with
  | nil => simp [mapLookup]
  | cons q m ih =>
    obtain ⟨a, b⟩ := q
    by_cases hpa : p a
    · by_cases hax : a = x
      · subst hax; simp [List.filter, mapLookup, hpa]
      · simp [List.filter, mapLookup, hpa, hax, ih]
    · by_cases hax : a = x
      · subst hax; simp [List.filter, mapLookup, hpa, ih]
      · simp [List.filter, mapLookup, hpa, hax, ih]

theorem mapLookup_mapDelete (m : List (K × V)) (k x : K) :
    mapLookup (mapDelete m k) x = if k = x then none else mapLookup m x := by
  unfold mapDelete
  rw [mapLookup_filter m (fun a => decide (a ≠ k)) x]
  by_cases h : k = x
  · subst h; simp
  · simp [h, Ne.symm h]

theorem mapLookup_mem {m : List (K × V)} {k : K} {v : V} (h : mapLookup m k = some v) :
    (k, v) ∈ m := by
  induction m with
  | nil => simp [mapLookup] at h
  | cons q m ih =>
    obtain ⟨a, b⟩ := q
    by_cases hak : a = k
    · subst hak; simp [mapLookup] at h; subst h; simp
    · simp [mapLookup, hak] at h; exact List.mem_cons_of_mem _ (ih h)

theorem mapStore_ne_nil (m : List (K × V)) (k : K) (v : V) : mapStore m k v ≠ [] := by
  cases m with
  | nil => simp [mapStore]
  | cons q m =>
    obtain ⟨a, b⟩ := q
    by_cases h : a = k <;> simp [mapStore, h]

theorem mapLookup_of_mem_nodup {m : List (K × V)} (hn : (m.map Prod.fst).Nodup) {k : K} {v : V}
    (h : (k, v) ∈ m) : mapLookup m k = some v := by
  induction m with
  | nil => simp at h
  | cons q m ih =>
    obtain ⟨a, b⟩ := q
    simp only [List.map_cons, List.nodup_cons] at hn
    rcases List.mem_cons.1 h with h1 | h1
    · cases h1; simp [mapLookup]
    · have : a ≠ k := by
        rintro rfl
        exact hn.1 (List.mem_map.2 ⟨(a, v), h1, rfl⟩)
      simp [mapLookup, this, ih hn.2 h1]

end MapFacts

section ListFacts

variable {ET EV HK : Type} [DecidableEq HK]

theorem rem_calling (hs : eventHandlers ET EV HK) (k : HK) (hc : hs.calling = true) :
    (hs.rem k).calling = true ∧ (hs.rem k).handlerList = hs.handlerList ∧
      (hs.rem k).handlerMap = hs.handlerMap ∧ (hs.rem k).nextAddr = hs.nextAddr := by
  unfold eventHandlers.rem
  cases h : mapLookup hs.handlerMap k with
  | none => simp [hc]
  | some a => simp [hc]

theorem foldl_rem_calling (ks : List HK) (hs : eventHandlers ET EV HK) (hc : hs.calling = true) :
    (ks.foldl eventHandlers.rem hs).calling = true ∧
      (ks.foldl eventHandlers.rem hs).handlerList = hs.handlerList ∧
      (ks.foldl eventHandlers.rem hs).handlerMap = hs.handlerMap ∧
      (ks.foldl eventHandlers.rem hs).nextAddr = hs.nextAddr := by
  induction ks generalizing hs with
  | nil => exact ⟨hc, rfl, rfl, rfl⟩
  | cons k ks ih =>
    obtain ⟨h1, h2, h3, h4⟩ := rem_calling hs k hc
    obtain ⟨g1, g2, g3, g4⟩ := ih (hs.rem k) h1
    simp only [List.foldl_cons]
    exact ⟨g1, g2.trans h2, g3.trans h3, g4.trans h4⟩

/-- The loop returns unless it reaches a nil handler; its error and its calls are those of the
snapshot it walks. -/
theorem callLoop_ok (event : Event ET EV) (l : List (Element ET EV HK))
    (hs : eventHandlers ET EV HK) (hn : reachesNil (Element.result event) l = false) :
    ∃ hs1, callLoop event l hs = .ok (hs1, firstHard (Element.result event) l, callsOf event (invokedBy (Element.result event) l)) := by
  induction l generalizing hs with
  | nil => exact ⟨hs, rfl⟩
  | cons e l ih =>
    cases hh : e.Value.h with
    | none => simp [reachesNil, Element.result, eventHandler.result, hh] at hn
    | some f =>
      by_cases hard : isHard (f.HandleEvent event).err = true
      · refine ⟨(f.HandleEvent event).rems.foldl eventHandlers.rem hs, ?_⟩
        simp [callLoop, hh, hard, firstHard, invokedBy, Element.result, eventHandler.result, callsOf]
      · have hn1 : reachesNil (Element.result event) l = false := by
          simpa [reachesNil, Element.result, eventHandler.result, hh, hard] using hn
        simp only [callLoop, hh, hard, firstHard, invokedBy, Element.result, eventHandler.result, callsOf,
          Option.map_some', Bool.false_eq_true, if_false, List.map_cons]
        obtain ⟨hs1, h1⟩ := ih _ hn1
        refine ⟨hs1, ?_⟩
        rw [h1]
        rfl

end ListFacts

section LoopState

theorem filter_listRemove {ET EV HK : Type} (l : List (Element ET EV HK)) (a : Nat) (as : List Nat) :
    (listRemove l a).filter (fun e => decide (e.addr ∉ as)) =
      l.filter (fun e => decide (e.addr ∉ a :: as)) := by
  unfold listRemove
  rw [List.filter_filter]
  apply List.filter_congr
  intro e _
  by_cases h1 : e.addr = a <;> by_cases h2 : e.addr ∈ as <;> simp [h1, h2]

variable {ET EV HK : Type} [DecidableEq HK]

theorem filter_mapDelete {V : Type} (m : List (HK × V)) (k : HK) (ks : List HK) :
    (mapDelete m k).filter (fun p => decide (p.1 ∉ ks)) =
      m.filter (fun p => decide (p.1 ∉ k :: ks)) := by
  unfold mapDelete
  rw [List.filter_filter]
  apply List.filter_congr
  intro e _
  by_cases h1 : e.1 = k <;> by_cases h2 : e.1 ∈ ks <;> simp [h1, h2]

/-- What the loop leaves behind when it runs with the calling flag set: the sequence and the
index lose exactly the elements it unlinked. -/
theorem callLoop_state (event : Event ET EV) (l : List (Element ET EV HK))
    (hs hs1 : eventHandlers ET EV HK) (r : Option GoError) (tr : List (Call ET EV HK))
    (hc : hs.calling = true) (h : callLoop event l hs = .ok (hs1, r, tr)) :
    hs1.calling = true ∧ hs1.nextAddr = hs.nextAddr ∧
      hs1.handlerList =
        hs.handlerList.filter (fun e => decide (e.addr ∉ addrsOf (unlinkedBy event l))) ∧
      hs1.handlerMap =
        hs.handlerMap.filter (fun p => decide (p.1 ∉ keysOf (unlinkedBy event l))) := by
  induction l generalizing hs hs1 r tr with
  | nil =>
    simp only [callLoop, Except.ok.injEq, Prod.mk.injEq] at h
    obtain ⟨rfl, -, -⟩ := h
    simp [unlinkedBy, addrsOf, keysOf, hc]
  | cons e l ih =>
    cases hh : e.Value.h with
    | none => simp [callLoop, hh] at h
    | some f =>
      obtain ⟨c1, c2, c3, c4⟩ := foldl_rem_calling (f.HandleEvent event).rems hs hc
      by_cases hard : isHard (f.HandleEvent event).err = true
      · simp only [callLoop, hh, hard, if_true, Except.ok.injEq, Prod.mk.injEq] at h
        obtain ⟨rfl, -, -⟩ := h
        simp [unlinkedBy, eventHandler.result, hh, hard, addrsOf, keysOf, c1, c2, c3, c4]
      · simp only [callLoop, hh, hard, Bool.false_eq_true, if_false] at h
        by_cases hl : (e.Value.once || decide ((f.HandleEvent event).err = some GoError.ErrUnregister)) = true
        · have hl2 : e.Value.leaves event = true := by
            simpa [eventHandler.leaves, eventHandler.result, hh] using hl
          rw [if_pos hl] at h
          split at h
          · cases h
          · rename_i hs3 r3 tr3 heq
            simp only [Except.ok.injEq, Prod.mk.injEq] at h
            obtain ⟨rfl, -, -⟩ := h
            obtain ⟨i1, i2, i3, i4⟩ := ih _ _ _ _ (by simpa using c1) heq
            refine ⟨i1, by simpa [c4] using i2, ?_, ?_⟩
            · rw [i3]
              simp only [unlinkedBy, eventHandler.result, hh, Option.map_some', hard,
                Bool.false_eq_true, if_false, hl2, if_true, addrsOf, List.map_cons, c2]
              exact filter_listRemove _ _ _
            · rw [i4]
              simp only [unlinkedBy, eventHandler.result, hh, Option.map_some', hard,
                Bool.false_eq_true, if_false, hl2, if_true, keysOf, List.map_cons, c3]
              exact filter_mapDelete _ _ _
        · have hl2 : e.Value.leaves event = false := by
            simpa [eventHandler.leaves, eventHandler.result, hh] using hl
          rw [if_neg hl] at h
          split at h
          · cases h
          · rename_i hs3 r3 tr3 heq
            simp only [Except.ok.injEq, Prod.mk.injEq] at h
            obtain ⟨rfl, -, -⟩ := h
            obtain ⟨i1, i2, i3, i4⟩ := ih _ _ _ _ c1 heq
            refine ⟨i1, i2.trans c4, ?_, ?_⟩
            · rw [i3, c2]
              simp [unlinkedBy, eventHandler.result, hh, hard, hl2]
            · rw [i4, c3]
              simp [unlinkedBy, eventHandler.result, hh, hard, hl2]

end LoopState

section ConsistentFacts

theorem unlinkedBy_subset {ET EV HK : Type} (event : Event ET EV) (l : List (Element ET EV HK)) :
    ∀ c ∈ unlinkedBy event l, c ∈ l := by
  induction l with
  | nil => simp [unlinkedBy]
  | cons e l ih =>
    intro c hc
    unfold unlinkedBy at hc
    split at hc
    · simp at hc
    · split at hc
      · simp at hc
      · split at hc
        · rcases List.mem_cons.1 hc with h | h
          · exact h ▸ List.mem_cons_self _ _
          · exact List.mem_cons_of_mem _ (ih c h)
        · exact List.mem_cons_of_mem _ (ih c hc)

variable {ET EV HK : Type} [DecidableEq HK]

/-- Unlinking elements of the sequence together with their keys keeps a container consistent. -/
theorem consistent_unlink (hs hs1 : eventHandlers ET EV HK) (C : List (Element ET EV HK))
    (hC : ∀ c ∈ C, c ∈ hs.handlerList) (hcons : hs.Consistent)
    (h1 : hs1.handlerList = hs.handlerList.filter (fun e => decide (e.addr ∉ addrsOf C)))
    (h2 : hs1.handlerMap = hs.handlerMap.filter (fun p => decide (p.1 ∉ keysOf C)))
    (h3 : hs1.nextAddr = hs.nextAddr) : hs1.Consistent := by
  have hkey := List.inj_on_of_nodup_map hcons.keys_nodup
  have haddr := List.inj_on_of_nodup_map hcons.addrs_nodup
  refine ⟨?_, ?_, ?_, ?_⟩
  · rw [h1]
    exact List.Nodup.sublist (List.Sublist.map _ (List.filter_sublist _)) hcons.keys_nodup
  · rw [h1]
    exact List.Nodup.sublist (List.Sublist.map _ (List.filter_sublist _)) hcons.addrs_nodup
  · intro e he
    rw [h1] at he
    rw [h3]
    exact hcons.addrs_lt e (List.mem_filter.1 he).1
  · intro k a
    rw [h1, h2, mapLookup_filter hs.handlerMap (fun k => decide (k ∉ keysOf C)) k]
    constructor
    · intro h
      by_cases hk : k ∈ keysOf C
      · simp [hk] at h
      · simp only [hk, not_false_eq_true, decide_True, if_true] at h
        obtain ⟨e, he, hek, hea⟩ := (hcons.index k a).1 h
        refine ⟨e, List.mem_filter.2 ⟨he, ?_⟩, hek, hea⟩
        simp only [decide_eq_true_eq]
        intro hmem
        obtain ⟨c, hc, hca⟩ := List.mem_map.1 hmem
        have : c = e := haddr (hC c hc) he hca
        subst this
        exact hk (hek ▸ List.mem_map.2 ⟨c, hc, rfl⟩)
    · rintro ⟨e, he, hek, hea⟩
      obtain ⟨he1, he2⟩ := List.mem_filter.1 he
      simp only [decide_eq_true_eq] at he2
      have hk : k ∉ keysOf C := by
        intro hmem
        obtain ⟨c, hc, hck⟩ := List.mem_map.1 hmem
        have : c = e := hkey (hC c hc) he1 (hck.trans hek.symm)
        subst this
        exact he2 (List.mem_map.2 ⟨c, hc, rfl⟩)
      simp only [hk, not_false_eq_true, decide_True, if_true]
      exact (hcons.index k a).2 ⟨e, he1, hek, hea⟩

theorem consistent_of_eq (hs hs1 : eventHandlers ET EV HK) (hcons : hs.Consistent)
    (h1 : hs1.handlerList = hs.handlerList) (h2 : hs1.handlerMap = hs.handlerMap)
    (h3 : hs1.nextAddr = hs.nextAddr) : hs1.Consistent := by
  refine ⟨?_, ?_, ?_, ?_⟩
  · rw [h1]; exact hcons.keys_nodup
  · rw [h1]; exact hcons.addrs_nodup
  · rw [h1, h3]; exact hcons.addrs_lt
  · rw [h1, h2]; exact hcons.index

/-- An immediate `rem` of a bound key unlinks the one element that carries it. -/
theorem rem_idle_shape (hs : eventHandlers ET EV HK) (k : HK) (a : Nat)
    (hc : hs.calling = false) (hl : mapLookup hs.handlerMap k = some a) :
    (hs.rem k).calling = false ∧ (hs.rem k).nextAddr = hs.nextAddr ∧
      (hs.rem k).pendingRemList = hs.pendingRemList ∧
      (hs.rem k).handlerList = listRemove hs.handlerList a ∧
      (hs.rem k).handlerMap = mapDelete hs.handlerMap k := by
  simp [eventHandlers.rem, hl, hc]

theorem rem_absent (hs : eventHandlers ET EV HK) (k : HK)
    (hl : mapLookup hs.handlerMap k = none) : hs.rem k = hs := by
  simp [eventHandlers.rem, hl]

theorem consistent_rem (hs : eventHandlers ET EV HK) (k : HK) (hcons : hs.Consistent) :
    (hs.rem k).Consistent := by
  cases hl : mapLookup hs.handlerMap k with
  | none => rw [rem_absent hs k hl]; exact hcons
  | some a =>
    cases hc : hs.calling with
    | true =>
      obtain ⟨-, h2, h3, h4⟩ := rem_calling hs k hc
      exact consistent_of_eq hs _ hcons h2 h3 h4
    | false =>
      obtain ⟨-, g2, -, g4, g5⟩ := rem_idle_shape hs k a hc hl
      obtain ⟨e, he, hek, hea⟩ := (hcons.index k a).1 hl
      refine consistent_unlink hs _ [e] ?_ hcons ?_ ?_ g2
      · intro c hc1
        rw [List.mem_singleton.1 hc1]; exact he
      · rw [g4]
        unfold listRemove
        apply List.filter_congr
        intro x _
        simp [addrsOf, hea]
      · rw [g5]
        unfold mapDelete
        apply List.filter_congr
        intro x _
        simp [keysOf, hek]

theorem consistent_foldl_rem (ks : List HK) (hs : eventHandlers ET EV HK)
    (hcons : hs.Consistent) : (ks.foldl eventHandlers.rem hs).Consistent := by
  induction ks generalizing hs with
  | nil => exact hcons
  | cons k ks ih => exact ih _ (consistent_rem hs k hcons)

theorem consistent_drainPending (hs : eventHandlers ET EV HK) (hcons : hs.Consistent) :
    (drainPending hs).Consistent := by
  unfold drainPending
  cases hp : hs.pendingRemList with
  | none => exact consistent_of_eq hs _ hcons rfl rfl rfl
  | some q =>
    refine consistent_of_eq _ _ (consistent_foldl_rem q _ ?_) rfl rfl rfl
    exact consistent_of_eq hs _ hcons rfl rfl rfl

/-- A pass keeps a container consistent, whether it completes or stops at a hard error. -/
theorem consistent_call (hs hs1 : eventHandlers ET EV HK) (evtID : EventID ET EV) (g : Nat)
    (p : List Nat) (r : Option GoError) (tr : List (Call ET EV HK)) (hcons : hs.Consistent)
    (h : hs.call evtID g p = .ok (hs1, r, tr)) : hs1.Consistent := by
  unfold eventHandlers.call at h
  simp only at h
  split at h
  · cases h
  · rename_i hs2 err tr2 heq
    simp only [Except.ok.injEq, Prod.mk.injEq] at h
    obtain ⟨rfl, -, -⟩ := h
    obtain ⟨-, i2, i3, i4⟩ := callLoop_state _ _ _ _ _ _ rfl heq
    exact consistent_unlink hs _ _ (unlinkedBy_subset _ _) hcons i3 i4 i2
  · rename_i hs2 tr2 heq
    simp only [Except.ok.injEq, Prod.mk.injEq] at h
    obtain ⟨rfl, -, -⟩ := h
    obtain ⟨-, i2, i3, i4⟩ := callLoop_state _ _ _ _ _ _ rfl heq
    exact consistent_drainPending _
      (consistent_unlink hs _ _ (unlinkedBy_subset _ _) hcons i3 i4 i2)

theorem consistent_new : (newEventHandlers : eventHandlers ET EV HK).Consistent :=
  ⟨by simp [newEventHandlers, keysOf], by simp [newEventHandlers, addrsOf],
    by simp [newEventHandlers], by simp [newEventHandlers, mapLookup]⟩

end ConsistentFacts

section AssignFacts

variable {ET EV HK : Type}

theorem keysOf_listAssign (l : List (Element ET EV HK)) (a : Nat)
    (h : Option (EventHandler ET EV HK)) (once : Bool) :
    keysOf (listAssign l a h once) = keysOf l := by
  unfold keysOf listAssign
  rw [List.map_map]
  apply List.map_congr_left
  intro e _
  by_cases hk : e.addr = a <;> simp [hk]

theorem addrsOf_listAssign (l : List (Element ET EV HK)) (a : Nat)
    (h : Option (EventHandler ET EV HK)) (once : Bool) :
    addrsOf (listAssign l a h once) = addrsOf l := by
  unfold addrsOf listAssign
  rw [List.map_map]
  apply List.map_congr_left
  intro e _
  by_cases hk : e.addr = a <;> simp [hk]

end AssignFacts

section AddFacts

variable {ET EV HK : Type} [DecidableEq HK]

theorem consistent_addr_iff_key (hs : eventHandlers ET EV HK) (hcons : hs.Consistent) (k : HK)
    (a : Nat) (hl : mapLookup hs.handlerMap k = some a) (e : Element ET EV HK)
    (he : e ∈ hs.handlerList) : e.addr = a ↔ e.Value.key = k := by
  obtain ⟨e0, he0, hk0, ha0⟩ := (hcons.index k a).1 hl
  constructor
  · intro h
    have : e = e0 := List.inj_on_of_nodup_map hcons.addrs_nodup he he0 (h.trans ha0.symm)
    rw [this]; exact hk0
  · intro h
    have : e = e0 := List.inj_on_of_nodup_map hcons.keys_nodup he he0 (h.trans hk0.symm)
    rw [this]; exact ha0

theorem lookup_none_iff (hs : eventHandlers ET EV HK) (hcons : hs.Consistent) (k : HK) :
    mapLookup hs.handlerMap k = none ↔ k ∉ keysOf hs.handlerList := by
  constructor
  · intro h hmem
    obtain ⟨e, he, hek⟩ := List.mem_map.1 hmem
    have := (hcons.index k e.addr).2 ⟨e, he, hek, rfl⟩
    rw [h] at this; cases this
  · intro h
    cases hl : mapLookup hs.handlerMap k with
    | none => rfl
    | some a =>
      obtain ⟨e, he, hek, -⟩ := (hcons.index k a).1 hl
      exact absurd (List.mem_map.2 ⟨e, he, hek⟩) h

theorem entriesOf_listAssign (hs : eventHandlers ET EV HK) (hcons : hs.Consistent) (k : HK)
    (a : Nat) (hl : mapLookup hs.handlerMap k = some a) (h : Option (EventHandler ET EV HK))
    (once : Bool) :
    entriesOf (listAssign hs.handlerList a h once) =
      (entriesOf hs.handlerList).map (fun e => e.assign k h once) := by
  unfold entriesOf listAssign
  rw [List.map_map, List.map_map]
  apply List.map_congr_left
  intro e he
  have hiff := consistent_addr_iff_key hs hcons k a hl e he
  by_cases hk : e.Value.key = k
  · simp [eventHandler.assign, hk, hiff.2 hk]
  · have : e.addr ≠ a := fun h => hk (hiff.1 h)
    simp [eventHandler.assign, hk, this]

/-- A successful `add` keeps a container consistent. -/
theorem consistent_add (hs hs1 : eventHandlers ET EV HK) (k : HK)
    (h : Option (EventHandler ET EV HK)) (once : Bool) (hcons : hs.Consistent)
    (hadd : hs.add k h once = .ok hs1) : hs1.Consistent := by
  unfold eventHandlers.add at hadd
  cases hl : mapLookup hs.handlerMap k with
  | some a =>
    simp only [hl, Except.ok.injEq] at hadd
    subst hadd
    refine ⟨?_, ?_, ?_, ?_⟩
    · simpa [keysOf_listAssign] using hcons.keys_nodup
    · simpa [addrsOf_listAssign] using hcons.addrs_nodup
    · intro e he
      have : e.addr ∈ addrsOf (listAssign hs.handlerList a h once) :=
        List.mem_map.2 ⟨e, he, rfl⟩
      rw [addrsOf_listAssign] at this
      obtain ⟨e0, he0, h0⟩ := List.mem_map.1 this
      simpa [← h0] using hcons.addrs_lt e0 he0
    · intro x b
      rw [hcons.index x b]
      simp only [listAssign, List.mem_map]
      constructor
      · rintro ⟨e, he, hek, hea⟩
        refine ⟨_, ⟨e, he, rfl⟩, ?_, ?_⟩
        · split
          · exact hek
          · exact hek
        · split
          · exact hea
          · exact hea
      · rintro ⟨e1, ⟨e, he, rfl⟩, hek, hea⟩
        refine ⟨e, he, ?_, ?_⟩
        · split at hek
          · exact hek
          · exact hek
        · split at hea
          · exact hea
          · exact hea
  | none =>
    cases h with
    | none => simp [hl, newEventHandler] at hadd
    | some f =>
      simp only [hl, newEventHandler, Except.ok.injEq] at hadd
      subst hadd
      have hknew : k ∉ keysOf hs.handlerList := (lookup_none_iff hs hcons k).1 hl
      have hanew : hs.nextAddr ∉ addrsOf hs.handlerList := by
        intro hmem
        obtain ⟨e, he, hea⟩ := List.mem_map.1 hmem
        have := hcons.addrs_lt e he
        omega
      refine ⟨?_, ?_, ?_, ?_⟩
      · simp only [keysOf, List.map_append, List.map_cons, List.map_nil]
        rw [List.nodup_append]
        refine ⟨hcons.keys_nodup, by simp, ?_⟩
        intro x hx1 hx2
        rw [List.mem_singleton.1 hx2] at hx1
        exact hknew hx1
      · simp only [addrsOf, List.map_append, List.map_cons, List.map_nil]
        rw [List.nodup_append]
        refine ⟨hcons.addrs_nodup, by simp, ?_⟩
        intro x hx1 hx2
        rw [List.mem_singleton.1 hx2] at hx1
        exact hanew hx1
      · intro e he
        rcases List.mem_append.1 he with h1 | h1
        · have := hcons.addrs_lt e h1
          show e.addr < hs.nextAddr + 1
          omega
        · rw [List.mem_singleton.1 h1]
          show hs.nextAddr < hs.nextAddr + 1
          omega
      · intro x b
        simp only [mapLookup_mapStore, List.mem_append, List.mem_singleton]
        by_cases hkx : k = x
        · subst hkx
          simp only [if_true, Option.some.injEq]
          constructor
          · intro hb
            exact ⟨_, Or.inr rfl, rfl, hb⟩
          · rintro ⟨e, he | he, hek, hea⟩
            · exact absurd (List.mem_map.2 ⟨e, he, hek⟩) hknew
            · rw [he] at hea; exact hea
        · simp only [hkx, if_false]
          rw [hcons.index x b]
          constructor
          · rintro ⟨e, he, hek, hea⟩
            exact ⟨e, Or.inl he, hek, hea⟩
          · rintro ⟨e, he | he, hek, hea⟩
            · exact ⟨e, he, hek, hea⟩
            · rw [he] at hek; exact absurd hek hkx

end AddFacts

section PassFacts

variable {α β : Type}

theorem invokedBy_map (res : α → Option (Option GoError)) (g : β → α) (l : List β) :
    invokedBy res (l.map g) = (invokedBy (fun b => res (g b)) l).map g := by
  induction l with
  | nil => rfl
  | cons b l ih =>
    simp only [List.map_cons, invokedBy]
    cases res (g b) with
    | none => rfl
    | some r => by_cases hr : isHard r = true <;> simp [hr, ih]

theorem firstHard_map (res : α → Option (Option GoError)) (g : β → α) (l : List β) :
    firstHard res (l.map g) = firstHard (fun b => res (g b)) l := by
  induction l with
  | nil => rfl
  | cons b l ih =>
    simp only [List.map_cons, firstHard]
    cases res (g b) with
    | none => rfl
    | some r => by_cases hr : isHard r = true <;> simp [hr, ih]

theorem reachesNil_map (res : α → Option (Option GoError)) (g : β → α) (l : List β) :
    reachesNil res (l.map g) = reachesNil (fun b => res (g b)) l := by
  induction l with
  | nil => rfl
  | cons b l ih =>
    simp only [List.map_cons, reachesNil]
    cases res (g b) with
    | none => rfl
    | some r => by_cases hr : isHard r = true <;> simp [hr, ih]

/-- A pass that stopped at a hard error did not reach a nil handler. -/
theorem reachesNil_of_firstHard (res : α → Option (Option GoError)) (l : List α) (e : GoError)
    (h : firstHard res l = some e) : reachesNil res l = false := by
  induction l with
  | nil => rfl
  | cons a l ih =>
    simp only [firstHard] at h
    simp only [reachesNil]
    cases hr : res a with
    | none => simp [hr] at h
    | some r =>
      by_cases hh : isHard r = true
      · simp [hh]
      · simp only [hr, hh, Bool.false_eq_true, if_false] at h
        simp [hh, ih h]

theorem pass_append_of_hard (res : α → Option (Option GoError)) (A B : List α) (e : GoError)
    (h : firstHard res A = some e) :
    invokedBy res (A ++ B) = invokedBy res A ∧ firstHard res (A ++ B) = some e ∧
      reachesNil res (A ++ B) = false := by
  induction A with
  | nil => simp [firstHard] at h
  | cons a A ih =>
    simp only [firstHard] at h
    simp only [List.cons_append, invokedBy, firstHard, reachesNil]
    cases hr : res a with
    | none => simp [hr] at h
    | some r =>
      by_cases hh : isHard r = true
      · simp only [hr, hh, if_true] at h
        simp only [hh, if_true]
        exact ⟨trivial, h, trivial⟩
      · simp only [hr, hh, Bool.false_eq_true, if_false] at h
        obtain ⟨i1, i2, i3⟩ := ih h
        simp [hh, i1, i2, i3]

theorem pass_append_of_complete (res : α → Option (Option GoError)) (A B : List α)
    (h1 : firstHard res A = none) (h2 : reachesNil res A = false) :
    invokedBy res (A ++ B) = invokedBy res A ++ invokedBy res B ∧
      firstHard res (A ++ B) = firstHard res B ∧
      reachesNil res (A ++ B) = reachesNil res B := by
  induction A with
  | nil => simp [invokedBy]
  | cons a A ih =>
    simp only [firstHard] at h1
    simp only [reachesNil] at h2
    simp only [List.cons_append, invokedBy, firstHard, reachesNil]
    cases hr : res a with
    | none => simp [hr] at h2
    | some r =>
      by_cases hh : isHard r = true
      · simp only [hr, hh, if_true] at h1
        rw [h1] at hh
        exact absurd hh (by decide)
      · simp only [hr, hh, Bool.false_eq_true, if_false] at h1 h2
        obtain ⟨i1, i2, i3⟩ := ih h1 h2
        simp [hh, i1, i2, i3]

/-- A pass over entries that all return nil or `ErrUnregister` invokes every one of them. -/
theorem pass_of_soft (res : α → Option (Option GoError)) (l : List α)
    (h : ∀ x ∈ l, ∃ r, res x = some r ∧ isHard r = false) :
    invokedBy res l = l ∧ firstHard res l = none ∧ reachesNil res l = false := by
  induction l with
  | nil => exact ⟨rfl, rfl, rfl⟩
  | cons a l ih =>
    obtain ⟨r, hr, hh⟩ := h a (List.mem_cons_self _ _)
    obtain ⟨i1, i2, i3⟩ := ih (fun x hx => h x (List.mem_cons_of_mem _ hx))
    simp [invokedBy, firstHard, reachesNil, hr, hh, i1, i2, i3]

/-- A pass stops at the first entry that returns a hard error. -/
theorem pass_of_failing (res : α → Option (Option GoError)) (pre post : List α) (x : α)
    (err : Option GoError) (h : ∀ y ∈ pre, ∃ r, res y = some r ∧ isHard r = false)
    (hx : res x = some err) (hh : isHard err = true) :
    invokedBy res (pre ++ x :: post) = pre ++ [x] ∧ firstHard res (pre ++ x :: post) = err ∧
      reachesNil res (pre ++ x :: post) = false := by
  have hx1 : invokedBy res (x :: post) = [x] ∧ firstHard res (x :: post) = err ∧
      reachesNil res (x :: post) = false := by
    simp [invokedBy, firstHard, reachesNil, hx, hh]
  obtain ⟨i1, i2, i3⟩ := pass_of_soft res pre h
  obtain ⟨j1, j2, j3⟩ := pass_append_of_complete res pre (x :: post) i2 i3
  rw [j1, j2, j3, i1]
  exact ⟨by rw [hx1.1], hx1.2.1, hx1.2.2⟩

end PassFacts

section CallFacts

theorem reachesNil_append_left {α : Type} (res : α → Option (Option GoError)) (A B : List α)
    (h : reachesNil res A = true) : reachesNil res (A ++ B) = true := by
  induction A with
  | nil => simp [reachesNil] at h
  | cons a A ih =>
    simp only [reachesNil] at h
    simp only [List.cons_append, reachesNil]
    cases hr : res a with
    | none => rfl
    | some r =>
      by_cases hh : isHard r = true
      · simp [hr, hh] at h
      · simp only [hr, hh, Bool.false_eq_true, if_false] at h
        simp [hh, ih h]

variable {ET EV HK : Type} [DecidableEq HK]

theorem callLoop_error (event : Event ET EV) (l : List (Element ET EV HK))
    (hs : eventHandlers ET EV HK) (hn : reachesNil (Element.result event) l = true) :
    callLoop event l hs = .error Panic.nilDereference := by
  induction l generalizing hs with
  | nil => simp [reachesNil] at hn
  | cons e l ih =>
    cases hh : e.Value.h with
    | none => simp [callLoop, hh]
    | some f =>
      by_cases hard : isHard (f.HandleEvent event).err = true
      · simp [reachesNil, Element.result, eventHandler.result, hh, hard] at hn
      · have hn1 : reachesNil (Element.result event) l = true := by
          simpa [reachesNil, Element.result, eventHandler.result, hh, hard] using hn
        simp only [callLoop, hh, hard, Bool.false_eq_true, if_false]
        rw [ih _ hn1]

/-- A pass returns unless it reaches a nil handler; its error is the first hard error of the
sequence and its calls are the entries up to that error, in sequence order. -/
theorem call_ok (hs : eventHandlers ET EV HK) (evtID : EventID ET EV) (g : Nat) (p : List Nat)
    (hn : reachesNil (Element.result ⟨evtID, p, g⟩) hs.handlerList = false) :
    ∃ hs1, hs.call evtID g p =
      .ok (hs1, firstHard (Element.result ⟨evtID, p, g⟩) hs.handlerList,
        callsOf ⟨evtID, p, g⟩ (invokedBy (Element.result ⟨evtID, p, g⟩) hs.handlerList)) := by
  obtain ⟨hs1, h1⟩ := callLoop_ok ⟨evtID, p, g⟩ hs.handlerList { hs with calling := true } hn
  unfold eventHandlers.call
  simp only [h1]
  cases firstHard (Element.result ⟨evtID, p, g⟩) hs.handlerList with
  | none => exact ⟨_, rfl⟩
  | some e => exact ⟨_, rfl⟩

theorem call_error (hs : eventHandlers ET EV HK) (evtID : EventID ET EV) (g : Nat) (p : List Nat)
    (hn : reachesNil (Element.result ⟨evtID, p, g⟩) hs.handlerList = true) :
    hs.call evtID g p = .error Panic.nilDereference := by
  unfold eventHandlers.call
  simp only [callLoop_error _ _ _ hn]

theorem call_result (hs hs1 : eventHandlers ET EV HK) (evtID : EventID ET EV) (g : Nat)
    (p : List Nat) (r : Option GoError) (tr : List (Call ET EV HK))
    (h : hs.call evtID g p = .ok (hs1, r, tr)) :
    reachesNil (Element.result ⟨evtID, p, g⟩) hs.handlerList = false ∧
      r = firstHard (Element.result ⟨evtID, p, g⟩) hs.handlerList ∧
      tr = callsOf ⟨evtID, p, g⟩ (invokedBy (Element.result ⟨evtID, p, g⟩) hs.handlerList) := by
  cases hn : reachesNil (Element.result ⟨evtID, p, g⟩) hs.handlerList with
  | true => rw [call_error hs evtID g p hn] at h; cases h
  | false =>
    obtain ⟨hs2, h2⟩ := call_ok hs evtID g p hn
    rw [h2] at h
    simp only [Except.ok.injEq, Prod.mk.injEq] at h
    exact ⟨rfl, h.2.1.symm, h.2.2.symm⟩

end CallFacts

section BucketFacts

variable {ET EV HK : Type} [DecidableEq EV] [DecidableEq HK]

/-- The value half of a bucket call is a pass over the sequence of the event value. -/
theorem callVal_ok (b : eventTypeHandlers ET EV HK) (evtID : EventID ET EV) (g : Nat)
    (p : List Nat)
    (hn : reachesNil (Element.result ⟨evtID, p, g⟩) (b.valElems evtID.Val) = false) :
    ∃ b1, b.callVal evtID g p =
      .ok (b1, firstHard (Element.result ⟨evtID, p, g⟩) (b.valElems evtID.Val),
        callsOf ⟨evtID, p, g⟩
          (invokedBy (Element.result ⟨evtID, p, g⟩) (b.valElems evtID.Val))) := by
  unfold eventTypeHandlers.callVal
  unfold eventTypeHandlers.valElems at hn ⊢
  cases hv : b.valHandlers with
  | none => exact ⟨b, rfl⟩
  | some m =>
    simp only [hv] at hn ⊢
    cases hl : mapLookup m evtID.Val with
    | none => exact ⟨b, rfl⟩
    | some c =>
      simp only [hl, Option.map_some', Option.getD_some] at hn ⊢
      obtain ⟨c1, h1⟩ := call_ok c evtID g p hn
      simp only [h1]
      by_cases he : c1.empty = true
      · simp only [he, if_true]
        exact ⟨_, rfl⟩
      · simp only [he, Bool.false_eq_true, if_false]
        exact ⟨_, rfl⟩

/-- The order in which a bucket call meets the entries of the bucket. -/
theorem bucket_call_ok (b : eventTypeHandlers ET EV HK) (evtID : EventID ET EV) (g : Nat)
    (p : List Nat)
    (hn : reachesNil (taggedResult ⟨evtID, p, g⟩)
      (b.typeElems.map (fun e => (none, e)) ++
        (b.valElems evtID.Val).map (fun e => (some evtID.Val, e))) = false) :
    ∃ b1, b.call evtID g p =
      .ok (b1,
        firstHard (taggedResult ⟨evtID, p, g⟩)
          (b.typeElems.map (fun e => (none, e)) ++
            (b.valElems evtID.Val).map (fun e => (some evtID.Val, e))),
        (invokedBy (taggedResult ⟨evtID, p, g⟩)
          (b.typeElems.map (fun e => (none, e)) ++
            (b.valElems evtID.Val).map (fun e => (some evtID.Val, e)))).map
          (fun x => (x.1, x.2.Value.key, (⟨evtID, p, g⟩ : Event ET EV)))) := by
  have hresA : (fun e : Element ET EV HK => taggedResult ⟨evtID, p, g⟩ ((none : Option EV), e)) =
      Element.result ⟨evtID, p, g⟩ := rfl
  have hresB : (fun e : Element ET EV HK => taggedResult ⟨evtID, p, g⟩ (some evtID.Val, e)) =
      Element.result ⟨evtID, p, g⟩ := rfl
  unfold eventTypeHandlers.call
  cases ht : b.eventHandlers with
  | none =>
    have hA : b.typeElems = [] := by simp [eventTypeHandlers.typeElems, ht]
    simp only [hA, List.map_nil, List.nil_append] at hn ⊢
    rw [reachesNil_map, hresB] at hn
    rw [firstHard_map, invokedBy_map, hresB]
    obtain ⟨b1, h1⟩ := callVal_ok b evtID g p hn
    simp only [h1]
    refine ⟨b1, ?_⟩
    simp [callsOf, List.map_map, Function.comp_def]
  | some l =>
    have hA : b.typeElems = l.handlerList := by simp [eventTypeHandlers.typeElems, ht]
    simp only [hA] at hn ⊢
    cases hf : firstHard (Element.result ⟨evtID, p, g⟩) l.handlerList with
    | some e =>
      have hfA : firstHard (taggedResult ⟨evtID, p, g⟩)
          (l.handlerList.map (fun e => ((none : Option EV), e))) = some e := by
        rw [firstHard_map, hresA]; exact hf
      obtain ⟨i1, i2, -⟩ := pass_append_of_hard _ _
        ((b.valElems evtID.Val).map (fun e => (some evtID.Val, e))) e hfA
      rw [i1, i2, invokedBy_map, hresA]
      obtain ⟨l1, h1⟩ := call_ok l evtID g p (reachesNil_of_firstHard _ _ e hf)
      simp only [h1, hf]
      refine ⟨{ b with eventHandlers := if l1.empty then none else some l1 }, ?_⟩
      simp [callsOf, List.map_map, Function.comp_def]
    | none =>
      have hnA : reachesNil (Element.result ⟨evtID, p, g⟩) l.handlerList = false := by
        cases hx : reachesNil (Element.result ⟨evtID, p, g⟩) l.handlerList with
        | false => rfl
        | true =>
          have : reachesNil (taggedResult ⟨evtID, p, g⟩)
              (l.handlerList.map (fun e => ((none : Option EV), e))) = true := by
            rw [reachesNil_map, hresA]; exact hx
          rw [reachesNil_append_left _ _ _ this] at hn
          cases hn
      have hfA : firstHard (taggedResult ⟨evtID, p, g⟩)
          (l.handlerList.map (fun e => ((none : Option EV), e))) = none := by
        rw [firstHard_map, hresA]; exact hf
      have hnA2 : reachesNil (taggedResult ⟨evtID, p, g⟩)
          (l.handlerList.map (fun e => ((none : Option EV), e))) = false := by
        rw [reachesNil_map, hresA]; exact hnA
      obtain ⟨i1, i2, i3⟩ := pass_append_of_complete _ _
        ((b.valElems evtID.Val).map (fun e => (some evtID.Val, e))) hfA hnA2
      rw [i3, reachesNil_map, hresB] at hn
      rw [i1, i2, invokedBy_map, invokedBy_map, firstHard_map, hresA, hresB]
      obtain ⟨l1, h1⟩ := call_ok l evtID g p hnA
      simp only [h1, hf]
      have hval : ∀ x : Option (eventHandlers ET EV HK),
          ({ b with eventHandlers := x } : eventTypeHandlers ET EV HK).valElems evtID.Val =
            b.valElems evtID.Val := fun _ => rfl
      obtain ⟨b1, h2⟩ := callVal_ok
        ({ b with eventHandlers := if l1.empty then none else some l1 } :
          eventTypeHandlers ET EV HK) evtID g p (by rw [hval]; exact hn)
      rw [hval] at h2
      simp only [ne_eq, not_true_eq_false, if_false, h2]
      refine ⟨b1, ?_⟩
      simp [callsOf, List.map_map, Function.comp_def]

end BucketFacts

section DispatchFacts

variable {ET EV HK : Type} [DecidableEq ET] [DecidableEq EV]

theorem elementsAt_of_lookup (d : EventDispatcher ET EV HK) (t : ET)
    (b : eventTypeHandlers ET EV HK) (h : mapLookup d.typesHandlers t = some b) :
    d.elementsAt t none = b.typeElems ∧ ∀ v, d.elementsAt t (some v) = b.valElems v := by
  constructor
  · simp [EventDispatcher.elementsAt, EventDispatcher.listAt, h, eventTypeHandlers.typeElems]
  · intro v
    unfold EventDispatcher.elementsAt EventDispatcher.listAt eventTypeHandlers.valElems
    simp only [h]
    cases b.valHandlers <;> rfl

theorem elementsAt_of_lookup_none (d : EventDispatcher ET EV HK) (t : ET)
    (h : mapLookup d.typesHandlers t = none) (v : Option EV) : d.elementsAt t v = [] := by
  simp [EventDispatcher.elementsAt, EventDispatcher.listAt, h]

variable [DecidableEq HK]

/-- A dispatch is one pass over the dispatch order: it returns unless it reaches a nil handler,
its error is the first hard error and its invocations are the entries up to that error. -/
theorem Dispatch_pass (d : EventDispatcher ET EV HK) (evtId : EventID ET EV) (g : Nat)
    (p : List Nat) (hidle : d.isCalling = false)
    (hn : reachesNil (taggedResult ⟨evtId, p, g⟩) (d.dispatchOrder evtId) = false) :
    ∃ d1, d.Dispatch evtId g p =
      .ok (d1, firstHard (taggedResult ⟨evtId, p, g⟩) (d.dispatchOrder evtId),
        (invokedBy (taggedResult ⟨evtId, p, g⟩) (d.dispatchOrder evtId)).map
          (toInvocation ⟨evtId, p, g⟩)) := by
  unfold EventDispatcher.Dispatch
  cases hl : mapLookup d.typesHandlers evtId.Typ with
  | none =>
    have h0 : d.dispatchOrder evtId = [] := by
      simp [EventDispatcher.dispatchOrder, elementsAt_of_lookup_none d _ hl]
    rw [h0]
    exact ⟨d, rfl⟩
  | some b =>
    obtain ⟨e1, e2⟩ := elementsAt_of_lookup d _ b hl
    have h0 : d.dispatchOrder evtId = b.typeElems.map (fun e => (none, e)) ++
        (b.valElems evtId.Val).map (fun e => (some evtId.Val, e)) := by
      simp [EventDispatcher.dispatchOrder, e1, e2]
    rw [h0] at hn ⊢
    obtain ⟨b1, h1⟩ := bucket_call_ok b evtId g p hn
    simp only [hidle, Bool.false_eq_true, if_false, h1]
    refine ⟨⟨if b1.empty then mapDelete d.typesHandlers evtId.Typ
      else mapStore d.typesHandlers evtId.Typ b1, false⟩, ?_⟩
    simp [List.map_map, Function.comp_def, toInvocation]

end DispatchFacts

section UnlinkFacts

variable {ET EV HK : Type}

theorem mem_unlinkedBy (event : Event ET EV) (pre post : List (Element ET EV HK))
    (x : Element ET EV HK) (hpre : ∀ y ∈ pre, y.Value.soft event) (r : Option GoError)
    (hx : x.Value.result event = some r) (hr : isHard r = false)
    (hleave : x.Value.leaves event = true) : x ∈ unlinkedBy event (pre ++ x :: post) := by
  induction pre with
  | nil => simp [unlinkedBy, hx, hr, hleave]
  | cons y pre ih =>
    obtain ⟨ry, hy1, hy2⟩ := hpre y (List.mem_cons_self _ _)
    have := ih (fun z hz => hpre z (List.mem_cons_of_mem _ hz))
    simp only [List.cons_append, unlinkedBy, hy1, hy2, Bool.false_eq_true, if_false]
    split
    · exact List.mem_cons_of_mem _ this
    · exact this

end UnlinkFacts

section RemovalFacts

variable {ET EV HK : Type} [DecidableEq HK]

theorem reachable_consistent (hs : eventHandlers ET EV HK) (hr : hs.Reachable) :
    hs.Consistent := by
  induction hr with
  | new => exact consistent_new
  | add hs hs1 k h once _ hadd ih => exact consistent_add hs hs1 k h once ih hadd
  | rem hs k _ ih => exact consistent_rem hs k ih
  | call hs hs1 evtID g p r tr _ hcall ih => exact consistent_call hs hs1 evtID g p r tr ih hcall

theorem rem_sublist (hs : eventHandlers ET EV HK) (k : HK) :
    (hs.rem k).handlerList.Sublist hs.handlerList := by
  unfold eventHandlers.rem
  split
  · exact List.Sublist.refl _
  · split
    · exact List.Sublist.refl _
    · exact List.filter_sublist _

theorem foldl_rem_sublist (ks : List HK) (hs : eventHandlers ET EV HK) :
    (ks.foldl eventHandlers.rem hs).handlerList.Sublist hs.handlerList := by
  induction ks generalizing hs with
  | nil => exact List.Sublist.refl _
  | cons k ks ih => exact (ih (hs.rem k)).trans (rem_sublist hs k)

theorem drainPending_sublist (hs : eventHandlers ET EV HK) :
    (drainPending hs).handlerList.Sublist hs.handlerList := by
  unfold drainPending
  cases hs.pendingRemList with
  | none => exact List.Sublist.refl _
  | some q => exact foldl_rem_sublist q _

/-- The state a pass leaves: the loop unlinks the entries that leave, and a pass that
completes drains the queue afterwards. -/
theorem call_shape (hs hs1 : eventHandlers ET EV HK) (evtID : EventID ET EV) (g : Nat)
    (p : List Nat) (r : Option GoError) (tr : List (Call ET EV HK))
    (h : hs.call evtID g p = .ok (hs1, r, tr)) :
    ∃ hsL : eventHandlers ET EV HK, hsL.calling = true ∧ hsL.nextAddr = hs.nextAddr ∧
      hsL.handlerList = hs.handlerList.filter
        (fun e => decide (e.addr ∉ addrsOf (unlinkedBy ⟨evtID, p, g⟩ hs.handlerList))) ∧
      hsL.handlerMap = hs.handlerMap.filter
        (fun q => decide (q.1 ∉ keysOf (unlinkedBy ⟨evtID, p, g⟩ hs.handlerList))) ∧
      ((r ≠ none ∧ hs1 = hsL) ∨ (r = none ∧ hs1 = drainPending hsL)) := by
  unfold eventHandlers.call at h
  simp only at h
  split at h
  · cases h
  · rename_i hs2 err tr2 heq
    simp only [Except.ok.injEq, Prod.mk.injEq] at h
    obtain ⟨rfl, rfl, -⟩ := h
    obtain ⟨i1, i2, i3, i4⟩ := callLoop_state _ _ _ _ _ _ rfl heq
    exact ⟨hs2, i1, i2, i3, i4, Or.inl ⟨by simp, rfl⟩⟩
  · rename_i hs2 tr2 heq
    simp only [Except.ok.injEq, Prod.mk.injEq] at h
    obtain ⟨rfl, rfl, -⟩ := h
    obtain ⟨i1, i2, i3, i4⟩ := callLoop_state _ _ _ _ _ _ rfl heq
    exact ⟨hs2, i1, i2, i3, i4, Or.inr ⟨rfl, rfl⟩⟩

theorem call_sublist (hs hs1 : eventHandlers ET EV HK) (evtID : EventID ET EV) (g : Nat)
    (p : List Nat) (r : Option GoError) (tr : List (Call ET EV HK))
    (h : hs.call evtID g p = .ok (hs1, r, tr)) :
    hs1.handlerList.Sublist
      (hs.handlerList.filter
        (fun e => decide (e.addr ∉ addrsOf (unlinkedBy ⟨evtID, p, g⟩ hs.handlerList)))) := by
  obtain ⟨hsL, -, -, i3, -, hcase⟩ := call_shape hs hs1 evtID g p r tr h
  rw [← i3]
  rcases hcase with ⟨-, rfl⟩ | ⟨-, rfl⟩
  · exact List.Sublist.refl _
  · exact drainPending_sublist _

/-- An entry the pass unlinked is in the sequence no more when the pass returns. -/
theorem call_unlinked_absent (hs hs1 : eventHandlers ET EV HK) (evtID : EventID ET EV) (g : Nat)
    (p : List Nat) (r : Option GoError) (tr : List (Call ET EV HK)) (hcons : hs.Consistent)
    (h : hs.call evtID g p = .ok (hs1, r, tr)) (c : Element ET EV HK)
    (hc : c ∈ unlinkedBy ⟨evtID, p, g⟩ hs.handlerList) :
    c.Value.key ∉ keysOf hs1.handlerList := by
  intro hmem
  obtain ⟨e, he, hek⟩ := List.mem_map.1 hmem
  have he1 := (call_sublist hs hs1 evtID g p r tr h).subset he
  obtain ⟨he2, he3⟩ := List.mem_filter.1 he1
  simp only [decide_eq_true_eq] at he3
  have hcl := unlinkedBy_subset _ _ c hc
  have : e = c := List.inj_on_of_nodup_map hcons.keys_nodup he2 hcl hek
  subst this
  exact he3 (List.mem_map.2 ⟨e, hc, rfl⟩)

end RemovalFacts

section EmptyFacts

theorem empty_iff {ET EV HK : Type} (hs : eventHandlers ET EV HK) :
    hs.empty = true ↔ hs.handlerList = [] := by
  unfold eventHandlers.empty
  cases hs.handlerList <;> simp

end EmptyFacts

section AddNonempty

variable {ET EV HK : Type} [DecidableEq HK]

theorem add_nonempty (hs hs1 : eventHandlers ET EV HK) (k : HK)
    (h : Option (EventHandler ET EV HK)) (once : Bool) (hcons : hs.Consistent)
    (hadd : hs.add k h once = .ok hs1) : hs1.handlerList ≠ [] := by
  unfold eventHandlers.add at hadd
  cases hl : mapLookup hs.handlerMap k with
  | some a =>
    simp only [hl, Except.ok.injEq] at hadd
    subst hadd
    obtain ⟨e, he, -, -⟩ := (hcons.index k a).1 hl
    intro hnil
    have hnil1 : listAssign hs.handlerList a h once = [] := hnil
    have : (listAssign hs.handlerList a h once).length = hs.handlerList.length := by
      simp [listAssign]
    rw [hnil1] at this
    have h0 : hs.handlerList = [] := List.length_eq_zero.1 this.symm
    rw [h0] at he
    cases he
  | none =>
    cases h with
    | none => simp [hl, newEventHandler] at hadd
    | some f =>
      simp only [hl, newEventHandler, Except.ok.injEq] at hadd
      subst hadd
      simp

end AddNonempty

section SoundFacts

variable {ET EV HK : Type} [DecidableEq EV] [DecidableEq HK]

theorem sound_new : (newEventTypeHandlers : eventTypeHandlers ET EV HK).Sound :=
  ⟨fun _ h => (nomatch h), fun _ h => (nomatch h), fun _ _ _ h => (nomatch h)⟩

theorem sound_add (b b1 : eventTypeHandlers ET EV HK) (k : HK)
    (h : Option (EventHandler ET EV HK)) (once : Bool) (hs : b.Sound)
    (hadd : b.add k h once = .ok b1) : b1.Sound ∧ b1.empty = false := by
  unfold eventTypeHandlers.add at hadd
  split at hadd
  · cases hadd
  · rename_i l heq
    simp only [Except.ok.injEq] at hadd
    subst hadd
    have hc0 : (b.eventHandlers.getD newEventHandlers).Consistent := by
      cases hb : b.eventHandlers with
      | none => exact consistent_new
      | some l0 => exact (hs.typeLevel l0 hb).1
    refine ⟨⟨?_, hs.valMap, hs.valLists⟩, by simp [eventTypeHandlers.empty]⟩
    intro l2 hl2
    simp only [Option.some.injEq] at hl2
    subst hl2
    exact ⟨consistent_add _ _ k h once hc0 heq, add_nonempty _ _ k h once hc0 heq⟩

theorem sound_addVal (b b1 : eventTypeHandlers ET EV HK) (ev : EV) (k : HK)
    (h : Option (EventHandler ET EV HK)) (once : Bool) (hs : b.Sound)
    (hadd : b.addVal ev k h once = .ok b1) : b1.Sound ∧ b1.empty = false := by
  unfold eventTypeHandlers.addVal at hadd
  simp only at hadd
  split at hadd
  · cases hadd
  · rename_i c heq
    simp only [Except.ok.injEq] at hadd
    subst hadd
    have hlists : ∀ v l, mapLookup (b.valHandlers.getD []) v = some l →
        l.Consistent ∧ l.handlerList ≠ [] := by
      intro v l hl
      cases hb : b.valHandlers with
      | none => simp [hb, mapLookup] at hl
      | some m => rw [hb] at hl; exact hs.valLists m v l hb hl
    have hc0 : ((mapLookup (b.valHandlers.getD []) ev).getD newEventHandlers).Consistent := by
      cases hb : mapLookup (b.valHandlers.getD []) ev with
      | none => exact consistent_new
      | some l0 => exact (hlists ev l0 hb).1
    refine ⟨⟨hs.typeLevel, ?_, ?_⟩, by simp [eventTypeHandlers.empty]⟩
    · intro m hm
      simp only [Option.some.injEq] at hm
      subst hm
      exact mapStore_ne_nil _ _ _
    · intro m v l hm hl
      simp only [Option.some.injEq] at hm
      subst hm
      rw [mapLookup_mapStore] at hl
      by_cases hv : ev = v
      · simp only [hv, if_true, Option.some.injEq] at hl
        subst hl
        exact ⟨consistent_add _ _ k h once hc0 heq, add_nonempty _ _ k h once hc0 heq⟩
      · simp only [hv, if_false] at hl
        exact hlists v l hl

theorem sound_rem (b : eventTypeHandlers ET EV HK) (k : HK) (hs : b.Sound) :
    (b.rem k).Sound := by
  unfold eventTypeHandlers.rem
  cases hb : b.eventHandlers with
  | none => exact hs
  | some l =>
    by_cases he : (l.rem k).empty = true
    · simp only [he, if_true]
      exact ⟨fun _ h2 => (nomatch h2), hs.valMap, hs.valLists⟩
    · simp only [he, Bool.false_eq_true, if_false]
      refine ⟨?_, hs.valMap, hs.valLists⟩
      intro l2 h2
      simp only [Option.some.injEq] at h2
      subst h2
      exact ⟨consistent_rem l k (hs.typeLevel l hb).1, fun hnil => he ((empty_iff _).2 hnil)⟩

/-- Writing back a value container after an operation: dropped with its map entry when it is
empty, stored otherwise; the map is dropped when nothing is left in it. -/
theorem sound_writeBack (b : eventTypeHandlers ET EV HK) (m : List (EV × eventHandlers ET EV HK))
    (ev : EV) (c1 : eventHandlers ET EV HK) (hs : b.Sound) (hm : b.valHandlers = some m)
    (hc1 : c1.Consistent) (m1 : List (EV × eventHandlers ET EV HK))
    (hm1 : m1 = if c1.empty then mapDelete m ev else mapStore m ev c1)
    (x : Option (eventHandlers ET EV HK))
    (hx : ∀ l, x = some l → l.Consistent ∧ l.handlerList ≠ []) :
    ({ valHandlers := if m1.length == 0 then none else some m1, eventHandlers := x } :
      eventTypeHandlers ET EV HK).Sound := by
  have hlists : ∀ v l, mapLookup m1 v = some l → l.Consistent ∧ l.handlerList ≠ [] := by
    intro v l hl
    rw [hm1] at hl
    by_cases he : c1.empty = true
    · simp only [he, if_true, mapLookup_mapDelete] at hl
      by_cases hv : ev = v
      · simp [hv] at hl
      · simp only [hv, if_false] at hl
        exact hs.valLists m v l hm hl
    · simp only [he, Bool.false_eq_true, if_false, mapLookup_mapStore] at hl
      by_cases hv : ev = v
      · simp only [hv, if_true, Option.some.injEq] at hl
        subst hl
        exact ⟨hc1, fun hnil => he ((empty_iff _).2 hnil)⟩
      · simp only [hv, if_false] at hl
        exact hs.valLists m v l hm hl
  refine ⟨hx, ?_, ?_⟩
  · intro m2 h2
    cases hlen : m1 with
    | nil => simp [hlen] at h2
    | cons q qs =>
      simp only [hlen, List.length_cons, Nat.add_one_ne_zero, beq_iff_eq, if_false,
        Option.some.injEq] at h2
      rw [← h2]
      simp
  · intro m2 v l h2 hl
    cases hlen : m1 with
    | nil => simp [hlen] at h2
    | cons q qs =>
      simp only [hlen, List.length_cons, Nat.add_one_ne_zero, beq_iff_eq, if_false,
        Option.some.injEq] at h2
      rw [← h2, ← hlen] at hl
      exact hlists v l hl

theorem sound_remVal (b : eventTypeHandlers ET EV HK) (ev : EV) (k : HK) (hs : b.Sound) :
    (b.remVal ev k).Sound := by
  unfold eventTypeHandlers.remVal
  simp only
  cases hb : b.valHandlers with
  | none => simpa [mapLookup, hb] using hs
  | some m =>
    simp only [Option.getD_some]
    cases hl : mapLookup m ev with
    | none => simpa [hb] using hs
    | some c =>
      simp only
      have := sound_writeBack b m ev (c.rem k) hs hb (consistent_rem c k (hs.valLists m ev c hb hl).1)
        _ rfl b.eventHandlers hs.typeLevel
      generalize (if (c.rem k).empty = true then mapDelete m ev else mapStore m ev (c.rem k)) = m1
        at this ⊢
      by_cases h0 : (m1.length == 0) = true
      · simp only [h0, if_true] at this ⊢
        exact this
      · simp only [h0, Bool.false_eq_true, if_false] at this ⊢
        exact this

end SoundFacts

section WriteBackFacts

theorem typeElems_ite {ET EV HK : Type} (l1 : eventHandlers ET EV HK)
    (v : Option (List (EV × eventHandlers ET EV HK))) :
    ({ valHandlers := v, eventHandlers := if l1.empty then none else some l1 } :
      eventTypeHandlers ET EV HK).typeElems = l1.handlerList := by
  by_cases he : l1.empty = true
  · simp [eventTypeHandlers.typeElems, he, (empty_iff l1).1 he]
  · simp [eventTypeHandlers.typeElems, he]

variable {ET EV HK : Type} [DecidableEq EV]

/-- The value sequences of a bucket after a value container has been written back. -/
theorem valElems_writeBack (m : List (EV × eventHandlers ET EV HK)) (ev : EV)
    (c1 : eventHandlers ET EV HK) (x y : Option (eventHandlers ET EV HK)) (w : EV) :
    ({ valHandlers :=
         if (if c1.empty then mapDelete m ev else mapStore m ev c1).length == 0 then none
         else some (if c1.empty then mapDelete m ev else mapStore m ev c1),
       eventHandlers := x } : eventTypeHandlers ET EV HK).valElems w =
      if ev = w then c1.handlerList
      else ({ valHandlers := some m, eventHandlers := y } : eventTypeHandlers ET EV HK).valElems w := by
  have hlook : ∀ m1 : List (EV × eventHandlers ET EV HK),
      ({ valHandlers := if m1.length == 0 then none else some m1, eventHandlers := x } :
        eventTypeHandlers ET EV HK).valElems w =
        ((mapLookup m1 w).map (fun l => l.handlerList)).getD [] := by
    intro m1
    cases m1 with
    | nil => simp [eventTypeHandlers.valElems, mapLookup]
    | cons q qs => simp [eventTypeHandlers.valElems]
  rw [hlook]
  by_cases he : c1.empty = true
  · have hnil : c1.handlerList = [] := (empty_iff c1).1 he
    simp only [he, if_true, mapLookup_mapDelete]
    by_cases hw : ev = w
    · simp [hw, hnil]
    · simp [hw, eventTypeHandlers.valElems]
  · simp only [he, Bool.false_eq_true, if_false, mapLookup_mapStore]
    by_cases hw : ev = w
    · simp [hw]
    · simp [hw, eventTypeHandlers.valElems]

end WriteBackFacts

section BucketShape

variable {ET EV HK : Type} [DecidableEq EV] [DecidableEq HK]

/-- The bucket after the value half of a call: untouched when the value has no list, else the
list after its pass is written back. -/
theorem callVal_shape (b b1 : eventTypeHandlers ET EV HK) (evtID : EventID ET EV) (g : Nat)
    (p : List Nat) (r : Option GoError) (tr : List (Call ET EV HK))
    (h : b.callVal evtID g p = .ok (b1, r, tr)) :
    (b1 = b ∧ r = none ∧ tr = [] ∧ b.valElems evtID.Val = []) ∨
      ∃ m c c1, b.valHandlers = some m ∧ mapLookup m evtID.Val = some c ∧
        c.call evtID g p = .ok (c1, r, tr) ∧
        b1 = { valHandlers :=
                 if (if c1.empty then mapDelete m evtID.Val
                      else mapStore m evtID.Val c1).length == 0 then none
                 else some (if c1.empty then mapDelete m evtID.Val
                      else mapStore m evtID.Val c1),
               eventHandlers := b.eventHandlers } := by
  unfold eventTypeHandlers.callVal at h
  cases hv : b.valHandlers with
  | none =>
    simp only [hv, Except.ok.injEq, Prod.mk.injEq] at h
    exact Or.inl ⟨h.1.symm, h.2.1.symm, h.2.2.symm, by simp [eventTypeHandlers.valElems, hv]⟩
  | some m =>
    simp only [hv] at h
    cases hl : mapLookup m evtID.Val with
    | none =>
      simp only [hl, Except.ok.injEq, Prod.mk.injEq] at h
      exact Or.inl ⟨h.1.symm, h.2.1.symm, h.2.2.symm,
        by simp [eventTypeHandlers.valElems, hv, hl]⟩
    | some c =>
      simp only [hl] at h
      split at h
      · cases h
      · rename_i c1 err trc heq
        refine Or.inr ⟨m, c, c1, rfl, hl, ?_, ?_⟩
        · by_cases he : c1.empty = true
          · simp only [he, if_true, Except.ok.injEq, Prod.mk.injEq] at h
            rw [heq, ← h.2.1, ← h.2.2]
          · simp only [he, Bool.false_eq_true, if_false, Except.ok.injEq, Prod.mk.injEq] at h
            rw [heq, ← h.2.1, ← h.2.2]
        · by_cases he : c1.empty = true
          · simp only [he, if_true, Except.ok.injEq, Prod.mk.injEq] at h
            rw [← h.1]
            simp only [he, if_true]
          · simp only [he, Bool.false_eq_true, if_false, Except.ok.injEq, Prod.mk.injEq] at h
            rw [← h.1]
            have : (mapStore m evtID.Val c1).length ≠ 0 := by
              intro h0
              exact mapStore_ne_nil m evtID.Val c1 (List.length_eq_zero.1 h0)
            simp [he, this]

/-- The bucket after a call: the type-level list after its pass, then the value half unless the
type-level pass failed. -/
theorem bucket_call_shape (b b1 : eventTypeHandlers ET EV HK) (evtID : EventID ET EV) (g : Nat)
    (p : List Nat) (r : Option GoError) (tr : List (TypeCall ET EV HK))
    (h : b.call evtID g p = .ok (b1, r, tr)) :
    (b.eventHandlers = none ∧ ∃ tr2, b.callVal evtID g p = .ok (b1, r, tr2)) ∨
      ∃ l l1 r1 tr1, b.eventHandlers = some l ∧ l.call evtID g p = .ok (l1, r1, tr1) ∧
        ((r1 ≠ none ∧ r = r1 ∧
            b1 = { valHandlers := b.valHandlers,
                   eventHandlers := if l1.empty then none else some l1 }) ∨
          (r1 = none ∧ ∃ tr2,
            ({ valHandlers := b.valHandlers,
               eventHandlers := if l1.empty then none else some l1 } :
              eventTypeHandlers ET EV HK).callVal evtID g p = .ok (b1, r, tr2))) := by
  unfold eventTypeHandlers.call at h
  cases ht : b.eventHandlers with
  | none =>
    simp only [ht] at h
    split at h
    · cases h
    · rename_i b2 r2 tr2 heq
      simp only [Except.ok.injEq, Prod.mk.injEq] at h
      obtain ⟨rfl, rfl, -⟩ := h
      exact Or.inl ⟨rfl, tr2, heq⟩
  | some l =>
    simp only [ht] at h
    split at h
    · cases h
    · rename_i l1 r1 tr1 heq
      refine Or.inr ⟨l, l1, r1, tr1, rfl, heq, ?_⟩
      by_cases hr : r1 = none
      · subst hr
        simp only [ne_eq, not_true_eq_false, if_false] at h
        split at h
        · cases h
        · rename_i b2 r2 tr2 heq2
          simp only [Except.ok.injEq, Prod.mk.injEq] at h
          obtain ⟨rfl, rfl, -⟩ := h
          exact Or.inr ⟨rfl, tr2, heq2⟩
      · simp only [ne_eq, hr, not_false_eq_true, if_true, Except.ok.injEq, Prod.mk.injEq] at h
        exact Or.inl ⟨hr, h.2.1.symm, h.1.symm⟩

theorem sound_callVal (b b1 : eventTypeHandlers ET EV HK) (evtID : EventID ET EV) (g : Nat)
    (p : List Nat) (r : Option GoError) (tr : List (Call ET EV HK)) (hs : b.Sound)
    (h : b.callVal evtID g p = .ok (b1, r, tr)) : b1.Sound := by
  rcases callVal_shape b b1 evtID g p r tr h with ⟨rfl, -, -, -⟩ | ⟨m, c, c1, hm, hl, hc, rfl⟩
  · exact hs
  · exact sound_writeBack b m evtID.Val c1 hs hm
      (consistent_call c c1 evtID g p r tr (hs.valLists m _ c hm hl).1 hc) _ rfl _ hs.typeLevel

theorem sound_passed (b : eventTypeHandlers ET EV HK) (l l1 : eventHandlers ET EV HK)
    (evtID : EventID ET EV) (g : Nat) (p : List Nat) (r1 : Option GoError)
    (tr1 : List (Call ET EV HK)) (hs : b.Sound) (hb : b.eventHandlers = some l)
    (hc : l.call evtID g p = .ok (l1, r1, tr1)) :
    ({ valHandlers := b.valHandlers, eventHandlers := if l1.empty then none else some l1 } :
      eventTypeHandlers ET EV HK).Sound := by
  refine ⟨?_, hs.valMap, hs.valLists⟩
  intro l2 h2
  by_cases he : l1.empty = true
  · simp [he] at h2
  · simp only [he, Bool.false_eq_true, if_false, Option.some.injEq] at h2
    subst h2
    exact ⟨consistent_call l l1 evtID g p r1 tr1 (hs.typeLevel l hb).1 hc,
      fun hnil => he ((empty_iff _).2 hnil)⟩

/-- A bucket call keeps a bucket sound. -/
theorem sound_call (b b1 : eventTypeHandlers ET EV HK) (evtID : EventID ET EV) (g : Nat)
    (p : List Nat) (r : Option GoError) (tr : List (TypeCall ET EV HK)) (hs : b.Sound)
    (h : b.call evtID g p = .ok (b1, r, tr)) : b1.Sound := by
  rcases bucket_call_shape b b1 evtID g p r tr h with
    ⟨-, tr2, h2⟩ | ⟨l, l1, r1, tr1, hb, hc, ⟨-, -, rfl⟩ | ⟨-, tr2, h2⟩⟩
  · exact sound_callVal b b1 evtID g p r tr2 hs h2
  · exact sound_passed b l l1 evtID g p r1 tr1 hs hb hc
  · exact sound_callVal _ b1 evtID g p r tr2 (sound_passed b l l1 evtID g p r1 tr1 hs hb hc) h2

end BucketShape

section WellFormedFacts

variable {ET EV HK : Type} [DecidableEq ET] [DecidableEq EV] [DecidableEq HK]

theorem buckets_writeBack (m : List (ET × eventTypeHandlers ET EV HK)) (t : ET)
    (b1 : eventTypeHandlers ET EV HK)
    (hm : ∀ t2 b2, t2 ≠ t → mapLookup m t2 = some b2 → b2.Sound ∧ b2.empty = false)
    (hs : b1.Sound) :
    ∀ t2 b2, mapLookup (if b1.empty then mapDelete m t else mapStore m t b1) t2 = some b2 →
      b2.Sound ∧ b2.empty = false := by
  intro t2 b2 h
  by_cases he : b1.empty = true
  · simp only [he, if_true, mapLookup_mapDelete] at h
    by_cases ht : t = t2
    · simp [ht] at h
    · simp only [ht, if_false] at h
      exact hm t2 b2 (Ne.symm ht) h
  · simp only [he, Bool.false_eq_true, if_false, mapLookup_mapStore] at h
    by_cases ht : t = t2
    · simp only [ht, if_true, Option.some.injEq] at h
      subst h
      exact ⟨hs, by simpa using he⟩
    · simp only [ht, if_false] at h
      exact hm t2 b2 (Ne.symm ht) h

theorem addORGet_facts (d : EventDispatcher ET EV HK) (t : ET) (hw : d.WellFormed) :
    (d.addORGetTypeHandlers t).2.Sound ∧ (d.addORGetTypeHandlers t).1.isCalling = false ∧
      ∀ t2, t2 ≠ t → mapLookup (d.addORGetTypeHandlers t).1.typesHandlers t2 =
        mapLookup d.typesHandlers t2 := by
  unfold EventDispatcher.addORGetTypeHandlers
  cases hl : mapLookup d.typesHandlers t with
  | some b => exact ⟨(hw.buckets t b hl).1, hw.idle, fun _ _ => rfl⟩
  | none =>
    refine ⟨sound_new, hw.idle, ?_⟩
    intro t2 ht
    simp [mapLookup_mapStore, Ne.symm ht]

theorem wellFormed_added (d : EventDispatcher ET EV HK) (t : ET)
    (b1 : eventTypeHandlers ET EV HK) (hw : d.WellFormed) (hs : b1.Sound)
    (he : b1.empty = false) :
    ({ (d.addORGetTypeHandlers t).1 with
       typesHandlers := mapStore (d.addORGetTypeHandlers t).1.typesHandlers t b1 } :
      EventDispatcher ET EV HK).WellFormed := by
  obtain ⟨-, h2, h3⟩ := addORGet_facts d t hw
  refine ⟨h2, ?_⟩
  intro t2 b2 hl
  simp only [mapLookup_mapStore] at hl
  by_cases ht : t = t2
  · simp only [ht, if_true, Option.some.injEq] at hl
    subst hl
    exact ⟨hs, he⟩
  · simp only [ht, if_false] at hl
    rw [h3 t2 (Ne.symm ht)] at hl
    exact hw.buckets t2 b2 hl

theorem wellFormed_AddTypeHandler (d d1 : EventDispatcher ET EV HK) (t : ET) (k : HK)
    (h : Option (EventHandler ET EV HK)) (once : Bool) (hw : d.WellFormed)
    (hadd : d.AddTypeHandler t k h once = .ok d1) : d1.WellFormed := by
  unfold EventDispatcher.AddTypeHandler at hadd
  split at hadd
  · cases hadd
  · rename_i b1 heq
    simp only [Except.ok.injEq] at hadd
    subst hadd
    obtain ⟨s1, s2⟩ := sound_add _ b1 k h once (addORGet_facts d t hw).1 heq
    exact wellFormed_added d t b1 hw s1 s2

theorem wellFormed_AddHandler (d d1 : EventDispatcher ET EV HK) (evtId : EventID ET EV) (k : HK)
    (h : Option (EventHandler ET EV HK)) (once : Bool) (hw : d.WellFormed)
    (hadd : d.AddHandler evtId k h once = .ok d1) : d1.WellFormed := by
  unfold EventDispatcher.AddHandler at hadd
  split at hadd
  · cases hadd
  · rename_i b1 heq
    simp only [Except.ok.injEq] at hadd
    subst hadd
    obtain ⟨s1, s2⟩ := sound_addVal _ b1 evtId.Val k h once (addORGet_facts d evtId.Typ hw).1 heq
    exact wellFormed_added d evtId.Typ b1 hw s1 s2

theorem wellFormed_writeBack (d : EventDispatcher ET EV HK) (t : ET)
    (b1 : eventTypeHandlers ET EV HK) (hw : d.WellFormed) (hs : b1.Sound) :
    ({ typesHandlers := if b1.empty then mapDelete d.typesHandlers t
                        else mapStore d.typesHandlers t b1,
       isCalling := false } : EventDispatcher ET EV HK).WellFormed :=
  ⟨rfl, buckets_writeBack d.typesHandlers t b1 (fun t2 b2 _ h => hw.buckets t2 b2 h) hs⟩

theorem wellFormed_RemTypeHandler (d : EventDispatcher ET EV HK) (t : ET) (k : HK)
    (hw : d.WellFormed) : (d.RemTypeHandler t k).WellFormed := by
  unfold EventDispatcher.RemTypeHandler
  cases hl : mapLookup d.typesHandlers t with
  | none => exact hw
  | some b =>
    have := wellFormed_writeBack d t (b.rem k) hw (sound_rem b k (hw.buckets t b hl).1)
    by_cases he : (b.rem k).empty = true
    · simp only [he, if_true] at this ⊢
      exact ⟨hw.idle, this.buckets⟩
    · simp only [he, Bool.false_eq_true, if_false] at this ⊢
      exact ⟨hw.idle, this.buckets⟩

theorem wellFormed_RemHandler (d : EventDispatcher ET EV HK) (evtId : EventID ET EV) (k : HK)
    (hw : d.WellFormed) : (d.RemHandler evtId k).WellFormed := by
  unfold EventDispatcher.RemHandler
  cases hl : mapLookup d.typesHandlers evtId.Typ with
  | none => exact hw
  | some b =>
    have := wellFormed_writeBack d evtId.Typ (b.remVal evtId.Val k) hw
      (sound_remVal b evtId.Val k (hw.buckets _ b hl).1)
    by_cases he : (b.remVal evtId.Val k).empty = true
    · simp only [he, if_true] at this ⊢
      exact ⟨hw.idle, this.buckets⟩
    · simp only [he, Bool.false_eq_true, if_false] at this ⊢
      exact ⟨hw.idle, this.buckets⟩

/-- What `Dispatch` does when it returns: nothing when the type has no bucket, else the bucket
is called and written back. -/
theorem Dispatch_shape (d d1 : EventDispatcher ET EV HK) (evtId : EventID ET EV) (g : Nat)
    (p : List Nat) (r : Option GoError) (tr : List (Invocation ET EV HK))
    (h : d.Dispatch evtId g p = .ok (d1, r, tr)) :
    (mapLookup d.typesHandlers evtId.Typ = none ∧ d1 = d ∧ r = none ∧ tr = []) ∨
      ∃ b b1 trb, mapLookup d.typesHandlers evtId.Typ = some b ∧ d.isCalling = false ∧
        b.call evtId g p = .ok (b1, r, trb) ∧
        d1 = { typesHandlers := if b1.empty then mapDelete d.typesHandlers evtId.Typ
                                else mapStore d.typesHandlers evtId.Typ b1,
               isCalling := false } := by
  unfold EventDispatcher.Dispatch at h
  cases hl : mapLookup d.typesHandlers evtId.Typ with
  | none =>
    simp only [hl, Except.ok.injEq, Prod.mk.injEq] at h
    exact Or.inl ⟨rfl, h.1.symm, h.2.1.symm, h.2.2.symm⟩
  | some b =>
    simp only [hl] at h
    cases hc : d.isCalling with
    | true => simp [hc] at h
    | false =>
      simp only [hc, Bool.false_eq_true, if_false] at h
      split at h
      · cases h
      · rename_i b1 r1 tr1 heq
        simp only [Except.ok.injEq, Prod.mk.injEq] at h
        obtain ⟨rfl, rfl, -⟩ := h
        exact Or.inr ⟨b, b1, tr1, rfl, rfl, heq, rfl⟩

theorem wellFormed_Dispatch (d d1 : EventDispatcher ET EV HK) (evtId : EventID ET EV) (g : Nat)
    (p : List Nat) (r : Option GoError) (tr : List (Invocation ET EV HK)) (hw : d.WellFormed)
    (h : d.Dispatch evtId g p = .ok (d1, r, tr)) : d1.WellFormed := by
  rcases Dispatch_shape d d1 evtId g p r tr h with ⟨-, rfl, -, -⟩ | ⟨b, b1, trb, hl, -, hc, rfl⟩
  · exact hw
  · exact wellFormed_writeBack d evtId.Typ b1 hw
      (sound_call b b1 evtId g p r trb (hw.buckets _ b hl).1 hc)

/-- Every reachable dispatcher is well formed. -/
theorem reachable_wellFormed (d : EventDispatcher ET EV HK) (hr : d.Reachable) :
    d.WellFormed := by
  induction hr with
  | fresh => exact ⟨rfl, fun _ _ h => by simp [NewEventDispatcher, mapLookup] at h⟩
  | addTypeHandler d d1 t k h once _ hadd ih =>
    exact wellFormed_AddTypeHandler d d1 t k h once ih hadd
  | addHandler d d1 evtId k h once _ hadd ih =>
    exact wellFormed_AddHandler d d1 evtId k h once ih hadd
  | remTypeHandler d t k _ ih => exact wellFormed_RemTypeHandler d t k ih
  | remHandler d evtId k _ ih => exact wellFormed_RemHandler d evtId k ih
  | clear d _ _ => exact ⟨rfl, fun _ _ h => by simp [EventDispatcher.Clear, mapLookup] at h⟩
  | dispatch d d1 evtId g p r tr _ hd ih => exact wellFormed_Dispatch d d1 evtId g p r tr ih hd

end WellFormedFacts

section SublistStart

variable {ET EV HK : Type} [DecidableEq HK]

theorem call_sublist_start (hs hs1 : eventHandlers ET EV HK) (evtID : EventID ET EV) (g : Nat)
    (p : List Nat) (r : Option GoError) (tr : List (Call ET EV HK))
    (h : hs.call evtID g p = .ok (hs1, r, tr)) : hs1.handlerList.Sublist hs.handlerList :=
  (call_sublist hs hs1 evtID g p r tr h).trans (List.filter_sublist _)

end SublistStart

section ValElemsFacts

variable {ET EV HK : Type} [DecidableEq EV]

theorem valElems_congr (b : eventTypeHandlers ET EV HK) (m : List (EV × eventHandlers ET EV HK))
    (hm : b.valHandlers = some m) (y : Option (eventHandlers ET EV HK)) (w : EV) :
    ({ valHandlers := some m, eventHandlers := y } : eventTypeHandlers ET EV HK).valElems w =
      b.valElems w := by
  simp [eventTypeHandlers.valElems, hm]

theorem valElems_of_lookup (b : eventTypeHandlers ET EV HK)
    (m : List (EV × eventHandlers ET EV HK)) (hm : b.valHandlers = some m) (w : EV)
    (c : eventHandlers ET EV HK) (hl : mapLookup m w = some c) :
    b.valElems w = c.handlerList := by
  simp [eventTypeHandlers.valElems, hm, hl]

end ValElemsFacts

section LeaveFacts

variable {ET EV HK : Type}

theorem mem_unlinkedBy_of_soft (event : Event ET EV) (l : List (Element ET EV HK))
    (hsoft : ∀ y ∈ l, y.Value.soft event) (x : Element ET EV HK) (hx : x ∈ l)
    (hleave : x.Value.leaves event = true) : x ∈ unlinkedBy event l := by
  obtain ⟨pre, post, rfl⟩ := List.append_of_mem hx
  obtain ⟨r, hr1, hr2⟩ := hsoft x hx
  exact mem_unlinkedBy event pre post x
    (fun y hy => hsoft y (List.mem_append_left _ hy)) r hr1 hr2 hleave

end LeaveFacts

section BucketEffect

variable {ET EV HK : Type} [DecidableEq EV] [DecidableEq HK]

/-- The value half of a bucket call only shortens sequences. -/
theorem callVal_sublist (b b1 : eventTypeHandlers ET EV HK) (evtID : EventID ET EV) (g : Nat)
    (p : List Nat) (r : Option GoError) (tr : List (Call ET EV HK))
    (h : b.callVal evtID g p = .ok (b1, r, tr)) :
    b1.typeElems = b.typeElems ∧ ∀ w, (b1.valElems w).Sublist (b.valElems w) := by
  rcases callVal_shape b b1 evtID g p r tr h with ⟨rfl, -, -, -⟩ | ⟨m, c, c1, hm, hl, hc, rfl⟩
  · exact ⟨rfl, fun _ => List.Sublist.refl _⟩
  · refine ⟨rfl, ?_⟩
    intro w
    rw [valElems_writeBack m evtID.Val c1 b.eventHandlers b.eventHandlers w,
      valElems_congr b m hm]
    by_cases hw : evtID.Val = w
    · simp only [hw, if_true]
      rw [← hw, valElems_of_lookup b m hm evtID.Val c hl]
      exact call_sublist_start c c1 evtID g p r tr hc
    · simp only [hw, if_false]
      exact List.Sublist.refl _

/-- A bucket call only shortens sequences. -/
theorem bucket_call_sublist (b b1 : eventTypeHandlers ET EV HK) (evtID : EventID ET EV) (g : Nat)
    (p : List Nat) (r : Option GoError) (tr : List (TypeCall ET EV HK))
    (h : b.call evtID g p = .ok (b1, r, tr)) :
    b1.typeElems.Sublist b.typeElems ∧ ∀ w, (b1.valElems w).Sublist (b.valElems w) := by
  rcases bucket_call_shape b b1 evtID g p r tr h with
    ⟨-, tr2, h2⟩ | ⟨l, l1, r1, tr1, hb, hc, ⟨-, -, rfl⟩ | ⟨-, tr2, h2⟩⟩
  · obtain ⟨e1, e2⟩ := callVal_sublist b b1 evtID g p r tr2 h2
    exact ⟨by rw [e1], e2⟩
  · have hT : b.typeElems = l.handlerList := by simp [eventTypeHandlers.typeElems, hb]
    refine ⟨?_, fun _ => List.Sublist.refl _⟩
    rw [typeElems_ite, hT]
    exact call_sublist_start l l1 evtID g p r1 tr1 hc
  · have hT : b.typeElems = l.handlerList := by simp [eventTypeHandlers.typeElems, hb]
    obtain ⟨e1, e2⟩ := callVal_sublist _ b1 evtID g p r tr2 h2
    refine ⟨?_, e2⟩
    rw [e1, typeElems_ite, hT]
    exact call_sublist_start l l1 evtID g p r1 tr1 hc

theorem callVal_leaves_absent (b b1 : eventTypeHandlers ET EV HK) (evtID : EventID ET EV)
    (g : Nat) (p : List Nat) (r : Option GoError) (tr : List (Call ET EV HK)) (hs : b.Sound)
    (h : b.callVal evtID g p = .ok (b1, r, tr))
    (hsoft : ∀ y ∈ b.valElems evtID.Val, y.Value.soft ⟨evtID, p, g⟩)
    (x : Element ET EV HK) (hx : x ∈ b.valElems evtID.Val)
    (hleave : x.Value.leaves ⟨evtID, p, g⟩ = true) :
    x.Value.key ∉ keysOf (b1.valElems evtID.Val) := by
  rcases callVal_shape b b1 evtID g p r tr h with ⟨-, -, -, h0⟩ | ⟨m, c, c1, hm, hl, hc, rfl⟩
  · rw [h0] at hx; cases hx
  · rw [valElems_writeBack m evtID.Val c1 b.eventHandlers b.eventHandlers evtID.Val]
    simp only [if_true]
    rw [valElems_of_lookup b m hm evtID.Val c hl] at hx hsoft
    exact call_unlinked_absent c c1 evtID g p r tr (hs.valLists m _ c hm hl).1 hc x
      (mem_unlinkedBy_of_soft _ _ hsoft x hx hleave)

/-- After a bucket call over handlers that return no hard error, the entries that leave are in
their sequences no more. -/
theorem bucket_call_leaves_absent (b b1 : eventTypeHandlers ET EV HK) (evtID : EventID ET EV)
    (g : Nat) (p : List Nat) (r : Option GoError) (tr : List (TypeCall ET EV HK)) (hs : b.Sound)
    (h : b.call evtID g p = .ok (b1, r, tr))
    (hsoftT : ∀ y ∈ b.typeElems, y.Value.soft ⟨evtID, p, g⟩)
    (hsoftV : ∀ y ∈ b.valElems evtID.Val, y.Value.soft ⟨evtID, p, g⟩)
    (x : Element ET EV HK) (hleave : x.Value.leaves ⟨evtID, p, g⟩ = true) :
    (x ∈ b.typeElems → x.Value.key ∉ keysOf b1.typeElems) ∧
      (x ∈ b.valElems evtID.Val → x.Value.key ∉ keysOf (b1.valElems evtID.Val)) := by
  rcases bucket_call_shape b b1 evtID g p r tr h with
    ⟨hb, tr2, h2⟩ | ⟨l, l1, r1, tr1, hb, hc, hcase⟩
  · constructor
    · intro hx
      simp [eventTypeHandlers.typeElems, hb] at hx
    · intro hx
      exact callVal_leaves_absent b b1 evtID g p r tr2 hs h2 hsoftV x hx hleave
  · have hT : b.typeElems = l.handlerList := by simp [eventTypeHandlers.typeElems, hb]
    rw [hT] at hsoftT
    have hr1 : r1 = none := by
      obtain ⟨-, e2, -⟩ := call_result l l1 evtID g p r1 tr1 hc
      rw [e2]
      exact (pass_of_soft _ _ hsoftT).2.1
    have habsT : x ∈ l.handlerList → x.Value.key ∉ keysOf l1.handlerList := fun hx =>
      call_unlinked_absent l l1 evtID g p r1 tr1 (hs.typeLevel l hb).1 hc x
        (mem_unlinkedBy_of_soft _ _ hsoftT x hx hleave)
    rcases hcase with ⟨hne, -, -⟩ | ⟨-, tr2, h2⟩
    · exact absurd hr1 hne
    · obtain ⟨e1, -⟩ := callVal_sublist _ b1 evtID g p r tr2 h2
      constructor
      · intro hx
        rw [e1, typeElems_ite]
        rw [hT] at hx
        exact habsT hx
      · intro hx
        exact callVal_leaves_absent _ b1 evtID g p r tr2
          (sound_passed b l l1 evtID g p r1 tr1 hs hb hc) h2 hsoftV x hx hleave

end BucketEffect

section DispatchEffect

variable {ET EV HK : Type} [DecidableEq ET] [DecidableEq EV]

theorem elementsAt_writeBack (d d1 : EventDispatcher ET EV HK) (t : ET)
    (b1 : eventTypeHandlers ET EV HK)
    (h : d1.typesHandlers = if b1.empty then mapDelete d.typesHandlers t
      else mapStore d.typesHandlers t b1) :
    (∀ t2 v, t2 ≠ t → d1.elementsAt t2 v = d.elementsAt t2 v) ∧
      d1.elementsAt t none = b1.typeElems ∧ ∀ w, d1.elementsAt t (some w) = b1.valElems w := by
  have hother : ∀ t2, t2 ≠ t → mapLookup d1.typesHandlers t2 = mapLookup d.typesHandlers t2 := by
    intro t2 ht
    rw [h]
    by_cases he : b1.empty = true
    · simp [he, mapLookup_mapDelete, Ne.symm ht]
    · simp [he, mapLookup_mapStore, Ne.symm ht]
  refine ⟨?_, ?_⟩
  · intro t2 v ht
    simp [EventDispatcher.elementsAt, EventDispatcher.listAt, hother t2 ht]
  · by_cases he : b1.empty = true
    · have hl : mapLookup d1.typesHandlers t = none := by
        rw [h]; simp [he, mapLookup_mapDelete]
      have h1 : b1.eventHandlers = none ∧ b1.valHandlers = none := by
        simpa [eventTypeHandlers.empty] using he
      refine ⟨?_, ?_⟩
      · rw [elementsAt_of_lookup_none d1 t hl]
        simp [eventTypeHandlers.typeElems, h1.1]
      · intro w
        rw [elementsAt_of_lookup_none d1 t hl]
        simp [eventTypeHandlers.valElems, h1.2]
    · have hl : mapLookup d1.typesHandlers t = some b1 := by
        rw [h]; simp [he, mapLookup_mapStore]
      exact elementsAt_of_lookup d1 t b1 hl

variable [DecidableEq HK]

/-- A dispatch only shortens the registered sequences. -/
theorem Dispatch_sublist (d d1 : EventDispatcher ET EV HK) (evtId : EventID ET EV) (g : Nat)
    (p : List Nat) (r : Option GoError) (tr : List (Invocation ET EV HK))
    (h : d.Dispatch evtId g p = .ok (d1, r, tr)) (t : ET) (v : Option EV) :
    (d1.elementsAt t v).Sublist (d.elementsAt t v) := by
  rcases Dispatch_shape d d1 evtId g p r tr h with ⟨-, rfl, -, -⟩ | ⟨b, b1, trb, hl, -, hc, hd1⟩
  · exact List.Sublist.refl _
  · have hth : d1.typesHandlers = if b1.empty then mapDelete d.typesHandlers evtId.Typ
        else mapStore d.typesHandlers evtId.Typ b1 := by rw [hd1]
    obtain ⟨w1, w2, w3⟩ := elementsAt_writeBack d d1 evtId.Typ b1 hth
    obtain ⟨e1, e2⟩ := elementsAt_of_lookup d evtId.Typ b hl
    obtain ⟨s1, s2⟩ := bucket_call_sublist b b1 evtId g p r trb hc
    by_cases ht : t = evtId.Typ
    · subst ht
      cases v with
      | none => rw [w2, e1]; exact s1
      | some w => rw [w3, e2]; exact s2 w
    · rw [w1 t v ht]

/-- After a dispatch over handlers that return no hard error, an entry that leaves is no more
in the sequence it was registered in. -/
theorem Dispatch_leaves_absent (d d1 : EventDispatcher ET EV HK) (evtId : EventID ET EV)
    (g : Nat) (p : List Nat) (r : Option GoError) (tr : List (Invocation ET EV HK))
    (hw : d.WellFormed) (h : d.Dispatch evtId g p = .ok (d1, r, tr))
    (hsoft : ∀ y ∈ d.dispatchOrder evtId, y.2.Value.soft ⟨evtId, p, g⟩)
    (x : Element ET EV HK) (hleave : x.Value.leaves ⟨evtId, p, g⟩ = true) :
    (x ∈ d.elementsAt evtId.Typ none → x.Value.key ∉ keysOf (d1.elementsAt evtId.Typ none)) ∧
      (x ∈ d.elementsAt evtId.Typ (some evtId.Val) →
        x.Value.key ∉ keysOf (d1.elementsAt evtId.Typ (some evtId.Val))) := by
  rcases Dispatch_shape d d1 evtId g p r tr h with ⟨hl, -, -, -⟩ | ⟨b, b1, trb, hl, -, hc, hd1⟩
  · constructor
    · intro hx
      rw [elementsAt_of_lookup_none d _ hl] at hx
      cases hx
    · intro hx
      rw [elementsAt_of_lookup_none d _ hl] at hx
      cases hx
  · have hth : d1.typesHandlers = if b1.empty then mapDelete d.typesHandlers evtId.Typ
        else mapStore d.typesHandlers evtId.Typ b1 := by rw [hd1]
    obtain ⟨-, w2, w3⟩ := elementsAt_writeBack d d1 evtId.Typ b1 hth
    obtain ⟨e1, e2⟩ := elementsAt_of_lookup d evtId.Typ b hl
    have hsT : ∀ y ∈ b.typeElems, y.Value.soft ⟨evtId, p, g⟩ := by
      intro y hy
      refine hsoft (none, y) ?_
      simp only [EventDispatcher.dispatchOrder, e1]
      exact List.mem_append_left _ (List.mem_map.2 ⟨y, hy, rfl⟩)
    have hsV : ∀ y ∈ b.valElems evtId.Val, y.Value.soft ⟨evtId, p, g⟩ := by
      intro y hy
      refine hsoft (some evtId.Val, y) ?_
      simp only [EventDispatcher.dispatchOrder, e2]
      exact List.mem_append_right _ (List.mem_map.2 ⟨y, hy, rfl⟩)
    have := bucket_call_leaves_absent b b1 evtId g p r trb (hw.buckets _ b hl).1 hc hsT hsV
      x hleave
    rw [w2, w3, e1, e2]
    exact this

/-- A dispatch over handlers that return no hard error invokes the whole dispatch order and
returns nil. -/
theorem Dispatch_soft (d : EventDispatcher ET EV HK) (evtId : EventID ET EV) (g : Nat)
    (p : List Nat) (hidle : d.isCalling = false)
    (hsoft : ∀ y ∈ d.dispatchOrder evtId, y.2.Value.soft ⟨evtId, p, g⟩) :
    ∃ d1, d.Dispatch evtId g p =
      .ok (d1, none, (d.dispatchOrder evtId).map (toInvocation ⟨evtId, p, g⟩)) := by
  obtain ⟨i1, i2, i3⟩ := pass_of_soft (taggedResult ⟨evtId, p, g⟩) (d.dispatchOrder evtId) hsoft
  obtain ⟨d1, h1⟩ := Dispatch_pass d evtId g p hidle i3
  exact ⟨d1, by rw [h1, i1, i2]⟩

end DispatchEffect

section CountFacts

variable {ET EV HK : Type} [DecidableEq HK]

theorem countP_key_of_nodup (l : List (Element ET EV HK)) (hn : (keysOf l).Nodup)
    (x : Element ET EV HK) (hx : x ∈ l) :
    List.countP (fun e => decide (e.Value.key = x.Value.key)) l = 1 := by
  induction l with
  | nil => cases hx
  | cons a l ih =>
    simp only [keysOf, List.map_cons, List.nodup_cons] at hn
    rcases List.mem_cons.1 hx with h | h
    · subst h
      have h0 : List.countP (fun e => decide (e.Value.key = x.Value.key)) l = 0 := by
        rw [List.countP_eq_zero]
        intro e he
        simp only [decide_eq_true_eq]
        intro hk
        exact hn.1 (List.mem_map.2 ⟨e, he, hk⟩)
      simp [List.countP_cons, h0]
    · have hne : a.Value.key ≠ x.Value.key := by
        intro hk
        exact hn.1 (List.mem_map.2 ⟨x, h, hk.symm⟩)
      have := ih hn.2 h
      simp [List.countP_cons, hne, this]

end CountFacts

section RunFacts

variable {ET EV HK : Type} [DecidableEq ET] [DecidableEq EV] [DecidableEq HK]

theorem listAt_consistent (d : EventDispatcher ET EV HK) (hw : d.WellFormed) (t : ET)
    (v : Option EV) (l : eventHandlers ET EV HK) (h : d.listAt t v = some l) : l.Consistent := by
  unfold EventDispatcher.listAt at h
  cases hl : mapLookup d.typesHandlers t with
  | none => simp [hl] at h
  | some b =>
    simp only [hl] at h
    have hs := (hw.buckets t b hl).1
    cases v with
    | none => exact (hs.typeLevel l h).1
    | some w =>
      simp only at h
      cases hv : b.valHandlers with
      | none => simp [hv] at h
      | some m =>
        simp only [hv] at h
        exact (hs.valLists m w l hv h).1

theorem elementsAt_keys_nodup (d : EventDispatcher ET EV HK) (hw : d.WellFormed) (t : ET)
    (v : Option EV) : (keysOf (d.elementsAt t v)).Nodup := by
  unfold EventDispatcher.elementsAt
  cases h : d.listAt t v with
  | none => simp [keysOf]
  | some l => simpa using (listAt_consistent d hw t v l h).keys_nodup

/-- The invocations of an entry that is not registered are none. -/
theorem countP_absent (d : EventDispatcher ET EV HK) (evtId : EventID ET EV) (g : Nat)
    (p : List Nat) (t : ET) (v : Option EV) (k : HK) (hk : k ∉ keysOf (d.elementsAt t v)) :
    List.countP (Invocation.isOf t v k)
      ((d.dispatchOrder evtId).map (toInvocation ⟨evtId, p, g⟩)) = 0 := by
  rw [List.countP_eq_zero]
  intro i hi
  obtain ⟨y, hy, rfl⟩ := List.mem_map.1 hi
  simp only [Invocation.isOf, toInvocation, decide_eq_true_eq, not_and]
  intro ht hv hkey
  apply hk
  rcases List.mem_append.1 hy with h | h
  · obtain ⟨e, he, rfl⟩ := List.mem_map.1 h
    simp only at hv hkey
    rw [← ht, ← hv, ← hkey]
    exact List.mem_map.2 ⟨e, he, rfl⟩
  · obtain ⟨e, he, rfl⟩ := List.mem_map.1 h
    simp only at hv hkey
    rw [← ht, ← hv, ← hkey]
    exact List.mem_map.2 ⟨e, he, rfl⟩

/-- The invocations of a registered entry in a dispatch that runs the whole dispatch order of
a matching event id are exactly one. -/
theorem countP_present (d : EventDispatcher ET EV HK) (hw : d.WellFormed)
    (evtId : EventID ET EV) (g : Nat) (p : List Nat) (v : Option EV)
    (hv : v = none ∨ v = some evtId.Val) (x : Element ET EV HK)
    (hx : x ∈ d.elementsAt evtId.Typ v) :
    List.countP (Invocation.isOf evtId.Typ v x.Value.key)
      ((d.dispatchOrder evtId).map (toInvocation ⟨evtId, p, g⟩)) = 1 := by
  have hcount := countP_key_of_nodup _ (elementsAt_keys_nodup d hw evtId.Typ v) x hx
  simp only [EventDispatcher.dispatchOrder, List.map_append, List.map_map, List.countP_append,
    List.countP_map]
  rcases hv with rfl | rfl
  · have h1 : (Invocation.isOf evtId.Typ none x.Value.key ∘ toInvocation ⟨evtId, p, g⟩ ∘
        fun e => ((none : Option EV), e)) =
        fun e : Element ET EV HK => decide (e.Value.key = x.Value.key) := by
      funext e
      simp [Invocation.isOf, toInvocation]
    have h2 : (Invocation.isOf evtId.Typ none x.Value.key ∘ toInvocation ⟨evtId, p, g⟩ ∘
        fun e => (some evtId.Val, e)) = fun _ : Element ET EV HK => false := by
      funext e
      simp [Invocation.isOf, toInvocation]
    rw [h1, h2, hcount]
    simp
  · have h1 : (Invocation.isOf evtId.Typ (some evtId.Val) x.Value.key ∘
        toInvocation ⟨evtId, p, g⟩ ∘ fun e => ((none : Option EV), e)) =
        fun _ : Element ET EV HK => false := by
      funext e
      simp [Invocation.isOf, toInvocation]
    have h2 : (Invocation.isOf evtId.Typ (some evtId.Val) x.Value.key ∘
        toInvocation ⟨evtId, p, g⟩ ∘ fun e => (some evtId.Val, e)) =
        fun e : Element ET EV HK => decide (e.Value.key = x.Value.key) := by
      funext e
      simp [Invocation.isOf, toInvocation]
    rw [h1, h2, hcount]
    simp

theorem dispatchOrder_subset (d d1 : EventDispatcher ET EV HK) (evtId : EventID ET EV)
    (g : Nat) (p : List Nat) (r : Option GoError) (tr : List (Invocation ET EV HK))
    (h : d.Dispatch evtId g p = .ok (d1, r, tr)) (evtId2 : EventID ET EV) :
    ∀ y ∈ d1.dispatchOrder evtId2, y ∈ d.dispatchOrder evtId2 := by
  intro y hy
  unfold EventDispatcher.dispatchOrder at hy ⊢
  rcases List.mem_append.1 hy with h1 | h1
  · obtain ⟨e, he, rfl⟩ := List.mem_map.1 h1
    exact List.mem_append_left _
      (List.mem_map.2 ⟨e, (Dispatch_sublist d d1 evtId g p r tr h _ _).subset he, rfl⟩)
  · obtain ⟨e, he, rfl⟩ := List.mem_map.1 h1
    exact List.mem_append_right _
      (List.mem_map.2 ⟨e, (Dispatch_sublist d d1 evtId g p r tr h _ _).subset he, rfl⟩)

/-- A run of dispatches over handlers that return no hard error never invokes an entry that is
not registered, and does not register it. -/
theorem run_absent (calls : List (EventID ET EV × Nat × List Nat))
    (d : EventDispatcher ET EV HK) (hw : d.WellFormed)
    (hsoft : ∀ c ∈ calls, ∀ y ∈ d.dispatchOrder c.1, y.2.Value.soft ⟨c.1, c.2.2, c.2.1⟩)
    (t : ET) (v : Option EV) (k : HK) (hk : k ∉ keysOf (d.elementsAt t v)) :
    ∃ d1 rs tr, DispatchAll calls d = .ok (d1, rs, tr) ∧ d1.WellFormed ∧
      (∀ r ∈ rs, r = none) ∧ List.countP (Invocation.isOf t v k) tr = 0 ∧
      k ∉ keysOf (d1.elementsAt t v) := by
  induction calls generalizing d with
  | nil => exact ⟨d, [], [], rfl, hw, by simp, by simp, hk⟩
  | cons c cs ih =>
    obtain ⟨d1, h1⟩ := Dispatch_soft d c.1 c.2.1 c.2.2 hw.idle
      (hsoft c (List.mem_cons_self _ _))
    have hw1 := wellFormed_Dispatch d d1 _ _ _ _ _ hw h1
    have hsoft1 : ∀ c2 ∈ cs, ∀ y ∈ d1.dispatchOrder c2.1,
        y.2.Value.soft ⟨c2.1, c2.2.2, c2.2.1⟩ := fun c2 hc2 y hy =>
      hsoft c2 (List.mem_cons_of_mem _ hc2) y (dispatchOrder_subset d d1 _ _ _ _ _ h1 c2.1 y hy)
    have hk1 : k ∉ keysOf (d1.elementsAt t v) := by
      intro hmem
      obtain ⟨e, he, hek⟩ := List.mem_map.1 hmem
      exact hk (List.mem_map.2 ⟨e, (Dispatch_sublist d d1 _ _ _ _ _ h1 t v).subset he, hek⟩)
    obtain ⟨d2, rs, trs, h2, hw2, hrs, hcount, hk2⟩ := ih d1 hw1 hsoft1 hk1
    refine ⟨d2, none :: rs,
      (d.dispatchOrder c.1).map (toInvocation ⟨c.1, c.2.2, c.2.1⟩) ++ trs, ?_, hw2, ?_, ?_, hk2⟩
    · simp only [DispatchAll, h1, h2]
    · intro r hr
      rcases List.mem_cons.1 hr with h | h
      · exact h
      · exact hrs r h
    · rw [List.countP_append, hcount, countP_absent d c.1 c.2.1 c.2.2 t v k hk]

end RunFacts

section NoOpFacts

theorem mapStore_self {K V : Type} [DecidableEq K] (m : List (K × V)) (k : K) (v : V)
    (h : mapLookup m k = some v) : mapStore m k v = m := by
  induction m with
  | nil => simp [mapLookup] at h
  | cons q m ih =>
    obtain ⟨a, b⟩ := q
    by_cases hak : a = k
    · subst hak
      simp only [mapLookup, if_true, Option.some.injEq] at h
      subst h
      simp [mapStore]
    · simp only [mapLookup, hak, if_false] at h
      simp [mapStore, hak, ih h]

theorem empty_false_of_ne_nil {ET EV HK : Type} (hs : eventHandlers ET EV HK) (h : hs.handlerList ≠ []) :
    hs.empty = false := by
  cases he : hs.empty with
  | false => rfl
  | true => exact absurd ((empty_iff hs).1 he) h

theorem writeBack_self {ET EV HK : Type} [DecidableEq ET] (d : EventDispatcher ET EV HK) (t : ET) (b : eventTypeHandlers ET EV HK)
    (hl : mapLookup d.typesHandlers t = some b) (he : b.empty = false) :
    ({ d with typesHandlers := if b.empty then mapDelete d.typesHandlers t
        else mapStore d.typesHandlers t b } : EventDispatcher ET EV HK) = d := by
  simp only [he, Bool.false_eq_true, if_false, mapStore_self _ t b hl]

variable {ET EV HK : Type} [DecidableEq EV] [DecidableEq HK]

/-- In a sound bucket, the type-level `rem` of a key that is not in the type-level sequence
changes nothing. -/
theorem bucket_rem_absent (b : eventTypeHandlers ET EV HK) (hs : b.Sound) (k : HK)
    (hk : k ∉ keysOf b.typeElems) : b.rem k = b := by
  unfold eventTypeHandlers.rem
  cases hb : b.eventHandlers with
  | none => rfl
  | some l =>
    obtain ⟨hcons, hne⟩ := hs.typeLevel l hb
    have hk1 : k ∉ keysOf l.handlerList := by
      simpa [eventTypeHandlers.typeElems, hb] using hk
    have hrem : l.rem k = l := rem_absent l k ((lookup_none_iff l hcons k).2 hk1)
    simp only [hrem, empty_false_of_ne_nil l hne, Bool.false_eq_true, if_false]
    cases b
    simp only at hb
    rw [hb]

/-- In a sound bucket, the value-level `rem` of a key that is not in the sequence of the value
changes nothing. -/
theorem bucket_remVal_absent (b : eventTypeHandlers ET EV HK) (hs : b.Sound) (ev : EV) (k : HK)
    (hk : k ∉ keysOf (b.valElems ev)) : b.remVal ev k = b := by
  unfold eventTypeHandlers.remVal
  cases hv : b.valHandlers with
  | none => simp [mapLookup]
  | some m =>
    simp only [Option.getD_some]
    cases hl : mapLookup m ev with
    | none => rfl
    | some c =>
      obtain ⟨hcons, hne⟩ := hs.valLists m ev c hv hl
      have hk1 : k ∉ keysOf c.handlerList := by
        simpa [eventTypeHandlers.valElems, hv, hl] using hk
      have hrem : c.rem k = c := rem_absent c k ((lookup_none_iff c hcons k).2 hk1)
      have hm : (m.length == 0) = false := by
        cases m with
        | nil => exact absurd rfl (hs.valMap [] hv)
        | cons q qs => simp
      simp only [hrem, empty_false_of_ne_nil c hne, Bool.false_eq_true, if_false,
        mapStore_self m ev c hl, hm]
      cases b
      simp only at hv
      rw [hv]

variable [DecidableEq ET]

theorem RemTypeHandler_absent (d : EventDispatcher ET EV HK) (hw : d.WellFormed) (t : ET)
    (k : HK) (hk : k ∉ keysOf (d.elementsAt t none)) : d.RemTypeHandler t k = d := by
  unfold EventDispatcher.RemTypeHandler
  cases hl : mapLookup d.typesHandlers t with
  | none => rfl
  | some b =>
    obtain ⟨hs, he⟩ := hw.buckets t b hl
    rw [(elementsAt_of_lookup d t b hl).1] at hk
    simp only [bucket_rem_absent b hs k hk]
    simpa [he] using writeBack_self d t b hl he

theorem RemHandler_absent (d : EventDispatcher ET EV HK) (hw : d.WellFormed)
    (evtId : EventID ET EV) (k : HK)
    (hk : k ∉ keysOf (d.elementsAt evtId.Typ (some evtId.Val))) : d.RemHandler evtId k = d := by
  unfold EventDispatcher.RemHandler
  cases hl : mapLookup d.typesHandlers evtId.Typ with
  | none => rfl
  | some b =>
    obtain ⟨hs, he⟩ := hw.buckets _ b hl
    rw [(elementsAt_of_lookup d _ b hl).2] at hk
    simp only [bucket_remVal_absent b hs evtId.Val k hk]
    simpa [he] using writeBack_self d evtId.Typ b hl he

theorem Dispatch_absent (d : EventDispatcher ET EV HK) (hw : d.WellFormed)
    (evtId : EventID ET EV) (g : Nat) (p : List Nat)
    (hT : d.elementsAt evtId.Typ none = [])
    (hV : d.elementsAt evtId.Typ (some evtId.Val) = []) :
    d.Dispatch evtId g p = .ok (d, none, []) := by
  have hn : reachesNil (taggedResult ⟨evtId, p, g⟩) (d.dispatchOrder evtId) = false := by
    simp [EventDispatcher.dispatchOrder, hT, hV, reachesNil]
  obtain ⟨d1, h1⟩ := Dispatch_pass d evtId g p hw.idle hn
  have h0 : d.dispatchOrder evtId = [] := by simp [EventDispatcher.dispatchOrder, hT, hV]
  rw [h0] at h1
  simp only [firstHard, invokedBy, List.map_nil] at h1
  rcases Dispatch_shape d d1 evtId g p _ _ h1 with ⟨-, rfl, -, -⟩ | ⟨b, b1, trb, hl, -, hc, hd1⟩
  · exact h1
  · obtain ⟨hs, he⟩ := hw.buckets _ b hl
    obtain ⟨e1, e2⟩ := elementsAt_of_lookup d _ b hl
    rw [e1] at hT
    rw [e2] at hV
    have hb : b.eventHandlers = none := by
      cases hb : b.eventHandlers with
      | none => rfl
      | some l =>
        exfalso
        apply (hs.typeLevel l hb).2
        simpa [eventTypeHandlers.typeElems, hb] using hT
    have hb1 : b1 = b := by
      rcases bucket_call_shape b b1 evtId g p _ _ hc with
        ⟨-, tr2, h2⟩ | ⟨l, l1, r1, tr1, hb2, -, -⟩
      · rcases callVal_shape b b1 evtId g p _ _ h2 with ⟨h3, -, -, -⟩ | ⟨m, c, c1, hm, hlk, -, -⟩
        · exact h3
        · exfalso
          apply (hs.valLists m _ c hm hlk).2
          simpa [eventTypeHandlers.valElems, hm, hlk] using hV
      · rw [hb] at hb2; cases hb2
    rw [h1, hd1, hb1]
    have := writeBack_self d evtId.Typ b hl he
    simp only [he, Bool.false_eq_true, if_false] at this ⊢
    cases d
    simp only at this hw ⊢
    have hidle := hw.idle
    simp only at hidle
    rw [hidle] at this ⊢
    simp only [EventDispatcher.mk.injEq, and_true] at this
    rw [this]

end NoOpFacts

section PanicFacts

variable {ET EV HK : Type} [DecidableEq HK]

theorem call_panic (hs : eventHandlers ET EV HK) (evtID : EventID ET EV) (g : Nat)
    (p : List Nat) (q : Panic) (h : hs.call evtID g p = .error q) :
    q = Panic.nilDereference := by
  cases hn : reachesNil (Element.result ⟨evtID, p, g⟩) hs.handlerList with
  | true =>
    rw [call_error hs evtID g p hn] at h
    cases h
    rfl
  | false =>
    obtain ⟨hs1, h1⟩ := call_ok hs evtID g p hn
    rw [h1] at h
    cases h

theorem call_events (hs hs1 : eventHandlers ET EV HK) (evtID : EventID ET EV) (g : Nat)
    (p : List Nat) (r : Option GoError) (tr : List (Call ET EV HK))
    (h : hs.call evtID g p = .ok (hs1, r, tr)) : ∀ c ∈ tr, c.2 = ⟨evtID, p, g⟩ := by
  obtain ⟨-, -, htr⟩ := call_result hs hs1 evtID g p r tr h
  intro c hc
  rw [htr] at hc
  obtain ⟨e, -, rfl⟩ := List.mem_map.1 hc
  rfl

variable [DecidableEq EV]

theorem callVal_panic (b : eventTypeHandlers ET EV HK) (evtID : EventID ET EV) (g : Nat)
    (p : List Nat) (q : Panic) (h : b.callVal evtID g p = .error q) :
    q = Panic.nilDereference := by
  unfold eventTypeHandlers.callVal at h
  split at h
  · cases h
  · split at h
    · cases h
    · split at h
      · rename_i q1 heq
        cases h
        exact call_panic _ evtID g p _ heq
      · split at h <;> cases h

theorem callVal_events (b b1 : eventTypeHandlers ET EV HK) (evtID : EventID ET EV) (g : Nat)
    (p : List Nat) (r : Option GoError) (tr : List (Call ET EV HK))
    (h : b.callVal evtID g p = .ok (b1, r, tr)) : ∀ c ∈ tr, c.2 = ⟨evtID, p, g⟩ := by
  rcases callVal_shape b b1 evtID g p r tr h with ⟨-, -, rfl, -⟩ | ⟨m, c, c1, -, -, hc, -⟩
  · intro c hc
    cases hc
  · exact call_events c c1 evtID g p r tr hc

theorem bucket_call_panic (b : eventTypeHandlers ET EV HK) (evtID : EventID ET EV) (g : Nat)
    (p : List Nat) (q : Panic) (h : b.call evtID g p = .error q) :
    q = Panic.nilDereference := by
  unfold eventTypeHandlers.call at h
  cases ht : b.eventHandlers with
  | none =>
    simp only [ht] at h
    cases hcv : b.callVal evtID g p with
    | error q1 =>
      simp only [hcv, Except.error.injEq] at h
      rw [← h]
      exact callVal_panic _ evtID g p _ hcv
    | ok x => simp [hcv] at h
  | some l =>
    simp only [ht] at h
    cases hcl : l.call evtID g p with
    | error q1 =>
      simp only [hcl, Except.error.injEq] at h
      rw [← h]
      exact call_panic _ evtID g p _ hcl
    | ok x =>
      obtain ⟨l1, r1, tr1⟩ := x
      simp only [hcl] at h
      by_cases hr : r1 = none
      · subst hr
        simp only [ne_eq, not_true_eq_false, if_false] at h
        generalize hcv : eventTypeHandlers.callVal
          (⟨b.valHandlers, if l1.empty then none else some l1⟩ : eventTypeHandlers ET EV HK)
          evtID g p = res at h
        cases res with
        | error q1 =>
          simp only [Except.error.injEq] at h
          rw [← h]
          exact callVal_panic _ evtID g p _ hcv
        | ok x => simp at h
      · simp [hr] at h

theorem bucket_call_events (b b1 : eventTypeHandlers ET EV HK) (evtID : EventID ET EV)
    (g : Nat) (p : List Nat) (r : Option GoError) (tr : List (TypeCall ET EV HK))
    (h : b.call evtID g p = .ok (b1, r, tr)) : ∀ c ∈ tr, c.2.2 = ⟨evtID, p, g⟩ := by
  unfold eventTypeHandlers.call at h
  cases ht : b.eventHandlers with
  | none =>
    simp only [ht] at h
    cases hcv : b.callVal evtID g p with
    | error q1 => simp [hcv] at h
    | ok x =>
      obtain ⟨b2, r2, tr2⟩ := x
      simp only [hcv, Except.ok.injEq, Prod.mk.injEq] at h
      obtain ⟨-, -, rfl⟩ := h
      intro c hc
      obtain ⟨c0, hc0, rfl⟩ := List.mem_map.1 hc
      exact callVal_events _ _ evtID g p _ _ hcv c0 hc0
  | some l =>
    simp only [ht] at h
    cases hcl : l.call evtID g p with
    | error q1 => simp [hcl] at h
    | ok x =>
      obtain ⟨l1, r1, tr1⟩ := x
      have e1 := call_events _ _ evtID g p _ _ hcl
      simp only [hcl] at h
      by_cases hr : r1 = none
      · subst hr
        simp only [ne_eq, not_true_eq_false, if_false] at h
        generalize hcv : eventTypeHandlers.callVal
          (⟨b.valHandlers, if l1.empty then none else some l1⟩ : eventTypeHandlers ET EV HK)
          evtID g p = res at h
        cases res with
        | error q1 => simp at h
        | ok x =>
          obtain ⟨b2, r2, tr2⟩ := x
          simp only [Except.ok.injEq, Prod.mk.injEq] at h
          obtain ⟨-, -, rfl⟩ := h
          intro c hc
          rcases List.mem_append.1 hc with hc1 | hc1
          · obtain ⟨c0, hc0, rfl⟩ := List.mem_map.1 hc1
            exact e1 c0 hc0
          · obtain ⟨c0, hc0, rfl⟩ := List.mem_map.1 hc1
            exact callVal_events _ _ evtID g p _ _ hcv c0 hc0
      · simp only [ne_eq, hr, not_false_eq_true, if_true, Except.ok.injEq, Prod.mk.injEq] at h
        obtain ⟨-, -, rfl⟩ := h
        intro c hc
        obtain ⟨c0, hc0, rfl⟩ := List.mem_map.1 hc
        exact e1 c0 hc0

variable [DecidableEq ET]

/-- A dispatch on an idle dispatcher never raises the nested-dispatch fault. -/
theorem Dispatch_panic (d : EventDispatcher ET EV HK) (hidle : d.isCalling = false)
    (evtId : EventID ET EV) (g : Nat) (p : List Nat) (q : Panic)
    (h : d.Dispatch evtId g p = .error q) : q = Panic.nilDereference := by
  unfold EventDispatcher.Dispatch at h
  split at h
  · cases h
  · simp only [hidle, Bool.false_eq_true, if_false] at h
    split at h
    · rename_i q1 heq
      cases h
      exact bucket_call_panic _ evtId g p _ heq
    · cases h

/-- Every invocation of a dispatch carries the event built from the arguments of `Dispatch`. -/
theorem Dispatch_events (d d1 : EventDispatcher ET EV HK) (evtId : EventID ET EV) (g : Nat)
    (p : List Nat) (r : Option GoError) (tr : List (Invocation ET EV HK))
    (h : d.Dispatch evtId g p = .ok (d1, r, tr)) : ∀ i ∈ tr, i.event = ⟨evtId, p, g⟩ := by
  unfold EventDispatcher.Dispatch at h
  split at h
  · simp only [Except.ok.injEq, Prod.mk.injEq] at h
    obtain ⟨-, -, rfl⟩ := h
    intro i hi
    cases hi
  · split at h
    · cases h
    · split at h
      · cases h
      · rename_i b1 r1 tr1 heq
        simp only [Except.ok.injEq, Prod.mk.injEq] at h
        obtain ⟨-, -, rfl⟩ := h
        intro i hi
        obtain ⟨c, hc, rfl⟩ := List.mem_map.1 hi
        exact bucket_call_events _ _ evtId g p _ _ heq c hc

end PanicFacts

section RequestFacts

variable {ET EV HK : Type}

theorem requestedBy_cons_hard (event : Event ET EV) (e : Element ET EV HK)
    (l : List (Element ET EV HK)) (f : EventHandler ET EV HK) (hh : e.Value.h = some f)
    (hard : isHard (f.HandleEvent event).err = true) :
    requestedBy event (e :: l) = (f.HandleEvent event).rems := by
  simp [requestedBy, invokedBy, Element.result, eventHandler.result, hh, hard,
    eventHandler.requests]

theorem requestedBy_cons_soft (event : Event ET EV) (e : Element ET EV HK)
    (l : List (Element ET EV HK)) (f : EventHandler ET EV HK) (hh : e.Value.h = some f)
    (hard : ¬ isHard (f.HandleEvent event).err = true) :
    requestedBy event (e :: l) = (f.HandleEvent event).rems ++ requestedBy event l := by
  simp [requestedBy, invokedBy, Element.result, eventHandler.result, hh, hard,
    eventHandler.requests]

end RequestFacts

section PendingFacts

variable {ET EV HK : Type} [DecidableEq HK]

theorem rem_calling_pending (hs : eventHandlers ET EV HK) (k : HK) (hc : hs.calling = true) :
    (hs.rem k).pendingRemList.getD [] =
      hs.pendingRemList.getD [] ++ (if (mapLookup hs.handlerMap k).isSome then [k] else []) := by
  unfold eventHandlers.rem
  cases h : mapLookup hs.handlerMap k with
  | none => simp
  | some a => simp [hc]

theorem foldl_rem_calling_pending (ks : List HK) (hs : eventHandlers ET EV HK)
    (hc : hs.calling = true) :
    (ks.foldl eventHandlers.rem hs).pendingRemList.getD [] =
      hs.pendingRemList.getD [] ++
        ks.filter (fun k => (mapLookup hs.handlerMap k).isSome) := by
  induction ks generalizing hs with
  | nil => simp
  | cons k ks ih =>
    obtain ⟨h1, -, h3, -⟩ := rem_calling hs k hc
    simp only [List.foldl_cons]
    rw [ih (hs.rem k) h1, rem_calling_pending hs k hc, h3]
    by_cases hk : (mapLookup hs.handlerMap k).isSome = true
    · simp [hk, List.filter_cons]
    · simp [hk, List.filter_cons]

theorem registered_of_mem_keys (hs : eventHandlers ET EV HK) (hcons : hs.Consistent) (k : HK)
    (hk : k ∈ keysOf hs.handlerList) : (mapLookup hs.handlerMap k).isSome = true := by
  cases hl : mapLookup hs.handlerMap k with
  | some a => rfl
  | none => exact absurd hk ((lookup_none_iff hs hcons k).1 hl)

/-- Unlinking one element of the sequence together with its key keeps a container consistent. -/
theorem consistent_remove_elem (hs hs1 : eventHandlers ET EV HK) (e : Element ET EV HK)
    (he : e ∈ hs.handlerList) (hcons : hs.Consistent)
    (h1 : hs1.handlerList = listRemove hs.handlerList e.addr)
    (h2 : hs1.handlerMap = mapDelete hs.handlerMap e.Value.key)
    (h3 : hs1.nextAddr = hs.nextAddr) : hs1.Consistent := by
  refine consistent_unlink hs hs1 [e] ?_ hcons ?_ ?_ h3
  · intro c hc
    rw [List.mem_singleton.1 hc]; exact he
  · rw [h1]
    unfold listRemove
    apply List.filter_congr
    intro x _
    simp [addrsOf]
  · rw [h2]
    unfold mapDelete
    apply List.filter_congr
    intro x _
    simp [keysOf]

/-- The queue the loop leaves: the queue it found, extended; and a key still in the sequence
is in it exactly when it was in the queue before or an invoked handler asked for its removal. -/
theorem callLoop_pending (event : Event ET EV) (l : List (Element ET EV HK))
    (hs hs1 : eventHandlers ET EV HK) (r : Option GoError) (tr : List (Call ET EV HK))
    (hc : hs.calling = true) (hcons : hs.Consistent) (hsub : l.Sublist hs.handlerList)
    (h : callLoop event l hs = .ok (hs1, r, tr)) :
    (∃ extra, hs1.pendingRemList.getD [] = hs.pendingRemList.getD [] ++ extra) ∧
      ∀ k ∈ keysOf hs1.handlerList,
        (k ∈ hs1.pendingRemList.getD [] ↔
          k ∈ hs.pendingRemList.getD [] ∨ k ∈ requestedBy event l) := by
  induction l generalizing hs hs1 r tr with
  | nil =>
    simp only [callLoop, Except.ok.injEq, Prod.mk.injEq] at h
    obtain ⟨rfl, -, -⟩ := h
    exact ⟨⟨[], by simp⟩, fun k _ => by simp [requestedBy, invokedBy]⟩
  | cons e l ih =>
    cases hh : e.Value.h with
    | none => simp [callLoop, hh] at h
    | some f =>
      obtain ⟨c1, c2, c3, c4⟩ := foldl_rem_calling (f.HandleEvent event).rems hs hc
      have hpend := foldl_rem_calling_pending (f.HandleEvent event).rems hs hc
      have hstep : ∀ k ∈ keysOf hs.handlerList,
          (k ∈ ((f.HandleEvent event).rems.foldl eventHandlers.rem hs).pendingRemList.getD [] ↔
            k ∈ hs.pendingRemList.getD [] ∨ k ∈ (f.HandleEvent event).rems) := by
        intro k hk
        rw [hpend, List.mem_append, List.mem_filter]
        simp [registered_of_mem_keys hs hcons k hk]
      by_cases hard : isHard (f.HandleEvent event).err = true
      · simp only [callLoop, hh, hard, if_true, Except.ok.injEq, Prod.mk.injEq] at h
        obtain ⟨rfl, -, -⟩ := h
        refine ⟨⟨_, hpend⟩, ?_⟩
        intro k hk
        rw [c2] at hk
        rw [requestedBy_cons_hard event e l f hh hard]
        exact hstep k hk
      · simp only [callLoop, hh, hard, Bool.false_eq_true, if_false] at h
        have hel : e ∈ hs.handlerList := hsub.subset (List.mem_cons_self _ _)
        have hlsub : l.Sublist hs.handlerList := (List.sublist_cons_self e l).trans hsub
        have hnd : (addrsOf (e :: l)).Nodup :=
          List.Nodup.sublist (List.Sublist.map _ hsub) hcons.addrs_nodup
        have hea : ∀ x ∈ l, x.addr ≠ e.addr := by
          intro x hx hxe
          simp only [addrsOf, List.map_cons, List.nodup_cons] at hnd
          exact hnd.1 (List.mem_map.2 ⟨x, hx, hxe⟩)
        rw [requestedBy_cons_soft event e l f hh hard]
        split at h
        · cases h
        · rename_i hs3 r3 tr3 heq
          simp only [Except.ok.injEq, Prod.mk.injEq] at h
          obtain ⟨rfl, -, -⟩ := h
          by_cases hl : (e.Value.once ||
              decide ((f.HandleEvent event).err = some GoError.ErrUnregister)) = true
          · rw [if_pos hl] at heq
            have hconsB : (⟨((f.HandleEvent event).rems.foldl eventHandlers.rem hs).calling,
                listRemove ((f.HandleEvent event).rems.foldl eventHandlers.rem hs).handlerList
                  e.addr,
                mapDelete ((f.HandleEvent event).rems.foldl eventHandlers.rem hs).handlerMap
                  e.Value.key,
                ((f.HandleEvent event).rems.foldl eventHandlers.rem hs).pendingRemList,
                ((f.HandleEvent event).rems.foldl eventHandlers.rem hs).nextAddr⟩ :
                eventHandlers ET EV HK).Consistent :=
              consistent_remove_elem
                ((f.HandleEvent event).rems.foldl eventHandlers.rem hs) _ e
                (by rw [c2]; exact hel)
                (consistent_of_eq hs _ hcons c2 c3 c4) rfl rfl rfl
            have hsubB : l.Sublist (listRemove
                ((f.HandleEvent event).rems.foldl eventHandlers.rem hs).handlerList e.addr) := by
              rw [c2]
              have := List.Sublist.filter (fun x : Element ET EV HK => decide (x.addr ≠ e.addr))
                hlsub
              rwa [List.filter_eq_self.2 (fun x hx => by simpa using hea x hx)] at this
            obtain ⟨⟨extra, hex⟩, hiff⟩ := ih _ _ _ _ (by simpa using c1) hconsB hsubB heq
            obtain ⟨-, -, i3, -⟩ := callLoop_state _ _ _ _ _ _ (by simpa using c1) heq
            refine ⟨⟨(f.HandleEvent event).rems.filter
              (fun k => (mapLookup hs.handlerMap k).isSome) ++ extra, ?_⟩, ?_⟩
            · rw [hex]
              show ((f.HandleEvent event).rems.foldl eventHandlers.rem hs).pendingRemList.getD []
                ++ extra = _
              rw [hpend, List.append_assoc]
            intro k hk
            have hk0 : k ∈ keysOf hs.handlerList := by
              obtain ⟨x, hx, hxk⟩ := List.mem_map.1 hk
              rw [i3] at hx
              have hx1 := (List.mem_filter.1 hx).1
              simp only [listRemove, c2] at hx1
              exact List.mem_map.2 ⟨x, (List.mem_filter.1 hx1).1, hxk⟩
            rw [hiff k hk]
            show (k ∈ ((f.HandleEvent event).rems.foldl eventHandlers.rem hs).pendingRemList.getD []
              ∨ k ∈ requestedBy event l) ↔ _
            rw [hstep k hk0, List.mem_append, or_assoc]
          · rw [if_neg hl] at heq
            have hconsB := consistent_of_eq hs _ hcons c2 c3 c4
            obtain ⟨⟨extra, hex⟩, hiff⟩ := ih _ _ _ _ c1 hconsB (by rw [c2]; exact hlsub) heq
            obtain ⟨-, -, i3, -⟩ := callLoop_state _ _ _ _ _ _ c1 heq
            refine ⟨⟨(f.HandleEvent event).rems.filter
              (fun k => (mapLookup hs.handlerMap k).isSome) ++ extra, ?_⟩, ?_⟩
            · rw [hex, hpend, List.append_assoc]
            intro k hk
            have hk0 : k ∈ keysOf hs.handlerList := by
              obtain ⟨x, hx, hxk⟩ := List.mem_map.1 hk
              rw [i3, c2] at hx
              exact List.mem_map.2 ⟨x, (List.mem_filter.1 hx).1, hxk⟩
            rw [hiff k hk, hstep k hk0, List.mem_append, or_assoc]

end PendingFacts

section DrainFacts

theorem lookup_none_no_binding {K V : Type} [DecidableEq K] (m : List (K × V)) (k : K)
    (h : mapLookup m k = none) : ∀ q ∈ m, q.1 ≠ k := by
  induction m with
  | nil => intro q hq; cases hq
  | cons a m ih =>
    obtain ⟨a1, a2⟩ := a
    by_cases hak : a1 = k
    · simp [mapLookup, hak] at h
    · simp only [mapLookup, hak, if_false] at h
      intro q hq
      rcases List.mem_cons.1 hq with h1 | h1
      · rw [h1]; exact hak
      · exact ih h q h1

variable {ET EV HK : Type} [DecidableEq HK]

/-- An immediate `rem` in a consistent container drops from sequence and index exactly the
bindings of the key. -/
theorem rem_idle_filter (hs : eventHandlers ET EV HK) (hcons : hs.Consistent)
    (hc : hs.calling = false) (k : HK) :
    (hs.rem k).calling = false ∧ (hs.rem k).nextAddr = hs.nextAddr ∧
      (hs.rem k).pendingRemList = hs.pendingRemList ∧
      (hs.rem k).handlerList = hs.handlerList.filter (fun e => decide (e.Value.key ≠ k)) ∧
      (hs.rem k).handlerMap = hs.handlerMap.filter (fun q => decide (q.1 ≠ k)) := by
  cases hl : mapLookup hs.handlerMap k with
  | none =>
    rw [rem_absent hs k hl]
    refine ⟨hc, rfl, rfl, ?_, ?_⟩
    · symm
      rw [List.filter_eq_self]
      intro e he
      simp only [decide_eq_true_eq]
      intro hek
      exact (lookup_none_iff hs hcons k).1 hl (List.mem_map.2 ⟨e, he, hek⟩)
    · symm
      rw [List.filter_eq_self]
      intro q hq
      simpa using lookup_none_no_binding _ k hl q hq
  | some a =>
    obtain ⟨g1, g2, g3, g4, g5⟩ := rem_idle_shape hs k a hc hl
    refine ⟨g1, g2, g3, ?_, g5⟩
    rw [g4]
    unfold listRemove
    apply List.filter_congr
    intro e he
    have := consistent_addr_iff_key hs hcons k a hl e he
    by_cases hk : e.Value.key = k
    · simp [hk, this.2 hk]
    · have : e.addr ≠ a := fun h => hk (this.1 h)
      simp [hk, this]

theorem foldl_rem_idle_filter (q : List HK) (hs : eventHandlers ET EV HK)
    (hcons : hs.Consistent) (hc : hs.calling = false) :
    (q.foldl eventHandlers.rem hs).calling = false ∧
      (q.foldl eventHandlers.rem hs).nextAddr = hs.nextAddr ∧
      (q.foldl eventHandlers.rem hs).pendingRemList = hs.pendingRemList ∧
      (q.foldl eventHandlers.rem hs).handlerList =
        hs.handlerList.filter (fun e => decide (e.Value.key ∉ q)) ∧
      (q.foldl eventHandlers.rem hs).handlerMap =
        hs.handlerMap.filter (fun x => decide (x.1 ∉ q)) := by
  induction q generalizing hs with
  | nil => simp [hc]
  | cons k q ih =>
    obtain ⟨g1, g2, g3, g4, g5⟩ := rem_idle_filter hs hcons hc k
    obtain ⟨i1, i2, i3, i4, i5⟩ := ih (hs.rem k) (consistent_rem hs k hcons) g1
    simp only [List.foldl_cons]
    refine ⟨i1, i2.trans g2, i3.trans g3, ?_, ?_⟩
    · rw [i4, g4, List.filter_filter]
      apply List.filter_congr
      intro e _
      by_cases h1 : e.Value.key = k <;> by_cases h2 : e.Value.key ∈ q <;> simp [h1, h2]
    · rw [i5, g5, List.filter_filter]
      apply List.filter_congr
      intro e _
      by_cases h1 : e.1 = k <;> by_cases h2 : e.1 ∈ q <;> simp [h1, h2]

/-- The state after the tail of a pass: flag cleared, queue dropped, every queued key out of
sequence and index. -/
theorem drainPending_shape (hs : eventHandlers ET EV HK) (hcons : hs.Consistent) :
    (drainPending hs).calling = false ∧ (drainPending hs).pendingRemList = none ∧
      (drainPending hs).nextAddr = hs.nextAddr ∧
      (drainPending hs).handlerList =
        hs.handlerList.filter (fun e => decide (e.Value.key ∉ hs.pendingRemList.getD [])) ∧
      (drainPending hs).handlerMap =
        hs.handlerMap.filter (fun x => decide (x.1 ∉ hs.pendingRemList.getD [])) := by
  unfold drainPending
  cases hp : hs.pendingRemList with
  | none => simp
  | some q =>
    obtain ⟨i1, i2, -, i4, i5⟩ := foldl_rem_idle_filter q
      ({ hs with calling := false } : eventHandlers ET EV HK)
      (consistent_of_eq hs _ hcons rfl rfl rfl) rfl
    simp only [hp] at i1 i2 i4 i5 ⊢
    exact ⟨i1, trivial, i2, i4, i5⟩

/-- The two ways a pass returns: from inside the loop with the hard error, or after the loop
through the tail that clears the flag and drains the queue. -/
theorem call_unfold (hs hs1 : eventHandlers ET EV HK) (evtID : EventID ET EV) (g : Nat)
    (p : List Nat) (r : Option GoError) (tr : List (Call ET EV HK))
    (h : hs.call evtID g p = .ok (hs1, r, tr)) :
    ∃ hsL, callLoop ⟨evtID, p, g⟩ hs.handlerList
        ({ hs with calling := true } : eventHandlers ET EV HK) = .ok (hsL, r, tr) ∧
      ((r ≠ none ∧ hs1 = hsL) ∨ (r = none ∧ hs1 = drainPending hsL)) := by
  unfold eventHandlers.call at h
  simp only at h
  split at h
  · cases h
  · rename_i hs2 err tr2 heq
    simp only [Except.ok.injEq, Prod.mk.injEq] at h
    obtain ⟨rfl, rfl, rfl⟩ := h
    exact ⟨hs2, heq, Or.inl ⟨by simp, rfl⟩⟩
  · rename_i hs2 tr2 heq
    simp only [Except.ok.injEq, Prod.mk.injEq] at h
    obtain ⟨rfl, rfl, rfl⟩ := h
    exact ⟨hs2, heq, Or.inr ⟨rfl, rfl⟩⟩

end DrainFacts

section UnlinkShape

variable {ET EV HK : Type}

theorem unlinkedBy_of_soft (event : Event ET EV) (l : List (Element ET EV HK))
    (hsoft : ∀ y ∈ l, y.Value.soft event) :
    unlinkedBy event l = l.filter (fun e => e.Value.leaves event) := by
  induction l with
  | nil => rfl
  | cons e l ih =>
    obtain ⟨r, hr1, hr2⟩ := hsoft e (List.mem_cons_self _ _)
    have := ih (fun y hy => hsoft y (List.mem_cons_of_mem _ hy))
    simp only [unlinkedBy, hr1, hr2, Bool.false_eq_true, if_false, List.filter_cons, this]

theorem unlinkedBy_of_failing (event : Event ET EV) (pre post : List (Element ET EV HK))
    (x : Element ET EV HK) (err : Option GoError) (hpre : ∀ y ∈ pre, y.Value.soft event)
    (hx : x.Value.fails event err) :
    unlinkedBy event (pre ++ x :: post) = pre.filter (fun e => e.Value.leaves event) := by
  induction pre with
  | nil => simp [unlinkedBy, hx.1, hx.2]
  | cons e pre ih =>
    obtain ⟨r, hr1, hr2⟩ := hpre e (List.mem_cons_self _ _)
    have := ih (fun y hy => hpre y (List.mem_cons_of_mem _ hy))
    simp only [List.cons_append, unlinkedBy, hr1, hr2, Bool.false_eq_true, if_false,
      List.filter_cons, List.append_eq, this]

theorem soft_of_complete {α : Type} (res : α → Option (Option GoError)) (l : List α)
    (h1 : firstHard res l = none) (h2 : reachesNil res l = false) :
    ∀ x ∈ l, ∃ r, res x = some r ∧ isHard r = false := by
  induction l with
  | nil => intro x hx; cases hx
  | cons a l ih =>
    simp only [firstHard] at h1
    simp only [reachesNil] at h2
    cases hr : res a with
    | none => simp [hr] at h2
    | some r =>
      by_cases hh : isHard r = true
      · simp only [hr, hh, if_true] at h1
        rw [h1] at hh
        exact absurd hh (by decide)
      · simp only [hr, hh, Bool.false_eq_true, if_false] at h1 h2
        intro x hx
        rcases List.mem_cons.1 hx with h | h
        · rw [h]; exact ⟨r, hr, by simpa using hh⟩
        · exact ih h1 h2 x h

/-- In a sequence with distinct addresses, dropping the addresses of the elements that satisfy
`q` among the first elements keeps the other first elements and all the later ones. -/
theorem filter_addrs_prefix (pre post : List (Element ET EV HK))
    (hn : (addrsOf (pre ++ post)).Nodup) (q : Element ET EV HK → Bool) :
    (pre ++ post).filter (fun e => decide (e.addr ∉ addrsOf (pre.filter q))) =
      pre.filter (fun e => !q e) ++ post := by
  have hinj := List.inj_on_of_nodup_map hn
  rw [List.filter_append]
  congr 1
  · apply List.filter_congr
    intro e he
    by_cases hq : q e = true
    · have : e.addr ∈ addrsOf (pre.filter q) :=
        List.mem_map.2 ⟨e, List.mem_filter.2 ⟨he, hq⟩, rfl⟩
      simp [this, hq]
    · have : e.addr ∉ addrsOf (pre.filter q) := by
        intro hmem
        obtain ⟨c, hc, hca⟩ := List.mem_map.1 hmem
        obtain ⟨hc1, hc2⟩ := List.mem_filter.1 hc
        have : c = e := hinj (List.mem_append_left _ hc1) (List.mem_append_left _ he) hca
        rw [this] at hc2
        exact hq hc2
      simp [this, hq]
  · rw [List.filter_eq_self]
    intro e he
    simp only [decide_eq_true_eq]
    intro hmem
    obtain ⟨c, hc, hca⟩ := List.mem_map.1 hmem
    obtain ⟨hc1, -⟩ := List.mem_filter.1 hc
    simp only [addrsOf, List.map_append] at hn
    exact (List.nodup_append.1 hn).2.2 (List.mem_map.2 ⟨c, hc1, rfl⟩)
      (List.mem_map.2 ⟨e, he, hca.symm⟩)

end UnlinkShape

section SoftFacts

variable {ET EV HK : Type}

theorem soft_cases (r : Option GoError) (h : isHard r = false) :
    r = none ∨ r = some GoError.ErrUnregister := by
  unfold isHard at h
  simp only [ne_eq, decide_eq_false_iff_not, not_and, not_not] at h
  by_cases hr : r = none
  · exact Or.inl hr
  · exact Or.inr (h hr)

/-- An entry whose handler returns no hard error stays exactly when it is not fire-once and its
handler returned nil. -/
theorem stays_iff (e : eventHandler ET EV HK) (event : Event ET EV) (hs : e.soft event) :
    e.leaves event = false ↔ e.once = false ∧ e.result event = some none := by
  obtain ⟨r, hr1, hr2⟩ := hs
  unfold eventHandler.leaves
  rw [hr1]
  rcases soft_cases r hr2 with rfl | rfl
  · cases e.once <;> simp
  · cases e.once <;> simp

end SoftFacts

section PassState

variable {ET EV HK : Type} [DecidableEq HK]

/-- A pass over handlers that return no hard error: it invokes the whole sequence, returns nil,
clears the flag, drops the queue, and keeps the entries that do not leave and whose key was
neither queued before nor asked to be removed during the pass. -/
theorem call_complete (hs : eventHandlers ET EV HK) (hcons : hs.Consistent)
    (evtID : EventID ET EV) (g : Nat) (p : List Nat)
    (hsoft : ∀ x ∈ hs.handlerList, x.Value.soft ⟨evtID, p, g⟩) :
    ∃ hs1, hs.call evtID g p = .ok (hs1, none, callsOf ⟨evtID, p, g⟩ hs.handlerList) ∧
      hs1.calling = false ∧ hs1.pendingRemList = none ∧ hs1.Consistent ∧
      hs1.handlerList = hs.handlerList.filter
        (fun e => decide (e.Value.key ∉
            hs.pendingRemList.getD [] ++ requestedBy ⟨evtID, p, g⟩ hs.handlerList) &&
          !e.Value.leaves ⟨evtID, p, g⟩) := by
  obtain ⟨i1, i2, i3⟩ := pass_of_soft (Element.result ⟨evtID, p, g⟩) hs.handlerList hsoft
  obtain ⟨hs1, h1⟩ := call_ok hs evtID g p i3
  rw [i1, i2] at h1
  obtain ⟨hsL, hloop, hcase⟩ := call_unfold hs hs1 evtID g p _ _ h1
  rcases hcase with ⟨hne, -⟩ | ⟨-, rfl⟩
  · exact absurd rfl hne
  · obtain ⟨-, s2, s3, s4⟩ := callLoop_state _ _ _ _ _ _ rfl hloop
    have hconsL : hsL.Consistent :=
      consistent_unlink hs hsL _ (unlinkedBy_subset _ _) hcons s3 s4 s2
    obtain ⟨d1, d2, -, d4, -⟩ := drainPending_shape hsL hconsL
    obtain ⟨-, hiff⟩ := callLoop_pending _ _ _ _ _ _ rfl
      (consistent_of_eq hs ({ hs with calling := true } : eventHandlers ET EV HK) hcons
        rfl rfl rfl) (List.Sublist.refl _) hloop
    refine ⟨_, h1, d1, d2, consistent_drainPending hsL hconsL, ?_⟩
    have hl1 : hsL.handlerList =
        hs.handlerList.filter (fun e => !e.Value.leaves ⟨evtID, p, g⟩) := by
      rw [s3]
      simp only
      rw [unlinkedBy_of_soft _ _ hsoft]
      have := filter_addrs_prefix hs.handlerList [] (by simpa using hcons.addrs_nodup)
        (fun e => e.Value.leaves ⟨evtID, p, g⟩)
      simpa using this
    have hl2 : hsL.handlerList.filter
          (fun e => decide (e.Value.key ∉ hsL.pendingRemList.getD [])) =
        hsL.handlerList.filter (fun e => decide (e.Value.key ∉
          hs.pendingRemList.getD [] ++ requestedBy ⟨evtID, p, g⟩ hs.handlerList)) := by
      apply List.filter_congr
      intro e he
      have := hiff e.Value.key (List.mem_map.2 ⟨e, he, rfl⟩)
      simp only at this
      simp only [List.mem_append, this]
    rw [d4, hl2, hl1, List.filter_filter]

/-- A pass that meets a hard error: it invokes the sequence up to the failing entry, returns
the error with the flag still set, and the sequence has lost only the entries before the
failing one that leave. -/
theorem call_failing (hs : eventHandlers ET EV HK) (hcons : hs.Consistent)
    (evtID : EventID ET EV) (g : Nat) (p : List Nat) (pre post : List (Element ET EV HK))
    (x : Element ET EV HK) (err : Option GoError) (hl : hs.handlerList = pre ++ x :: post)
    (hpre : ∀ y ∈ pre, y.Value.soft ⟨evtID, p, g⟩) (hx : x.Value.fails ⟨evtID, p, g⟩ err) :
    ∃ hs1, hs.call evtID g p = .ok (hs1, err, callsOf ⟨evtID, p, g⟩ (pre ++ [x])) ∧
      hs1.calling = true ∧ hs1.Consistent ∧
      hs1.handlerList =
        pre.filter (fun e => !e.Value.leaves ⟨evtID, p, g⟩) ++ x :: post := by
  obtain ⟨i1, i2, i3⟩ := pass_of_failing (Element.result ⟨evtID, p, g⟩) pre post x err hpre
    hx.1 hx.2
  rw [← hl] at i1 i2 i3
  obtain ⟨hs1, h1⟩ := call_ok hs evtID g p i3
  rw [i1, i2] at h1
  have herr : err ≠ none := by
    intro h0
    have := hx.2
    rw [h0] at this
    exact absurd this (by decide)
  obtain ⟨hsL, hloop, hcase⟩ := call_unfold hs hs1 evtID g p _ _ h1
  rcases hcase with ⟨-, rfl⟩ | ⟨h0, -⟩
  · obtain ⟨s1, s2, s3, s4⟩ := callLoop_state _ _ _ _ _ _ rfl hloop
    refine ⟨_, h1, s1, consistent_unlink hs _ _ (unlinkedBy_subset _ _) hcons s3 s4 s2, ?_⟩
    rw [s3]
    simp only
    rw [hl, unlinkedBy_of_failing _ pre post x err hpre hx]
    exact filter_addrs_prefix pre (x :: post) (by rw [← hl]; exact hcons.addrs_nodup) _
  · exact absurd h0 herr

end PassState

section SampleFacts

/-- A consistent list with two entries. -/
theorem pairSample_consistent :
    (containerOf [entry 1 handlerNil false, entry 2 handlerNil false]).Consistent :=
  reachable_consistent _
    (.add (containerOf [entry 1 handlerNil false]) _ 2 (some handlerNil) false
      (.add newEventHandlers _ 1 (some handlerNil) false .new rfl) rfl)

/-- A consistent list with a fire-once entry, a failing fire-once entry and a plain entry. -/
theorem failingSample_consistent :
    (containerOf [entry 1 handlerNil true, entry 2 (handlerHard 7) true,
      entry 3 handlerNil false]).Consistent :=
  reachable_consistent _
    (.add (containerOf [entry 1 handlerNil true, entry 2 (handlerHard 7) true]) _ 3
      (some handlerNil) false
      (.add (containerOf [entry 1 handlerNil true]) _ 2 (some (handlerHard 7)) true
        (.add newEventHandlers _ 1 (some handlerNil) true .new rfl) rfl) rfl)

end SampleFacts

section SoundEmpty

variable {ET EV HK : Type} [DecidableEq EV] [DecidableEq HK]

/-- A sound bucket is `empty()` exactly when it holds no entry at all. -/
theorem sound_empty_iff (b : eventTypeHandlers ET EV HK) (hs : b.Sound) :
    b.empty = true ↔ b.typeElems = [] ∧ ∀ v, b.valElems v = [] := by
  constructor
  · intro he
    have h1 : b.eventHandlers = none ∧ b.valHandlers = none := by
      simpa [eventTypeHandlers.empty] using he
    exact ⟨by simp [eventTypeHandlers.typeElems, h1.1],
      fun v => by simp [eventTypeHandlers.valElems, h1.2]⟩
  · rintro ⟨hT, hV⟩
    have h1 : b.eventHandlers = none := by
      cases hb : b.eventHandlers with
      | none => rfl
      | some l =>
        exfalso
        apply (hs.typeLevel l hb).2
        simpa [eventTypeHandlers.typeElems, hb] using hT
    have h2 : b.valHandlers = none := by
      cases hv : b.valHandlers with
      | none => rfl
      | some m =>
        exfalso
        cases m with
        | nil => exact hs.valMap [] hv rfl
        | cons q qs =>
          have hq : mapLookup (q :: qs) q.1 = some q.2 := by simp [mapLookup]
          apply (hs.valLists _ q.1 q.2 hv hq).2
          have := hV q.1
          simpa [eventTypeHandlers.valElems, hv, hq] using this
    simp [eventTypeHandlers.empty, h1, h2]

end SoundEmpty
section BucketFrame

variable {ET EV HK : Type} [DecidableEq EV]

theorem listAt_empty_bucket (b : eventTypeHandlers ET EV HK) (he : b.empty = true)
    (v : Option EV) : bucketListAt b v = none := by
  have h1 : b.eventHandlers = none ∧ b.valHandlers = none := by
    simpa [eventTypeHandlers.empty] using he
  cases v with
  | none => simp [bucketListAt, h1.1]
  | some w => simp [bucketListAt, h1.2]

variable [DecidableEq HK]

theorem bucket_add_frame (b b1 : eventTypeHandlers ET EV HK) (k : HK)
    (h : Option (EventHandler ET EV HK)) (once : Bool) (hadd : b.add k h once = .ok b1)
    (w : EV) : bucketListAt b1 (some w) = bucketListAt b (some w) := by
  unfold eventTypeHandlers.add at hadd
  split at hadd
  · cases hadd
  · simp only [Except.ok.injEq] at hadd
    rw [← hadd]
    rfl

theorem bucket_rem_frame (b : eventTypeHandlers ET EV HK) (k : HK) (w : EV) :
    bucketListAt (b.rem k) (some w) = bucketListAt b (some w) := by
  unfold eventTypeHandlers.rem
  split
  · rfl
  · split <;> rfl

theorem bucket_addVal_frame (b b1 : eventTypeHandlers ET EV HK) (ev : EV) (k : HK)
    (h : Option (EventHandler ET EV HK)) (once : Bool) (hadd : b.addVal ev k h once = .ok b1)
    (v : Option EV) (hv : v ≠ some ev) : bucketListAt b1 v = bucketListAt b v := by
  unfold eventTypeHandlers.addVal at hadd
  simp only at hadd
  split at hadd
  · cases hadd
  · simp only [Except.ok.injEq] at hadd
    rw [← hadd]
    cases v with
    | none => rfl
    | some w =>
      have hw : ev ≠ w := fun h => hv (by rw [h])
      simp only [bucketListAt, mapLookup_mapStore, hw, if_false]
      cases b.valHandlers with
      | none => simp [mapLookup]
      | some m => simp

theorem bucket_remVal_frame (b : eventTypeHandlers ET EV HK) (ev : EV) (k : HK)
    (v : Option EV) (hv : v ≠ some ev) : bucketListAt (b.remVal ev k) v = bucketListAt b v := by
  unfold eventTypeHandlers.remVal
  simp only
  cases hb : b.valHandlers with
  | none => simp [mapLookup]
  | some m =>
    simp only [Option.getD_some]
    cases hl : mapLookup m ev with
    | none => rfl
    | some c =>
      simp only
      cases v with
      | none => split <;> (simp only [bucketListAt]; split <;> rfl)
      | some w =>
        have hw : ev ≠ w := fun h => hv (by rw [h])
        have hlook : ∀ m1 : List (EV × eventHandlers ET EV HK),
            bucketListAt (if (m1.length == 0) = true then
                ({ b with valHandlers := none } : eventTypeHandlers ET EV HK)
              else { b with valHandlers := some m1 }) (some w) = mapLookup m1 w := by
          intro m1
          cases m1 with
          | nil => simp [bucketListAt, mapLookup]
          | cons q qs => simp [bucketListAt]
        rw [hlook]
        simp only [bucketListAt, hb]
        by_cases he : (c.rem k).empty = true
        · simp [he, mapLookup_mapDelete, hw]
        · simp [he, mapLookup_mapStore, hw]

end BucketFrame

section FrameFacts

variable {ET EV HK : Type} [DecidableEq ET] [DecidableEq EV]

theorem listAt_eq (d : EventDispatcher ET EV HK) (t : ET) (v : Option EV) :
    d.listAt t v = (mapLookup d.typesHandlers t).bind (fun b => bucketListAt b v) := by
  unfold EventDispatcher.listAt bucketListAt
  cases mapLookup d.typesHandlers t with
  | none => rfl
  | some b => cases v <;> rfl

/-- The lists of a dispatcher after a bucket has been written back: those of the bucket for
its type, the earlier ones for every other type. -/
theorem listAt_writeBack (d d1 : EventDispatcher ET EV HK) (t : ET)
    (b1 : eventTypeHandlers ET EV HK)
    (h : d1.typesHandlers = if b1.empty then mapDelete d.typesHandlers t
      else mapStore d.typesHandlers t b1) (t2 : ET) (v : Option EV) :
    d1.listAt t2 v = if t = t2 then bucketListAt b1 v else d.listAt t2 v := by
  rw [listAt_eq, listAt_eq, h]
  by_cases he : b1.empty = true
  · simp only [he, if_true, mapLookup_mapDelete]
    by_cases ht : t = t2
    · simp [ht, listAt_empty_bucket b1 he]
    · simp [ht]
  · simp only [he, Bool.false_eq_true, if_false, mapLookup_mapStore]
    by_cases ht : t = t2
    · simp [ht]
    · simp [ht]

theorem addORGet_listAt (d : EventDispatcher ET EV HK) (t : ET) (v : Option EV) :
    bucketListAt (d.addORGetTypeHandlers t).2 v = d.listAt t v := by
  rw [listAt_eq]
  unfold EventDispatcher.addORGetTypeHandlers
  cases hl : mapLookup d.typesHandlers t with
  | some b => rfl
  | none => cases v <;> rfl

/-- The lists of a dispatcher after `AddTypeHandler` or `AddHandler` stored the bucket. -/
theorem listAt_added (d : EventDispatcher ET EV HK) (t : ET) (b1 : eventTypeHandlers ET EV HK)
    (t2 : ET) (v : Option EV) :
    ({ (d.addORGetTypeHandlers t).1 with
       typesHandlers := mapStore (d.addORGetTypeHandlers t).1.typesHandlers t b1 } :
      EventDispatcher ET EV HK).listAt t2 v = if t = t2 then bucketListAt b1 v else d.listAt t2 v := by
  rw [listAt_eq, listAt_eq]
  simp only [mapLookup_mapStore]
  by_cases ht : t = t2
  · simp [ht]
  · simp only [ht, if_false]
    unfold EventDispatcher.addORGetTypeHandlers
    cases hl : mapLookup d.typesHandlers t with
    | some b => rfl
    | none => simp [mapLookup_mapStore, ht]

variable [DecidableEq HK]

theorem AddTypeHandler_frame (d d1 : EventDispatcher ET EV HK) (t : ET) (k : HK)
    (h : Option (EventHandler ET EV HK)) (once : Bool)
    (hadd : d.AddTypeHandler t k h once = .ok d1) (t2 : ET) (v : Option EV)
    (hne : t2 ≠ t ∨ v ≠ none) : d1.listAt t2 v = d.listAt t2 v := by
  unfold EventDispatcher.AddTypeHandler at hadd
  split at hadd
  · cases hadd
  · rename_i b1 heq
    simp only [Except.ok.injEq] at hadd
    rw [← hadd, listAt_added]
    by_cases ht : t = t2
    · subst ht
      simp only [if_true]
      cases v with
      | none => rcases hne with h1 | h1 <;> exact absurd rfl h1
      | some w => rw [bucket_add_frame _ b1 k h once heq w, addORGet_listAt]
    · simp [ht]

theorem AddHandler_frame (d d1 : EventDispatcher ET EV HK) (evtId : EventID ET EV) (k : HK)
    (h : Option (EventHandler ET EV HK)) (once : Bool)
    (hadd : d.AddHandler evtId k h once = .ok d1) (t2 : ET) (v : Option EV)
    (hne : t2 ≠ evtId.Typ ∨ v ≠ some evtId.Val) : d1.listAt t2 v = d.listAt t2 v := by
  unfold EventDispatcher.AddHandler at hadd
  split at hadd
  · cases hadd
  · rename_i b1 heq
    simp only [Except.ok.injEq] at hadd
    rw [← hadd, listAt_added]
    by_cases ht : evtId.Typ = t2
    · subst ht
      simp only [if_true]
      have hv : v ≠ some evtId.Val := by
        rcases hne with h1 | h1
        · exact absurd rfl h1
        · exact h1
      rw [bucket_addVal_frame _ b1 evtId.Val k h once heq v hv, addORGet_listAt]
    · simp [ht]

theorem RemTypeHandler_frame (d : EventDispatcher ET EV HK) (t : ET) (k : HK) (t2 : ET)
    (v : Option EV) (hne : t2 ≠ t ∨ v ≠ none) :
    (d.RemTypeHandler t k).listAt t2 v = d.listAt t2 v := by
  unfold EventDispatcher.RemTypeHandler
  cases hl : mapLookup d.typesHandlers t with
  | none => rfl
  | some b =>
    simp only
    have key : (if t = t2 then bucketListAt (b.rem k) v else d.listAt t2 v) = d.listAt t2 v := by
      by_cases ht : t = t2
      · subst ht
        simp only [if_true]
        cases v with
        | none => rcases hne with h1 | h1 <;> exact absurd rfl h1
        | some w =>
          rw [bucket_rem_frame b k w, listAt_eq, hl]
          rfl
      · simp [ht]
    split
    · rename_i he
      rw [listAt_writeBack d _ t (b.rem k) (by simp [he]) t2 v, key]
    · rename_i he
      rw [listAt_writeBack d _ t (b.rem k) (by simp [he]) t2 v, key]

theorem RemHandler_frame (d : EventDispatcher ET EV HK) (evtId : EventID ET EV) (k : HK)
    (t2 : ET) (v : Option EV) (hne : t2 ≠ evtId.Typ ∨ v ≠ some evtId.Val) :
    (d.RemHandler evtId k).listAt t2 v = d.listAt t2 v := by
  unfold EventDispatcher.RemHandler
  cases hl : mapLookup d.typesHandlers evtId.Typ with
  | none => rfl
  | some b =>
    simp only
    have key : (if evtId.Typ = t2 then bucketListAt (b.remVal evtId.Val k) v
        else d.listAt t2 v) = d.listAt t2 v := by
      by_cases ht : evtId.Typ = t2
      · subst ht
        simp only [if_true]
        have hv : v ≠ some evtId.Val := by
          rcases hne with h1 | h1
          · exact absurd rfl h1
          · exact h1
        rw [bucket_remVal_frame b evtId.Val k v hv, listAt_eq, hl]
        rfl
      · simp [ht]
    split
    · rename_i he
      rw [listAt_writeBack d _ evtId.Typ (b.remVal evtId.Val k) (by simp [he]) t2 v, key]
    · rename_i he
      rw [listAt_writeBack d _ evtId.Typ (b.remVal evtId.Val k) (by simp [he]) t2 v, key]

end FrameFacts

section PrunedFacts

variable {ET EV HK : Type} [DecidableEq ET] [DecidableEq EV] [DecidableEq HK]

theorem wellFormed_pruned (d : EventDispatcher ET EV HK) (hw : d.WellFormed) : d.Pruned :=
  hw.buckets

theorem pruned_flag (d : EventDispatcher ET EV HK) (hp : d.Pruned) (c : Bool) :
    ({ d with isCalling := c } : EventDispatcher ET EV HK).Pruned :=
  hp

theorem pruned_RemTypeHandler_absent (d : EventDispatcher ET EV HK) (hp : d.Pruned) (t : ET)
    (k : HK) (hk : k ∉ keysOf (d.elementsAt t none)) : d.RemTypeHandler t k = d := by
  unfold EventDispatcher.RemTypeHandler
  cases hl : mapLookup d.typesHandlers t with
  | none => rfl
  | some b =>
    obtain ⟨hs, he⟩ := hp t b hl
    rw [(elementsAt_of_lookup d t b hl).1] at hk
    simp only [bucket_rem_absent b hs k hk]
    simpa [he] using writeBack_self d t b hl he

theorem pruned_RemHandler_absent (d : EventDispatcher ET EV HK) (hp : d.Pruned)
    (evtId : EventID ET EV) (k : HK)
    (hk : k ∉ keysOf (d.elementsAt evtId.Typ (some evtId.Val))) : d.RemHandler evtId k = d := by
  unfold EventDispatcher.RemHandler
  cases hl : mapLookup d.typesHandlers evtId.Typ with
  | none => rfl
  | some b =>
    obtain ⟨hs, he⟩ := hp _ b hl
    rw [(elementsAt_of_lookup d _ b hl).2] at hk
    simp only [bucket_remVal_absent b hs evtId.Val k hk]
    simpa [he] using writeBack_self d evtId.Typ b hl he

end PrunedFacts

section PassSplit

variable {α : Type}

/-- A pass that does not reach a nil handler either runs over entries that all return no hard
error, or stops at a first entry that returns a hard error. -/
theorem pass_split (res : α → Option (Option GoError)) (l : List α)
    (hn : reachesNil res l = false) :
    (∀ x ∈ l, ∃ r, res x = some r ∧ isHard r = false) ∨
      ∃ pre y post err, l = pre ++ y :: post ∧
        (∀ x ∈ pre, ∃ r, res x = some r ∧ isHard r = false) ∧
        res y = some err ∧ isHard err = true := by
  induction l with
  | nil => exact Or.inl (fun x hx => by cases hx)
  | cons a l ih =>
    simp only [reachesNil] at hn
    cases hr : res a with
    | none => simp [hr] at hn
    | some r =>
      by_cases hh : isHard r = true
      · exact Or.inr ⟨[], a, l, r, rfl, (fun x hx => nomatch hx), hr, hh⟩
      · simp only [hr, hh, Bool.false_eq_true, if_false] at hn
        rcases ih hn with h | ⟨pre, y, post, err, h1, h2, h3, h4⟩
        · left
          intro x hx
          rcases List.mem_cons.1 hx with h0 | h0
          · rw [h0]; exact ⟨r, hr, by simpa using hh⟩
          · exact h x h0
        · right
          refine ⟨a :: pre, y, post, err, by rw [h1]; rfl, ?_, h3, h4⟩
          intro x hx
          rcases List.mem_cons.1 hx with h0 | h0
          · rw [h0]; exact ⟨r, hr, by simpa using hh⟩
          · exact h2 x h0

theorem invokedBy_sublist (res : α → Option (Option GoError)) (l : List α) :
    (invokedBy res l).Sublist l := by
  induction l with
  | nil => exact List.Sublist.refl _
  | cons a l ih =>
    unfold invokedBy
    split
    · exact List.nil_sublist _
    · split
      · exact List.Sublist.cons₂ _ (List.nil_sublist _)
      · exact List.Sublist.cons₂ _ ih

end PassSplit

section ListFate

variable {ET EV HK : Type} [DecidableEq HK]

/-- What a pass does to a fire-once entry of the sequence: an entry the pass does not invoke
stays; an entry it invokes is gone when its handler returned no hard error and stays when it
returned one. -/
theorem call_fate (hs hs1 : eventHandlers ET EV HK) (hcons : hs.Consistent)
    (evtID : EventID ET EV) (g : Nat) (p : List Nat) (r : Option GoError)
    (tr : List (Call ET EV HK)) (h : hs.call evtID g p = .ok (hs1, r, tr))
    (x : Element ET EV HK) (hx : x ∈ hs.handlerList) (honce : x.Value.once = true) :
    (x ∉ invokedBy (Element.result ⟨evtID, p, g⟩) hs.handlerList → x ∈ hs1.handlerList) ∧
      (x ∈ invokedBy (Element.result ⟨evtID, p, g⟩) hs.handlerList →
        x.Value.soft ⟨evtID, p, g⟩ → x.Value.key ∉ keysOf hs1.handlerList) ∧
      (x ∈ invokedBy (Element.result ⟨evtID, p, g⟩) hs.handlerList →
        ¬ x.Value.soft ⟨evtID, p, g⟩ → x ∈ hs1.handlerList) := by
  obtain ⟨hn, -, -⟩ := call_result hs hs1 evtID g p r tr h
  have hleave : x.Value.leaves ⟨evtID, p, g⟩ = true := by simp [eventHandler.leaves, honce]
  rcases pass_split _ _ hn with hsoft | ⟨pre, y, post, err, hl, hpre, hy, hh⟩
  · obtain ⟨i1, -, -⟩ := pass_of_soft _ _ hsoft
    refine ⟨fun hni => absurd (by rw [i1]; exact hx) hni, ?_, fun _ hns => absurd (hsoft x hx) hns⟩
    intro _ _
    exact call_unlinked_absent hs hs1 evtID g p r tr hcons h x
      (mem_unlinkedBy_of_soft _ _ hsoft x hx hleave)
  · obtain ⟨hs2, h2, -, -, hlist⟩ := call_failing hs hcons evtID g p pre post y err hl hpre
      ⟨hy, hh⟩
    rw [h] at h2
    simp only [Except.ok.injEq, Prod.mk.injEq] at h2
    obtain ⟨rfl, -, -⟩ := h2
    obtain ⟨i1, -, -⟩ := pass_of_failing (Element.result ⟨evtID, p, g⟩) pre post y err hpre hy hh
    rw [hl] at hx ⊢
    rw [i1, hlist]
    have hnd : (keysOf (pre ++ y :: post)).Nodup := by rw [← hl]; exact hcons.keys_nodup
    refine ⟨?_, ?_, ?_⟩
    · intro hni
      rcases List.mem_append.1 hx with h0 | h0
      · exact absurd (List.mem_append_left _ h0) hni
      · rcases List.mem_cons.1 h0 with h1 | h1
        · exact absurd (List.mem_append_right _ (by rw [h1]; exact List.mem_singleton_self _)) hni
        · exact List.mem_append_right _ (List.mem_cons_of_mem _ h1)
    · intro hi hs0 hmem
      obtain ⟨e, he, hek⟩ := List.mem_map.1 hmem
      have he1 : e ∈ pre ++ y :: post := by
        rcases List.mem_append.1 he with h0 | h0
        · exact List.mem_append_left _ (List.mem_filter.1 h0).1
        · exact List.mem_append_right _ h0
      have hex : e = x := List.inj_on_of_nodup_map hnd he1 hx hek
      subst hex
      rcases List.mem_append.1 hi with h0 | h0
      · rcases List.mem_append.1 he with h1 | h1
        · have := (List.mem_filter.1 h1).2
          rw [hleave] at this
          cases this
        · have hdis := (List.nodup_append.1 (show (pre ++ y :: post).Nodup from
            List.Nodup.of_map _ hnd)).2.2
          exact hdis h0 h1
      · rw [List.mem_singleton.1 h0] at hs0
        obtain ⟨r0, hr0, hr1⟩ := hs0
        have hy' : y.Value.result ⟨evtID, p, g⟩ = some err := hy
        rw [hy'] at hr0
        simp only [Option.some.injEq] at hr0
        rw [← hr0, hh] at hr1
        cases hr1
    · intro hi hns
      rcases List.mem_append.1 hi with h0 | h0
      · exact absurd (hpre x h0) hns
      · rw [List.mem_singleton.1 h0]
        exact List.mem_append_right _ (List.mem_cons_self _ _)

end ListFate

section BucketFate

variable {ET EV HK : Type} [DecidableEq EV] [DecidableEq HK]

theorem callVal_reaches (b b1 : eventTypeHandlers ET EV HK) (evtID : EventID ET EV) (g : Nat)
    (p : List Nat) (r : Option GoError) (tr : List (Call ET EV HK))
    (h : b.callVal evtID g p = .ok (b1, r, tr)) :
    reachesNil (Element.result ⟨evtID, p, g⟩) (b.valElems evtID.Val) = false := by
  rcases callVal_shape b b1 evtID g p r tr h with ⟨-, -, -, h0⟩ | ⟨m, c, c1, hm, hl, hc, -⟩
  · rw [h0]; rfl
  · rw [valElems_of_lookup b m hm _ c hl]
    exact (call_result c c1 evtID g p r tr hc).1

/-- A bucket call that returns has not reached a nil handler. -/
theorem bucket_call_reaches (b b1 : eventTypeHandlers ET EV HK) (evtID : EventID ET EV)
    (g : Nat) (p : List Nat) (r : Option GoError) (tr : List (TypeCall ET EV HK))
    (h : b.call evtID g p = .ok (b1, r, tr)) :
    reachesNil (taggedResult ⟨evtID, p, g⟩)
      (b.typeElems.map (fun e => (none, e)) ++
        (b.valElems evtID.Val).map (fun e => (some evtID.Val, e))) = false := by
  have hresA : (fun e : Element ET EV HK => taggedResult ⟨evtID, p, g⟩ ((none : Option EV), e)) =
      Element.result ⟨evtID, p, g⟩ := rfl
  have hresB : (fun e : Element ET EV HK => taggedResult ⟨evtID, p, g⟩ (some evtID.Val, e)) =
      Element.result ⟨evtID, p, g⟩ := rfl
  have hval : ∀ x : Option (eventHandlers ET EV HK),
      ({ valHandlers := b.valHandlers, eventHandlers := x } :
        eventTypeHandlers ET EV HK).valElems evtID.Val = b.valElems evtID.Val := fun _ => rfl
  rcases bucket_call_shape b b1 evtID g p r tr h with
    ⟨hb, tr2, h2⟩ | ⟨l, l1, r1, tr1, hb, hc, hcase⟩
  · have hA : b.typeElems = [] := by simp [eventTypeHandlers.typeElems, hb]
    rw [hA, List.map_nil, List.nil_append, reachesNil_map, hresB]
    exact callVal_reaches b b1 evtID g p r tr2 h2
  · have hA : b.typeElems = l.handlerList := by simp [eventTypeHandlers.typeElems, hb]
    obtain ⟨c1, c2, -⟩ := call_result l l1 evtID g p r1 tr1 hc
    rw [hA]
    rcases hcase with ⟨hr1, -, -⟩ | ⟨hr1, tr2, h2⟩
    · cases hr : r1 with
      | none => exact absurd hr hr1
      | some e =>
        have hfA : firstHard (taggedResult ⟨evtID, p, g⟩)
            (l.handlerList.map (fun e => ((none : Option EV), e))) = some e := by
          rw [firstHard_map, hresA, ← c2, hr]
        exact (pass_append_of_hard _ _ _ e hfA).2.2
    · have hfA : firstHard (taggedResult ⟨evtID, p, g⟩)
          (l.handlerList.map (fun e => ((none : Option EV), e))) = none := by
        rw [firstHard_map, hresA, ← c2, hr1]
      have hnA : reachesNil (taggedResult ⟨evtID, p, g⟩)
          (l.handlerList.map (fun e => ((none : Option EV), e))) = false := by
        rw [reachesNil_map, hresA]; exact c1
      rw [(pass_append_of_complete _ _ _ hfA hnA).2.2, reachesNil_map, hresB]
      have := callVal_reaches _ b1 evtID g p r tr2 h2
      rw [hval] at this
      exact this

theorem callVal_fate (b b1 : eventTypeHandlers ET EV HK) (hs : b.Sound)
    (evtID : EventID ET EV) (g : Nat) (p : List Nat) (r : Option GoError)
    (tr : List (Call ET EV HK)) (h : b.callVal evtID g p = .ok (b1, r, tr))
    (x : Element ET EV HK) (hx : x ∈ b.valElems evtID.Val) (honce : x.Value.once = true) :
    (x ∉ invokedBy (Element.result ⟨evtID, p, g⟩) (b.valElems evtID.Val) →
        x ∈ b1.valElems evtID.Val) ∧
      (x ∈ invokedBy (Element.result ⟨evtID, p, g⟩) (b.valElems evtID.Val) →
        x.Value.soft ⟨evtID, p, g⟩ → x.Value.key ∉ keysOf (b1.valElems evtID.Val)) ∧
      (x ∈ invokedBy (Element.result ⟨evtID, p, g⟩) (b.valElems evtID.Val) →
        ¬ x.Value.soft ⟨evtID, p, g⟩ → x ∈ b1.valElems evtID.Val) := by
  rcases callVal_shape b b1 evtID g p r tr h with ⟨-, -, -, h0⟩ | ⟨m, c, c1, hm, hl, hc, rfl⟩
  · rw [h0] at hx; cases hx
  · rw [valElems_writeBack m evtID.Val c1 b.eventHandlers b.eventHandlers evtID.Val]
    simp only [if_true]
    rw [valElems_of_lookup b m hm evtID.Val c hl] at hx ⊢
    exact call_fate c c1 (hs.valLists m _ c hm hl).1 evtID g p r tr hc x hx honce

/-- What a bucket call does to a fire-once entry of the type-level sequence or of the sequence
of the dispatched value, in terms of the entries the call invokes. -/
theorem bucket_call_fate (b b1 : eventTypeHandlers ET EV HK) (hs : b.Sound)
    (evtID : EventID ET EV) (g : Nat) (p : List Nat) (r : Option GoError)
    (tr : List (TypeCall ET EV HK)) (h : b.call evtID g p = .ok (b1, r, tr))
    (x : Element ET EV HK) (honce : x.Value.once = true) :
    (x ∈ b.typeElems →
      (((none : Option EV), x) ∉ invokedBy (taggedResult ⟨evtID, p, g⟩)
          (b.typeElems.map (fun e => (none, e)) ++
            (b.valElems evtID.Val).map (fun e => (some evtID.Val, e))) → x ∈ b1.typeElems) ∧
      (((none : Option EV), x) ∈ invokedBy (taggedResult ⟨evtID, p, g⟩)
          (b.typeElems.map (fun e => (none, e)) ++
            (b.valElems evtID.Val).map (fun e => (some evtID.Val, e))) →
        (x.Value.soft ⟨evtID, p, g⟩ → x.Value.key ∉ keysOf b1.typeElems) ∧
        (¬ x.Value.soft ⟨evtID, p, g⟩ → x ∈ b1.typeElems))) ∧
    (x ∈ b.valElems evtID.Val →
      ((some evtID.Val, x) ∉ invokedBy (taggedResult ⟨evtID, p, g⟩)
          (b.typeElems.map (fun e => (none, e)) ++
            (b.valElems evtID.Val).map (fun e => (some evtID.Val, e))) →
        x ∈ b1.valElems evtID.Val) ∧
      ((some evtID.Val, x) ∈ invokedBy (taggedResult ⟨evtID, p, g⟩)
          (b.typeElems.map (fun e => (none, e)) ++
            (b.valElems evtID.Val).map (fun e => (some evtID.Val, e))) →
        (x.Value.soft ⟨evtID, p, g⟩ → x.Value.key ∉ keysOf (b1.valElems evtID.Val)) ∧
        (¬ x.Value.soft ⟨evtID, p, g⟩ → x ∈ b1.valElems evtID.Val))) := by
  have hresA : (fun e : Element ET EV HK => taggedResult ⟨evtID, p, g⟩ ((none : Option EV), e)) =
      Element.result ⟨evtID, p, g⟩ := rfl
  have hresB : (fun e : Element ET EV HK => taggedResult ⟨evtID, p, g⟩ (some evtID.Val, e)) =
      Element.result ⟨evtID, p, g⟩ := rfl
  have hval : ∀ y : Option (eventHandlers ET EV HK),
      ({ valHandlers := b.valHandlers, eventHandlers := y } :
        eventTypeHandlers ET EV HK).valElems evtID.Val = b.valElems evtID.Val := fun _ => rfl
  have hmemN : ∀ (l : List (Element ET EV HK)) (y : Element ET EV HK),
      ((none : Option EV), y) ∈ l.map (fun e => ((none : Option EV), e)) ↔ y ∈ l := by
    intro l y; simp
  have hmemS : ∀ (l : List (Element ET EV HK)) (y : Element ET EV HK),
      (some evtID.Val, y) ∈ l.map (fun e => (some evtID.Val, e)) ↔ y ∈ l := by
    intro l y; simp
  have hcrossN : ∀ (l : List (Element ET EV HK)) (y : Element ET EV HK),
      ((none : Option EV), y) ∉ l.map (fun e => (some evtID.Val, e)) := by
    intro l y; simp
  have hcrossS : ∀ (l : List (Element ET EV HK)) (y : Element ET EV HK),
      (some evtID.Val, y) ∉ l.map (fun e => ((none : Option EV), e)) := by
    intro l y; simp
  rcases bucket_call_shape b b1 evtID g p r tr h with
    ⟨hb, tr2, h2⟩ | ⟨l, l1, r1, tr1, hb, hc, hcase⟩
  · have hA : b.typeElems = [] := by simp [eventTypeHandlers.typeElems, hb]
    rw [hA]
    simp only [List.map_nil, List.nil_append]
    rw [invokedBy_map, hresB]
    refine ⟨(fun hx => nomatch hx), ?_⟩
    intro hx
    obtain ⟨f1, f2, f3⟩ := callVal_fate b b1 hs evtID g p r tr2 h2 x hx honce
    rw [hmemS]
    exact ⟨f1, fun hi => ⟨f2 hi, f3 hi⟩⟩
  · have hA : b.typeElems = l.handlerList := by simp [eventTypeHandlers.typeElems, hb]
    obtain ⟨c1, c2, -⟩ := call_result l l1 evtID g p r1 tr1 hc
    have hconsl := (hs.typeLevel l hb).1
    rw [hA]
    rcases hcase with ⟨hr1, -, rfl⟩ | ⟨hr1, tr2, h2⟩
    · cases hr : r1 with
      | none => exact absurd hr hr1
      | some e =>
        have hfA : firstHard (taggedResult ⟨evtID, p, g⟩)
            (l.handlerList.map (fun e => ((none : Option EV), e))) = some e := by
          rw [firstHard_map, hresA, ← c2, hr]
        rw [(pass_append_of_hard _ _ _ e hfA).1, invokedBy_map, hresA, typeElems_ite]
        constructor
        · intro hx
          obtain ⟨f1, f2, f3⟩ := call_fate l l1 hconsl evtID g p r1 tr1 hc x hx honce
          rw [hmemN]
          exact ⟨f1, fun hi => ⟨f2 hi, f3 hi⟩⟩
        · intro hx
          refine ⟨fun _ => ?_, fun hi => absurd hi (hcrossS _ _)⟩
          rw [hval]
          exact hx
    · have hfA : firstHard (taggedResult ⟨evtID, p, g⟩)
          (l.handlerList.map (fun e => ((none : Option EV), e))) = none := by
        rw [firstHard_map, hresA, ← c2, hr1]
      have hnA : reachesNil (taggedResult ⟨evtID, p, g⟩)
          (l.handlerList.map (fun e => ((none : Option EV), e))) = false := by
        rw [reachesNil_map, hresA]; exact c1
      rw [(pass_append_of_complete _ _ _ hfA hnA).1, invokedBy_map, invokedBy_map, hresA, hresB]
      obtain ⟨t1, t2⟩ := callVal_sublist _ b1 evtID g p r tr2 h2
      rw [typeElems_ite] at t1
      have hs' := sound_passed b l l1 evtID g p r1 tr1 hs hb hc
      constructor
      · intro hx
        obtain ⟨f1, f2, f3⟩ := call_fate l l1 hconsl evtID g p r1 tr1 hc x hx honce
        rw [t1]
        simp only [List.mem_append, hmemN, hcrossN, or_false]
        exact ⟨f1, fun hi => ⟨f2 hi, f3 hi⟩⟩
      · intro hx
        have hx' := hx
        rw [← hval (if l1.empty then none else some l1)] at hx'
        obtain ⟨f1, f2, f3⟩ := callVal_fate _ b1 hs' evtID g p r tr2 h2 x hx' honce
        rw [hval] at f1 f2 f3
        simp only [List.mem_append, hmemS, hcrossS, false_or]
        exact ⟨f1, fun hi => ⟨f2 hi, f3 hi⟩⟩

end BucketFate

section DispatchFate

variable {ET EV HK : Type} [DecidableEq ET] [DecidableEq EV] [DecidableEq HK]

/-- A dispatch that returns on an idle dispatcher is one pass over the dispatch order. -/
theorem Dispatch_trace (d d1 : EventDispatcher ET EV HK) (hidle : d.isCalling = false)
    (evtId : EventID ET EV) (g : Nat) (p : List Nat) (r : Option GoError)
    (tr : List (Invocation ET EV HK)) (h : d.Dispatch evtId g p = .ok (d1, r, tr)) :
    reachesNil (taggedResult ⟨evtId, p, g⟩) (d.dispatchOrder evtId) = false ∧
      r = firstHard (taggedResult ⟨evtId, p, g⟩) (d.dispatchOrder evtId) ∧
      tr = (invokedBy (taggedResult ⟨evtId, p, g⟩) (d.dispatchOrder evtId)).map
        (toInvocation ⟨evtId, p, g⟩) := by
  have hn : reachesNil (taggedResult ⟨evtId, p, g⟩) (d.dispatchOrder evtId) = false := by
    rcases Dispatch_shape d d1 evtId g p r tr h with ⟨hl, -, -, -⟩ | ⟨b, b1, trb, hl, -, hc, -⟩
    · simp [EventDispatcher.dispatchOrder, elementsAt_of_lookup_none d _ hl, reachesNil]
    · obtain ⟨e1, e2⟩ := elementsAt_of_lookup d _ b hl
      simp only [EventDispatcher.dispatchOrder, e1, e2]
      exact bucket_call_reaches b b1 evtId g p r trb hc
  obtain ⟨d2, h2⟩ := Dispatch_pass d evtId g p hidle hn
  rw [h] at h2
  simp only [Except.ok.injEq, Prod.mk.injEq] at h2
  exact ⟨hn, h2.2.1, h2.2.2⟩

/-- What a dispatch does to a fire-once entry registered under the dispatched type or under
the dispatched (type, value): an entry it does not invoke stays; an entry it invokes is gone
when its handler returned no hard error and stays when it returned one. -/
theorem Dispatch_fate (d d1 : EventDispatcher ET EV HK) (hw : d.WellFormed)
    (evtId : EventID ET EV) (g : Nat) (p : List Nat) (r : Option GoError)
    (tr : List (Invocation ET EV HK)) (h : d.Dispatch evtId g p = .ok (d1, r, tr))
    (v : Option EV) (hv : v = none ∨ v = some evtId.Val) (x : Element ET EV HK)
    (hx : x ∈ d.elementsAt evtId.Typ v) (honce : x.Value.once = true) :
    ((v, x) ∉ invokedBy (taggedResult ⟨evtId, p, g⟩) (d.dispatchOrder evtId) →
        x ∈ d1.elementsAt evtId.Typ v) ∧
      ((v, x) ∈ invokedBy (taggedResult ⟨evtId, p, g⟩) (d.dispatchOrder evtId) →
        (x.Value.soft ⟨evtId, p, g⟩ → x.Value.key ∉ keysOf (d1.elementsAt evtId.Typ v)) ∧
        (¬ x.Value.soft ⟨evtId, p, g⟩ → x ∈ d1.elementsAt evtId.Typ v)) := by
  rcases Dispatch_shape d d1 evtId g p r tr h with ⟨hl, -, -, -⟩ | ⟨b, b1, trb, hl, -, hc, hd1⟩
  · rw [elementsAt_of_lookup_none d _ hl] at hx
    cases hx
  · have hth : d1.typesHandlers = if b1.empty then mapDelete d.typesHandlers evtId.Typ
        else mapStore d.typesHandlers evtId.Typ b1 := by rw [hd1]
    obtain ⟨-, w2, w3⟩ := elementsAt_writeBack d d1 evtId.Typ b1 hth
    obtain ⟨e1, e2⟩ := elementsAt_of_lookup d evtId.Typ b hl
    obtain ⟨f1, f2⟩ := bucket_call_fate b b1 (hw.buckets _ b hl).1 evtId g p r trb hc x honce
    simp only [EventDispatcher.dispatchOrder, e1, e2]
    rcases hv with rfl | rfl
    · rw [w2]
      rw [e1] at hx
      exact f1 hx
    · rw [w3]
      rw [e2] at hx
      exact f2 hx

end DispatchFate

section AddAt

variable {ET EV HK : Type} [DecidableEq ET] [DecidableEq EV] [DecidableEq HK]

end AddAt

section AddAtAux

variable {ET EV HK : Type} [DecidableEq HK]

end AddAtAux

section TagCount

variable {ET EV HK : Type} [DecidableEq ET] [DecidableEq EV] [DecidableEq HK]

theorem countP_tagged (L : List (Option EV × Element ET EV HK))
    (hnd : (L.map (fun y => (y.1, y.2.Value.key))).Nodup) (event : Event ET EV)
    (v : Option EV) (k : HK) :
    List.countP (Invocation.isOf event.eventID.Typ v k) (L.map (toInvocation event)) =
      if (v, k) ∈ L.map (fun y => (y.1, y.2.Value.key)) then 1 else 0 := by
  induction L with
  | nil => simp
  | cons y L ih =>
    rw [List.map_cons, List.nodup_cons] at hnd
    have ih1 := ih hnd.2
    rw [List.map_cons, List.countP_cons, ih1, List.map_cons]
    by_cases hy : (y.1, y.2.Value.key) = (v, k)
    · have hnot : (v, k) ∉ L.map (fun y => (y.1, y.2.Value.key)) := by
        rw [← hy]; exact hnd.1
      have h1 : Invocation.isOf event.eventID.Typ v k (toInvocation event y) = true := by
        simp only [Prod.mk.injEq] at hy
        simp [Invocation.isOf, toInvocation, hy.1, hy.2]
      have hin : (v, k) ∈ (y.1, y.2.Value.key) :: L.map (fun y => (y.1, y.2.Value.key)) := by
        rw [hy]; exact List.mem_cons_self _ _
      rw [if_neg hnot, h1, if_pos hin]
      simp
    · have h1 : Invocation.isOf event.eventID.Typ v k (toInvocation event y) = false := by
        simp only [Prod.mk.injEq, not_and] at hy
        simp only [Invocation.isOf, toInvocation, true_and, decide_eq_false_iff_not, not_and]
        exact hy
      have hne : ¬ (v, k) = (y.1, y.2.Value.key) := fun h => hy h.symm
      rw [h1]
      by_cases hm : (v, k) ∈ L.map (fun y => (y.1, y.2.Value.key))
      · rw [if_pos hm, if_pos (List.mem_cons_of_mem _ hm)]
        simp
      · have hm2 : (v, k) ∉ (y.1, y.2.Value.key) :: L.map (fun y => (y.1, y.2.Value.key)) := by
          intro h
          rcases List.mem_cons.1 h with h0 | h0
          · exact hne h0
          · exact hm h0
        rw [if_neg hm, if_neg hm2]
        simp

theorem dispatchOrder_tags_nodup (d : EventDispatcher ET EV HK) (hw : d.WellFormed)
    (evtId : EventID ET EV) :
    ((d.dispatchOrder evtId).map (fun y => (y.1, y.2.Value.key))).Nodup := by
  have h1 := elementsAt_keys_nodup d hw evtId.Typ none
  have h2 := elementsAt_keys_nodup d hw evtId.Typ (some evtId.Val)
  simp only [EventDispatcher.dispatchOrder, List.map_append, List.map_map]
  rw [List.nodup_append]
  refine ⟨?_, ?_, ?_⟩
  · have : ((fun y : Option EV × Element ET EV HK => (y.1, y.2.Value.key)) ∘
        fun e => ((none : Option EV), e)) =
        (fun k : HK => ((none : Option EV), k)) ∘ fun e : Element ET EV HK => e.Value.key := rfl
    rw [this, ← List.map_map]
    exact List.Nodup.map (fun a b hab => by simpa using hab) h1
  · have : ((fun y : Option EV × Element ET EV HK => (y.1, y.2.Value.key)) ∘
        fun e => (some evtId.Val, e)) =
        (fun k : HK => (some evtId.Val, k)) ∘ fun e : Element ET EV HK => e.Value.key := rfl
    rw [this, ← List.map_map]
    exact List.Nodup.map (fun a b hab => by simpa using hab) h2
  · intro a ha hb
    simp only [List.mem_map, Function.comp_apply] at ha hb
    obtain ⟨e1, -, rfl⟩ := ha
    obtain ⟨e2, -, h⟩ := hb
    cases h

/-- In the invocations of a dispatch on a well-formed dispatcher, an entry of the dispatch
order occurs once when the dispatch invokes it and not at all otherwise. -/
theorem countP_invoked (d d1 : EventDispatcher ET EV HK) (hw : d.WellFormed)
    (evtId : EventID ET EV) (g : Nat) (p : List Nat) (r : Option GoError)
    (tr : List (Invocation ET EV HK)) (h : d.Dispatch evtId g p = .ok (d1, r, tr))
    (v : Option EV) (x : Element ET EV HK) (hx : (v, x) ∈ d.dispatchOrder evtId) :
    ((v, x) ∈ invokedBy (taggedResult ⟨evtId, p, g⟩) (d.dispatchOrder evtId) →
        List.countP (Invocation.isOf evtId.Typ v x.Value.key) tr = 1) ∧
      ((v, x) ∉ invokedBy (taggedResult ⟨evtId, p, g⟩) (d.dispatchOrder evtId) →
        List.countP (Invocation.isOf evtId.Typ v x.Value.key) tr = 0) := by
  obtain ⟨-, -, htr⟩ := Dispatch_trace d d1 hw.idle evtId g p r tr h
  have hnd := dispatchOrder_tags_nodup d hw evtId
  have hsub := invokedBy_sublist (taggedResult ⟨evtId, p, g⟩) (d.dispatchOrder evtId)
  have hnd1 := List.Nodup.sublist (List.Sublist.map _ hsub) hnd
  rw [htr]
  have := countP_tagged _ hnd1 (⟨evtId, p, g⟩ : Event ET EV) v x.Value.key
  simp only at this
  rw [this]
  have hiff : (v, x.Value.key) ∈ (invokedBy (taggedResult ⟨evtId, p, g⟩)
      (d.dispatchOrder evtId)).map (fun y => (y.1, y.2.Value.key)) ↔
      (v, x) ∈ invokedBy (taggedResult ⟨evtId, p, g⟩) (d.dispatchOrder evtId) := by
    constructor
    · intro hm
      obtain ⟨y, hy, hyk⟩ := List.mem_map.1 hm
      have : y = (v, x) := List.inj_on_of_nodup_map hnd (hsub.subset hy) hx hyk
      rw [← this]; exact hy
    · intro hm
      exact List.mem_map.2 ⟨(v, x), hm, rfl⟩
  constructor
  · intro hi
    rw [if_pos (hiff.2 hi)]
  · intro hi
    rw [if_neg (fun hm => hi (hiff.1 hm))]

/-- A dispatch never invokes a key that is not registered, and does not register it. -/
theorem Dispatch_absent_key (d d1 : EventDispatcher ET EV HK) (hw : d.WellFormed)
    (evtId : EventID ET EV) (g : Nat) (p : List Nat) (r : Option GoError)
    (tr : List (Invocation ET EV HK)) (h : d.Dispatch evtId g p = .ok (d1, r, tr))
    (t : ET) (v : Option EV) (k : HK) (hk : k ∉ keysOf (d.elementsAt t v)) :
    List.countP (Invocation.isOf t v k) tr = 0 ∧ k ∉ keysOf (d1.elementsAt t v) := by
  obtain ⟨-, -, htr⟩ := Dispatch_trace d d1 hw.idle evtId g p r tr h
  constructor
  · have h0 := countP_absent d evtId g p t v k hk
    have hsub := invokedBy_sublist (taggedResult ⟨evtId, p, g⟩) (d.dispatchOrder evtId)
    have hle := List.Sublist.countP_le (Invocation.isOf t v k)
      (List.Sublist.map (toInvocation ⟨evtId, p, g⟩) hsub)
    rw [htr]
    omega
  · intro hmem
    obtain ⟨e, he, hek⟩ := List.mem_map.1 hmem
    exact hk (List.mem_map.2 ⟨e, (Dispatch_sublist d d1 _ _ _ _ _ h t v).subset he, hek⟩)

/-- A run of dispatches never invokes a key that is not registered, and does not register
it. -/
theorem run_absent_key (calls : List (EventID ET EV × Nat × List Nat))
    (d d1 : EventDispatcher ET EV HK) (hw : d.WellFormed) (rs : List (Option GoError))
    (tr : List (Invocation ET EV HK)) (h : DispatchAll calls d = .ok (d1, rs, tr))
    (t : ET) (v : Option EV) (k : HK) (hk : k ∉ keysOf (d.elementsAt t v)) :
    d1.WellFormed ∧ List.countP (Invocation.isOf t v k) tr = 0 ∧
      k ∉ keysOf (d1.elementsAt t v) := by
  induction calls generalizing d rs tr with
  | nil =>
    simp only [DispatchAll, Except.ok.injEq, Prod.mk.injEq] at h
    obtain ⟨rfl, -, rfl⟩ := h
    exact ⟨hw, by simp, hk⟩
  | cons c cs ih =>
    simp only [DispatchAll] at h
    split at h
    · cases h
    · rename_i d2 r2 tr2 heq
      split at h
      · cases h
      · rename_i d3 rs3 tr3 heq3
        simp only [Except.ok.injEq, Prod.mk.injEq] at h
        obtain ⟨rfl, -, rfl⟩ := h
        obtain ⟨a1, a2⟩ := Dispatch_absent_key d d2 hw c.1 c.2.1 c.2.2 r2 tr2 heq t v k hk
        obtain ⟨b1, b2, b3⟩ := ih d2 (wellFormed_Dispatch d d2 _ _ _ _ _ hw heq) rs3 tr3 heq3 a2
        exact ⟨b1, by rw [List.countP_append, a1, b2], b3⟩

/-- A run of dispatches that match the registration of a fire-once entry and in which the
first invocation of the entry returns no hard error invokes the entry exactly once and leaves
it unregistered. -/
theorem run_once (calls : List (EventID ET EV × Nat × List Nat))
    (d d1 : EventDispatcher ET EV HK) (hw : d.WellFormed) (rs : List (Option GoError))
    (tr : List (Invocation ET EV HK)) (h : DispatchAll calls d = .ok (d1, rs, tr))
    (t : ET) (v : Option EV) (hmatch : ∀ c ∈ calls, c.1.Typ = t ∧ (v = none ∨ v = some c.1.Val))
    (x : Element ET EV HK) (hx : x ∈ d.elementsAt t v) (honce : x.Value.once = true)
    (i : Invocation ET EV HK) (hfirst : tr.find? (Invocation.isOf t v x.Value.key) = some i)
    (hsoft : x.Value.soft i.event) :
    d1.WellFormed ∧ List.countP (Invocation.isOf t v x.Value.key) tr = 1 ∧
      x.Value.key ∉ keysOf (d1.elementsAt t v) := by
  induction calls generalizing d rs tr with
  | nil =>
    simp only [DispatchAll, Except.ok.injEq, Prod.mk.injEq] at h
    obtain ⟨-, -, rfl⟩ := h
    simp at hfirst
  | cons c cs ih =>
    obtain ⟨ht, hv⟩ := hmatch c (List.mem_cons_self _ _)
    subst ht
    simp only [DispatchAll] at h
    split at h
    · cases h
    · rename_i d2 r2 tr2 heq
      split at h
      · cases h
      · rename_i d3 rs3 tr3 heq3
        simp only [Except.ok.injEq, Prod.mk.injEq] at h
        obtain ⟨rfl, -, rfl⟩ := h
        have hw2 := wellFormed_Dispatch d d2 _ _ _ _ _ hw heq
        have hxO : (v, x) ∈ d.dispatchOrder c.1 := by
          unfold EventDispatcher.dispatchOrder
          rcases hv with rfl | rfl
          · exact List.mem_append_left _ (List.mem_map.2 ⟨x, hx, rfl⟩)
          · exact List.mem_append_right _ (List.mem_map.2 ⟨x, hx, rfl⟩)
        have hcount := countP_invoked d d2 hw c.1 c.2.1 c.2.2 r2 tr2 heq v x hxO
        obtain ⟨f1, f2⟩ := Dispatch_fate d d2 hw c.1 c.2.1 c.2.2 r2 tr2 heq v hv x hx honce
        by_cases hinv : (v, x) ∈ invokedBy (taggedResult ⟨c.1, c.2.2, c.2.1⟩)
            (d.dispatchOrder c.1)
        · have hcount := hcount.1 hinv
          have hpos : 0 < List.countP (Invocation.isOf c.1.Typ v x.Value.key) tr2 := by omega
          obtain ⟨j, hj, hjp⟩ := List.countP_pos_iff.1 hpos
          cases hf : tr2.find? (Invocation.isOf c.1.Typ v x.Value.key) with
          | none =>
            rw [List.find?_eq_none] at hf
            exact absurd hjp (hf j hj)
          | some i0 =>
            rw [List.find?_append, hf] at hfirst
            have hfirst : i0 = i := by simpa using hfirst
            subst hfirst
            have hev : i0.event = ⟨c.1, c.2.2, c.2.1⟩ :=
              Dispatch_events d d2 c.1 c.2.1 c.2.2 r2 tr2 heq i0 (List.mem_of_find?_eq_some hf)
            rw [hev] at hsoft
            have habs := (f2 hinv).1 hsoft
            obtain ⟨b1, b2, b3⟩ := run_absent_key cs d2 d3 hw2 rs3 tr3 heq3 c.1.Typ v
              x.Value.key habs
            exact ⟨b1, by rw [List.countP_append, hcount, b2], b3⟩
        · have hcount := hcount.2 hinv
          have hnone : tr2.find? (Invocation.isOf c.1.Typ v x.Value.key) = none := by
            rw [List.find?_eq_none]
            intro j hj hjp
            have : 0 < List.countP (Invocation.isOf c.1.Typ v x.Value.key) tr2 :=
              List.countP_pos_iff.2 ⟨j, hj, hjp⟩
            omega
          rw [List.find?_append, hnone] at hfirst
          have hfirst : tr3.find? (Invocation.isOf c.1.Typ v x.Value.key) = some i := by
            simpa using hfirst
          obtain ⟨b1, b2, b3⟩ := ih d2 hw2 rs3 tr3 heq3
            (fun c2 hc2 => hmatch c2 (List.mem_cons_of_mem _ hc2)) (f1 hinv) hfirst
          exact ⟨b1, by rw [List.countP_append, hcount, b2], b3⟩

end TagCount

section RunReturns

theorem reachesNil_of_present {α : Type} (res : α → Option (Option GoError)) (l : List α)
    (h : ∀ y ∈ l, res y ≠ none) : reachesNil res l = false := by
  induction l with
  | nil => rfl
  | cons a l ih =>
    simp only [reachesNil]
    cases hr : res a with
    | none => exact absurd hr (h a (List.mem_cons_self _ _))
    | some r =>
      by_cases hh : isHard r = true
      · simp [hh]
      · simp only [hh, Bool.false_eq_true, if_false]
        exact ih (fun y hy => h y (List.mem_cons_of_mem _ hy))

variable {ET EV HK : Type} [DecidableEq ET] [DecidableEq EV] [DecidableEq HK]

/-- A run of dispatches returns when every handler registered for the dispatched event ids is
present. -/
theorem run_returns (calls : List (EventID ET EV × Nat × List Nat))
    (d : EventDispatcher ET EV HK) (hidle : d.isCalling = false)
    (hpres : ∀ c ∈ calls, ∀ y ∈ d.dispatchOrder c.1, y.2.Value.h ≠ none) :
    ∃ d1 rs tr, DispatchAll calls d = .ok (d1, rs, tr) := by
  induction calls generalizing d with
  | nil => exact ⟨d, [], [], rfl⟩
  | cons c cs ih =>
    have hn : reachesNil (taggedResult ⟨c.1, c.2.2, c.2.1⟩) (d.dispatchOrder c.1) = false := by
      apply reachesNil_of_present
      intro y hy
      have := hpres c (List.mem_cons_self _ _) y hy
      cases hh : y.2.Value.h with
      | none => exact absurd hh this
      | some f => simp [taggedResult, eventHandler.result, hh]
    obtain ⟨d1, h1⟩ := Dispatch_pass d c.1 c.2.1 c.2.2 hidle hn
    have hidle1 : d1.isCalling = false := by
      rcases Dispatch_shape d d1 _ _ _ _ _ h1 with ⟨-, rfl, -, -⟩ | ⟨b, b1, trb, -, -, -, rfl⟩
      · exact hidle
      · rfl
    obtain ⟨d2, rs, tr, h2⟩ := ih d1 hidle1 (fun c2 hc2 y hy =>
      hpres c2 (List.mem_cons_of_mem _ hc2) y (dispatchOrder_subset d d1 _ _ _ _ _ h1 c2.1 y hy))
    exact ⟨d2, _, _, by simp only [DispatchAll, h1, h2]; rfl⟩

end RunReturns

section CursorFacts

variable {ET EV HK : Type}

theorem elemAt_mid (done rest : List (Element ET EV HK)) (e : Element ET EV HK)
    (hn : (addrsOf (done ++ e :: rest)).Nodup) : elemAt (done ++ e :: rest) e.addr = some e := by
  induction done with
  | nil => simp [elemAt]
  | cons a done ih =>
    simp only [addrsOf, List.cons_append, List.map_cons, List.nodup_cons] at hn
    have hne : a.addr ≠ e.addr := by
      intro h
      apply hn.1
      rw [h]
      exact List.mem_map.2 ⟨e, by simp, rfl⟩
    have := ih hn.2
    simp only [elemAt] at this ⊢
    simp only [List.cons_append, List.find?_cons, hne, decide_False]
    exact this

theorem nextOf_mid (done rest : List (Element ET EV HK)) (e : Element ET EV HK)
    (hn : (addrsOf (done ++ e :: rest)).Nodup) :
    nextOf (done ++ e :: rest) e.addr = rest.head?.map (fun x => x.addr) := by
  induction done with
  | nil => simp [nextOf]
  | cons a done ih =>
    simp only [addrsOf, List.cons_append, List.map_cons, List.nodup_cons] at hn
    have hne : a.addr ≠ e.addr := by
      intro h
      apply hn.1
      rw [h]
      exact List.mem_map.2 ⟨e, by simp, rfl⟩
    simp only [List.cons_append, nextOf, hne, if_false]
    exact ih hn.2

end CursorFacts

section SlotFacts

variable {ET EV HK : Type} [DecidableEq EV]

theorem bucketListAt_type (b : eventTypeHandlers ET EV HK) (x : Option (eventHandlers ET EV HK))
    (v : Option EV) :
    bucketListAt ({ b with eventHandlers := x } : eventTypeHandlers ET EV HK) v =
      if v = none then x else bucketListAt b v := by
  cases v <;> rfl

theorem bucketListAt_val (b : eventTypeHandlers ET EV HK)
    (m : List (EV × eventHandlers ET EV HK)) (w : EV) (l : eventHandlers ET EV HK)
    (hm : b.valHandlers = some m) (v : Option EV) :
    bucketListAt ({ b with valHandlers := some (mapStore m w l) } : eventTypeHandlers ET EV HK) v =
      if v = some w then some l else bucketListAt b v := by
  cases v with
  | none => rfl
  | some u =>
    simp only [bucketListAt, hm, mapLookup_mapStore, Option.some.injEq]
    by_cases hu : w = u
    · simp [hu]
    · have : ¬ u = w := fun h => hu h.symm
      simp [hu, this]

variable [DecidableEq ET]

/-- The lists of a dispatcher after a write through the pointer to one of them. -/
theorem listAt_setListAt (d : EventDispatcher ET EV HK) (t : ET) (v : Option EV)
    (hs l : eventHandlers ET EV HK) (h : d.listAt t v = some hs) (t2 : ET) (v2 : Option EV) :
    (d.setListAt t v l).listAt t2 v2 =
      if t2 = t ∧ v2 = v then some l else d.listAt t2 v2 := by
  rw [listAt_eq] at h
  unfold EventDispatcher.setListAt
  cases hl : mapLookup d.typesHandlers t with
  | none => simp [hl] at h
  | some b =>
    simp only [hl, Option.some_bind] at h
    cases v with
    | none =>
      simp only [bucketListAt] at h
      simp only [h]
      rw [listAt_eq, listAt_eq]
      simp only [mapLookup_mapStore]
      by_cases ht : t = t2
      · subst ht
        simp only [if_true, Option.some_bind, true_and, hl, bucketListAt_type]
      · have : ¬ t2 = t := fun h => ht h.symm
        simp [ht, this]
    | some w =>
      simp only [bucketListAt] at h
      cases hm : b.valHandlers with
      | none => simp [hm] at h
      | some m =>
        simp only [hm] at h
        simp only [hm, h]
        rw [listAt_eq, listAt_eq]
        simp only [mapLookup_mapStore]
        by_cases ht : t = t2
        · subst ht
          simp only [if_true, Option.some_bind, true_and, hl, bucketListAt_val b m w l hm]
        · have : ¬ t2 = t := fun h => ht h.symm
          simp [ht, this]

theorem typesHandlers_setListAt (d : EventDispatcher ET EV HK) (t : ET) (v : Option EV)
    (l : eventHandlers ET EV HK) (t2 : ET) (ht : t2 ≠ t) :
    mapLookup (d.setListAt t v l).typesHandlers t2 = mapLookup d.typesHandlers t2 := by
  unfold EventDispatcher.setListAt
  have hne : ¬ t = t2 := fun h => ht h.symm
  cases mapLookup d.typesHandlers t with
  | none => rfl
  | some b =>
    cases v with
    | none =>
      simp only
      cases b.eventHandlers with
      | none => rfl
      | some _ => simp [mapLookup_mapStore, hne]
    | some w =>
      simp only
      cases b.valHandlers with
      | none => rfl
      | some m =>
        simp only
        cases mapLookup m w with
        | none => rfl
        | some _ => simp [mapLookup_mapStore, hne]

theorem isCalling_setListAt (d : EventDispatcher ET EV HK) (t : ET) (v : Option EV)
    (l : eventHandlers ET EV HK) : (d.setListAt t v l).isCalling = d.isCalling := by
  unfold EventDispatcher.setListAt
  cases mapLookup d.typesHandlers t with
  | none => rfl
  | some b =>
    cases v with
    | none =>
      simp only
      cases b.eventHandlers <;> rfl
    | some w =>
      simp only
      cases b.valHandlers with
      | none => rfl
      | some m =>
        simp only
        cases mapLookup m w <;> rfl

end SlotFacts

section OwnRem

variable {ET EV HK : Type} [DecidableEq ET] [DecidableEq EV] [DecidableEq HK]

/-- A removal addressed to a list leaves every other list as it is. -/
theorem remAt_frame (d : EventDispatcher ET EV HK) (t : ET) (v : Option EV) (k : HK) (t2 : ET)
    (v2 : Option EV) (hne : ¬ (t2 = t ∧ v2 = v)) :
    (d.remAt t v k).listAt t2 v2 = d.listAt t2 v2 := by
  have hor : ∀ w : Option EV, ¬ (t2 = t ∧ v2 = w) → t2 ≠ t ∨ v2 ≠ w := by
    intro w h
    by_cases ht : t2 = t
    · exact Or.inr (fun hv => h ⟨ht, hv⟩)
    · exact Or.inl ht
  cases v with
  | none => exact RemTypeHandler_frame d t k t2 v2 (hor none hne)
  | some w => exact RemHandler_frame d ⟨t, w⟩ k t2 v2 (hor (some w) hne)

/-- A registration addressed to a list leaves every other list as it is. -/
theorem addAt_frame (d d1 : EventDispatcher ET EV HK) (t : ET) (v : Option EV) (k : HK)
    (h : Option (EventHandler ET EV HK)) (once : Bool) (hadd : d.addAt t v k h once = .ok d1)
    (t2 : ET) (v2 : Option EV) (hne : ¬ (t2 = t ∧ v2 = v)) :
    d1.listAt t2 v2 = d.listAt t2 v2 := by
  have hor : ∀ w : Option EV, ¬ (t2 = t ∧ v2 = w) → t2 ≠ t ∨ v2 ≠ w := by
    intro w h
    by_cases ht : t2 = t
    · exact Or.inr (fun hv => h ⟨ht, hv⟩)
    · exact Or.inl ht
  cases v with
  | none => exact AddTypeHandler_frame d d1 t k h once hadd t2 v2 (hor none hne)
  | some w => exact AddHandler_frame d d1 ⟨t, w⟩ k h once hadd t2 v2 (hor (some w) hne)

/-- A registration of a handler that is not nil returns. -/
theorem addAt_ok (d : EventDispatcher ET EV HK) (t : ET) (v : Option EV) (k : HK)
    (f : EventHandler ET EV HK) (once : Bool) : ∃ d1, d.addAt t v k (some f) once = .ok d1 := by
  have hadd : ∀ hs : eventHandlers ET EV HK, ∃ hs1, hs.add k (some f) once = .ok hs1 := by
    intro hs
    unfold eventHandlers.add
    cases mapLookup hs.handlerMap k with
    | some a => exact ⟨_, rfl⟩
    | none => exact ⟨_, rfl⟩
  cases v with
  | none =>
    simp only [EventDispatcher.addAt, EventDispatcher.AddTypeHandler, eventTypeHandlers.add]
    obtain ⟨hs1, h1⟩ := hadd ((d.addORGetTypeHandlers t).2.eventHandlers.getD newEventHandlers)
    simp only [h1]
    exact ⟨_, rfl⟩
  | some w =>
    simp only [EventDispatcher.addAt, EventDispatcher.AddHandler, eventTypeHandlers.addVal]
    obtain ⟨hs1, h1⟩ := hadd ((mapLookup ((d.addORGetTypeHandlers t).2.valHandlers.getD []) w).getD
      newEventHandlers)
    simp only [h1]
    exact ⟨_, rfl⟩

/-- A removal addressed to a list that stays non-empty is the removal on that list. -/
theorem remAt_own (d : EventDispatcher ET EV HK) (t : ET) (v : Option EV) (k : HK)
    (hs : eventHandlers ET EV HK) (h : d.listAt t v = some hs)
    (hne : (hs.rem k).empty = false) : (d.remAt t v k).listAt t v = some (hs.rem k) := by
  rw [listAt_eq] at h
  cases hl : mapLookup d.typesHandlers t with
  | none => simp [hl] at h
  | some b =>
    simp only [hl, Option.some_bind] at h
    cases v with
    | none =>
      simp only [bucketListAt] at h
      simp only [EventDispatcher.remAt, EventDispatcher.RemTypeHandler, hl]
      have hb : b.rem k = { b with eventHandlers := some (hs.rem k) } := by
        simp [eventTypeHandlers.rem, h, hne]
      have he : (b.rem k).empty = false := by
        rw [hb]; simp [eventTypeHandlers.empty]
      simp only [he, Bool.false_eq_true, if_false]
      rw [listAt_eq]
      simp only [mapLookup_mapStore, if_true, Option.some_bind, hb, bucketListAt]
    | some w =>
      simp only [bucketListAt] at h
      cases hm : b.valHandlers with
      | none => simp [hm] at h
      | some m =>
        simp only [hm] at h
        simp only [EventDispatcher.remAt, EventDispatcher.RemHandler, hl]
        have hlen : ((mapStore m w (hs.rem k)).length == 0) = false := by
          cases hms : mapStore m w (hs.rem k) with
          | nil => exact absurd hms (mapStore_ne_nil m w _)
          | cons q qs => simp
        have hb : b.remVal w k = { b with valHandlers := some (mapStore m w (hs.rem k)) } := by
          simp [eventTypeHandlers.remVal, hm, h, hne, hlen]
        have he : (b.remVal w k).empty = false := by
          rw [hb]; simp [eventTypeHandlers.empty]
        simp only [he, Bool.false_eq_true, if_false]
        rw [listAt_eq]
        simp only [mapLookup_mapStore, if_true, Option.some_bind, hb, bucketListAt]

end OwnRem

section PerformFacts

variable {ET EV HK : Type} [DecidableEq ET] [DecidableEq EV] [DecidableEq HK]

theorem scriptAt_mapStore (s : Scripted ET EV HK) (t : ET) (v : Option EV) (k : HK)
    (sc : Script ET EV HK) (t2 : ET) (v2 : Option EV) (k2 : HK) (hne : (t, v) ≠ (t2, v2)) :
    ({ dispatcher := s.dispatcher, scripts := mapStore s.scripts (t, v, k) sc } :
      Scripted ET EV HK).scriptAt t2 v2 k2 = s.scriptAt t2 v2 k2 := by
  have : ¬ (t, v, k) = (t2, v2, k2) := by
    intro h
    simp only [Prod.mk.injEq] at h
    exact hne (by rw [h.1, h.2.1])
  simp [Scripted.scriptAt, mapLookup_mapStore, this]

end PerformFacts

section PerformFactsAux

variable {ET EV HK : Type} [DecidableEq HK]

theorem rem_nonempty (hs : eventHandlers ET EV HK) (k : HK) (hc : hs.calling = true)
    (hne : hs.handlerList ≠ []) : (hs.rem k).empty = false := by
  apply empty_false_of_ne_nil
  rw [(rem_calling hs k hc).2.1]
  exact hne

end PerformFactsAux

section PerformFacts

variable {ET EV HK : Type} [DecidableEq ET] [DecidableEq EV] [DecidableEq HK]

/-- What a callback that registers neither a nil handler nor a handler in the list under
iteration does: it returns, the list under iteration has at most queued a removal, and every
list the callback is not addressed to is as it was. -/
theorem perform_quiet (s : Scripted ET EV HK) (t : ET) (v : Option EV)
    (hs : eventHandlers ET EV HK) (c : Callback ET EV HK)
    (hl : s.dispatcher.listAt t v = some hs) (hc : hs.calling = true)
    (hne : hs.handlerList ≠ []) (hq1 : c.registersNil = false)
    (hq2 : c.registersAt t v = false) :
    ∃ s1, s.perform c = .ok s1 ∧
      s1.dispatcher.listAt t v = some ((ownRems t v [c]).foldl eventHandlers.rem hs) ∧
      (∀ k, s1.scriptAt t v k = s.scriptAt t v k) ∧
      ∀ t2 v2, c.touches t2 v2 = false →
        s1.dispatcher.listAt t2 v2 = s.dispatcher.listAt t2 v2 ∧
          ∀ k, s1.scriptAt t2 v2 k = s.scriptAt t2 v2 k := by
  cases c with
  | addTypeHandler t1 k1 h sc once =>
    cases h with
    | none => simp [Callback.registersNil] at hq1
    | some f =>
      have htar : ¬ (t1, (none : Option EV)) = (t, v) := by
        simpa [Callback.registersAt, Callback.target, Callback.removes] using hq2
      obtain ⟨d1, h1⟩ := addAt_ok s.dispatcher t1 none k1 f once
      have h1' : s.dispatcher.AddTypeHandler t1 k1 (some f) once = .ok d1 := h1
      refine ⟨⟨d1, mapStore s.scripts (t1, none, k1) sc⟩, ?_, ?_, ?_, ?_⟩
      · simp [Scripted.perform, Scripted.AddTypeHandler, h1']
      · have : ownRems t v [Callback.addTypeHandler t1 k1 (some f) sc once] = [] := by
          simp [ownRems, Callback.removes]
        rw [this, List.foldl_nil, ← hl]
        exact addAt_frame s.dispatcher d1 t1 none k1 (some f) once h1 t v
          (fun h => htar (by rw [h.1, h.2]))
      · intro k
        exact scriptAt_mapStore s t1 none k1 sc t v k htar
      · intro t2 v2 ht
        have htar2 : ¬ (t1, (none : Option EV)) = (t2, v2) := by
          simpa [Callback.touches, Callback.target] using ht
        exact ⟨addAt_frame s.dispatcher d1 t1 none k1 (some f) once h1 t2 v2
            (fun h => htar2 (by rw [h.1, h.2])),
          fun k => scriptAt_mapStore s t1 none k1 sc t2 v2 k htar2⟩
  | addHandler evtId k1 h sc once =>
    cases h with
    | none => simp [Callback.registersNil] at hq1
    | some f =>
      have htar : ¬ (evtId.Typ, some evtId.Val) = (t, v) := by
        simpa [Callback.registersAt, Callback.target, Callback.removes] using hq2
      obtain ⟨d1, h1⟩ := addAt_ok s.dispatcher evtId.Typ (some evtId.Val) k1 f once
      have h1' : s.dispatcher.AddHandler evtId k1 (some f) once = .ok d1 := h1
      refine ⟨⟨d1, mapStore s.scripts (evtId.Typ, some evtId.Val, k1) sc⟩, ?_, ?_, ?_, ?_⟩
      · simp [Scripted.perform, Scripted.AddHandler, h1']
      · have : ownRems t v [Callback.addHandler evtId k1 (some f) sc once] = [] := by
          simp [ownRems, Callback.removes]
        rw [this, List.foldl_nil, ← hl]
        exact addAt_frame s.dispatcher d1 evtId.Typ (some evtId.Val) k1 (some f) once h1 t v
          (fun h => htar (by rw [h.1, h.2]))
      · intro k
        exact scriptAt_mapStore s evtId.Typ (some evtId.Val) k1 sc t v k htar
      · intro t2 v2 ht
        have htar2 : ¬ (evtId.Typ, some evtId.Val) = (t2, v2) := by
          simpa [Callback.touches, Callback.target] using ht
        exact ⟨addAt_frame s.dispatcher d1 evtId.Typ (some evtId.Val) k1 (some f) once h1 t2 v2
            (fun h => htar2 (by rw [h.1, h.2])),
          fun k => scriptAt_mapStore s evtId.Typ (some evtId.Val) k1 sc t2 v2 k htar2⟩
  | remTypeHandler t1 k1 =>
    refine ⟨s.RemTypeHandler t1 k1, rfl, ?_, fun _ => rfl, ?_⟩
    · by_cases htar : (t1, (none : Option EV)) = (t, v)
      · have : ownRems t v [Callback.remTypeHandler t1 k1] = [k1] := by
          simp [ownRems, Callback.target, Callback.removes, htar]
        simp only [Prod.mk.injEq] at htar
        obtain ⟨rfl, rfl⟩ := htar
        rw [this]
        exact remAt_own s.dispatcher t1 none k1 hs hl (rem_nonempty hs k1 hc hne)
      · have : ownRems t v [Callback.remTypeHandler t1 k1] = [] := by
          simp [ownRems, Callback.target, htar]
        rw [this, List.foldl_nil, ← hl]
        exact remAt_frame s.dispatcher t1 none k1 t v (fun h => htar (by rw [h.1, h.2]))
    · intro t2 v2 ht
      have htar2 : ¬ (t1, (none : Option EV)) = (t2, v2) := by
        simpa [Callback.touches, Callback.target] using ht
      exact ⟨remAt_frame s.dispatcher t1 none k1 t2 v2 (fun h => htar2 (by rw [h.1, h.2])),
        fun _ => rfl⟩
  | remHandler evtId k1 =>
    refine ⟨s.RemHandler evtId k1, rfl, ?_, fun _ => rfl, ?_⟩
    · by_cases htar : (evtId.Typ, some evtId.Val) = (t, v)
      · have : ownRems t v [Callback.remHandler evtId k1] = [k1] := by
          simp [ownRems, Callback.target, Callback.removes, htar]
        simp only [Prod.mk.injEq] at htar
        obtain ⟨rfl, rfl⟩ := htar
        rw [this]
        exact remAt_own s.dispatcher evtId.Typ (some evtId.Val) k1 hs hl
          (rem_nonempty hs k1 hc hne)
      · have : ownRems t v [Callback.remHandler evtId k1] = [] := by
          simp [ownRems, Callback.target, htar]
        rw [this, List.foldl_nil, ← hl]
        exact remAt_frame s.dispatcher evtId.Typ (some evtId.Val) k1 t v
          (fun h => htar (by rw [h.1, h.2]))
    · intro t2 v2 ht
      have htar2 : ¬ (evtId.Typ, some evtId.Val) = (t2, v2) := by
        simpa [Callback.touches, Callback.target] using ht
      exact ⟨remAt_frame s.dispatcher evtId.Typ (some evtId.Val) k1 t2 v2
          (fun h => htar2 (by rw [h.1, h.2])),
        fun _ => rfl⟩

end PerformFacts

section PerformFactsAux

variable {ET EV HK : Type} [DecidableEq ET] [DecidableEq EV]

theorem ownRems_cons (t : ET) (v : Option EV) (c : Callback ET EV HK)
    (cs : List (Callback ET EV HK)) : ownRems t v (c :: cs) = ownRems t v [c] ++ ownRems t v cs := by
  simp only [ownRems, List.filterMap_cons, List.filterMap_nil]
  split <;> simp

end PerformFactsAux

section PerformFacts

variable {ET EV HK : Type} [DecidableEq ET] [DecidableEq EV] [DecidableEq HK]

/-- What the callbacks of a handler do when none of them registers a nil handler or a handler
in the list under iteration. -/
theorem performAll_quiet (cs : List (Callback ET EV HK)) (s : Scripted ET EV HK) (t : ET)
    (v : Option EV) (hs : eventHandlers ET EV HK)
    (hl : s.dispatcher.listAt t v = some hs) (hc : hs.calling = true)
    (hne : hs.handlerList ≠ [])
    (hq : ∀ c ∈ cs, c.registersNil = false ∧ c.registersAt t v = false) :
    ∃ s1, s.performAll cs = .ok s1 ∧
      s1.dispatcher.listAt t v = some ((ownRems t v cs).foldl eventHandlers.rem hs) ∧
      (∀ k, s1.scriptAt t v k = s.scriptAt t v k) ∧
      ∀ t2 v2, (∀ c ∈ cs, c.touches t2 v2 = false) →
        s1.dispatcher.listAt t2 v2 = s.dispatcher.listAt t2 v2 ∧
          ∀ k, s1.scriptAt t2 v2 k = s.scriptAt t2 v2 k := by
  induction cs generalizing s hs with
  | nil => exact ⟨s, rfl, hl, fun _ => rfl, fun _ _ _ => ⟨rfl, fun _ => rfl⟩⟩
  | cons c cs ih =>
    obtain ⟨q1, q2⟩ := hq c (List.mem_cons_self _ _)
    obtain ⟨s1, p1, p2, p3, p4⟩ := perform_quiet s t v hs c hl hc hne q1 q2
    obtain ⟨f1, f2, -, -⟩ := foldl_rem_calling (ownRems t v [c]) hs hc
    obtain ⟨s2, r1, r2, r3, r4⟩ := ih s1 _ p2 f1 (by rw [f2]; exact hne)
      (fun c2 hc2 => hq c2 (List.mem_cons_of_mem _ hc2))
    refine ⟨s2, ?_, ?_, ?_, ?_⟩
    · simp only [Scripted.performAll, p1, r1]
    · have e := ownRems_cons t v c cs
      rw [r2, e, List.foldl_append]
    · intro k
      rw [r3, p3]
    · intro t2 v2 ht
      obtain ⟨a1, a2⟩ := p4 t2 v2 (ht c (List.mem_cons_self _ _))
      obtain ⟨b1, b2⟩ := r4 t2 v2 (fun c2 hc2 => ht c2 (List.mem_cons_of_mem _ hc2))
      exact ⟨b1.trans a1, fun k => (b2 k).trans (a2 k)⟩

/-- The removals a handler asks of the list that is invoking it are queued on that list and
leave every other list as it was. -/
theorem requestRems_own (ks : List HK) (s : Scripted ET EV HK) (t : ET) (v : Option EV)
    (hs : eventHandlers ET EV HK) (hl : s.dispatcher.listAt t v = some hs)
    (hc : hs.calling = true) (hne : hs.handlerList ≠ []) :
    (s.requestRems t v ks).dispatcher.listAt t v = some (ks.foldl eventHandlers.rem hs) ∧
      (s.requestRems t v ks).scripts = s.scripts ∧
      ∀ t2 v2, ¬ (t2 = t ∧ v2 = v) →
        (s.requestRems t v ks).dispatcher.listAt t2 v2 = s.dispatcher.listAt t2 v2 := by
  have key : ∀ (ks : List HK) (d : EventDispatcher ET EV HK) (hs : eventHandlers ET EV HK),
      d.listAt t v = some hs → hs.calling = true → hs.handlerList ≠ [] →
      (ks.foldl (fun d k => d.remAt t v k) d).listAt t v = some (ks.foldl eventHandlers.rem hs) ∧
        ∀ t2 v2, ¬ (t2 = t ∧ v2 = v) →
          (ks.foldl (fun d k => d.remAt t v k) d).listAt t2 v2 = d.listAt t2 v2 := by
    intro ks
    induction ks with
    | nil => intro d hs hl _ _; exact ⟨hl, fun _ _ _ => rfl⟩
    | cons k ks ih =>
      intro d hs hl hc hne
      have h1 := remAt_own d t v k hs hl (rem_nonempty hs k hc hne)
      obtain ⟨c1, c2, -, -⟩ := rem_calling hs k hc
      obtain ⟨i1, i2⟩ := ih (d.remAt t v k) (hs.rem k) h1 c1 (by rw [c2]; exact hne)
      simp only [List.foldl_cons]
      exact ⟨i1, fun t2 v2 h => (i2 t2 v2 h).trans (remAt_frame d t v k t2 v2 h)⟩
  obtain ⟨k1, k2⟩ := key ks s.dispatcher hs hl hc hne
  exact ⟨k1, rfl, k2⟩

end PerformFacts

section AbsorbFactsAux

variable {ET EV HK : Type} [DecidableEq ET] [DecidableEq EV]

theorem listRemove_map_absorb (t : ET) (v : Option EV) (sc : HK → Script ET EV HK)
    (l : List (Element ET EV HK)) (a : Nat) :
    listRemove (l.map (absorbElem t v sc)) a = (listRemove l a).map (absorbElem t v sc) := by
  unfold listRemove
  rw [List.filter_map]
  rfl

end AbsorbFactsAux

section AbsorbFacts

variable {ET EV HK : Type} [DecidableEq ET] [DecidableEq EV] [DecidableEq HK]

theorem absorbList_rem (t : ET) (v : Option EV) (sc : HK → Script ET EV HK)
    (hs : eventHandlers ET EV HK) (k : HK) :
    (absorbList t v sc hs).rem k = absorbList t v sc (hs.rem k) := by
  unfold eventHandlers.rem
  simp only [absorbList]
  cases mapLookup hs.handlerMap k with
  | none => rfl
  | some a =>
    simp only
    cases hs.calling with
    | true => rfl
    | false =>
      simp only [Bool.false_eq_true, if_false, listRemove_map_absorb]

theorem absorbList_foldl_rem (t : ET) (v : Option EV) (sc : HK → Script ET EV HK)
    (ks : List HK) (hs : eventHandlers ET EV HK) :
    ks.foldl eventHandlers.rem (absorbList t v sc hs) =
      absorbList t v sc (ks.foldl eventHandlers.rem hs) := by
  induction ks generalizing hs with
  | nil => rfl
  | cons k ks ih => simp only [List.foldl_cons, absorbList_rem, ih]

theorem absorbList_drainPending (t : ET) (v : Option EV) (sc : HK → Script ET EV HK)
    (hs : eventHandlers ET EV HK) :
    drainPending (absorbList t v sc hs) = absorbList t v sc (drainPending hs) := by
  cases hs with
  | mk c l m p n =>
    cases p with
    | none => rfl
    | some q =>
      show ({ (q.foldl eventHandlers.rem (absorbList t v sc ⟨false, l, m, some q, n⟩)) with
          pendingRemList := none } : eventHandlers ET EV HK) =
        absorbList t v sc { (q.foldl eventHandlers.rem ⟨false, l, m, some q, n⟩) with
          pendingRemList := none }
      rw [absorbList_foldl_rem]
      rfl

end AbsorbFacts

section AbsorbFactsAux

variable {ET EV HK : Type} [DecidableEq ET] [DecidableEq EV]

theorem result_absorbElem (t : ET) (v : Option EV) (sc : HK → Script ET EV HK)
    (event : Event ET EV) (e : Element ET EV HK) :
    Element.result event (absorbElem t v sc e) = Element.result event e := by
  simp only [Element.result, eventHandler.result, absorbElem]
  cases e.Value.h <;> rfl

end AbsorbFactsAux

section AbsorbFactsAux

variable {ET EV HK : Type}

theorem absorbHandler_injective (extra : Event ET EV → List HK) (f g : EventHandler ET EV HK)
    (h : absorbHandler extra f = absorbHandler extra g) : f = g := by
  cases f with
  | mk ff =>
    cases g with
    | mk gg =>
      simp only [absorbHandler, EventHandler.mk.injEq] at h
      congr
      funext ev
      have := congrFun h ev
      simp only [Reply.mk.injEq, List.append_cancel_right_eq] at this
      cases hf : ff ev
      cases hg : gg ev
      simp only [hf, hg] at this
      rw [this.1, this.2]

end AbsorbFactsAux

section AbsorbFactsAux

variable {ET EV HK : Type} [DecidableEq ET] [DecidableEq EV]

theorem absorbElem_injective (t : ET) (v : Option EV) (sc : HK → Script ET EV HK)
    (a b : Element ET EV HK) (h : absorbElem t v sc a = absorbElem t v sc b) : a = b := by
  cases a with
  | mk aa av =>
    cases av with
    | mk ak ah ao =>
      cases b with
      | mk ba bv =>
        cases bv with
        | mk bk bh bo =>
          simp only [absorbElem, Element.mk.injEq, eventHandler.mk.injEq] at h
          obtain ⟨rfl, rfl, hh, rfl⟩ := h
          congr
          cases ah with
          | none =>
            cases bh with
            | none => rfl
            | some g => simp at hh
          | some f =>
            cases bh with
            | none => simp at hh
            | some g =>
              simp only [Option.map_some', Option.some.injEq] at hh
              rw [absorbHandler_injective _ f g hh]

theorem map_absorb_injective (t : ET) (v : Option EV) (sc : HK → Script ET EV HK)
    (l1 l2 : List (Element ET EV HK))
    (h : l1.map (absorbElem t v sc) = l2.map (absorbElem t v sc)) : l1 = l2 :=
  List.map_injective_iff.2 (fun a b hab => absorbElem_injective t v sc a b hab) h

end AbsorbFactsAux

section LoopSim

theorem listRemove_mid {ET EV HK : Type} (done rest : List (Element ET EV HK)) (e : Element ET EV HK)
    (hn : (addrsOf (done ++ e :: rest)).Nodup) :
    listRemove (done ++ e :: rest) e.addr = done ++ rest := by
  unfold listRemove
  simp only [addrsOf, List.map_append, List.map_cons] at hn
  have hnd := List.nodup_append.1 hn
  have hd : ∀ x ∈ done, x.addr ≠ e.addr := by
    intro x hx h
    exact hnd.2.2 (List.mem_map.2 ⟨x, hx, rfl⟩) (by rw [h]; exact List.mem_cons_self _ _)
  have hr : ∀ x ∈ rest, x.addr ≠ e.addr := by
    intro x hx h
    have := (List.nodup_cons.1 hnd.2.1).1
    exact this (by rw [← h]; exact List.mem_map.2 ⟨x, hx, rfl⟩)
  rw [List.filter_append, List.filter_cons]
  simp only [ne_eq, not_true_eq_false, decide_False, Bool.false_eq_true, if_false]
  rw [List.filter_eq_self.2 (fun x hx => by simpa using hd x hx),
    List.filter_eq_self.2 (fun x hx => by simpa using hr x hx)]

variable {ET EV HK : Type} [DecidableEq ET] [DecidableEq EV] [DecidableEq HK]

/-- The loop over handlers that call back, when no callback registers a nil handler or a
handler in the list under iteration, does to that list what the plain loop does to the list of
the absorbed elements, returns the same error and invokes the same entries; a list that no
callback is addressed to stays as it was. -/
theorem callLoop_sim (t : ET) (v : Option EV) (event : Event ET EV)
    (sc : HK → Script ET EV HK) (rest : List (Element ET EV HK)) :
    ∀ (done : List (Element ET EV HK)) (hs : eventHandlers ET EV HK) (s : Scripted ET EV HK)
      (fuel : Nat), rest.length ≤ fuel →
      s.dispatcher.listAt t v = some hs → hs.calling = true →
      (addrsOf hs.handlerList).Nodup → hs.handlerList = done ++ rest →
      (∀ k, s.scriptAt t v k = sc k) →
      (∀ x ∈ invokedBy (Element.result event) rest, ∀ c ∈ sc x.Value.key event,
        c.registersNil = false ∧ c.registersAt t v = false) →
      (∀ p, callLoop event (rest.map (absorbElem t v sc)) (absorbList t v sc hs) = .error p →
        Scripted.callLoop t v event fuel (rest.head?.map (fun x => x.addr)) s =
          some (.error p)) ∧
      ∀ hsA r tr, callLoop event (rest.map (absorbElem t v sc)) (absorbList t v sc hs) =
          .ok (hsA, r, tr) →
        ∃ s1 hs1, Scripted.callLoop t v event fuel (rest.head?.map (fun x => x.addr)) s =
            some (.ok (s1, r, tr)) ∧
          s1.dispatcher.listAt t v = some hs1 ∧ absorbList t v sc hs1 = hsA ∧
          (∀ k, s1.scriptAt t v k = sc k) ∧
          ∀ t2 v2, ¬ (t2 = t ∧ v2 = v) →
            (∀ x ∈ invokedBy (Element.result event) rest, ∀ c ∈ sc x.Value.key event,
              c.touches t2 v2 = false) →
            s1.dispatcher.listAt t2 v2 = s.dispatcher.listAt t2 v2 ∧
              ∀ k, s1.scriptAt t2 v2 k = s.scriptAt t2 v2 k := by
  induction rest with
  | nil =>
    intro done hs s fuel _ hl _ _ _ hsc _
    constructor
    · intro p h
      simp [callLoop] at h
    · intro hsA r tr h
      simp only [List.map_nil, callLoop, Except.ok.injEq, Prod.mk.injEq] at h
      obtain ⟨rfl, rfl, rfl⟩ := h
      refine ⟨s, hs, ?_, hl, rfl, hsc, fun _ _ _ _ => ⟨rfl, fun _ => rfl⟩⟩
      cases fuel <;> rfl
  | cons e rest ih =>
    intro done hs s fuel hfuel hl hc hnd hlist hsc hq
    cases fuel with
    | zero => simp at hfuel
    | succ fuel =>
      have hfuel1 : rest.length ≤ fuel := by simpa using hfuel
      have hnd' : (addrsOf (done ++ e :: rest)).Nodup := by rw [← hlist]; exact hnd
      have helem : elemAt hs.handlerList e.addr = some e := by
        rw [hlist]; exact elemAt_mid done rest e hnd'
      have hne : hs.handlerList ≠ [] := by rw [hlist]; simp
      have hcur : (e :: rest).head?.map (fun x => x.addr) = some e.addr := rfl
      rw [hcur]
      cases hh : e.Value.h with
      | none =>
        have hrich : Scripted.callLoop t v event (fuel + 1) (some e.addr) s =
            some (.error Panic.nilDereference) := by
          simp only [Scripted.callLoop, hl, helem, hh]
        have hplain : callLoop event ((e :: rest).map (absorbElem t v sc))
            (absorbList t v sc hs) = .error Panic.nilDereference := by
          simp [callLoop, absorbElem, hh]
        rw [hplain, hrich]
        exact ⟨fun p h => by cases h; rfl, fun _ _ _ h => by cases h⟩
      | some f =>
        have hinv : e ∈ invokedBy (Element.result event) (e :: rest) := by
          simp only [invokedBy, Element.result, eventHandler.result, hh, Option.map_some']
          split <;> simp
        have htail : isHard (f.HandleEvent event).err ≠ true →
            ∀ x ∈ invokedBy (Element.result event) rest,
              x ∈ invokedBy (Element.result event) (e :: rest) := by
          intro hard x hx
          simp only [invokedBy, Element.result, eventHandler.result, hh, Option.map_some', hard,
            Bool.false_eq_true, if_false]
          exact List.mem_cons_of_mem _ hx
        -- the calls of the handler
        obtain ⟨a1, a2, a3⟩ := requestRems_own (f.HandleEvent event).rems s t v hs hl hc hne
        obtain ⟨b1, b2, -, -⟩ := foldl_rem_calling (f.HandleEvent event).rems hs hc
        have hscr0 : ∀ t2 v2 k, (s.requestRems t v (f.HandleEvent event).rems).scriptAt t2 v2 k =
            s.scriptAt t2 v2 k := by
          intro t2 v2 k
          simp only [Scripted.scriptAt, a2]
        obtain ⟨s1, p1, p2, p3, p4⟩ := performAll_quiet (sc e.Value.key event)
          (s.requestRems t v (f.HandleEvent event).rems) t v _ a1 b1 (by rw [b2]; exact hne)
          (hq e hinv)
        rw [← List.foldl_append] at p2
        obtain ⟨c1, c2, -, -⟩ := foldl_rem_calling
          ((f.HandleEvent event).rems ++ ownRems t v (sc e.Value.key event)) hs hc
        have hscr1 : ∀ k, s1.scriptAt t v k = sc k := fun k => by rw [p3, hscr0, hsc]
        have hframe1 : ∀ t2 v2, ¬ (t2 = t ∧ v2 = v) →
            (∀ c ∈ sc e.Value.key event, c.touches t2 v2 = false) →
            s1.dispatcher.listAt t2 v2 = s.dispatcher.listAt t2 v2 ∧
              ∀ k, s1.scriptAt t2 v2 k = s.scriptAt t2 v2 k := by
          intro t2 v2 hne2 htouch
          obtain ⟨q1, q2⟩ := p4 t2 v2 htouch
          exact ⟨q1.trans (a3 t2 v2 hne2), fun k => (q2 k).trans (hscr0 t2 v2 k)⟩
        have hplainRems : (absorbHandler (fun ev => ownRems t v (sc e.Value.key ev)) f).HandleEvent
            event = ⟨(f.HandleEvent event).err,
              (f.HandleEvent event).rems ++ ownRems t v (sc e.Value.key event)⟩ := rfl
        by_cases hard : isHard (f.HandleEvent event).err = true
        · have hrich : Scripted.callLoop t v event (fuel + 1) (some e.addr) s =
              some (.ok (s1, (f.HandleEvent event).err, [(e.Value.key, event)])) := by
            simp only [Scripted.callLoop, hl, helem, hh, hsc, p1, hard, if_true]
          have hplain : callLoop event ((e :: rest).map (absorbElem t v sc))
              (absorbList t v sc hs) =
              .ok (absorbList t v sc (((f.HandleEvent event).rems ++
                  ownRems t v (sc e.Value.key event)).foldl eventHandlers.rem hs),
                (f.HandleEvent event).err, [(e.Value.key, event)]) := by
            simp only [List.map_cons, callLoop, absorbElem, hh, Option.map_some', hplainRems,
              hard, if_true, absorbList_foldl_rem]
          rw [hplain, hrich]
          constructor
          · intro p h; cases h
          · intro hsA r tr h
            simp only [Except.ok.injEq, Prod.mk.injEq] at h
            obtain ⟨rfl, rfl, rfl⟩ := h
            refine ⟨s1, _, rfl, p2, rfl, hscr1, ?_⟩
            intro t2 v2 hne2 htouch
            exact hframe1 t2 v2 hne2 (htouch e hinv)
        · -- the entry is unlinked or kept, and the loop goes on
          obtain ⟨hsR, hR⟩ : ∃ x : eventHandlers ET EV HK, x = ((f.HandleEvent event).rems ++
              ownRems t v (sc e.Value.key event)).foldl eventHandlers.rem hs := ⟨_, rfl⟩
          rw [← hR] at p2 c1 c2
          have helem1 : elemAt hsR.handlerList e.addr = some e := by rw [c2]; exact helem
          have hnext : nextOf hsR.handlerList e.addr = rest.head?.map (fun x => x.addr) := by
            rw [c2, hlist]; exact nextOf_mid done rest e hnd'
          by_cases hleave : (e.Value.once ||
              decide ((f.HandleEvent event).err = some GoError.ErrUnregister)) = true
          · -- unlinked
            obtain ⟨hsU, hU⟩ : ∃ x : eventHandlers ET EV HK, x =
                { hsR with
                  handlerList := listRemove hsR.handlerList e.addr
                  handlerMap := mapDelete hsR.handlerMap e.Value.key } := ⟨_, rfl⟩
            have hl2 := listAt_setListAt s1.dispatcher t v hsR hsU p2
            have hl3 : (s1.setListAt t v hsU).dispatcher.listAt t v = some hsU := by
              show (s1.dispatcher.setListAt t v hsU).listAt t v = some hsU
              rw [hl2 t v]; simp
            have hUl : hsU.handlerList = done ++ rest := by
              rw [hU]
              show listRemove hsR.handlerList e.addr = done ++ rest
              rw [c2, hlist, listRemove_mid done rest e hnd']
            obtain ⟨i1, i2⟩ := ih done hsU (s1.setListAt t v hsU) fuel hfuel1 hl3
              (by rw [hU]; exact c1)
              (by
                rw [hUl]
                simp only [addrsOf, List.map_append, List.map_cons] at hnd' ⊢
                exact List.Nodup.sublist
                  (List.Sublist.append (List.Sublist.refl _) (List.sublist_cons_self _ _)) hnd')
              hUl
              (fun k => hscr1 k)
              (fun x hx => hq x (htail hard x hx))
            have hplain : callLoop event ((e :: rest).map (absorbElem t v sc))
                (absorbList t v sc hs) =
                match callLoop event (rest.map (absorbElem t v sc)) (absorbList t v sc hsU) with
                | .error p => .error p
                | .ok (hs3, r, tr) => .ok (hs3, r, (e.Value.key, event) :: tr) := by
              subst hU
              subst hR
              simp only [List.map_cons, callLoop, absorbElem, hh, Option.map_some', hplainRems,
                hard, Bool.false_eq_true, if_false, hleave, if_true, absorbList_foldl_rem]
              simp only [absorbList, listRemove_map_absorb]
            have hrich : Scripted.callLoop t v event (fuel + 1) (some e.addr) s =
                match Scripted.callLoop t v event fuel (rest.head?.map (fun x => x.addr))
                  (s1.setListAt t v hsU) with
                | none => none
                | some (.error p) => some (.error p)
                | some (.ok (s3, r, tr)) => some (.ok (s3, r, (e.Value.key, event) :: tr)) := by
              subst hU
              simp only [Scripted.callLoop, hl, helem, hh, hsc, p1, hard, Bool.false_eq_true,
                if_false, p2, helem1, hnext, hleave, if_true]
            rw [hplain, hrich]
            constructor
            · intro p h
              split at h
              · rename_i p0 heq
                simp only [Except.error.injEq] at h
                subst h
                rw [i1 p0 heq]
              · cases h
            · intro hsA r tr h
              split at h
              · cases h
              · rename_i hs3 r3 tr3 heq
                simp only [Except.ok.injEq, Prod.mk.injEq] at h
                obtain ⟨rfl, rfl, rfl⟩ := h
                obtain ⟨s3, hs3', j1, j2, j3, j4, j5⟩ := i2 hs3 r3 tr3 heq
                refine ⟨s3, hs3', by rw [j1], j2, j3, j4, ?_⟩
                intro t2 v2 hne2 htouch
                obtain ⟨k1, k2⟩ := j5 t2 v2 hne2
                  (fun x hx => htouch x (htail hard x hx))
                obtain ⟨m1, m2⟩ := hframe1 t2 v2 hne2 (htouch e hinv)
                refine ⟨?_, fun k => ?_⟩
                · rw [k1]
                  show (s1.dispatcher.setListAt t v hsU).listAt t2 v2 = _
                  rw [hl2 t2 v2, if_neg hne2, m1]
                · rw [k2]
                  exact m2 k
          · -- kept
            obtain ⟨i1, i2⟩ := ih (done ++ [e]) hsR s1 fuel hfuel1 p2 c1
              (by rw [c2]; exact hnd)
              (by rw [c2, hlist]; simp)
              (fun k => hscr1 k)
              (fun x hx => hq x (htail hard x hx))
            have hplain : callLoop event ((e :: rest).map (absorbElem t v sc))
                (absorbList t v sc hs) =
                match callLoop event (rest.map (absorbElem t v sc)) (absorbList t v sc hsR) with
                | .error p => .error p
                | .ok (hs3, r, tr) => .ok (hs3, r, (e.Value.key, event) :: tr) := by
              subst hR
              simp only [List.map_cons, callLoop, absorbElem, hh, Option.map_some', hplainRems,
                hard, Bool.false_eq_true, if_false, hleave, absorbList_foldl_rem]
            have hrich : Scripted.callLoop t v event (fuel + 1) (some e.addr) s =
                match Scripted.callLoop t v event fuel (rest.head?.map (fun x => x.addr)) s1 with
                | none => none
                | some (.error p) => some (.error p)
                | some (.ok (s3, r, tr)) => some (.ok (s3, r, (e.Value.key, event) :: tr)) := by
              simp only [Scripted.callLoop, hl, helem, hh, hsc, p1, hard, Bool.false_eq_true,
                if_false, p2, helem1, hnext, hleave]
            rw [hplain, hrich]
            constructor
            · intro p h
              split at h
              · rename_i p0 heq
                simp only [Except.error.injEq] at h
                subst h
                rw [i1 p0 heq]
              · cases h
            · intro hsA r tr h
              split at h
              · cases h
              · rename_i hs3 r3 tr3 heq
                simp only [Except.ok.injEq, Prod.mk.injEq] at h
                obtain ⟨rfl, rfl, rfl⟩ := h
                obtain ⟨s3, hs3', j1, j2, j3, j4, j5⟩ := i2 hs3 r3 tr3 heq
                refine ⟨s3, hs3', by rw [j1], j2, j3, j4, ?_⟩
                intro t2 v2 hne2 htouch
                obtain ⟨k1, k2⟩ := j5 t2 v2 hne2
                  (fun x hx => htouch x (htail hard x hx))
                obtain ⟨m1, m2⟩ := hframe1 t2 v2 hne2 (htouch e hinv)
                exact ⟨k1.trans m1, fun k => (k2 k).trans (m2 k)⟩

end LoopSim

section PassSim

variable {ET EV HK : Type} [DecidableEq ET] [DecidableEq EV] [DecidableEq HK]

theorem scriptAt_setListAt (s : Scripted ET EV HK) (t : ET) (v : Option EV)
    (l : eventHandlers ET EV HK) (t2 : ET) (v2 : Option EV) (k : HK) :
    (s.setListAt t v l).scriptAt t2 v2 k = s.scriptAt t2 v2 k := rfl

/-- A pass over handlers that call back, when no invoked handler registers a nil handler or a
handler in the list under iteration, is the plain pass over the list of the absorbed
elements. -/
theorem call_sim (t : ET) (v : Option EV) (evtID : EventID ET EV) (g : Nat) (p : List Nat)
    (sc : HK → Script ET EV HK) (s : Scripted ET EV HK) (hs : eventHandlers ET EV HK)
    (fuel : Nat) (hfuel : hs.handlerList.length ≤ fuel)
    (hl : s.dispatcher.listAt t v = some hs) (hnd : (addrsOf hs.handlerList).Nodup)
    (hsc : ∀ k, s.scriptAt t v k = sc k)
    (hq : ∀ x ∈ invokedBy (Element.result ⟨evtID, p, g⟩) hs.handlerList,
      ∀ c ∈ sc x.Value.key ⟨evtID, p, g⟩, c.registersNil = false ∧ c.registersAt t v = false) :
    (∀ e, (absorbList t v sc hs).call evtID g p = .error e →
      s.call t v ⟨evtID, p, g⟩ fuel = some (.error e)) ∧
    ∀ hsA r tr, (absorbList t v sc hs).call evtID g p = .ok (hsA, r, tr) →
      ∃ s1 hs1, s.call t v ⟨evtID, p, g⟩ fuel = some (.ok (s1, r, tr)) ∧
        s1.dispatcher.listAt t v = some hs1 ∧ absorbList t v sc hs1 = hsA ∧
        (∀ k, s1.scriptAt t v k = sc k) ∧
        ∀ t2 v2, ¬ (t2 = t ∧ v2 = v) →
          (∀ x ∈ invokedBy (Element.result ⟨evtID, p, g⟩) hs.handlerList,
            ∀ c ∈ sc x.Value.key ⟨evtID, p, g⟩, c.touches t2 v2 = false) →
          s1.dispatcher.listAt t2 v2 = s.dispatcher.listAt t2 v2 ∧
            ∀ k, s1.scriptAt t2 v2 k = s.scriptAt t2 v2 k := by
  have hl0 := listAt_setListAt s.dispatcher t v hs
    ({ hs with calling := true } : eventHandlers ET EV HK) hl
  have hl1 : (s.setListAt t v ({ hs with calling := true } : eventHandlers ET EV HK)
      ).dispatcher.listAt t v = some { hs with calling := true } := by
    show (s.dispatcher.setListAt t v _).listAt t v = _
    rw [hl0 t v]; simp
  obtain ⟨i1, i2⟩ := callLoop_sim t v ⟨evtID, p, g⟩ sc hs.handlerList []
    ({ hs with calling := true } : eventHandlers ET EV HK)
    (s.setListAt t v ({ hs with calling := true } : eventHandlers ET EV HK)) fuel hfuel
    hl1 rfl hnd rfl (fun k => hsc k) hq
  have hplain : (absorbList t v sc hs).call evtID g p =
      match callLoop ⟨evtID, p, g⟩ (hs.handlerList.map (absorbElem t v sc))
        (absorbList t v sc ({ hs with calling := true } : eventHandlers ET EV HK)) with
      | .error e => .error e
      | .ok (hs1, some err, tr) => .ok (hs1, some err, tr)
      | .ok (hs1, none, tr) => .ok (drainPending hs1, none, tr) := rfl
  have hrich : s.call t v ⟨evtID, p, g⟩ fuel =
      match Scripted.callLoop t v ⟨evtID, p, g⟩ fuel
        (hs.handlerList.head?.map (fun x => x.addr))
        (s.setListAt t v ({ hs with calling := true } : eventHandlers ET EV HK)) with
      | none => none
      | some (.error e) => some (.error e)
      | some (.ok (s1, some err, tr)) => some (.ok (s1, some err, tr))
      | some (.ok (s1, none, tr)) =>
        match s1.dispatcher.listAt t v with
        | none => none
        | some hs1 => some (.ok (s1.setListAt t v (drainPending hs1), none, tr)) := by
    simp only [Scripted.call, hl]
  rw [hplain, hrich]
  constructor
  · intro e h
    split at h
    · rename_i e0 heq
      simp only [Except.error.injEq] at h
      subst h
      rw [i1 e0 heq]
    · cases h
    · cases h
  · intro hsA r tr h
    split at h
    · cases h
    · rename_i hs3 err tr3 heq
      simp only [Except.ok.injEq, Prod.mk.injEq] at h
      obtain ⟨rfl, rfl, rfl⟩ := h
      obtain ⟨s1, hs1, j1, j2, j3, j4, j5⟩ := i2 _ _ _ heq
      refine ⟨s1, hs1, by rw [j1], j2, j3, j4, ?_⟩
      intro t2 v2 hne htouch
      obtain ⟨k1, k2⟩ := j5 t2 v2 hne htouch
      refine ⟨?_, k2⟩
      rw [k1]
      show (s.dispatcher.setListAt t v _).listAt t2 v2 = _
      rw [hl0 t2 v2, if_neg hne]
    · rename_i hs3 tr3 heq
      simp only [Except.ok.injEq, Prod.mk.injEq] at h
      obtain ⟨rfl, rfl, rfl⟩ := h
      obtain ⟨s1, hs1, j1, j2, j3, j4, j5⟩ := i2 _ _ _ heq
      have hl2 := listAt_setListAt s1.dispatcher t v hs1 (drainPending hs1) j2
      refine ⟨s1.setListAt t v (drainPending hs1), drainPending hs1, ?_, ?_, ?_, j4, ?_⟩
      · rw [j1]
        simp only [j2]
      · show (s1.dispatcher.setListAt t v _).listAt t v = _
        rw [hl2 t v]; simp
      · rw [← absorbList_drainPending, j3]
      · intro t2 v2 hne htouch
        obtain ⟨k1, k2⟩ := j5 t2 v2 hne htouch
        refine ⟨?_, k2⟩
        show (s1.dispatcher.setListAt t v _).listAt t2 v2 = _
        rw [hl2 t2 v2, if_neg hne, k1]
        show (s.dispatcher.setListAt t v _).listAt t2 v2 = _
        rw [hl0 t2 v2, if_neg hne]

end PassSim

section PassSimAux

variable {ET EV HK : Type} [DecidableEq ET] [DecidableEq EV]

theorem result_absorb_fun (t : ET) (v : Option EV) (sc : HK → Script ET EV HK)
    (event : Event ET EV) :
    (fun b => Element.result event (absorbElem t v sc b)) = Element.result event := by
  funext b
  exact result_absorbElem t v sc event b

theorem callsOf_map_absorb (t : ET) (v : Option EV) (sc : HK → Script ET EV HK)
    (event : Event ET EV) (l : List (Element ET EV HK)) :
    callsOf event (l.map (absorbElem t v sc)) = callsOf event l := by
  simp only [callsOf, List.map_map]
  rfl

end PassSimAux

section PassSim

variable {ET EV HK : Type} [DecidableEq ET] [DecidableEq EV] [DecidableEq HK]

/-- A pass over handlers that call back, when no invoked handler registers a nil handler or a
handler in the list under iteration: it panics when it reaches a nil handler, and otherwise
returns the first hard error of the sequence after invoking the entries up to that error, in
sequence order; lists that no invoked handler calls into are left as they were. -/
theorem call_pass (t : ET) (v : Option EV) (evtID : EventID ET EV) (g : Nat) (p : List Nat)
    (s : Scripted ET EV HK) (hs : eventHandlers ET EV HK)
    (fuel : Nat) (hfuel : hs.handlerList.length ≤ fuel)
    (hl : s.dispatcher.listAt t v = some hs) (hnd : (addrsOf hs.handlerList).Nodup)
    (hq : ∀ x ∈ invokedBy (Element.result ⟨evtID, p, g⟩) hs.handlerList,
      ∀ c ∈ s.scriptAt t v x.Value.key ⟨evtID, p, g⟩,
        c.registersNil = false ∧ c.registersAt t v = false) :
    (reachesNil (Element.result ⟨evtID, p, g⟩) hs.handlerList = true →
      s.call t v ⟨evtID, p, g⟩ fuel = some (.error Panic.nilDereference)) ∧
    (reachesNil (Element.result ⟨evtID, p, g⟩) hs.handlerList = false →
      ∃ s1 hs1, s.call t v ⟨evtID, p, g⟩ fuel =
          some (.ok (s1, firstHard (Element.result ⟨evtID, p, g⟩) hs.handlerList,
            callsOf ⟨evtID, p, g⟩ (invokedBy (Element.result ⟨evtID, p, g⟩) hs.handlerList))) ∧
        s1.dispatcher.listAt t v = some hs1 ∧
        (absorbList t v (fun k => s.scriptAt t v k) hs).call evtID g p =
          .ok (absorbList t v (fun k => s.scriptAt t v k) hs1,
            firstHard (Element.result ⟨evtID, p, g⟩) hs.handlerList,
            callsOf ⟨evtID, p, g⟩ (invokedBy (Element.result ⟨evtID, p, g⟩) hs.handlerList)) ∧
        (∀ k, s1.scriptAt t v k = s.scriptAt t v k) ∧
        ∀ t2 v2, ¬ (t2 = t ∧ v2 = v) →
          (∀ x ∈ invokedBy (Element.result ⟨evtID, p, g⟩) hs.handlerList,
            ∀ c ∈ s.scriptAt t v x.Value.key ⟨evtID, p, g⟩, c.touches t2 v2 = false) →
          s1.dispatcher.listAt t2 v2 = s.dispatcher.listAt t2 v2 ∧
            ∀ k, s1.scriptAt t2 v2 k = s.scriptAt t2 v2 k) := by
  obtain ⟨i1, i2⟩ := call_sim t v evtID g p (fun k => s.scriptAt t v k) s hs fuel hfuel hl hnd
    (fun _ => rfl) hq
  have hrn : reachesNil (Element.result ⟨evtID, p, g⟩)
      (absorbList t v (fun k => s.scriptAt t v k) hs).handlerList =
      reachesNil (Element.result ⟨evtID, p, g⟩) hs.handlerList := by
    show reachesNil _ (hs.handlerList.map _) = _
    rw [reachesNil_map, result_absorb_fun]
  constructor
  · intro hn
    exact i1 _ (call_error _ evtID g p (by rw [hrn]; exact hn))
  · intro hn
    obtain ⟨hsA, hA⟩ := call_ok (absorbList t v (fun k => s.scriptAt t v k) hs) evtID g p
      (by rw [hrn]; exact hn)
    have e1 : firstHard (Element.result ⟨evtID, p, g⟩)
        (absorbList t v (fun k => s.scriptAt t v k) hs).handlerList =
        firstHard (Element.result ⟨evtID, p, g⟩) hs.handlerList := by
      show firstHard _ (hs.handlerList.map _) = _
      rw [firstHard_map, result_absorb_fun]
    have e2 : callsOf ⟨evtID, p, g⟩ (invokedBy (Element.result ⟨evtID, p, g⟩)
        (absorbList t v (fun k => s.scriptAt t v k) hs).handlerList) =
        callsOf ⟨evtID, p, g⟩ (invokedBy (Element.result ⟨evtID, p, g⟩) hs.handlerList) := by
      show callsOf _ (invokedBy _ (hs.handlerList.map _)) = _
      rw [invokedBy_map, result_absorb_fun, callsOf_map_absorb]
    rw [e1, e2] at hA
    obtain ⟨s1, hs1, j1, j2, j3, j4, j5⟩ := i2 _ _ _ hA
    exact ⟨s1, hs1, j1, j2, by rw [hA, j3], j4, j5⟩

end PassSim

section DropFacts

variable {ET EV HK : Type} [DecidableEq ET] [DecidableEq EV]

theorem listAt_dropEmptyTypeList (d : EventDispatcher ET EV HK) (t t2 : ET) (w : EV) :
    (d.dropEmptyTypeList t).listAt t2 (some w) = d.listAt t2 (some w) := by
  unfold EventDispatcher.dropEmptyTypeList
  cases hl : mapLookup d.typesHandlers t with
  | none => rfl
  | some b =>
    simp only
    cases hb : b.eventHandlers with
    | none => rfl
    | some l =>
      simp only
      by_cases he : l.empty = true
      · simp only [he, if_true]
        rw [listAt_eq, listAt_eq]
        simp only [mapLookup_mapStore]
        by_cases ht : t = t2
        · subst ht
          simp only [if_true, Option.some_bind, hl]
          rfl
        · simp [ht]
      · simp only [he, Bool.false_eq_true, if_false]

end DropFacts

section InvokedFacts

theorem invokedBy_append_left {α : Type} (res : α → Option (Option GoError)) (A B : List α)
    (x : α) (h : x ∈ invokedBy res A) : x ∈ invokedBy res (A ++ B) := by
  induction A with
  | nil => simp [invokedBy] at h
  | cons a A ih =>
    simp only [invokedBy] at h
    simp only [List.cons_append, invokedBy]
    cases hr : res a with
    | none => simp [hr] at h
    | some r =>
      by_cases hh : isHard r = true
      · simp only [hr, hh, if_true] at h
        simp only [hh, if_true]
        exact h
      · simp only [hr, hh, Bool.false_eq_true, if_false] at h
        simp only [hh, Bool.false_eq_true, if_false]
        rcases List.mem_cons.1 h with h1 | h1
        · exact List.mem_cons.2 (Or.inl h1)
        · exact List.mem_cons_of_mem _ (ih h1)

end InvokedFacts

section BucketSimAux

variable {ET EV HK : Type} [DecidableEq ET] [DecidableEq EV]

theorem elementsAt_of_listAt (d : EventDispatcher ET EV HK) (t : ET) (v : Option EV)
    (hs : eventHandlers ET EV HK) (h : d.listAt t v = some hs) :
    d.elementsAt t v = hs.handlerList := by
  simp [EventDispatcher.elementsAt, h]

theorem elementsAt_of_listAt_none (d : EventDispatcher ET EV HK) (t : ET) (v : Option EV)
    (h : d.listAt t v = none) : d.elementsAt t v = [] := by
  simp [EventDispatcher.elementsAt, h]

end BucketSimAux

section BucketSim

variable {ET EV HK : Type} [DecidableEq ET] [DecidableEq EV] [DecidableEq HK]

/-- The value half of a bucket call with handlers that call back is a pass over the sequence of
the event value, when no invoked handler registers a nil handler or a handler in that
sequence. -/
theorem scripted_callVal_pass (s : Scripted ET EV HK) (evtID : EventID ET EV) (g : Nat)
    (p : List Nat) (fuel : Nat)
    (hfuel : (s.dispatcher.elementsAt evtID.Typ (some evtID.Val)).length ≤ fuel)
    (hnd : (addrsOf (s.dispatcher.elementsAt evtID.Typ (some evtID.Val))).Nodup)
    (hq : ∀ x ∈ invokedBy (Element.result ⟨evtID, p, g⟩)
        (s.dispatcher.elementsAt evtID.Typ (some evtID.Val)),
      ∀ c ∈ s.scriptAt evtID.Typ (some evtID.Val) x.Value.key ⟨evtID, p, g⟩,
        c.registersNil = false ∧ c.registersAt evtID.Typ (some evtID.Val) = false) :
    (reachesNil (Element.result ⟨evtID, p, g⟩)
        (s.dispatcher.elementsAt evtID.Typ (some evtID.Val)) = true →
      s.callVal evtID g p fuel = some (.error Panic.nilDereference)) ∧
    (reachesNil (Element.result ⟨evtID, p, g⟩)
        (s.dispatcher.elementsAt evtID.Typ (some evtID.Val)) = false →
      ∃ s1, s.callVal evtID g p fuel =
        some (.ok (s1, firstHard (Element.result ⟨evtID, p, g⟩)
            (s.dispatcher.elementsAt evtID.Typ (some evtID.Val)),
          callsOf ⟨evtID, p, g⟩ (invokedBy (Element.result ⟨evtID, p, g⟩)
            (s.dispatcher.elementsAt evtID.Typ (some evtID.Val)))))) := by
  cases hl : s.dispatcher.listAt evtID.Typ (some evtID.Val) with
  | none =>
    rw [elementsAt_of_listAt_none _ _ _ hl]
    constructor
    · intro h; simp [reachesNil] at h
    · intro _
      exact ⟨s, by simp only [Scripted.callVal, hl]; rfl⟩
  | some hs =>
    rw [elementsAt_of_listAt _ _ _ hs hl] at hfuel hnd hq ⊢
    obtain ⟨i1, i2⟩ := call_pass evtID.Typ (some evtID.Val) evtID g p s hs fuel hfuel hl hnd hq
    constructor
    · intro hn
      simp only [Scripted.callVal, hl, i1 hn]
    · intro hn
      obtain ⟨s1, hs1, j1, -⟩ := i2 hn
      exact ⟨_, by simp only [Scripted.callVal, hl, j1]; rfl⟩

/-- A bucket call with handlers that call back is one pass over the dispatch order, when no
invoked handler registers a nil handler or a handler in its own list and no invoked type-level
handler calls into the list of the event value. -/
theorem scripted_callBucket_pass (s : Scripted ET EV HK) (evtID : EventID ET EV) (g : Nat)
    (p : List Nat) (fuel : Nat)
    (hfuel : (s.dispatcher.dispatchOrder evtID).length ≤ fuel)
    (hndT : (addrsOf (s.dispatcher.elementsAt evtID.Typ none)).Nodup)
    (hndV : (addrsOf (s.dispatcher.elementsAt evtID.Typ (some evtID.Val))).Nodup)
    (hq : ∀ x ∈ invokedBy (taggedResult ⟨evtID, p, g⟩) (s.dispatcher.dispatchOrder evtID),
      ∀ c ∈ s.scriptAt evtID.Typ x.1 x.2.Value.key ⟨evtID, p, g⟩,
        c.registersNil = false ∧ c.registersAt evtID.Typ x.1 = false ∧
          (x.1 = none → c.touches evtID.Typ (some evtID.Val) = false)) :
    (reachesNil (taggedResult ⟨evtID, p, g⟩) (s.dispatcher.dispatchOrder evtID) = true →
      s.callBucket evtID g p fuel = some (.error Panic.nilDereference)) ∧
    (reachesNil (taggedResult ⟨evtID, p, g⟩) (s.dispatcher.dispatchOrder evtID) = false →
      ∃ s1, s.callBucket evtID g p fuel =
        some (.ok (s1, firstHard (taggedResult ⟨evtID, p, g⟩) (s.dispatcher.dispatchOrder evtID),
          (invokedBy (taggedResult ⟨evtID, p, g⟩) (s.dispatcher.dispatchOrder evtID)).map
            (fun x => (x.1, x.2.Value.key, (⟨evtID, p, g⟩ : Event ET EV)))))) := by
  have hresA : (fun e : Element ET EV HK => taggedResult ⟨evtID, p, g⟩ ((none : Option EV), e)) =
      Element.result ⟨evtID, p, g⟩ := rfl
  have hresB : (fun e : Element ET EV HK => taggedResult ⟨evtID, p, g⟩ (some evtID.Val, e)) =
      Element.result ⟨evtID, p, g⟩ := rfl
  have hlenT : (s.dispatcher.elementsAt evtID.Typ none).length ≤ fuel := by
    simp only [EventDispatcher.dispatchOrder, List.length_append, List.length_map] at hfuel
    omega
  have hlenV : (s.dispatcher.elementsAt evtID.Typ (some evtID.Val)).length ≤ fuel := by
    simp only [EventDispatcher.dispatchOrder, List.length_append, List.length_map] at hfuel
    omega
  cases hl : s.dispatcher.listAt evtID.Typ none with
  | none =>
    have hA : s.dispatcher.elementsAt evtID.Typ none = [] := elementsAt_of_listAt_none _ _ _ hl
    have h0 : s.dispatcher.dispatchOrder evtID =
        (s.dispatcher.elementsAt evtID.Typ (some evtID.Val)).map
          (fun e => (some evtID.Val, e)) := by
      simp [EventDispatcher.dispatchOrder, hA]
    rw [h0] at hq ⊢
    rw [reachesNil_map, firstHard_map, invokedBy_map, hresB]
    rw [invokedBy_map, hresB] at hq
    obtain ⟨i1, i2⟩ := scripted_callVal_pass s evtID g p fuel hlenV hndV
      (fun x hx c hc =>
        have := hq (some evtID.Val, x) (List.mem_map.2 ⟨x, hx, rfl⟩) c hc
        ⟨this.1, this.2.1⟩)
    constructor
    · intro hn
      simp only [Scripted.callBucket, hl, i1 hn]
    · intro hn
      obtain ⟨s1, j1⟩ := i2 hn
      refine ⟨s1, ?_⟩
      simp only [Scripted.callBucket, hl, j1]
      simp [callsOf, List.map_map, Function.comp_def]
  | some hs =>
    have hA : s.dispatcher.elementsAt evtID.Typ none = hs.handlerList :=
      elementsAt_of_listAt _ _ _ hs hl
    have h0 : s.dispatcher.dispatchOrder evtID =
        hs.handlerList.map (fun e => ((none : Option EV), e)) ++
          (s.dispatcher.elementsAt evtID.Typ (some evtID.Val)).map
            (fun e => (some evtID.Val, e)) := by
      simp [EventDispatcher.dispatchOrder, hA]
    rw [hA] at hlenT hndT
    rw [h0] at hq ⊢
    -- the handlers invoked by the type-level pass are invoked by the dispatch
    have hsubT : ∀ x ∈ invokedBy (Element.result ⟨evtID, p, g⟩) hs.handlerList,
        ((none : Option EV), x) ∈ invokedBy (taggedResult ⟨evtID, p, g⟩)
          (hs.handlerList.map (fun e => ((none : Option EV), e)) ++
            (s.dispatcher.elementsAt evtID.Typ (some evtID.Val)).map
              (fun e => (some evtID.Val, e))) := by
      intro x hx
      have hxA : ((none : Option EV), x) ∈ invokedBy (taggedResult ⟨evtID, p, g⟩)
          (hs.handlerList.map (fun e => ((none : Option EV), e))) := by
        rw [invokedBy_map, hresA]
        exact List.mem_map.2 ⟨x, hx, rfl⟩
      cases hf : firstHard (taggedResult ⟨evtID, p, g⟩)
          (hs.handlerList.map (fun e => ((none : Option EV), e))) with
      | some e =>
        rw [(pass_append_of_hard _ _ _ e hf).1]
        exact hxA
      | none =>
        cases hn : reachesNil (taggedResult ⟨evtID, p, g⟩)
            (hs.handlerList.map (fun e => ((none : Option EV), e))) with
        | false =>
          rw [(pass_append_of_complete _ _ _ hf hn).1]
          exact List.mem_append_left _ hxA
        | true =>
          exact invokedBy_append_left _ _ _ _ hxA
    obtain ⟨i1, i2⟩ := call_pass evtID.Typ none evtID g p s hs fuel hlenT hl hndT
      (fun x hx c hc =>
        have := hq (none, x) (hsubT x hx) c hc
        ⟨this.1, this.2.1⟩)
    cases hnA : reachesNil (Element.result ⟨evtID, p, g⟩) hs.handlerList with
    | true =>
      have hnA2 : reachesNil (taggedResult ⟨evtID, p, g⟩)
          (hs.handlerList.map (fun e => ((none : Option EV), e))) = true := by
        rw [reachesNil_map, hresA]; exact hnA
      rw [reachesNil_append_left _ _ _ hnA2]
      constructor
      · intro _
        simp only [Scripted.callBucket, hl, i1 hnA]
      · intro h; cases h
    | false =>
      have hnA2 : reachesNil (taggedResult ⟨evtID, p, g⟩)
          (hs.handlerList.map (fun e => ((none : Option EV), e))) = false := by
        rw [reachesNil_map, hresA]; exact hnA
      obtain ⟨s1, hs1, j1, -, -, j4, j5⟩ := i2 hnA
      cases hf : firstHard (Element.result ⟨evtID, p, g⟩) hs.handlerList with
      | some e =>
        have hfA : firstHard (taggedResult ⟨evtID, p, g⟩)
            (hs.handlerList.map (fun e => ((none : Option EV), e))) = some e := by
          rw [firstHard_map, hresA]; exact hf
        obtain ⟨k1, k2, k3⟩ := pass_append_of_hard _ _
          ((s.dispatcher.elementsAt evtID.Typ (some evtID.Val)).map
            (fun e => (some evtID.Val, e))) e hfA
        rw [k1, k2, k3, invokedBy_map, hresA]
        constructor
        · intro h; cases h
        · intro _
          rw [hf] at j1
          refine ⟨{ s1 with dispatcher := s1.dispatcher.dropEmptyTypeList evtID.Typ }, ?_⟩
          simp only [Scripted.callBucket, hl, j1]
          simp [callsOf, List.map_map, Function.comp_def]
      | none =>
        have hfA : firstHard (taggedResult ⟨evtID, p, g⟩)
            (hs.handlerList.map (fun e => ((none : Option EV), e))) = none := by
          rw [firstHard_map, hresA]; exact hf
        obtain ⟨k1, k2, k3⟩ := pass_append_of_complete _ _
          ((s.dispatcher.elementsAt evtID.Typ (some evtID.Val)).map
            (fun e => (some evtID.Val, e))) hfA hnA2
        rw [k1] at hq
        rw [k1, k2, k3, reachesNil_map, invokedBy_map, invokedBy_map, firstHard_map, hresA, hresB]
        rw [invokedBy_map, invokedBy_map, hresA, hresB] at hq
        rw [hf] at j1
        -- the list of the event value is as it was when the dispatch began
        obtain ⟨m1, m2⟩ := j5 evtID.Typ (some evtID.Val) (by simp)
          (fun x hx c hc =>
            (hq (none, x) (List.mem_append_left _ (List.mem_map.2 ⟨x, hx, rfl⟩)) c hc).2.2 rfl)
        obtain ⟨s2, hs2⟩ : ∃ s2 : Scripted ET EV HK, s2 =
            { s1 with dispatcher := s1.dispatcher.dropEmptyTypeList evtID.Typ } := ⟨_, rfl⟩
        have hl2 : s2.dispatcher.listAt evtID.Typ (some evtID.Val) =
            s.dispatcher.listAt evtID.Typ (some evtID.Val) := by
          rw [hs2]
          show (s1.dispatcher.dropEmptyTypeList evtID.Typ).listAt _ _ = _
          rw [listAt_dropEmptyTypeList, m1]
        have hsc2 : ∀ k, s2.scriptAt evtID.Typ (some evtID.Val) k =
            s.scriptAt evtID.Typ (some evtID.Val) k := by
          intro k
          rw [hs2]
          exact m2 k
        have hE2 : s2.dispatcher.elementsAt evtID.Typ (some evtID.Val) =
            s.dispatcher.elementsAt evtID.Typ (some evtID.Val) := by
          simp only [EventDispatcher.elementsAt, hl2]
        obtain ⟨n1, n2⟩ := scripted_callVal_pass s2 evtID g p fuel (by rw [hE2]; exact hlenV)
          (by rw [hE2]; exact hndV)
          (by
            rw [hE2]
            intro x hx c hc
            rw [hsc2] at hc
            have := hq (some evtID.Val, x)
              (List.mem_append_right _ (List.mem_map.2 ⟨x, hx, rfl⟩)) c hc
            exact ⟨this.1, this.2.1⟩)
        rw [hE2] at n1 n2
        constructor
        · intro hn
          simp only [Scripted.callBucket, hl, j1, ← hs2, n1 hn]
          simp
        · intro hn
          obtain ⟨s3, o1⟩ := n2 hn
          refine ⟨s3, ?_⟩
          simp only [Scripted.callBucket, hl, j1, ← hs2, o1]
          simp [callsOf, List.map_map, Function.comp_def]

end BucketSim

section DispatchSim

variable {ET EV HK : Type} [DecidableEq ET] [DecidableEq EV] [DecidableEq HK]

/-- A dispatch with handlers that call back, with no dispatch in progress, is one pass over the
dispatch order when no invoked handler registers a nil handler or a handler in its own list and
no invoked type-level handler calls into the list of the event value: it panics when the pass
reaches a nil handler, and otherwise returns the first hard error after invoking the entries up
to that error. -/
theorem scripted_Dispatch_pass (s : Scripted ET EV HK) (evtId : EventID ET EV) (g : Nat)
    (p : List Nat) (fuel : Nat) (hidle : s.dispatcher.isCalling = false)
    (hfuel : (s.dispatcher.dispatchOrder evtId).length ≤ fuel)
    (hndT : (addrsOf (s.dispatcher.elementsAt evtId.Typ none)).Nodup)
    (hndV : (addrsOf (s.dispatcher.elementsAt evtId.Typ (some evtId.Val))).Nodup)
    (hq : ∀ x ∈ invokedBy (taggedResult ⟨evtId, p, g⟩) (s.dispatcher.dispatchOrder evtId),
      ∀ c ∈ s.scriptAt evtId.Typ x.1 x.2.Value.key ⟨evtId, p, g⟩,
        c.registersNil = false ∧ c.registersAt evtId.Typ x.1 = false ∧
          (x.1 = none → c.touches evtId.Typ (some evtId.Val) = false)) :
    (reachesNil (taggedResult ⟨evtId, p, g⟩) (s.dispatcher.dispatchOrder evtId) = true →
      s.Dispatch evtId g p fuel = some (.error Panic.nilDereference)) ∧
    (reachesNil (taggedResult ⟨evtId, p, g⟩) (s.dispatcher.dispatchOrder evtId) = false →
      ∃ s1, s.Dispatch evtId g p fuel =
        some (.ok (s1, firstHard (taggedResult ⟨evtId, p, g⟩) (s.dispatcher.dispatchOrder evtId),
          (invokedBy (taggedResult ⟨evtId, p, g⟩) (s.dispatcher.dispatchOrder evtId)).map
            (toInvocation ⟨evtId, p, g⟩)))) := by
  cases hl : mapLookup s.dispatcher.typesHandlers evtId.Typ with
  | none =>
    have h0 : s.dispatcher.dispatchOrder evtId = [] := by
      simp [EventDispatcher.dispatchOrder, elementsAt_of_lookup_none s.dispatcher _ hl]
    rw [h0]
    constructor
    · intro h; simp [reachesNil] at h
    · intro _
      exact ⟨s, by simp only [Scripted.Dispatch, hl]; rfl⟩
  | some b =>
    obtain ⟨i1, i2⟩ := scripted_callBucket_pass
      ({ s with dispatcher := { s.dispatcher with isCalling := true } } : Scripted ET EV HK)
      evtId g p fuel hfuel hndT hndV hq
    constructor
    · intro hn
      have := i1 hn
      simp only [Scripted.Dispatch, hl, hidle, Bool.false_eq_true, if_false, this]
    · intro hn
      obtain ⟨s1, j1⟩ := i2 hn
      refine ⟨{ s1 with dispatcher :=
        { (s1.dispatcher.dropEmptyBucket evtId.Typ) with isCalling := false } }, ?_⟩
      simp only [Scripted.Dispatch, hl, hidle, Bool.false_eq_true, if_false, j1]
      simp [List.map_map, Function.comp_def, toInvocation]
      exact ⟨rfl, rfl⟩

end DispatchSim

section BucketLists

variable {ET EV HK : Type} [DecidableEq EV] [DecidableEq HK]

theorem listsConsistent_new : (newEventTypeHandlers : eventTypeHandlers ET EV HK).ListsConsistent := by
  intro v l h
  cases v <;> simp [bucketListAt, newEventTypeHandlers] at h

theorem listsConsistent_setType (b : eventTypeHandlers ET EV HK) (x : Option (eventHandlers ET EV HK))
    (hb : b.ListsConsistent) (hx : ∀ l, x = some l → l.Consistent) :
    ({ b with eventHandlers := x } : eventTypeHandlers ET EV HK).ListsConsistent := by
  intro v l h
  rw [bucketListAt_type] at h
  by_cases hv : v = none
  · simp only [hv, if_true] at h
    exact hx l h
  · simp only [hv, if_false] at h
    exact hb v l h

theorem listsConsistent_setVal (b : eventTypeHandlers ET EV HK)
    (x : Option (List (EV × eventHandlers ET EV HK))) (hb : b.ListsConsistent)
    (hx : ∀ m w l, x = some m → mapLookup m w = some l → l.Consistent) :
    ({ b with valHandlers := x } : eventTypeHandlers ET EV HK).ListsConsistent := by
  intro v l h
  cases v with
  | none => exact hb none l h
  | some w =>
    simp only [bucketListAt] at h
    cases hx1 : x with
    | none => simp [hx1] at h
    | some m =>
      simp only [hx1] at h
      exact hx m w l hx1 h

theorem listsConsistent_valMap (b : eventTypeHandlers ET EV HK) (hb : b.ListsConsistent)
    (w : EV) (l : eventHandlers ET EV HK) (h : mapLookup (b.valHandlers.getD []) w = some l) :
    l.Consistent := by
  cases hm : b.valHandlers with
  | none => simp [hm, mapLookup] at h
  | some m =>
    simp only [hm, Option.getD_some] at h
    exact hb (some w) l (by simp [bucketListAt, hm, h])

theorem listsConsistent_rem (b : eventTypeHandlers ET EV HK) (k : HK) (hb : b.ListsConsistent) :
    (b.rem k).ListsConsistent := by
  unfold eventTypeHandlers.rem
  cases hl : b.eventHandlers with
  | none => exact hb
  | some l0 =>
    have hc : l0.Consistent := hb none l0 hl
    simp only
    split
    · exact listsConsistent_setType b none hb (fun l h => by cases h)
    · exact listsConsistent_setType b _ hb
        (fun l h => by cases h; exact consistent_rem l0 k hc)

theorem listsConsistent_remVal (b : eventTypeHandlers ET EV HK) (w : EV) (k : HK)
    (hb : b.ListsConsistent) : (b.remVal w k).ListsConsistent := by
  unfold eventTypeHandlers.remVal
  simp only
  cases hl : mapLookup (b.valHandlers.getD []) w with
  | none => exact hb
  | some c =>
    have hc : c.Consistent := listsConsistent_valMap b hb w c hl
    simp only
    obtain ⟨m1, hm1⟩ : ∃ m1, m1 = (if (c.rem k).empty = true then
        mapDelete (b.valHandlers.getD []) w
        else mapStore (b.valHandlers.getD []) w (c.rem k)) := ⟨_, rfl⟩
    rw [← hm1]
    have hlk : ∀ u l, mapLookup m1 u = some l → l.Consistent := by
      intro u l hu
      rw [hm1] at hu
      split at hu
      · rw [mapLookup_mapDelete] at hu
        by_cases hwu : w = u
        · simp [hwu] at hu
        · simp only [hwu, if_false] at hu
          exact listsConsistent_valMap b hb u l hu
      · rw [mapLookup_mapStore] at hu
        by_cases hwu : w = u
        · simp only [hwu, if_true, Option.some.injEq] at hu
          rw [← hu]
          exact consistent_rem c k hc
        · simp only [hwu, if_false] at hu
          exact listsConsistent_valMap b hb u l hu
    split
    · exact listsConsistent_setVal b none hb (fun m u l h => by cases h)
    · exact listsConsistent_setVal b _ hb
        (fun m u l hm hu => by cases hm; exact hlk u l hu)

theorem listsConsistent_add (b b1 : eventTypeHandlers ET EV HK) (k : HK)
    (h : Option (EventHandler ET EV HK)) (once : Bool) (hb : b.ListsConsistent)
    (hadd : b.add k h once = .ok b1) : b1.ListsConsistent := by
  unfold eventTypeHandlers.add at hadd
  split at hadd
  · cases hadd
  · rename_i l1 heq
    simp only [Except.ok.injEq] at hadd
    subst hadd
    refine listsConsistent_setType b _ hb (fun l hl => ?_)
    cases hl
    refine consistent_add _ l1 k h once ?_ heq
    cases he : b.eventHandlers with
    | none => exact consistent_new
    | some l0 => exact hb none l0 he

theorem listsConsistent_addVal (b b1 : eventTypeHandlers ET EV HK) (w : EV) (k : HK)
    (h : Option (EventHandler ET EV HK)) (once : Bool) (hb : b.ListsConsistent)
    (hadd : b.addVal w k h once = .ok b1) : b1.ListsConsistent := by
  unfold eventTypeHandlers.addVal at hadd
  simp only at hadd
  split at hadd
  · cases hadd
  · rename_i l1 heq
    simp only [Except.ok.injEq] at hadd
    subst hadd
    refine listsConsistent_setVal b _ hb ?_
    intro m u l hm hu
    simp only [Option.some.injEq] at hm
    subst hm
    rw [mapLookup_mapStore] at hu
    by_cases hwu : w = u
    · simp only [hwu, if_true, Option.some.injEq] at hu
      rw [← hu]
      refine consistent_add _ l1 k h once ?_ heq
      cases he : mapLookup (b.valHandlers.getD []) w with
      | none => exact consistent_new
      | some l0 => exact listsConsistent_valMap b hb w l0 he
    · simp only [hwu, if_false] at hu
      exact listsConsistent_valMap b hb u l hu

end BucketLists

section DispatcherLists

variable {ET EV HK : Type} [DecidableEq ET] [DecidableEq EV] [DecidableEq HK]

theorem listsConsistent_listAt (d : EventDispatcher ET EV HK) (hd : d.ListsConsistent) (t : ET)
    (v : Option EV) (hs : eventHandlers ET EV HK) (h : d.listAt t v = some hs) :
    hs.Consistent := by
  rw [listAt_eq] at h
  cases hl : mapLookup d.typesHandlers t with
  | none => simp [hl] at h
  | some b =>
    simp only [hl, Option.some_bind] at h
    exact hd t b hl v hs h

theorem listsConsistent_store (d : EventDispatcher ET EV HK) (hd : d.ListsConsistent) (t : ET)
    (b : eventTypeHandlers ET EV HK) (hb : b.ListsConsistent) (c : Bool) :
    ({ typesHandlers := mapStore d.typesHandlers t b, isCalling := c } :
      EventDispatcher ET EV HK).ListsConsistent := by
  intro t2 b2 h
  simp only [mapLookup_mapStore] at h
  by_cases ht : t = t2
  · simp only [ht, if_true, Option.some.injEq] at h
    rw [← h]; exact hb
  · simp only [ht, if_false] at h
    exact hd t2 b2 h

theorem listsConsistent_delete (d : EventDispatcher ET EV HK) (hd : d.ListsConsistent) (t : ET)
    (c : Bool) :
    ({ typesHandlers := mapDelete d.typesHandlers t, isCalling := c } :
      EventDispatcher ET EV HK).ListsConsistent := by
  intro t2 b2 h
  simp only [mapLookup_mapDelete] at h
  by_cases ht : t = t2
  · simp [ht] at h
  · simp only [ht, if_false] at h
    exact hd t2 b2 h

theorem listsConsistent_RemTypeHandler (d : EventDispatcher ET EV HK) (hd : d.ListsConsistent)
    (t : ET) (k : HK) : (d.RemTypeHandler t k).ListsConsistent := by
  unfold EventDispatcher.RemTypeHandler
  cases hl : mapLookup d.typesHandlers t with
  | none => exact hd
  | some b =>
    simp only
    split
    · exact listsConsistent_delete d hd t _
    · exact listsConsistent_store d hd t _ (listsConsistent_rem b k (hd t b hl)) _

theorem listsConsistent_RemHandler (d : EventDispatcher ET EV HK) (hd : d.ListsConsistent)
    (evtId : EventID ET EV) (k : HK) : (d.RemHandler evtId k).ListsConsistent := by
  unfold EventDispatcher.RemHandler
  cases hl : mapLookup d.typesHandlers evtId.Typ with
  | none => exact hd
  | some b =>
    simp only
    split
    · exact listsConsistent_delete d hd _ _
    · exact listsConsistent_store d hd _ _ (listsConsistent_remVal b _ k (hd _ b hl)) _

theorem listsConsistent_addORGet (d : EventDispatcher ET EV HK) (hd : d.ListsConsistent) (t : ET) :
    (d.addORGetTypeHandlers t).1.ListsConsistent ∧ (d.addORGetTypeHandlers t).2.ListsConsistent := by
  unfold EventDispatcher.addORGetTypeHandlers
  cases hl : mapLookup d.typesHandlers t with
  | some b => exact ⟨hd, hd t b hl⟩
  | none => exact ⟨listsConsistent_store d hd t _ listsConsistent_new _, listsConsistent_new⟩

theorem listsConsistent_AddTypeHandler (d d1 : EventDispatcher ET EV HK) (hd : d.ListsConsistent)
    (t : ET) (k : HK) (h : Option (EventHandler ET EV HK)) (once : Bool)
    (hadd : d.AddTypeHandler t k h once = .ok d1) : d1.ListsConsistent := by
  obtain ⟨h1, h2⟩ := listsConsistent_addORGet d hd t
  unfold EventDispatcher.AddTypeHandler at hadd
  split at hadd
  · cases hadd
  · rename_i b1 heq
    simp only [Except.ok.injEq] at hadd
    subst hadd
    exact listsConsistent_store _ h1 t b1 (listsConsistent_add _ b1 k h once h2 heq) _

theorem listsConsistent_AddHandler (d d1 : EventDispatcher ET EV HK) (hd : d.ListsConsistent)
    (evtId : EventID ET EV) (k : HK) (h : Option (EventHandler ET EV HK)) (once : Bool)
    (hadd : d.AddHandler evtId k h once = .ok d1) : d1.ListsConsistent := by
  obtain ⟨h1, h2⟩ := listsConsistent_addORGet d hd evtId.Typ
  unfold EventDispatcher.AddHandler at hadd
  split at hadd
  · cases hadd
  · rename_i b1 heq
    simp only [Except.ok.injEq] at hadd
    subst hadd
    exact listsConsistent_store _ h1 _ b1 (listsConsistent_addVal _ b1 _ k h once h2 heq) _

theorem listsConsistent_remAt (d : EventDispatcher ET EV HK) (hd : d.ListsConsistent) (t : ET)
    (v : Option EV) (k : HK) : (d.remAt t v k).ListsConsistent := by
  cases v with
  | none => exact listsConsistent_RemTypeHandler d hd t k
  | some w => exact listsConsistent_RemHandler d hd ⟨t, w⟩ k

theorem listsConsistent_setListAt (d : EventDispatcher ET EV HK) (hd : d.ListsConsistent) (t : ET)
    (v : Option EV) (l : eventHandlers ET EV HK) (hl : l.Consistent) :
    (d.setListAt t v l).ListsConsistent := by
  unfold EventDispatcher.setListAt
  cases hb : mapLookup d.typesHandlers t with
  | none => exact hd
  | some b =>
    cases v with
    | none =>
      simp only
      cases b.eventHandlers with
      | none => exact hd
      | some _ =>
        exact listsConsistent_store d hd t _
          (listsConsistent_setType b _ (hd t b hb) (fun x hx => by cases hx; exact hl)) _
    | some w =>
      simp only
      cases hm : b.valHandlers with
      | none => exact hd
      | some m =>
        simp only
        cases mapLookup m w with
        | none => exact hd
        | some _ =>
          refine listsConsistent_store d hd t _ (listsConsistent_setVal b _ (hd t b hb) ?_) _
          intro m1 u x hm1 hu
          simp only [Option.some.injEq] at hm1
          subst hm1
          rw [mapLookup_mapStore] at hu
          by_cases hwu : w = u
          · simp only [hwu, if_true, Option.some.injEq] at hu
            rw [← hu]; exact hl
          · simp only [hwu, if_false] at hu
            exact hd t b hb (some u) x (by simp [bucketListAt, hm, hu])

theorem listsConsistent_dropEmptyTypeList (d : EventDispatcher ET EV HK) (hd : d.ListsConsistent)
    (t : ET) : (d.dropEmptyTypeList t).ListsConsistent := by
  unfold EventDispatcher.dropEmptyTypeList
  cases hb : mapLookup d.typesHandlers t with
  | none => exact hd
  | some b =>
    simp only
    cases b.eventHandlers with
    | none => exact hd
    | some l =>
      simp only
      split
      · exact listsConsistent_store d hd t _
          (listsConsistent_setType b _ (hd t b hb) (fun x hx => by cases hx)) _
      · exact hd

theorem listsConsistent_dropEmptyValList (d : EventDispatcher ET EV HK) (hd : d.ListsConsistent)
    (t : ET) (w : EV) : (d.dropEmptyValList t w).ListsConsistent := by
  unfold EventDispatcher.dropEmptyValList
  cases hb : mapLookup d.typesHandlers t with
  | none => exact hd
  | some b =>
    simp only
    cases hm : b.valHandlers with
    | none => exact hd
    | some m =>
      simp only
      cases mapLookup m w with
      | none => exact hd
      | some c =>
        simp only
        split
        · refine listsConsistent_store d hd t _ (listsConsistent_setVal b _ (hd t b hb) ?_) _
          intro m1 u x hm1 hu
          split at hm1
          · cases hm1
          · simp only [Option.some.injEq] at hm1
            subst hm1
            rw [mapLookup_mapDelete] at hu
            by_cases hwu : w = u
            · simp [hwu] at hu
            · simp only [hwu, if_false] at hu
              exact hd t b hb (some u) x (by simp [bucketListAt, hm, hu])
        · exact hd

theorem listsConsistent_dropEmptyBucket (d : EventDispatcher ET EV HK) (hd : d.ListsConsistent)
    (t : ET) : (d.dropEmptyBucket t).ListsConsistent := by
  unfold EventDispatcher.dropEmptyBucket
  cases hb : mapLookup d.typesHandlers t with
  | none => exact hd
  | some b =>
    simp only
    split
    · exact listsConsistent_delete d hd t _
    · exact hd

end DispatcherLists

section ScriptedLists

variable {ET EV HK : Type} [DecidableEq ET] [DecidableEq EV] [DecidableEq HK]

theorem listsConsistent_perform (s s1 : Scripted ET EV HK) (c : Callback ET EV HK)
    (hd : s.dispatcher.ListsConsistent) (h : s.perform c = .ok s1) :
    s1.dispatcher.ListsConsistent := by
  cases c with
  | addTypeHandler t k f script once =>
    simp only [Scripted.perform, Scripted.AddTypeHandler] at h
    split at h
    · cases h
    · rename_i d1 heq
      simp only [Except.ok.injEq] at h
      subst h
      exact listsConsistent_AddTypeHandler _ d1 hd t k f once heq
  | addHandler evtId k f script once =>
    simp only [Scripted.perform, Scripted.AddHandler] at h
    split at h
    · cases h
    · rename_i d1 heq
      simp only [Except.ok.injEq] at h
      subst h
      exact listsConsistent_AddHandler _ d1 hd evtId k f once heq
  | remTypeHandler t k =>
    simp only [Scripted.perform, Except.ok.injEq] at h
    subst h
    exact listsConsistent_RemTypeHandler _ hd t k
  | remHandler evtId k =>
    simp only [Scripted.perform, Except.ok.injEq] at h
    subst h
    exact listsConsistent_RemHandler _ hd evtId k

theorem listsConsistent_performAll (cs : List (Callback ET EV HK)) (s s1 : Scripted ET EV HK)
    (hd : s.dispatcher.ListsConsistent) (h : s.performAll cs = .ok s1) :
    s1.dispatcher.ListsConsistent := by
  induction cs generalizing s with
  | nil =>
    simp only [Scripted.performAll, Except.ok.injEq] at h
    subst h
    exact hd
  | cons c cs ih =>
    simp only [Scripted.performAll] at h
    split at h
    · cases h
    · rename_i s2 heq
      exact ih s2 (listsConsistent_perform s s2 c hd heq) h

theorem listsConsistent_requestRems (ks : List HK) (s : Scripted ET EV HK) (t : ET)
    (v : Option EV) (hd : s.dispatcher.ListsConsistent) :
    (s.requestRems t v ks).dispatcher.ListsConsistent := by
  show (ks.foldl (fun d k => d.remAt t v k) s.dispatcher).ListsConsistent
  generalize s.dispatcher = d at hd
  induction ks generalizing d with
  | nil => exact hd
  | cons k ks ih => exact ih _ (listsConsistent_remAt d hd t v k)

end ScriptedLists

section ScriptedListsAux

variable {ET EV HK : Type}

theorem elemAt_mem {l : List (Element ET EV HK)} {a : Nat} {e : Element ET EV HK}
    (h : elemAt l a = some e) : e ∈ l ∧ e.addr = a := by
  unfold elemAt at h
  exact ⟨List.mem_of_find?_eq_some h, by simpa using List.find?_some h⟩

end ScriptedListsAux

section ScriptedLists

variable {ET EV HK : Type} [DecidableEq ET] [DecidableEq EV] [DecidableEq HK]

theorem listsConsistent_callLoop (t : ET) (v : Option EV) (event : Event ET EV) (fuel : Nat) :
    ∀ (cur : Option Nat) (s s1 : Scripted ET EV HK) (r : Option GoError)
      (tr : List (Call ET EV HK)), s.dispatcher.ListsConsistent →
      Scripted.callLoop t v event fuel cur s = some (.ok (s1, r, tr)) →
      s1.dispatcher.ListsConsistent := by
  induction fuel with
  | zero =>
    intro cur s s1 r tr hd h
    cases cur with
    | none =>
      simp only [Scripted.callLoop, Option.some.injEq, Except.ok.injEq, Prod.mk.injEq] at h
      rw [← h.1]; exact hd
    | some a => simp [Scripted.callLoop] at h
  | succ fuel ih =>
    intro cur s s1 r tr hd h
    cases cur with
    | none =>
      simp only [Scripted.callLoop, Option.some.injEq, Except.ok.injEq, Prod.mk.injEq] at h
      rw [← h.1]; exact hd
    | some a =>
      simp only [Scripted.callLoop] at h
      split at h
      · cases h
      · rename_i hs hl
        split at h
        · cases h
        · rename_i elem helem
          split at h
          · cases h
          · rename_i f hf
            split at h
            · cases h
            · rename_i s2 hperf
              have hd2 : s2.dispatcher.ListsConsistent :=
                listsConsistent_performAll _ _ s2 (listsConsistent_requestRems _ s t v hd) hperf
              split at h
              · simp only [Option.some.injEq, Except.ok.injEq, Prod.mk.injEq] at h
                rw [← h.1]; exact hd2
              · split at h
                · cases h
                · rename_i hs2 hl2
                  split at h
                  · cases h
                  · rename_i handler hhandler
                    obtain ⟨hm, ha⟩ := elemAt_mem hhandler
                    have hc2 : hs2.Consistent := listsConsistent_listAt _ hd2 t v hs2 hl2
                    split at h
                    · cases h
                    · cases h
                    · rename_i s3 r3 tr3 hrec
                      simp only [Option.some.injEq, Except.ok.injEq, Prod.mk.injEq] at h
                      rw [← h.1]
                      refine ih _ _ s3 r3 tr3 ?_ hrec
                      split
                      · refine listsConsistent_setListAt _ hd2 t v _ ?_
                        exact consistent_remove_elem hs2 _ handler hm hc2
                          (by rw [ha]) rfl rfl
                      · exact hd2

theorem listsConsistent_call (s s1 : Scripted ET EV HK) (t : ET) (v : Option EV)
    (event : Event ET EV) (fuel : Nat) (r : Option GoError) (tr : List (Call ET EV HK))
    (hd : s.dispatcher.ListsConsistent) (h : s.call t v event fuel = some (.ok (s1, r, tr))) :
    s1.dispatcher.ListsConsistent := by
  unfold Scripted.call at h
  split at h
  · cases h
  · rename_i hs hl
    have hc : hs.Consistent := listsConsistent_listAt _ hd t v hs hl
    have hd0 : (s.setListAt t v ({ hs with calling := true } : eventHandlers ET EV HK)
        ).dispatcher.ListsConsistent :=
      listsConsistent_setListAt _ hd t v _ (consistent_of_eq hs _ hc rfl rfl rfl)
    split at h
    · cases h
    · cases h
    · rename_i s2 err tr2 hloop
      simp only [Option.some.injEq, Except.ok.injEq, Prod.mk.injEq] at h
      rw [← h.1]
      exact listsConsistent_callLoop t v event fuel _ _ s2 _ tr2 hd0 hloop
    · rename_i s2 tr2 hloop
      have hd2 := listsConsistent_callLoop t v event fuel _ _ s2 _ tr2 hd0 hloop
      split at h
      · cases h
      · rename_i hs2 hl2
        simp only [Option.some.injEq, Except.ok.injEq, Prod.mk.injEq] at h
        rw [← h.1]
        exact listsConsistent_setListAt _ hd2 t v _
          (consistent_drainPending hs2 (listsConsistent_listAt _ hd2 t v hs2 hl2))

theorem listsConsistent_callVal (s s1 : Scripted ET EV HK) (evtID : EventID ET EV) (g : Nat)
    (p : List Nat) (fuel : Nat) (r : Option GoError) (tr : List (Call ET EV HK))
    (hd : s.dispatcher.ListsConsistent) (h : s.callVal evtID g p fuel = some (.ok (s1, r, tr))) :
    s1.dispatcher.ListsConsistent := by
  unfold Scripted.callVal at h
  split at h
  · simp only [Option.some.injEq, Except.ok.injEq, Prod.mk.injEq] at h
    rw [← h.1]; exact hd
  · split at h
    · cases h
    · cases h
    · rename_i s2 err tr2 hcall
      simp only [Option.some.injEq, Except.ok.injEq, Prod.mk.injEq] at h
      rw [← h.1]
      exact listsConsistent_dropEmptyValList _
        (listsConsistent_call s s2 _ _ _ fuel err tr2 hd hcall) _ _

theorem listsConsistent_callBucket (s s1 : Scripted ET EV HK) (evtID : EventID ET EV) (g : Nat)
    (p : List Nat) (fuel : Nat) (r : Option GoError) (tr : List (TypeCall ET EV HK))
    (hd : s.dispatcher.ListsConsistent)
    (h : s.callBucket evtID g p fuel = some (.ok (s1, r, tr))) :
    s1.dispatcher.ListsConsistent := by
  unfold Scripted.callBucket at h
  split at h
  · split at h
    · cases h
    · cases h
    · rename_i s2 err tr2 hval
      simp only [Option.some.injEq, Except.ok.injEq, Prod.mk.injEq] at h
      rw [← h.1]
      exact listsConsistent_callVal s s2 evtID g p fuel err tr2 hd hval
  · split at h
    · cases h
    · cases h
    · rename_i s2 err tr2 hcall
      have hd2 : (s2.dispatcher.dropEmptyTypeList evtID.Typ).ListsConsistent :=
        listsConsistent_dropEmptyTypeList _
          (listsConsistent_call s s2 _ _ _ fuel err tr2 hd hcall) _
      simp only at h
      split at h
      · simp only [Option.some.injEq, Except.ok.injEq, Prod.mk.injEq] at h
        rw [← h.1]; exact hd2
      · split at h
        · cases h
        · cases h
        · rename_i s3 err3 tr3 hval
          simp only [Option.some.injEq, Except.ok.injEq, Prod.mk.injEq] at h
          rw [← h.1]
          exact listsConsistent_callVal _ s3 evtID g p fuel err3 tr3 hd2 hval

theorem listsConsistent_Dispatch (s s1 : Scripted ET EV HK) (evtId : EventID ET EV) (g : Nat)
    (p : List Nat) (fuel : Nat) (r : Option GoError) (tr : List (Invocation ET EV HK))
    (hidle : s.dispatcher.isCalling = false) (hd : s.dispatcher.ListsConsistent)
    (h : s.Dispatch evtId g p fuel = some (.ok (s1, r, tr))) :
    s1.dispatcher.isCalling = false ∧ s1.dispatcher.ListsConsistent := by
  unfold Scripted.Dispatch at h
  split at h
  · simp only [Option.some.injEq, Except.ok.injEq, Prod.mk.injEq] at h
    rw [← h.1]; exact ⟨hidle, hd⟩
  · split at h
    · cases h
    · split at h
      · cases h
      · cases h
      · rename_i s2 err tr2 hb
        simp only [Option.some.injEq, Except.ok.injEq, Prod.mk.injEq] at h
        rw [← h.1]
        refine ⟨rfl, ?_⟩
        have := listsConsistent_dropEmptyBucket _
          (listsConsistent_callBucket
            ({ s with dispatcher := { s.dispatcher with isCalling := true } } : Scripted ET EV HK)
            s2 evtId g p fuel err tr2 hd hb) evtId.Typ
        exact this

/-- In every state reached by the public operations, with handlers that call back, no dispatch
is in progress and every list is consistent. -/
theorem scripted_reachable_sound (s : Scripted ET EV HK) (hr : s.Reachable) :
    s.dispatcher.isCalling = false ∧ s.dispatcher.ListsConsistent := by
  induction hr with
  | fresh => exact ⟨rfl, fun t b h => by simp [NewEventDispatcher, mapLookup] at h⟩
  | addTypeHandler s s1 t k f script once _ hadd ih =>
    simp only [Scripted.AddTypeHandler] at hadd
    split at hadd
    · cases hadd
    · rename_i d1 heq
      simp only [Except.ok.injEq] at hadd
      subst hadd
      refine ⟨?_, listsConsistent_AddTypeHandler _ d1 ih.2 t k f once heq⟩
      rw [← ih.1]
      unfold EventDispatcher.AddTypeHandler at heq
      split at heq
      · cases heq
      · simp only [Except.ok.injEq] at heq
        rw [← heq]
        unfold EventDispatcher.addORGetTypeHandlers
        split <;> rfl
  | addHandler s s1 evtId k f script once _ hadd ih =>
    simp only [Scripted.AddHandler] at hadd
    split at hadd
    · cases hadd
    · rename_i d1 heq
      simp only [Except.ok.injEq] at hadd
      subst hadd
      refine ⟨?_, listsConsistent_AddHandler _ d1 ih.2 evtId k f once heq⟩
      rw [← ih.1]
      unfold EventDispatcher.AddHandler at heq
      split at heq
      · cases heq
      · simp only [Except.ok.injEq] at heq
        rw [← heq]
        unfold EventDispatcher.addORGetTypeHandlers
        split <;> rfl
  | remTypeHandler s t k _ ih =>
    refine ⟨?_, listsConsistent_RemTypeHandler _ ih.2 t k⟩
    rw [← ih.1]
    show (s.dispatcher.RemTypeHandler t k).isCalling = _
    unfold EventDispatcher.RemTypeHandler
    split
    · rfl
    · split <;> rfl
  | remHandler s evtId k _ ih =>
    refine ⟨?_, listsConsistent_RemHandler _ ih.2 evtId k⟩
    rw [← ih.1]
    show (s.dispatcher.RemHandler evtId k).isCalling = _
    unfold EventDispatcher.RemHandler
    split
    · rfl
    · split <;> rfl
  | clear s _ _ => exact ⟨rfl, fun t b h => by simp [Scripted.Clear, EventDispatcher.Clear, mapLookup] at h⟩
  | dispatch s s1 evtId g p fuel r tr _ hdisp ih =>
    exact listsConsistent_Dispatch s s1 evtId g p fuel r tr ih.1 ih.2 hdisp

end ScriptedLists

section AbsorbConsistentAux

variable {ET EV HK : Type} [DecidableEq HK]

/-- Consistency of a container depends on the keys and addresses of its sequence only. -/
theorem consistent_congr (hs hs1 : eventHandlers ET EV HK)
    (h1 : hs1.handlerList.map (fun e => (e.Value.key, e.addr)) =
      hs.handlerList.map (fun e => (e.Value.key, e.addr)))
    (h2 : hs1.handlerMap = hs.handlerMap) (h3 : hs1.nextAddr = hs.nextAddr)
    (hcons : hs.Consistent) : hs1.Consistent := by
  have hk : keysOf hs1.handlerList = keysOf hs.handlerList := by
    have := congrArg (List.map Prod.fst) h1
    simpa [keysOf, List.map_map, Function.comp_def] using this
  have ha : addrsOf hs1.handlerList = addrsOf hs.handlerList := by
    have := congrArg (List.map Prod.snd) h1
    simpa [addrsOf, List.map_map, Function.comp_def] using this
  have hmem : ∀ k a, (∃ e ∈ hs1.handlerList, e.Value.key = k ∧ e.addr = a) ↔
      ∃ e ∈ hs.handlerList, e.Value.key = k ∧ e.addr = a := by
    intro k a
    have e1 : (∃ e ∈ hs1.handlerList, e.Value.key = k ∧ e.addr = a) ↔
        (k, a) ∈ hs1.handlerList.map (fun e => (e.Value.key, e.addr)) := by
      simp [List.mem_map]
    have e2 : (∃ e ∈ hs.handlerList, e.Value.key = k ∧ e.addr = a) ↔
        (k, a) ∈ hs.handlerList.map (fun e => (e.Value.key, e.addr)) := by
      simp [List.mem_map]
    rw [e1, e2, h1]
  refine ⟨?_, ?_, ?_, ?_⟩
  · rw [hk]; exact hcons.keys_nodup
  · rw [ha]; exact hcons.addrs_nodup
  · intro e he
    obtain ⟨e0, he0, -, hae⟩ := (hmem e.Value.key e.addr).1 ⟨e, he, rfl, rfl⟩
    rw [h3, ← hae]
    exact hcons.addrs_lt e0 he0
  · intro k a
    rw [h2, hmem]
    exact hcons.index k a

end AbsorbConsistentAux

section AbsorbConsistentAux

variable {ET EV HK : Type} [DecidableEq ET] [DecidableEq EV]

theorem absorb_pairs (t : ET) (v : Option EV) (sc : HK → Script ET EV HK)
    (l : List (Element ET EV HK)) :
    (l.map (absorbElem t v sc)).map (fun e => (e.Value.key, e.addr)) =
      l.map (fun e => (e.Value.key, e.addr)) := by
  rw [List.map_map]
  rfl

theorem requests_absorb (t : ET) (v : Option EV) (sc : HK → Script ET EV HK)
    (event : Event ET EV) (e : Element ET EV HK) (h : e.Value.h ≠ none) :
    (absorbElem t v sc e).Value.requests event =
      e.Value.requests event ++ ownRems t v (sc e.Value.key event) := by
  unfold eventHandler.requests absorbElem
  cases hh : e.Value.h with
  | none => exact absurd hh h
  | some f => rfl

theorem leaves_absorb (t : ET) (v : Option EV) (sc : HK → Script ET EV HK)
    (event : Event ET EV) (e : Element ET EV HK) :
    (absorbElem t v sc e).Value.leaves event = e.Value.leaves event := by
  have := result_absorbElem t v sc event e
  simp only [Element.result] at this
  unfold eventHandler.leaves
  rw [this]
  rfl

end AbsorbConsistentAux

section ScriptedFrameAux

variable {ET EV HK : Type} [DecidableEq ET] [DecidableEq HK]

theorem isCalling_AddTypeHandler (d d1 : EventDispatcher ET EV HK) (t : ET) (k : HK)
    (h : Option (EventHandler ET EV HK)) (once : Bool)
    (hadd : d.AddTypeHandler t k h once = .ok d1) : d1.isCalling = d.isCalling := by
  unfold EventDispatcher.AddTypeHandler at hadd
  split at hadd
  · cases hadd
  · simp only [Except.ok.injEq] at hadd
    rw [← hadd]
    unfold EventDispatcher.addORGetTypeHandlers
    split <;> rfl

end ScriptedFrameAux

section ScriptedFrame

variable {ET EV HK : Type} [DecidableEq ET] [DecidableEq EV] [DecidableEq HK]

theorem isCalling_AddHandler (d d1 : EventDispatcher ET EV HK) (evtId : EventID ET EV) (k : HK)
    (h : Option (EventHandler ET EV HK)) (once : Bool)
    (hadd : d.AddHandler evtId k h once = .ok d1) : d1.isCalling = d.isCalling := by
  unfold EventDispatcher.AddHandler at hadd
  split at hadd
  · cases hadd
  · simp only [Except.ok.injEq] at hadd
    rw [← hadd]
    unfold EventDispatcher.addORGetTypeHandlers
    split <;> rfl

end ScriptedFrame

section ScriptedFrameAux

variable {ET EV HK : Type} [DecidableEq ET] [DecidableEq HK]

theorem isCalling_RemTypeHandler (d : EventDispatcher ET EV HK) (t : ET) (k : HK) :
    (d.RemTypeHandler t k).isCalling = d.isCalling := by
  unfold EventDispatcher.RemTypeHandler
  split
  · rfl
  · split <;> rfl

end ScriptedFrameAux

section ScriptedFrame

variable {ET EV HK : Type} [DecidableEq ET] [DecidableEq EV] [DecidableEq HK]

theorem isCalling_RemHandler (d : EventDispatcher ET EV HK) (evtId : EventID ET EV) (k : HK) :
    (d.RemHandler evtId k).isCalling = d.isCalling := by
  unfold EventDispatcher.RemHandler
  split
  · rfl
  · split <;> rfl

/-- A dispatch over a dispatch order in which the entries ahead of an entry return no hard
error invokes those entries and that entry, when it meets no nil handler. -/
theorem invoked_of_soft_ahead {α : Type} (res : α → Option (Option GoError)) (A pre post : List α)
    (x : α) (hA : ∀ y ∈ A, ∃ r, res y = some r ∧ isHard r = false)
    (hpre : ∀ y ∈ pre, ∃ r, res y = some r ∧ isHard r = false)
    (hn : reachesNil res (A ++ (pre ++ x :: post)) = false) :
    (∀ y ∈ A, y ∈ invokedBy res (A ++ (pre ++ x :: post))) ∧
      x ∈ invokedBy res (A ++ (pre ++ x :: post)) := by
  obtain ⟨a1, a2, a3⟩ := pass_of_soft res A hA
  obtain ⟨b1, -, b3⟩ := pass_append_of_complete res A (pre ++ x :: post) a2 a3
  obtain ⟨c1, c2, c3⟩ := pass_of_soft res pre hpre
  obtain ⟨e1, -, e3⟩ := pass_append_of_complete res pre (x :: post) c2 c3
  rw [b3, e3] at hn
  rw [b1, a1, e1, c1]
  refine ⟨fun y hy => List.mem_append_left _ hy, ?_⟩
  apply List.mem_append_right
  apply List.mem_append_right
  simp only [reachesNil] at hn
  simp only [invokedBy]
  cases hr : res x with
  | none => simp [hr] at hn
  | some r =>
    simp only
    split <;> simp

end ScriptedFrame

/-! ## Reachable states of a dispatcher whose handlers call back are well-formed -/

section ApartFactsAux

variable {ET EV HK : Type} [DecidableEq EV] [DecidableEq HK]

end ApartFactsAux

section ApartFacts

variable {ET EV HK : Type} [DecidableEq ET] [DecidableEq EV] [DecidableEq HK]

end ApartFacts

section PrunedOps

variable {ET EV HK : Type} [DecidableEq ET] [DecidableEq EV] [DecidableEq HK]

end PrunedOps

section CursorNext

variable {ET EV HK : Type}

end CursorNext

section RichWellFormed

variable {ET EV HK : Type} [DecidableEq ET] [DecidableEq EV] [DecidableEq HK]

end RichWellFormed

/-! ## Handlers that call removals only -/

section ShrinkFactsAux

variable {ET EV HK : Type} [DecidableEq ET] [DecidableEq EV]

end ShrinkFactsAux

section ShrinkFactsAux

variable {ET EV HK : Type} [DecidableEq ET] [DecidableEq EV]

end ShrinkFactsAux

section ShrinkFacts

variable {ET EV HK : Type} [DecidableEq ET] [DecidableEq EV] [DecidableEq HK]

end ShrinkFacts

section ShrinkFactsAux

variable {ET EV HK : Type} [DecidableEq ET] [DecidableEq EV]

end ShrinkFactsAux

section ShrinkFactsAux

variable {ET EV HK : Type}

end ShrinkFactsAux

section ShrinkFactsAux

variable {ET EV HK : Type} [DecidableEq EV] [DecidableEq HK]

end ShrinkFactsAux

section ShrinkFactsAux

variable {ET EV HK : Type} [DecidableEq EV] [DecidableEq HK]

end ShrinkFactsAux

section ShrinkFactsAux

variable {ET EV HK : Type} [DecidableEq ET] [DecidableEq EV]

end ShrinkFactsAux

section ShrinkFactsAux

variable {ET EV HK : Type} [DecidableEq ET] [DecidableEq EV]

end ShrinkFactsAux

section ShrinkFacts

variable {ET EV HK : Type} [DecidableEq ET] [DecidableEq EV] [DecidableEq HK]

end ShrinkFacts

section ShrinkFactsAux

variable {ET EV HK : Type} [DecidableEq ET] [DecidableEq EV]

end ShrinkFactsAux

section ShrinkPassAux

variable {ET EV HK : Type} [DecidableEq ET] [DecidableEq EV]

end ShrinkPassAux

section ShrinkPassAux

variable {ET EV HK : Type} [DecidableEq ET] [DecidableEq EV]

end ShrinkPassAux

section ShrinkPassAux

variable {ET EV HK : Type} [DecidableEq ET] [DecidableEq EV]

end ShrinkPassAux

section ShrinkPass

variable {ET EV HK : Type} [DecidableEq ET] [DecidableEq EV] [DecidableEq HK]

end ShrinkPass

section RemovalPassAux

variable {ET EV HK : Type} [DecidableEq ET] [DecidableEq EV]

end RemovalPassAux

section RemovalPass

variable {ET EV HK : Type} [DecidableEq ET] [DecidableEq EV] [DecidableEq HK]

end RemovalPass

section RemovalDispatch

variable {ET EV HK : Type} [DecidableEq ET] [DecidableEq EV] [DecidableEq HK]

end RemovalDispatch

section RemovalDispatchAux

variable {ET EV HK : Type}

end RemovalDispatchAux

section RemovalDispatchAux

variable {ET EV HK : Type} [DecidableEq ET] [DecidableEq EV]

end RemovalDispatchAux

section RemovalDispatch

variable {ET EV HK : Type} [DecidableEq ET] [DecidableEq EV] [DecidableEq HK]

end RemovalDispatch

section RemovalRun

variable {ET EV HK : Type} [DecidableEq ET] [DecidableEq EV] [DecidableEq HK]

/-- The scripts kept with the dispatcher hold removals only. -/
theorem removalOnly_of_scripts (s : Scripted ET EV HK)
    (h : ∀ q ∈ s.scripts, ∀ event, ∀ c ∈ q.2 event, c.removes.isSome = true) :
    s.removalOnly := by
  intro t v e _ event c hc
  unfold Scripted.scriptAt at hc
  cases hl : mapLookup s.scripts (t, v, e.Value.key) with
  | none => simp [hl] at hc
  | some sc =>
    simp only [hl, Option.getD_some] at hc
    exact h _ (mapLookup_mem hl) event c hc

end RemovalRun

section RemovalRunAux

variable {ET EV HK : Type} [DecidableEq ET] [DecidableEq EV]

end RemovalRunAux

section RemovalRun

variable {ET EV HK : Type} [DecidableEq ET] [DecidableEq EV] [DecidableEq HK]

end RemovalRun

/-! ## Handlers that do not register a given key in a given list -/

section AvoidFactsAux

variable {ET EV HK : Type} [DecidableEq ET] [DecidableEq EV]

end AvoidFactsAux

section AvoidFactsAux

variable {ET EV HK : Type} [DecidableEq ET] [DecidableEq EV]

end AvoidFactsAux

section AvoidFactsAux

variable {ET EV HK : Type} [DecidableEq ET] [DecidableEq EV]

end AvoidFactsAux

section AvoidFactsAux

variable {ET EV HK : Type} [DecidableEq ET] [DecidableEq EV]

end AvoidFactsAux

section AvoidFacts

variable {ET EV HK : Type} [DecidableEq ET] [DecidableEq EV] [DecidableEq HK]

end AvoidFacts

section AvoidFactsAux

variable {ET EV HK : Type} [DecidableEq HK]

end AvoidFactsAux

section AvoidFactsAux

variable {ET EV HK : Type} [DecidableEq HK]

end AvoidFactsAux

section AvoidFacts

variable {ET EV HK : Type} [DecidableEq ET] [DecidableEq EV] [DecidableEq HK]

end AvoidFacts

section LoopStep

variable {ET EV HK : Type} [DecidableEq ET] [DecidableEq EV] [DecidableEq HK]

end LoopStep

section LoopKey

variable {ET EV HK : Type} [DecidableEq ET] [DecidableEq EV] [DecidableEq HK]

end LoopKey

section PassKey

variable {ET EV HK : Type} [DecidableEq ET] [DecidableEq EV] [DecidableEq HK]

end PassKey

section TagCountsAux

variable {ET EV HK : Type} [DecidableEq EV] [DecidableEq HK]

end TagCountsAux

section TagCounts

variable {ET EV HK : Type} [DecidableEq ET] [DecidableEq EV] [DecidableEq HK]

end TagCounts

section DispatchKey

variable {ET EV HK : Type} [DecidableEq ET] [DecidableEq EV] [DecidableEq HK]

end DispatchKey

section RunKey

variable {ET EV HK : Type} [DecidableEq ET] [DecidableEq EV] [DecidableEq HK]

end RunKey

section SampleFacts

end SampleFacts

/-! ## The claims -/

section Claim1

variable {ET EV HK : Type} [DecidableEq ET] [DecidableEq EV] [DecidableEq HK]

/-- C1 as stated fails, in two ways. First: a fresh dispatcher gets the key 1 under the bare
type 1, with a handler that returns nil and calls `RemHandler((1, 1), 2)` while it runs, and the
key 2 under (1, 1), with a handler that returns nil; no dispatch is in progress and both
matching handlers return nil, yet `Dispatch` of (1, 1) returns nil after invoking the type-level
handler only. Second: the key 1 under the bare type 1 has a handler that returns nil and calls
`AddTypeHandler(1, 9, ...)` while it runs; `Dispatch` of (1, 1) invokes the key 1 and then the
key 9, which was not registered when the dispatch began. -/
theorem handler_calls_change_the_invoked_sequence :
    (crossRemoval.Reachable ∧
      (crossRemoval.dispatcher.dispatchOrder ⟨1, 1⟩).map
          (fun x => (x.1, x.2.Value.key, taggedResult ⟨⟨1, 1⟩, [], 0⟩ x)) =
        [(none, 1, some none), (some 1, 2, some none)] ∧
      ∃ s1, crossRemoval.Dispatch ⟨1, 1⟩ 0 [] 5 =
        some (.ok (s1, none,
          [{ evtType := 1, evtVal := none, key := 1, event := ⟨⟨1, 1⟩, [], 0⟩ }]))) ∧
    (lateRegistration.Reachable ∧
      (lateRegistration.dispatcher.dispatchOrder ⟨1, 1⟩).map
          (fun x => (x.1, x.2.Value.key, taggedResult ⟨⟨1, 1⟩, [], 0⟩ x)) =
        [(none, 1, some none)] ∧
      ∃ s1, lateRegistration.Dispatch ⟨1, 1⟩ 0 [] 5 =
        some (.ok (s1, none,
          [{ evtType := 1, evtVal := none, key := 1, event := ⟨⟨1, 1⟩, [], 0⟩ },
           { evtType := 1, evtVal := none, key := 9, event := ⟨⟨1, 1⟩, [], 0⟩ }]))) :=
  ⟨⟨.addHandler _ _ ⟨1, 1⟩ 2 (some handlerNil) silent false
      (.addTypeHandler ⟨NewEventDispatcher, []⟩ _ 1 1 (some handlerNil)
        (fun _ => [Callback.remHandler ⟨1, 1⟩ 2]) false .fresh rfl) rfl,
    rfl, _, rfl⟩,
   ⟨.addTypeHandler ⟨NewEventDispatcher, []⟩ _ 1 1 (some handlerNil)
      (fun _ => [Callback.addTypeHandler 1 9 (some handlerNil) silent false]) false .fresh rfl,
    rfl, _, rfl⟩⟩

/-- C1, amended: in every state reached by the public operations, with handlers that call
`AddTypeHandler`, `AddHandler`, `RemTypeHandler` and `RemHandler` while they run, when every
handler registered under the bare type and under the dispatched (type, value) returns nil, no
call of these handlers registers a nil handler or a handler in the list of its own handler, and
no call of a type-level handler is addressed to the list of the dispatched (type, value), then
`Dispatch`, given fuel for every matching entry, returns nil and invokes exactly the type-level
entries in sequence order followed by the entries of that value in sequence order; every
invocation carries the dispatched type and either no value or the dispatched value, so no entry
of another type or another value is invoked. -/
theorem dispatch_type_level_then_value_level_when_undisturbed (s : Scripted ET EV HK)
    (hr : s.Reachable) (evtId : EventID ET EV) (g : Nat) (p : List Nat) (fuel : Nat)
    (hfuel : (s.dispatcher.dispatchOrder evtId).length ≤ fuel)
    (htype : ∀ e ∈ s.dispatcher.elementsAt evtId.Typ none, e.Value.returnsNil ⟨evtId, p, g⟩)
    (hval : ∀ e ∈ s.dispatcher.elementsAt evtId.Typ (some evtId.Val),
      e.Value.returnsNil ⟨evtId, p, g⟩)
    (hquietT : ∀ e ∈ s.dispatcher.elementsAt evtId.Typ none,
      ∀ c ∈ s.scriptAt evtId.Typ none e.Value.key ⟨evtId, p, g⟩,
        c.registersNil = false ∧ c.registersAt evtId.Typ none = false ∧
          c.touches evtId.Typ (some evtId.Val) = false)
    (hquietV : ∀ e ∈ s.dispatcher.elementsAt evtId.Typ (some evtId.Val),
      ∀ c ∈ s.scriptAt evtId.Typ (some evtId.Val) e.Value.key ⟨evtId, p, g⟩,
        c.registersNil = false ∧ c.registersAt evtId.Typ (some evtId.Val) = false) :
    ∃ s1, s.Dispatch evtId g p fuel =
      some (.ok (s1, none,
        (s.dispatcher.elementsAt evtId.Typ none).map
            (fun e => { evtType := evtId.Typ, evtVal := none, key := e.Value.key,
                        event := ⟨evtId, p, g⟩ }) ++
          (s.dispatcher.elementsAt evtId.Typ (some evtId.Val)).map
            (fun e => { evtType := evtId.Typ, evtVal := some evtId.Val, key := e.Value.key,
                        event := ⟨evtId, p, g⟩ }))) := by
  obtain ⟨hidle, hcons⟩ := scripted_reachable_sound s hr
  have hnd : ∀ v, (addrsOf (s.dispatcher.elementsAt evtId.Typ v)).Nodup := by
    intro v
    cases hl : s.dispatcher.listAt evtId.Typ v with
    | none => simp [EventDispatcher.elementsAt, hl, addrsOf]
    | some hs =>
      rw [elementsAt_of_listAt _ _ _ hs hl]
      exact (listsConsistent_listAt _ hcons _ _ hs hl).addrs_nodup
  have hsoft : ∀ x ∈ s.dispatcher.dispatchOrder evtId,
      ∃ r, taggedResult ⟨evtId, p, g⟩ x = some r ∧ isHard r = false := by
    intro x hx
    refine ⟨none, ?_, by decide⟩
    rcases List.mem_append.1 hx with h | h
    · obtain ⟨e, he, rfl⟩ := List.mem_map.1 h
      exact htype e he
    · obtain ⟨e, he, rfl⟩ := List.mem_map.1 h
      exact hval e he
  obtain ⟨i1, i2, i3⟩ := pass_of_soft _ _ hsoft
  obtain ⟨-, hok⟩ := scripted_Dispatch_pass s evtId g p fuel hidle hfuel (hnd none)
    (hnd (some evtId.Val))
    (by
      rw [i1]
      intro x hx c hc
      rcases List.mem_append.1 hx with h | h
      · obtain ⟨e, he, rfl⟩ := List.mem_map.1 h
        obtain ⟨q1, q2, q3⟩ := hquietT e he c hc
        exact ⟨q1, q2, fun _ => q3⟩
      · obtain ⟨e, he, rfl⟩ := List.mem_map.1 h
        obtain ⟨q1, q2⟩ := hquietV e he c hc
        exact ⟨q1, q2, fun h0 => by cases h0⟩)
  obtain ⟨s1, h1⟩ := hok i3
  refine ⟨s1, ?_⟩
  rw [h1, i1, i2]
  simp [EventDispatcher.dispatchOrder, toInvocation, List.map_map, Function.comp_def]

theorem dispatch_type_level_then_value_level_when_undisturbed_witness :
    ∃ s1, harmlessCallbacks.Dispatch ⟨1, 1⟩ 5 [6] 2 =
        some (.ok (s1, none,
          [{ evtType := 1, evtVal := none, key := 1, event := ⟨⟨1, 1⟩, [6], 5⟩ },
           { evtType := 1, evtVal := some 1, key := 2, event := ⟨⟨1, 1⟩, [6], 5⟩ }])) :=
  dispatch_type_level_then_value_level_when_undisturbed harmlessCallbacks
    (.addHandler _ _ ⟨1, 2⟩ 3 (some handlerNil) silent false
      (.addHandler _ _ ⟨1, 1⟩ 2 (some handlerNil)
        (fun _ => [Callback.addTypeHandler 1 8 (some handlerNil) silent false]) false
        (.addTypeHandler ⟨NewEventDispatcher, []⟩ _ 1 1 (some handlerNil)
          (fun _ => [Callback.remHandler ⟨1, 2⟩ 3, Callback.remTypeHandler 1 1]) false
          .fresh rfl) rfl) rfl)
    ⟨1, 1⟩ 5 [6] 2 (by decide)
    (by intro e he
        simp only [harmlessCallbacks, EventDispatcher.elementsAt, EventDispatcher.listAt, mapLookup,
          containerOf, List.enum, List.enumFrom, List.map_cons, List.map_nil, Option.map_some',
          Option.getD_some, if_true, List.mem_singleton] at he
        subst he
        rfl)
    (by intro e he
        simp only [harmlessCallbacks, EventDispatcher.elementsAt, EventDispatcher.listAt, mapLookup,
          containerOf, List.enum, List.enumFrom, List.map_cons, List.map_nil, Option.map_some',
          Option.getD_some, if_true, List.mem_singleton] at he
        subst he
        rfl)
    (by intro e he c hc
        simp only [harmlessCallbacks, EventDispatcher.elementsAt, EventDispatcher.listAt, mapLookup,
          containerOf, List.enum, List.enumFrom, List.map_cons, List.map_nil, Option.map_some',
          Option.getD_some, if_true, List.mem_singleton] at he
        subst he
        have hc2 : c ∈ [Callback.remHandler (⟨1, 2⟩ : EventID Nat Nat) (3 : Nat),
            Callback.remTypeHandler 1 1] := hc
        simp only [List.mem_cons, List.mem_singleton, List.not_mem_nil, or_false] at hc2
        rcases hc2 with rfl | rfl
        · exact ⟨rfl, rfl, rfl⟩
        · exact ⟨rfl, rfl, rfl⟩)
    (by intro e he c hc
        simp only [harmlessCallbacks, EventDispatcher.elementsAt, EventDispatcher.listAt, mapLookup,
          containerOf, List.enum, List.enumFrom, List.map_cons, List.map_nil, Option.map_some',
          Option.getD_some, if_true, List.mem_singleton] at he
        subst he
        have hc2 : c ∈ [Callback.addTypeHandler (1 : Nat) (8 : Nat) (some handlerNil) silent
            false] := hc
        simp only [List.mem_singleton] at hc2
        subst hc2
        exact ⟨rfl, rfl⟩)

end Claim1

section Claim2

variable {ET EV HK : Type} [DecidableEq ET] [DecidableEq EV] [DecidableEq HK]

/-- C2: with no dispatch in progress, when the entries of the dispatch order (the type-level
sequence followed by the sequence of the dispatched value) before some entry return nil or
`ErrUnregister` and that entry returns a hard error, `Dispatch` returns exactly that error and
its invocations end with that entry: nothing after it in its list, and nothing of the value list
when it is type-level, is invoked. -/
theorem dispatch_stops_at_hard_error (d : EventDispatcher ET EV HK) (evtId : EventID ET EV)
    (g : Nat) (p : List Nat) (hidle : d.isCalling = false)
    (pre post : List (Option EV × Element ET EV HK)) (x : Option EV × Element ET EV HK)
    (err : Option GoError) (horder : d.dispatchOrder evtId = pre ++ x :: post)
    (hpre : ∀ y ∈ pre, y.2.Value.soft ⟨evtId, p, g⟩)
    (hx : x.2.Value.fails ⟨evtId, p, g⟩ err) :
    ∃ d1, d.Dispatch evtId g p =
      .ok (d1, err, (pre ++ [x]).map (toInvocation ⟨evtId, p, g⟩)) := by
  obtain ⟨i1, i2, i3⟩ := pass_of_failing (taggedResult ⟨evtId, p, g⟩) pre post x err hpre hx.1 hx.2
  rw [← horder] at i1 i2 i3
  obtain ⟨d1, h1⟩ := Dispatch_pass d evtId g p hidle i3
  exact ⟨d1, by rw [h1, i1, i2]⟩

theorem dispatch_stops_at_hard_error_witness :
    failingDispatcher.isCalling = false ∧
      ∃ d1, failingDispatcher.Dispatch ⟨1, 1⟩ 0 [] =
        .ok (d1, some (GoError.other 7),
          [{ evtType := 1, evtVal := none, key := 1, event := ⟨⟨1, 1⟩, [], 0⟩ },
           { evtType := 1, evtVal := none, key := 2, event := ⟨⟨1, 1⟩, [], 0⟩ }]) :=
  ⟨rfl, dispatch_stops_at_hard_error failingDispatcher ⟨1, 1⟩ 0 [] rfl
    [(none, ⟨0, entry 1 handlerNil false⟩)]
    [(none, ⟨2, entry 3 handlerNil false⟩), (some 1, ⟨0, entry 4 handlerNil false⟩)]
    (none, ⟨1, entry 2 (handlerHard 7) false⟩) (some (GoError.other 7)) rfl
    (by intro y hy
        rw [List.mem_singleton.1 hy]
        exact ⟨none, rfl, by decide⟩)
    ⟨rfl, by decide⟩⟩

end Claim2

section Claim3

variable {ET EV HK : Type} [DecidableEq ET] [DecidableEq EV] [DecidableEq HK]

end Claim3

section Claim4

variable {ET EV HK : Type} [DecidableEq HK]

end Claim4

section Claim5

/-- C5, failing input: after a dispatch that stopped at a hard error, with no dispatch in
progress, `RemTypeHandler` of the registered key leaves the entry in the sequence and in the
index of its list (the list still has its calling flag set, so the removal is only queued),
and the next matching dispatch invokes the handler again. -/
theorem rem_after_failed_dispatch_is_deferred :
    ∃ d0 d1 d2 : EventDispatcher Nat Nat Nat,
      NewEventDispatcher.AddTypeHandler 1 1 (some (handlerHard 7)) false = .ok d0 ∧
        d0.Dispatch ⟨1, 0⟩ 0 [] =
          .ok (d1, some (GoError.other 7),
            [{ evtType := 1, evtVal := none, key := 1, event := ⟨⟨1, 0⟩, [], 0⟩ }]) ∧
        d1.isCalling = false ∧
        keysOf ((d1.RemTypeHandler 1 1).elementsAt 1 none) = [1] ∧
        ((d1.RemTypeHandler 1 1).listAt 1 none).map (fun l => mapLookup l.handlerMap 1) =
          some (some 0) ∧
        ((d1.RemTypeHandler 1 1).listAt 1 none).map (fun l => (l.calling, l.pendingRemList)) =
          some (true, some [1]) ∧
        (d1.RemTypeHandler 1 1).Dispatch ⟨1, 0⟩ 0 [] =
          .ok (d2, some (GoError.other 7),
            [{ evtType := 1, evtVal := none, key := 1, event := ⟨⟨1, 0⟩, [], 0⟩ }]) :=
  ⟨{ typesHandlers := [(1, { valHandlers := none,
                             eventHandlers := some (containerOf [entry 1 (handlerHard 7) false]) })],
     isCalling := false },
    { typesHandlers := [(1, { valHandlers := none,
                              eventHandlers := some { containerOf [entry 1 (handlerHard 7) false]
                                                      with calling := true } })],
      isCalling := false },
    { typesHandlers := [(1, { valHandlers := none,
                              eventHandlers := some { containerOf [entry 1 (handlerHard 7) false]
                                                      with calling := true
                                                           pendingRemList := some [1] } })],
      isCalling := false },
    rfl, rfl, rfl, rfl, rfl, rfl, rfl⟩

end Claim5

section Claim6

/-- C6, failing input: handler 1 asks its list to remove key 2 and handler 2 returns a hard
error; the pass invokes both, the request stays in the queue because the pass ended early, and
the next pass invokes handler 2 again. -/
theorem removal_requested_before_hard_error_is_lost :
    ∃ hs1 hs2 : eventHandlers Nat Nat Nat,
      (containerOf [entry 1 (handlerRem [2]) false, entry 2 (handlerHard 3) false]).call
          ⟨1, 0⟩ 0 [] =
        .ok (hs1, some (GoError.other 3), [(1, ⟨⟨1, 0⟩, [], 0⟩), (2, ⟨⟨1, 0⟩, [], 0⟩)]) ∧
      hs1.calling = true ∧ hs1.pendingRemList = some [2] ∧ keysOf hs1.handlerList = [1, 2] ∧
      hs1.call ⟨1, 0⟩ 0 [] =
        .ok (hs2, some (GoError.other 3), [(1, ⟨⟨1, 0⟩, [], 0⟩), (2, ⟨⟨1, 0⟩, [], 0⟩)]) :=
  ⟨{ containerOf [entry 1 (handlerRem [2]) false, entry 2 (handlerHard 3) false] with
     calling := true, pendingRemList := some [2] },
    { containerOf [entry 1 (handlerRem [2]) false, entry 2 (handlerHard 3) false] with
      calling := true, pendingRemList := some [2, 2] },
    rfl, rfl, rfl, rfl, rfl⟩

end Claim6

section Claim7

variable {ET EV HK : Type} [DecidableEq HK]

/-- C7: in a consistent list, `add` of a handler under a key that is present keeps the length
of the sequence and the position of every key, leaves every other entry as it was and makes
the entry of the key hold the new handler and flag; under a key that is absent it appends
exactly one entry, with that key, handler and flag, at the end. -/
theorem add_replaces_in_place_or_appends (hs : eventHandlers ET EV HK) (hcons : hs.Consistent)
    (k : HK) (f : EventHandler ET EV HK) (once : Bool) :
    ∃ hs1, hs.add k (some f) once = .ok hs1 ∧
      (k ∈ keysOf hs.handlerList →
        hs1.handlerList.length = hs.handlerList.length ∧
          keysOf hs1.handlerList = keysOf hs.handlerList ∧
          entriesOf hs1.handlerList = (entriesOf hs.handlerList).map
            (fun e => if e.key = k then { key := k, h := some f, once := once } else e)) ∧
      (k ∉ keysOf hs.handlerList →
        entriesOf hs1.handlerList =
          entriesOf hs.handlerList ++ [{ key := k, h := some f, once := once }]) := by
  cases hlk : mapLookup hs.handlerMap k with
  | some a =>
    have hin : k ∈ keysOf hs.handlerList := by
      by_contra hne
      rw [(lookup_none_iff hs hcons k).2 hne] at hlk
      cases hlk
    refine ⟨{ hs with handlerList := listAssign hs.handlerList a (some f) once }, ?_, ?_, ?_⟩
    · simp [eventHandlers.add, hlk]
    · intro _
      refine ⟨by simp [listAssign], keysOf_listAssign _ _ _ _, ?_⟩
      rw [entriesOf_listAssign hs hcons k a hlk]
      apply List.map_congr_left
      intro e _
      by_cases hk : e.key = k
      · simp [eventHandler.assign, hk]
      · simp [eventHandler.assign, hk]
    · intro hne
      exact absurd hin hne
  | none =>
    have hout : k ∉ keysOf hs.handlerList := (lookup_none_iff hs hcons k).1 hlk
    refine ⟨_, by simp [eventHandlers.add, hlk, newEventHandler]; rfl, ?_, ?_⟩
    · intro hin
      exact absurd hin hout
    · intro _
      simp [entriesOf]

theorem add_replaces_in_place_or_appends_witness :
    ∃ hs1, (containerOf [entry 1 handlerNil false, entry 2 handlerNil false]).add 1
        (some (handlerHard 3)) true = .ok hs1 ∧
      entriesOf hs1.handlerList = [entry 1 (handlerHard 3) true, entry 2 handlerNil false] := by
  obtain ⟨hs1, h1, h2, -⟩ :=
    add_replaces_in_place_or_appends
      (containerOf [entry 1 handlerNil false, entry 2 handlerNil false])
      pairSample_consistent 1 (handlerHard 3) true
  exact ⟨hs1, h1, (h2 (by decide)).2.2⟩

end Claim7

section Claim8

variable {ET EV HK : Type} [DecidableEq HK]

/-- C8: in every list state reached from the empty list by `add`, `rem` and `call`, every key
occurs at most once in the sequence, a key is bound in the index exactly when an entry of the
sequence carries it, and the index binds it to the element that carries it. -/
theorem reachable_list_keys_unique_and_indexed (hs : eventHandlers ET EV HK)
    (hr : hs.Reachable) :
    (keysOf hs.handlerList).Nodup ∧
      (∀ k, (mapLookup hs.handlerMap k).isSome = true ↔ k ∈ keysOf hs.handlerList) ∧
      (∀ k a, mapLookup hs.handlerMap k = some a →
        ∃ e ∈ hs.handlerList, e.addr = a ∧ e.Value.key = k ∧
          ∀ e2 ∈ hs.handlerList, e2.Value.key = k → e2 = e) := by
  have hcons := reachable_consistent hs hr
  refine ⟨hcons.keys_nodup, ?_, ?_⟩
  · intro k
    constructor
    · intro h
      by_contra hne
      rw [(lookup_none_iff hs hcons k).2 hne] at h
      cases h
    · intro h
      cases hlk : mapLookup hs.handlerMap k with
      | some a => rfl
      | none => exact absurd h ((lookup_none_iff hs hcons k).1 hlk)
  · intro k a h
    obtain ⟨e, he, hek, hea⟩ := (hcons.index k a).1 h
    refine ⟨e, he, hea, hek, ?_⟩
    intro e2 he2 hk2
    exact List.inj_on_of_nodup_map hcons.keys_nodup he2 he (hk2.trans hek.symm)

theorem reachable_list_keys_unique_and_indexed_witness :
    (keysOf (containerOf [entry 1 handlerNil false, entry 2 handlerNil false]).handlerList).Nodup ∧
      (∀ k, (mapLookup (containerOf [entry 1 handlerNil false,
          entry 2 handlerNil false]).handlerMap k).isSome = true ↔
        k ∈ keysOf (containerOf [entry 1 handlerNil false, entry 2 handlerNil false]).handlerList) :=
  ⟨(reachable_list_keys_unique_and_indexed
      (containerOf [entry 1 handlerNil false, entry 2 handlerNil false])
      (.add (containerOf [entry 1 handlerNil false]) _ 2 (some handlerNil) false
        (.add newEventHandlers _ 1 (some handlerNil) false .new rfl) rfl)).1,
    (reachable_list_keys_unique_and_indexed
      (containerOf [entry 1 handlerNil false, entry 2 handlerNil false])
      (.add (containerOf [entry 1 handlerNil false]) _ 2 (some handlerNil) false
        (.add newEventHandlers _ 1 (some handlerNil) false .new rfl) rfl)).2.1⟩

end Claim8

section Claim9

/-- C9, failing input: a handler is registered under the bare type 1, a dispatch of type 1
ends with its hard error, and `RemTypeHandler` removes the handler while no dispatch is in
progress. Every handler that was registered for type 1 has then been removed by
`RemTypeHandler`, yet the top-level map still binds type 1, to a bucket that still holds the
entry: the list kept its calling flag from the failed pass, so the removal was only queued.
Without the failed dispatch the same removal empties the map. -/
theorem removed_handler_keeps_bucket_after_failed_dispatch :
    ∃ d0 d1 : EventDispatcher Nat Nat Nat,
      NewEventDispatcher.AddTypeHandler 1 1 (some (handlerHard 7)) false = .ok d0 ∧
        d0.RemTypeHandler 1 1 = NewEventDispatcher ∧
        d0.Dispatch ⟨1, 0⟩ 0 [] =
          .ok (d1, some (GoError.other 7),
            [{ evtType := 1, evtVal := none, key := 1, event := ⟨⟨1, 0⟩, [], 0⟩ }]) ∧
        d1.isCalling = false ∧
        (mapLookup (d1.RemTypeHandler 1 1).typesHandlers 1).isSome = true ∧
        (d1.RemTypeHandler 1 1).typesHandlers.length = 1 ∧
        (d1.RemTypeHandler 1 1).handlerCount 1 = 1 ∧
        ((d1.RemTypeHandler 1 1).listAt 1 none).map (fun l => (l.calling, l.pendingRemList)) =
          some (true, some [1]) :=
  ⟨{ typesHandlers := [(1, { valHandlers := none,
                             eventHandlers := some (containerOf [entry 1 (handlerHard 7) false]) })],
     isCalling := false },
    { typesHandlers := [(1, { valHandlers := none,
                              eventHandlers := some { containerOf [entry 1 (handlerHard 7) false]
                                                      with calling := true } })],
      isCalling := false },
    rfl, rfl, rfl, rfl, rfl, rfl, rfl, rfl⟩

end Claim9

section Claim10

variable {ET EV HK : Type} [DecidableEq ET] [DecidableEq EV] [DecidableEq HK]

/-- C10: after `Clear` the dispatcher is the freshly created one, with an empty top-level map
and the in-progress flag false, and a `Dispatch` of any event id then returns nil, invokes no
handler and leaves the dispatcher fresh. -/
theorem clear_gives_fresh_dispatcher (d : EventDispatcher ET EV HK) (evtId : EventID ET EV)
    (g : Nat) (p : List Nat) :
    d.Clear = NewEventDispatcher ∧ d.Clear.typesHandlers = [] ∧ d.Clear.isCalling = false ∧
      d.Clear.Dispatch evtId g p = .ok (NewEventDispatcher, none, []) :=
  ⟨rfl, rfl, rfl, rfl⟩

end Claim10

section Claim11

variable {ET EV HK : Type} [DecidableEq ET] [DecidableEq EV] [DecidableEq HK]

/-- C11 as stated fails: while a dispatch is in progress (the state a handler sees), a
`Dispatch` of (1, 2), for which neither a type-level handler of type 1 nor a handler of (1, 2)
is registered, panics with the nested-dispatch fault, because type 1 has a bucket for the
handler registered under (1, 1). -/
theorem dispatch_without_handlers_panics_during_dispatch :
    ({ onceDispatcher with isCalling := true } : EventDispatcher Nat Nat Nat).elementsAt 1 none
        = [] ∧
      ({ onceDispatcher with isCalling := true } : EventDispatcher Nat Nat Nat).elementsAt 1
        (some 2) = [] ∧
      ({ onceDispatcher with isCalling := true } : EventDispatcher Nat Nat Nat).Dispatch
        ⟨1, 2⟩ 0 [] = .error Panic.nestedDispatch :=
  ⟨rfl, rfl, rfl⟩

/-- C11, amended: in every dispatcher state whose buckets are sound and not empty (every state
reached by the public operations is, and remains so with the `isCalling` flag set),
`RemTypeHandler` of a key that is not in the type-level sequence of the type and `RemHandler`
of a key that is not in the sequence of the (type, value) return the dispatcher unchanged. A
`Dispatch` of an
event id with neither a type-level entry nor an entry for its (type, value) returns nil,
invokes no handler and leaves the dispatcher unchanged when no dispatch is in progress or the
type has no bucket; when a dispatch is in progress and the type has a bucket (for a handler
under another value of the type), it panics with the nested-dispatch fault. -/
theorem unregistered_operations_are_no_ops_unless_nested (d : EventDispatcher ET EV HK)
    (hp : d.Pruned) :
    (∀ t k, k ∉ keysOf (d.elementsAt t none) → d.RemTypeHandler t k = d) ∧
      (∀ evtId k, k ∉ keysOf (d.elementsAt evtId.Typ (some evtId.Val)) →
        d.RemHandler evtId k = d) ∧
      (∀ evtId g p, d.elementsAt evtId.Typ none = [] →
        d.elementsAt evtId.Typ (some evtId.Val) = [] →
        (d.isCalling = false ∨ mapLookup d.typesHandlers evtId.Typ = none →
          d.Dispatch evtId g p = .ok (d, none, [])) ∧
        (d.isCalling = true → ∀ b, mapLookup d.typesHandlers evtId.Typ = some b →
          d.Dispatch evtId g p = .error Panic.nestedDispatch)) := by
  refine ⟨fun t k hk => pruned_RemTypeHandler_absent d hp t k hk,
    fun evtId k hk => pruned_RemHandler_absent d hp evtId k hk, ?_⟩
  intro evtId g p hT hV
  constructor
  · intro h
    rcases h with h | h
    · exact Dispatch_absent d ⟨h, hp⟩ evtId g p hT hV
    · simp [EventDispatcher.Dispatch, h]
  · intro hc b hl
    simp [EventDispatcher.Dispatch, hl, hc]

theorem unregistered_operations_are_no_ops_unless_nested_witness :
    ({ onceDispatcher with isCalling := true } : EventDispatcher Nat Nat Nat).RemTypeHandler 1 3 =
        { onceDispatcher with isCalling := true } ∧
      ({ onceDispatcher with isCalling := true } : EventDispatcher Nat Nat Nat).RemHandler
        ⟨1, 1⟩ 4 = { onceDispatcher with isCalling := true } ∧
      ({ onceDispatcher with isCalling := true } : EventDispatcher Nat Nat Nat).Dispatch
        ⟨2, 1⟩ 0 [] = .ok ({ onceDispatcher with isCalling := true }, none, []) ∧
      ({ onceDispatcher with isCalling := true } : EventDispatcher Nat Nat Nat).Dispatch
        ⟨1, 2⟩ 0 [] = .error Panic.nestedDispatch ∧
      onceDispatcher.Dispatch ⟨1, 2⟩ 0 [] = .ok (onceDispatcher, none, []) :=
  ⟨(unregistered_operations_are_no_ops_unless_nested _
      (pruned_flag onceDispatcher (wellFormed_pruned _ (reachable_wellFormed _
        (.addHandler NewEventDispatcher _ ⟨1, 1⟩ 3 (some handlerNil) true .fresh rfl))) true)).1
      1 3 (by decide),
    (unregistered_operations_are_no_ops_unless_nested _
      (pruned_flag onceDispatcher (wellFormed_pruned _ (reachable_wellFormed _
        (.addHandler NewEventDispatcher _ ⟨1, 1⟩ 3 (some handlerNil) true .fresh rfl))) true)).2.1
      ⟨1, 1⟩ 4 (by decide),
    ((unregistered_operations_are_no_ops_unless_nested _
      (pruned_flag onceDispatcher (wellFormed_pruned _ (reachable_wellFormed _
        (.addHandler NewEventDispatcher _ ⟨1, 1⟩ 3 (some handlerNil) true .fresh rfl))) true)).2.2
      ⟨2, 1⟩ 0 [] rfl rfl).1 (Or.inr rfl),
    ((unregistered_operations_are_no_ops_unless_nested _
      (pruned_flag onceDispatcher (wellFormed_pruned _ (reachable_wellFormed _
        (.addHandler NewEventDispatcher _ ⟨1, 1⟩ 3 (some handlerNil) true .fresh rfl))) true)).2.2
      ⟨1, 2⟩ 0 [] rfl rfl).2 rfl _ rfl,
    ((unregistered_operations_are_no_ops_unless_nested onceDispatcher
      (wellFormed_pruned _ (reachable_wellFormed _
        (.addHandler NewEventDispatcher _ ⟨1, 1⟩ 3 (some handlerNil) true .fresh rfl)))).2.2
      ⟨1, 2⟩ 0 [] rfl rfl).1 (Or.inl rfl)⟩

end Claim11

section Claim12

/-- C12, failing input: `AddTypeHandler` and `AddHandler` with a nil handler panic for a key
that is new, but for a key that is already registered they return normally and store the nil
handler, so a reachable list holds an entry whose handler is nil; the next matching dispatch
panics with a nil dereference. -/
theorem nil_handler_on_registered_key_is_stored :
    ∃ d0 d1 e0 e1 : EventDispatcher Nat Nat Nat,
      (NewEventDispatcher : EventDispatcher Nat Nat Nat).AddTypeHandler 1 1 none false =
          .error Panic.nilEventHandler ∧
        NewEventDispatcher.AddTypeHandler 1 1 (some handlerNil) false = .ok d0 ∧
        d0.AddTypeHandler 1 1 none false = .ok d1 ∧
        (d1.elementsAt 1 none).map (fun e => (e.Value.key, e.Value.h.isSome)) = [(1, false)] ∧
        d1.Dispatch ⟨1, 0⟩ 0 [] = .error Panic.nilDereference ∧
        NewEventDispatcher.AddHandler ⟨1, 1⟩ 1 (some handlerNil) false = .ok e0 ∧
        e0.AddHandler ⟨1, 1⟩ 1 none false = .ok e1 ∧
        (e1.elementsAt 1 (some 1)).map (fun e => (e.Value.key, e.Value.h.isSome)) =
          [(1, false)] ∧
        e1.Dispatch ⟨1, 1⟩ 0 [] = .error Panic.nilDereference :=
  ⟨{ typesHandlers := [(1, { valHandlers := none,
                             eventHandlers := some (containerOf [entry 1 handlerNil false]) })],
     isCalling := false },
    { typesHandlers := [(1, { valHandlers := none,
                              eventHandlers := some (containerOf [⟨1, none, false⟩]) })],
      isCalling := false },
    { typesHandlers := [(1, { valHandlers := some [(1, containerOf [entry 1 handlerNil false])],
                              eventHandlers := none })],
      isCalling := false },
    { typesHandlers := [(1, { valHandlers := some [(1, containerOf [⟨1, none, false⟩])],
                              eventHandlers := none })],
      isCalling := false },
    rfl, rfl, rfl, rfl, rfl, rfl, rfl, rfl, rfl⟩

end Claim12

section Claim13

variable {ET EV HK : Type} [DecidableEq ET] [DecidableEq EV] [DecidableEq HK]

/-- C13 as stated fails: with a dispatch in progress, `Dispatch` of an event id whose type has
no bucket returns nil instead of panicking. -/
theorem nested_dispatch_of_type_without_bucket_returns :
    ({ sampleDispatcher with isCalling := true } : EventDispatcher Nat Nat Nat).isCalling = true ∧
      ({ sampleDispatcher with isCalling := true } : EventDispatcher Nat Nat Nat).Dispatch
          ⟨3, 0⟩ 0 [] =
        .ok ({ sampleDispatcher with isCalling := true }, none, []) :=
  ⟨rfl, rfl⟩

/-- C13, amended: in every dispatcher state in which a dispatch is in progress, `Dispatch` of
an event id whose type has a bucket in `typesHandlers` panics with the nested-dispatch fault;
for an event id whose type has no bucket it returns nil, invokes nothing and leaves the
dispatcher as it is. -/
theorem nested_dispatch_panics_when_type_has_bucket (d : EventDispatcher ET EV HK)
    (hc : d.isCalling = true) (evtId : EventID ET EV) (g : Nat) (p : List Nat) :
    (∀ b, mapLookup d.typesHandlers evtId.Typ = some b →
        d.Dispatch evtId g p = .error Panic.nestedDispatch) ∧
      (mapLookup d.typesHandlers evtId.Typ = none → d.Dispatch evtId g p = .ok (d, none, [])) := by
  constructor
  · intro b hb
    simp [EventDispatcher.Dispatch, hb, hc]
  · intro hb
    simp [EventDispatcher.Dispatch, hb]

theorem nested_dispatch_panics_when_type_has_bucket_witness :
    ({ sampleDispatcher with isCalling := true } : EventDispatcher Nat Nat Nat).Dispatch
        ⟨1, 1⟩ 0 [] = .error Panic.nestedDispatch :=
  (nested_dispatch_panics_when_type_has_bucket
    ({ sampleDispatcher with isCalling := true } : EventDispatcher Nat Nat Nat) rfl ⟨1, 1⟩ 0 []).1
    _ rfl

end Claim13

section Claim14

variable {ET EV HK : Type} [DecidableEq ET] [DecidableEq EV] [DecidableEq HK]

/-- C14: on an idle dispatcher `Dispatch` returns unless it reaches a nil handler, and whenever
it returns, with nil or with a hard handler error, `isCalling` is false in the dispatcher it
leaves, so that no following `Dispatch` on it raises the nested-dispatch fault. -/
theorem dispatch_leaves_dispatcher_idle (d : EventDispatcher ET EV HK)
    (hidle : d.isCalling = false) (evtId : EventID ET EV) (g : Nat) (p : List Nat) :
    (reachesNil (taggedResult ⟨evtId, p, g⟩) (d.dispatchOrder evtId) = false →
        ∃ d1 r tr, d.Dispatch evtId g p = .ok (d1, r, tr)) ∧
      ∀ d1 r tr, d.Dispatch evtId g p = .ok (d1, r, tr) →
        d1.isCalling = false ∧
          ∀ evtId2 g2 p2, d1.Dispatch evtId2 g2 p2 ≠ .error Panic.nestedDispatch := by
  constructor
  · intro hn
    obtain ⟨d1, h1⟩ := Dispatch_pass d evtId g p hidle hn
    exact ⟨d1, _, _, h1⟩
  · intro d1 r tr h
    have h1 : d1.isCalling = false := by
      rcases Dispatch_shape d d1 evtId g p r tr h with ⟨-, rfl, -, -⟩ | ⟨b, b1, trb, -, -, -, rfl⟩
      · exact hidle
      · rfl
    refine ⟨h1, ?_⟩
    intro evtId2 g2 p2 hq
    have := Dispatch_panic d1 h1 evtId2 g2 p2 _ hq
    cases this

theorem dispatch_leaves_dispatcher_idle_witness :
    failingDispatcher.isCalling = false ∧
      ∃ d1 tr, failingDispatcher.Dispatch ⟨1, 1⟩ 0 [] = .ok (d1, some (GoError.other 7), tr) ∧
        d1.isCalling = false ∧
        ∀ evtId2 g2 p2, d1.Dispatch evtId2 g2 p2 ≠ .error Panic.nestedDispatch := by
  obtain ⟨d1, r, tr, h⟩ :=
    (dispatch_leaves_dispatcher_idle failingDispatcher rfl ⟨1, 1⟩ 0 []).1 rfl
  have hr : r = some (GoError.other 7) := by
    have h2 : failingDispatcher.Dispatch ⟨1, 1⟩ 0 [] =
        .ok ((⟨[(1, ⟨some [(1, containerOf [entry 4 handlerNil false])],
            some { containerOf [entry 1 handlerNil false, entry 2 (handlerHard 7) false,
              entry 3 handlerNil false] with calling := true }⟩)], false⟩ :
            EventDispatcher Nat Nat Nat),
          some (GoError.other 7),
          [{ evtType := 1, evtVal := none, key := 1, event := ⟨⟨1, 1⟩, [], 0⟩ },
           { evtType := 1, evtVal := none, key := 2, event := ⟨⟨1, 1⟩, [], 0⟩ }]) := rfl
    rw [h2] at h
    simp only [Except.ok.injEq, Prod.mk.injEq] at h
    exact h.2.1.symm
  subst hr
  exact ⟨rfl, d1, tr, h,
    (dispatch_leaves_dispatcher_idle failingDispatcher rfl ⟨1, 1⟩ 0 []).2 d1 _ tr h⟩

end Claim14

section Claim15

variable {ET EV HK : Type} [DecidableEq ET] [DecidableEq EV] [DecidableEq HK]

/-- C15: a `Dispatch(id, generator, params...)` on an idle dispatcher returns unless it reaches
a nil handler, and every handler it invokes, type-level or value-level, receives an event
whose `EventID()` is `id`, whose `Generator()` is `generator` and whose `Param()` is the
parameter list passed to `Dispatch`. -/
theorem handlers_receive_the_dispatched_event (d : EventDispatcher ET EV HK)
    (hidle : d.isCalling = false) (evtId : EventID ET EV) (g : Nat) (p : List Nat) :
    (reachesNil (taggedResult ⟨evtId, p, g⟩) (d.dispatchOrder evtId) = false →
        ∃ d1 r tr, d.Dispatch evtId g p = .ok (d1, r, tr)) ∧
      ∀ d1 r tr, d.Dispatch evtId g p = .ok (d1, r, tr) →
        ∀ i ∈ tr, i.event.EventID = evtId ∧ i.event.Generator = g ∧ i.event.Param = p := by
  constructor
  · intro hn
    obtain ⟨d1, h1⟩ := Dispatch_pass d evtId g p hidle hn
    exact ⟨d1, _, _, h1⟩
  · intro d1 r tr h i hi
    rw [Dispatch_events d d1 evtId g p r tr h i hi]
    exact ⟨rfl, rfl, rfl⟩

theorem handlers_receive_the_dispatched_event_witness :
    sampleDispatcher.isCalling = false ∧
      ∃ d1 r tr, sampleDispatcher.Dispatch ⟨1, 1⟩ 5 [6, 7] = .ok (d1, r, tr) ∧
        tr.length = 2 ∧
        ∀ i ∈ tr, i.event.EventID = ⟨1, 1⟩ ∧ i.event.Generator = 5 ∧ i.event.Param = [6, 7] := by
  obtain ⟨d1, r, tr, h⟩ :=
    (handlers_receive_the_dispatched_event sampleDispatcher rfl ⟨1, 1⟩ 5 [6, 7]).1 rfl
  refine ⟨rfl, d1, r, tr, h, ?_,
    (handlers_receive_the_dispatched_event sampleDispatcher rfl ⟨1, 1⟩ 5 [6, 7]).2 d1 r tr h⟩
  have h2 : sampleDispatcher.Dispatch ⟨1, 1⟩ 5 [6, 7] =
      .ok (sampleDispatcher, none,
        [{ evtType := 1, evtVal := none, key := 1, event := ⟨⟨1, 1⟩, [6, 7], 5⟩ },
         { evtType := 1, evtVal := some 1, key := 2, event := ⟨⟨1, 1⟩, [6, 7], 5⟩ }]) := rfl
  rw [h2] at h
  simp only [Except.ok.injEq, Prod.mk.injEq] at h
  rw [← h.2.2]
  rfl

end Claim15

section Claim16

variable {ET EV HK : Type} [DecidableEq ET] [DecidableEq EV] [DecidableEq HK]

/-- C16 as stated fails, in two ways. First: in an idle list with an empty queue whose two
handlers are not fire-once and return nil, the first handler asks for the removal of the key of
the second; the pass invokes both and returns nil, but the sequence it leaves holds only the
first entry. Second: the only handler of the type-level list of type 1 returns nil and calls
`AddTypeHandler(1, 9, ...)` while it runs; the pass invokes the key 1 and then the key 9 and
leaves both in the sequence, although the key 9 is not an original entry. -/
theorem completed_pass_applies_requested_removals :
    (∃ hs1 : eventHandlers Nat Nat Nat,
      (containerOf [entry 1 (handlerRem [2]) false, entry 2 handlerNil false]).call ⟨1, 0⟩ 0 [] =
        .ok (hs1, none, [(1, ⟨⟨1, 0⟩, [], 0⟩), (2, ⟨⟨1, 0⟩, [], 0⟩)]) ∧
      keysOf ((containerOf [entry 1 (handlerRem [2]) false,
          entry 2 handlerNil false]).handlerList.filter
        (fun e => decide (e.Value.once = false ∧
          e.Value.result ⟨⟨1, 0⟩, [], 0⟩ = some none))) = [1, 2] ∧
      keysOf hs1.handlerList = [1]) ∧
    (∃ s1 : Scripted Nat Nat Nat,
      lateRegistration.dispatcher.listAt 1 none =
        some (containerOf [entry 1 handlerNil false]) ∧
      lateRegistration.call 1 none ⟨⟨1, 0⟩, [], 0⟩ 5 =
        some (.ok (s1, none, [(1, ⟨⟨1, 0⟩, [], 0⟩), (9, ⟨⟨1, 0⟩, [], 0⟩)])) ∧
      keysOf (s1.dispatcher.elementsAt 1 none) = [1, 9]) :=
  ⟨⟨{ containerOf [entry 1 (handlerRem [2]) false] with nextAddr := 2 }, rfl, by decide, rfl⟩,
   ⟨_, rfl, rfl, rfl⟩⟩

/-- C16, amended: take the pass over a consistent list of a dispatcher whose handlers call
`AddTypeHandler`, `AddHandler`, `RemTypeHandler` and `RemHandler` while they run. When every
handler of the list returns nil or `ErrUnregister` and no call of these handlers registers a
nil handler or a handler in this list, then `call`, given fuel for every entry, invokes each
entry exactly once in sequence order, returns nil, and leaves as the resulting sequence exactly
those original entries that have once = false, whose handler returned nil, and whose key is
neither in the pending-removal queue when the pass starts nor asked to be removed from this
list by a handler during the pass, in their original order; the index matches the resulting
sequence. -/
theorem completed_pass_keeps_plain_unrequested_entries (s : Scripted ET EV HK) (t : ET)
    (v : Option EV) (hs : eventHandlers ET EV HK) (hl : s.dispatcher.listAt t v = some hs)
    (hcons : hs.Consistent) (evtID : EventID ET EV) (g : Nat) (p : List Nat) (fuel : Nat)
    (hfuel : hs.handlerList.length ≤ fuel)
    (hsoft : ∀ x ∈ hs.handlerList, x.Value.soft ⟨evtID, p, g⟩)
    (hquiet : ∀ x ∈ hs.handlerList, ∀ c ∈ s.scriptAt t v x.Value.key ⟨evtID, p, g⟩,
      c.registersNil = false ∧ c.registersAt t v = false) :
    ∃ s1 hs1, s.call t v ⟨evtID, p, g⟩ fuel =
        some (.ok (s1, none, callsOf ⟨evtID, p, g⟩ hs.handlerList)) ∧
      s1.dispatcher.listAt t v = some hs1 ∧
      hs1.handlerList = hs.handlerList.filter
        (fun e => decide (e.Value.once = false ∧ e.Value.result ⟨evtID, p, g⟩ = some none ∧
          e.Value.key ∉
            hs.pendingRemList.getD [] ++ s.requestedAt t v ⟨evtID, p, g⟩ hs.handlerList)) ∧
      ∀ k a, mapLookup hs1.handlerMap k = some a ↔
        ∃ e ∈ hs1.handlerList, e.Value.key = k ∧ e.addr = a := by
  have hconsA : (absorbList t v (fun k => s.scriptAt t v k) hs).Consistent :=
    consistent_congr hs _ (absorb_pairs t v _ hs.handlerList) rfl rfl hcons
  have hsoftA : ∀ x ∈ (absorbList t v (fun k => s.scriptAt t v k) hs).handlerList,
      x.Value.soft ⟨evtID, p, g⟩ := by
    intro x hx
    obtain ⟨e, he, rfl⟩ := List.mem_map.1 hx
    have := result_absorbElem t v (fun k => s.scriptAt t v k) ⟨evtID, p, g⟩ e
    simp only [Element.result] at this
    unfold eventHandler.soft
    rw [this]
    exact hsoft e he
  obtain ⟨hsA, hA, -, -, hconsA1, hlistA⟩ := call_complete _ hconsA evtID g p hsoftA
  obtain ⟨-, i2⟩ := call_sim t v evtID g p (fun k => s.scriptAt t v k) s hs fuel hfuel hl
    hcons.addrs_nodup (fun _ => rfl)
    (fun x hx c hc => hquiet x ((invokedBy_sublist _ _).subset hx) c hc)
  obtain ⟨s1, hs1, j1, j2, j3, -, -⟩ := i2 _ _ _ hA
  have hcalls : callsOf ⟨evtID, p, g⟩
      (absorbList t v (fun k => s.scriptAt t v k) hs).handlerList =
      callsOf ⟨evtID, p, g⟩ hs.handlerList := callsOf_map_absorb t v _ _ hs.handlerList
  rw [hcalls] at j1
  have hcons1 : hs1.Consistent := by
    refine consistent_congr _ hs1 ?_ ?_ ?_ hconsA1
    · rw [← j3]
      exact (absorb_pairs t v _ hs1.handlerList).symm
    · rw [← j3]; rfl
    · rw [← j3]; rfl
  refine ⟨s1, hs1, j1, j2, ?_, hcons1.index⟩
  -- the keys asked to be removed, seen from the list of the absorbed elements
  have hinv : invokedBy (Element.result ⟨evtID, p, g⟩) hs.handlerList = hs.handlerList :=
    (pass_of_soft _ _ hsoft).1
  have hreq : requestedBy ⟨evtID, p, g⟩
      (absorbList t v (fun k => s.scriptAt t v k) hs).handlerList =
      s.requestedAt t v ⟨evtID, p, g⟩ hs.handlerList := by
    show requestedBy _ (hs.handlerList.map _) = _
    unfold requestedBy Scripted.requestedAt
    rw [invokedBy_map, result_absorb_fun, hinv, List.flatMap_map]
    apply List.flatMap_congr
    intro e he
    apply requests_absorb
    obtain ⟨r, hr, -⟩ := hsoft e he
    intro hnone
    simp [eventHandler.result, hnone] at hr
  have hmap : hs1.handlerList.map (absorbElem t v (fun k => s.scriptAt t v k)) =
      (hs.handlerList.filter
        (fun e => decide (e.Value.once = false ∧ e.Value.result ⟨evtID, p, g⟩ = some none ∧
          e.Value.key ∉
            hs.pendingRemList.getD [] ++ s.requestedAt t v ⟨evtID, p, g⟩ hs.handlerList))).map
        (absorbElem t v (fun k => s.scriptAt t v k)) := by
    have e0 : hs1.handlerList.map (absorbElem t v (fun k => s.scriptAt t v k)) =
        hsA.handlerList := by rw [← j3]; rfl
    rw [e0, hlistA]
    show (hs.handlerList.map _).filter _ = _
    rw [List.filter_map]
    congr 1
    apply List.filter_congr
    intro e he
    simp only [Function.comp_apply]
    rw [hreq, leaves_absorb]
    have hkey : (absorbElem t v (fun k => s.scriptAt t v k) e).Value.key = e.Value.key := rfl
    have hpend : (absorbList t v (fun k => s.scriptAt t v k) hs).pendingRemList =
        hs.pendingRemList := rfl
    rw [hkey, hpend]
    have hst := stays_iff e.Value ⟨evtID, p, g⟩ (hsoft e he)
    by_cases hq : e.Value.key ∈
        hs.pendingRemList.getD [] ++ s.requestedAt t v ⟨evtID, p, g⟩ hs.handlerList
    · simp [hq]
    · cases hlv : e.Value.leaves ⟨evtID, p, g⟩ with
      | false =>
        have := hst.1 hlv
        simp [hq, this.1, this.2]
      | true =>
        have hne : ¬ (e.Value.once = false ∧ e.Value.result ⟨evtID, p, g⟩ = some none) := by
          intro h
          rw [hst.2 h] at hlv
          cases hlv
        simp only [hq, not_false_eq_true, decide_True, Bool.not_true, Bool.and_false, and_true]
        symm
        simpa using hne
  exact map_absorb_injective t v _ _ _ hmap

theorem completed_pass_keeps_plain_unrequested_entries_witness :
    ∃ s1 hs1, passSample.call 1 none ⟨⟨1, 0⟩, [], 0⟩ 5 =
        some (.ok (s1, none, [(1, ⟨⟨1, 0⟩, [], 0⟩), (2, ⟨⟨1, 0⟩, [], 0⟩), (3, ⟨⟨1, 0⟩, [], 0⟩),
          (4, ⟨⟨1, 0⟩, [], 0⟩), (5, ⟨⟨1, 0⟩, [], 0⟩)])) ∧
      s1.dispatcher.listAt 1 none = some hs1 ∧
      keysOf hs1.handlerList = [3, 5] := by
  obtain ⟨s1, hs1, h1, h2, h3, -⟩ :=
    completed_pass_keeps_plain_unrequested_entries passSample 1 none
      (containerOf [entry 1 handlerNil true, entry 2 handlerUnregister false,
        entry 3 handlerNil false, entry 4 handlerNil false, entry 5 handlerNil false]) (by rfl)
      (reachable_consistent _
        (.add _ _ 5 (some handlerNil) false
          (.add _ _ 4 (some handlerNil) false
            (.add _ _ 3 (some handlerNil) false
              (.add (containerOf [entry 1 handlerNil true]) _ 2 (some handlerUnregister) false
                (.add newEventHandlers _ 1 (some handlerNil) true .new rfl) rfl) rfl) rfl) rfl))
      ⟨1, 0⟩ 0 [] 5 (by decide)
      (by intro x hx
          simp only [containerOf, List.enum, List.enumFrom, List.map_cons, List.map_nil,
            List.mem_cons, List.mem_singleton, List.not_mem_nil, or_false] at hx
          rcases hx with rfl | rfl | rfl | rfl | rfl
          · exact ⟨none, rfl, by decide⟩
          · exact ⟨some GoError.ErrUnregister, rfl, by decide⟩
          · exact ⟨none, rfl, by decide⟩
          · exact ⟨none, rfl, by decide⟩
          · exact ⟨none, rfl, by decide⟩)
      (by intro x hx c hc
          simp only [containerOf, List.enum, List.enumFrom, List.map_cons, List.map_nil,
            List.mem_cons, List.mem_singleton, List.not_mem_nil, or_false] at hx
          rcases hx with rfl | rfl | rfl | rfl | rfl
          · exact nomatch hc
          · exact nomatch hc
          · have hc2 : c ∈ [Callback.remTypeHandler (1 : Nat) (4 : Nat),
                Callback.addHandler ⟨1, 1⟩ 9 (some handlerNil) silent false] := hc
            simp only [List.mem_cons, List.mem_singleton, List.not_mem_nil, or_false] at hc2
            rcases hc2 with rfl | rfl
            · exact ⟨rfl, rfl⟩
            · exact ⟨rfl, rfl⟩
          · exact nomatch hc
          · exact nomatch hc)
  refine ⟨s1, hs1, h1, h2, ?_⟩
  rw [h3]
  decide

end Claim16

section Claim17

variable {ET EV HK : Type} [DecidableEq HK]

end Claim17

section Claim18

variable {ET EV HK : Type} [DecidableEq HK]

/-- C18: in a consistent list, `call` returns unless it reaches a nil handler. When it returns
nil (the pass completed), the calling flag is false, the pending-removal queue is absent, and
every key that was in the queue before the pass or that an invoked handler asked to remove is
in neither the sequence nor the index. When it returns a hard error (the pass ended early),
the calling flag is still set, the queue is the earlier queue extended and undrained (a key
still in the sequence is in it exactly when it was queued before or requested during the
pass), and `rem` of any key still in the sequence only appends the key to the queue, leaving
sequence and index as they are. -/
theorem pass_end_flag_and_queue (hs : eventHandlers ET EV HK) (hcons : hs.Consistent)
    (evtID : EventID ET EV) (g : Nat) (p : List Nat) :
    (reachesNil (Element.result ⟨evtID, p, g⟩) hs.handlerList = false →
        ∃ hs1 r tr, hs.call evtID g p = .ok (hs1, r, tr)) ∧
      ∀ hs1 r tr, hs.call evtID g p = .ok (hs1, r, tr) →
        (r = none →
          hs1.calling = false ∧ hs1.pendingRemList = none ∧
            ∀ k, k ∈ hs.pendingRemList.getD [] ∨
                k ∈ requestedBy ⟨evtID, p, g⟩ hs.handlerList →
              k ∉ keysOf hs1.handlerList ∧ mapLookup hs1.handlerMap k = none) ∧
        (r ≠ none →
          hs1.calling = true ∧
            (∃ extra, hs1.pendingRemList.getD [] = hs.pendingRemList.getD [] ++ extra) ∧
            (∀ k ∈ keysOf hs1.handlerList,
              (k ∈ hs1.pendingRemList.getD [] ↔
                k ∈ hs.pendingRemList.getD [] ∨
                  k ∈ requestedBy ⟨evtID, p, g⟩ hs.handlerList)) ∧
            ∀ k ∈ keysOf hs1.handlerList,
              (hs1.rem k).handlerList = hs1.handlerList ∧
                (hs1.rem k).handlerMap = hs1.handlerMap ∧ (hs1.rem k).calling = true ∧
                (hs1.rem k).pendingRemList = some (hs1.pendingRemList.getD [] ++ [k])) := by
  constructor
  · intro hn
    obtain ⟨hs1, h1⟩ := call_ok hs evtID g p hn
    exact ⟨hs1, _, _, h1⟩
  · intro hs1 r tr h
    constructor
    · intro hr
      subst hr
      obtain ⟨hn, hf, -⟩ := call_result hs hs1 evtID g p _ tr h
      have hsoft : ∀ x ∈ hs.handlerList, x.Value.soft ⟨evtID, p, g⟩ :=
        soft_of_complete _ _ hf.symm hn
      obtain ⟨hs2, h2, c1, c2, c3, c4⟩ := call_complete hs hcons evtID g p hsoft
      rw [h] at h2
      simp only [Except.ok.injEq, Prod.mk.injEq] at h2
      obtain ⟨rfl, -, -⟩ := h2
      refine ⟨c1, c2, ?_⟩
      intro k hk
      have habs : k ∉ keysOf hs1.handlerList := by
        intro hmem
        obtain ⟨e, he, hek⟩ := List.mem_map.1 hmem
        rw [c4] at he
        have := (List.mem_filter.1 he).2
        simp only [Bool.and_eq_true, decide_eq_true_eq] at this
        apply this.1
        rw [hek, List.mem_append]
        exact hk
      exact ⟨habs, (lookup_none_iff hs1 c3 k).2 habs⟩
    · intro hr
      obtain ⟨hsL, hloop, hcase⟩ := call_unfold hs hs1 evtID g p r tr h
      rcases hcase with ⟨-, rfl⟩ | ⟨h0, -⟩
      · obtain ⟨s1, -, -, -⟩ := callLoop_state _ _ _ _ _ _ rfl hloop
        obtain ⟨hext, hiff⟩ := callLoop_pending _ _ _ _ _ _ rfl
          (consistent_of_eq hs ({ hs with calling := true } : eventHandlers ET EV HK) hcons
            rfl rfl rfl) (List.Sublist.refl _) hloop
        have hcons1 := consistent_call hs hs1 evtID g p r tr hcons h
        refine ⟨s1, hext, hiff, ?_⟩
        intro k hk
        have hreg := registered_of_mem_keys hs1 hcons1 k hk
        cases hlk : mapLookup hs1.handlerMap k with
        | none => rw [hlk] at hreg; cases hreg
        | some a => simp [eventHandlers.rem, hlk, s1]
      · exact absurd h0 hr

theorem pass_end_flag_and_queue_witness :
    ∃ hs1 tr, (containerOf [entry 1 handlerNil true, entry 2 (handlerHard 7) true,
        entry 3 handlerNil false]).call ⟨1, 0⟩ 0 [] = .ok (hs1, some (GoError.other 7), tr) ∧
      hs1.calling = true ∧ keysOf hs1.handlerList = [2, 3] ∧
      (hs1.rem 3).handlerList = hs1.handlerList ∧
      (hs1.rem 3).pendingRemList = some (hs1.pendingRemList.getD [] ++ [3]) := by
  have hcall : (containerOf [entry 1 handlerNil true, entry 2 (handlerHard 7) true,
      entry 3 handlerNil false]).call ⟨1, 0⟩ 0 [] =
      .ok ((⟨true, [⟨1, entry 2 (handlerHard 7) true⟩, ⟨2, entry 3 handlerNil false⟩],
          [(2, 1), (3, 2)], none, 3⟩ : eventHandlers Nat Nat Nat),
        some (GoError.other 7), [(1, ⟨⟨1, 0⟩, [], 0⟩), (2, ⟨⟨1, 0⟩, [], 0⟩)]) := rfl
  obtain ⟨h1, -, -, h4⟩ :=
    ((pass_end_flag_and_queue
      (containerOf [entry 1 handlerNil true, entry 2 (handlerHard 7) true,
        entry 3 handlerNil false])
      failingSample_consistent ⟨1, 0⟩ 0 []).2 _ _ _ hcall).2 (by simp)
  exact ⟨_, _, hcall, h1, rfl, (h4 3 (by decide)).1, (h4 3 (by decide)).2.2.2⟩

end Claim18

section Claim19

variable {ET EV HK : Type} [DecidableEq ET] [DecidableEq EV] [DecidableEq HK]

/-- C19: in every dispatcher state reached from a fresh dispatcher by public operations that
return, every type bound in `typesHandlers` is bound to a bucket that is not `empty()`; in
such a bucket the type-level list, when present, is non-empty, the value map, when present,
has an entry, and every list bound in the value map is non-empty; and the bucket is `empty()`
exactly when it holds no entry at all. -/
theorem reachable_buckets_are_pruned (d : EventDispatcher ET EV HK) (hr : d.Reachable) :
    d.isCalling = false ∧
      ∀ t b, mapLookup d.typesHandlers t = some b →
        b.empty = false ∧
          (∀ l, b.eventHandlers = some l → l.handlerList ≠ []) ∧
          (∀ m, b.valHandlers = some m →
            m ≠ [] ∧ ∀ v l, mapLookup m v = some l → l.handlerList ≠ []) ∧
          (b.empty = true ↔ b.typeElems = [] ∧ ∀ v, b.valElems v = []) := by
  have hw := reachable_wellFormed d hr
  refine ⟨hw.idle, ?_⟩
  intro t b hl
  obtain ⟨hs, he⟩ := hw.buckets t b hl
  exact ⟨he, fun l h => (hs.typeLevel l h).2,
    fun m h => ⟨hs.valMap m h, fun v l h2 => (hs.valLists m v l h h2).2⟩,
    sound_empty_iff b hs⟩

theorem reachable_buckets_are_pruned_witness :
    onceDispatcher.isCalling = false ∧
      ∃ b, mapLookup onceDispatcher.typesHandlers 1 = some b ∧
        b.empty = false ∧
        (∀ l, b.eventHandlers = some l → l.handlerList ≠ []) ∧
        (∀ m, b.valHandlers = some m →
          m ≠ [] ∧ ∀ v l, mapLookup m v = some l → l.handlerList ≠ []) ∧
        (b.empty = true ↔ b.typeElems = [] ∧ ∀ v, b.valElems v = []) :=
  ⟨(reachable_buckets_are_pruned onceDispatcher
      (.addHandler NewEventDispatcher _ ⟨1, 1⟩ 3 (some handlerNil) true .fresh rfl)).1,
    _, rfl,
    (reachable_buckets_are_pruned onceDispatcher
      (.addHandler NewEventDispatcher _ ⟨1, 1⟩ 3 (some handlerNil) true .fresh rfl)).2 1 _ rfl⟩

end Claim19

section Claim20

variable {ET EV HK : Type} [DecidableEq ET] [DecidableEq EV] [DecidableEq HK]

/-- C20 as stated fails, in two ways. First: the key 5 is registered under the bare type 1 and
under (1, 1), the dispatcher is idle, and `Dispatch` of (1, 1) invokes only the type-level
handler, which returns a hard error; the handler of the same key under (1, 1) does not fire.
Second: the key 5 is registered under the bare type 1, with a handler that returns nil and
calls `RemHandler((1, 1), 5)` while it runs, and under (1, 1), with a handler that returns
nil; `Dispatch` of (1, 1) returns nil after invoking the type-level handler only. -/
theorem shared_key_value_handler_not_fired :
    (sharedKeyFailing.isCalling = false ∧
      keysOf (sharedKeyFailing.elementsAt 1 none) = [5] ∧
      keysOf (sharedKeyFailing.elementsAt 1 (some 1)) = [5] ∧
      ∃ d1, sharedKeyFailing.Dispatch ⟨1, 1⟩ 0 [] =
        .ok (d1, some (GoError.other 7),
          [{ evtType := 1, evtVal := none, key := 5, event := ⟨⟨1, 1⟩, [], 0⟩ }])) ∧
    (sharedKeyRemoval.Reachable ∧
      (sharedKeyRemoval.dispatcher.dispatchOrder ⟨1, 1⟩).map
          (fun x => (x.1, x.2.Value.key, taggedResult ⟨⟨1, 1⟩, [], 0⟩ x)) =
        [(none, 5, some none), (some 1, 5, some none)] ∧
      ∃ s1, sharedKeyRemoval.Dispatch ⟨1, 1⟩ 0 [] 5 =
        some (.ok (s1, none,
          [{ evtType := 1, evtVal := none, key := 5, event := ⟨⟨1, 1⟩, [], 0⟩ }]))) :=
  ⟨⟨rfl, rfl, rfl, _, rfl⟩,
   ⟨.addHandler _ _ ⟨1, 1⟩ 5 (some handlerNil) silent false
      (.addTypeHandler ⟨NewEventDispatcher, []⟩ _ 1 5 (some handlerNil)
        (fun _ => [Callback.remHandler ⟨1, 1⟩ 5]) false .fresh rfl) rfl,
    rfl, _, rfl⟩⟩

/-- C20, amended: handler keys are scoped to one list. In every dispatcher state, with handlers
that call `AddTypeHandler`, `AddHandler`, `RemTypeHandler` and `RemHandler` while they run,
`AddTypeHandler` of type `t` (when it returns) and `RemTypeHandler` of type `t` leave the
`isCalling` flag and every list other than the type-level list of `t`, with the scripts of its
handlers, as they were, and `AddHandler` of `(t, v)` (when it returns) and `RemHandler` of
`(t, v)` leave the flag and every list other than the list of `(t, v)` as they were, whatever
the key: the lists of the bare type, of the other values of the type and of every other type
keep their entries. A key registered both under the bare type and under `(t, v)` therefore
names two entries, and in a state reached by the public operations the dispatch of `(t, v)`,
given fuel for every matching entry, returns after invoking both, provided that no type-level
handler of `t` and no handler ahead of the entry of the key in the list of `(t, v)` returns a
hard error, the dispatch meets no nil handler, no call of an invoked handler registers a nil
handler or a handler in the list of its own handler, and no call of an invoked type-level
handler is addressed to the list of `(t, v)`. -/
theorem handler_keys_are_scoped_and_both_entries_fire (s : Scripted ET EV HK) :
    (∀ t k h script once s1, s.AddTypeHandler t k h script once = .ok s1 →
        s1.dispatcher.isCalling = s.dispatcher.isCalling ∧
          ∀ t2 v, (t2 ≠ t ∨ v ≠ none) →
            s1.dispatcher.listAt t2 v = s.dispatcher.listAt t2 v ∧
              ∀ k2, s1.scriptAt t2 v k2 = s.scriptAt t2 v k2) ∧
      (∀ t k, (s.RemTypeHandler t k).dispatcher.isCalling = s.dispatcher.isCalling ∧
          ∀ t2 v, (t2 ≠ t ∨ v ≠ none) →
            (s.RemTypeHandler t k).dispatcher.listAt t2 v = s.dispatcher.listAt t2 v ∧
              ∀ k2, (s.RemTypeHandler t k).scriptAt t2 v k2 = s.scriptAt t2 v k2) ∧
      (∀ (evtId : EventID ET EV) k h script once s1,
        s.AddHandler evtId k h script once = .ok s1 →
        s1.dispatcher.isCalling = s.dispatcher.isCalling ∧
          ∀ t2 v, (t2 ≠ evtId.Typ ∨ v ≠ some evtId.Val) →
            s1.dispatcher.listAt t2 v = s.dispatcher.listAt t2 v ∧
              ∀ k2, s1.scriptAt t2 v k2 = s.scriptAt t2 v k2) ∧
      (∀ (evtId : EventID ET EV) k,
        (s.RemHandler evtId k).dispatcher.isCalling = s.dispatcher.isCalling ∧
          ∀ t2 v, (t2 ≠ evtId.Typ ∨ v ≠ some evtId.Val) →
            (s.RemHandler evtId k).dispatcher.listAt t2 v = s.dispatcher.listAt t2 v ∧
              ∀ k2, (s.RemHandler evtId k).scriptAt t2 v k2 = s.scriptAt t2 v k2) ∧
      (∀ (evtId : EventID ET EV) (k : HK) (g : Nat) (p : List Nat) (fuel : Nat)
          (pre post : List (Element ET EV HK)) (x : Element ET EV HK),
        s.Reachable →
        k ∈ keysOf (s.dispatcher.elementsAt evtId.Typ none) →
        s.dispatcher.elementsAt evtId.Typ (some evtId.Val) = pre ++ x :: post →
        x.Value.key = k →
        (∀ y ∈ s.dispatcher.elementsAt evtId.Typ none, y.Value.soft ⟨evtId, p, g⟩) →
        (∀ y ∈ pre, y.Value.soft ⟨evtId, p, g⟩) →
        reachesNil (taggedResult ⟨evtId, p, g⟩) (s.dispatcher.dispatchOrder evtId) = false →
        (∀ y ∈ invokedBy (taggedResult ⟨evtId, p, g⟩) (s.dispatcher.dispatchOrder evtId),
          ∀ c ∈ s.scriptAt evtId.Typ y.1 y.2.Value.key ⟨evtId, p, g⟩,
            c.registersNil = false ∧ c.registersAt evtId.Typ y.1 = false ∧
              (y.1 = none → c.touches evtId.Typ (some evtId.Val) = false)) →
        (s.dispatcher.dispatchOrder evtId).length ≤ fuel →
        ∃ s1 r tr, s.Dispatch evtId g p fuel = some (.ok (s1, r, tr)) ∧
          ({ evtType := evtId.Typ, evtVal := none, key := k, event := ⟨evtId, p, g⟩ } :
              Invocation ET EV HK) ∈ tr ∧
          ({ evtType := evtId.Typ, evtVal := some evtId.Val, key := k,
             event := ⟨evtId, p, g⟩ } : Invocation ET EV HK) ∈ tr) := by
  refine ⟨?_, ?_, ?_, ?_, ?_⟩
  · intro t k h script once s1 hadd
    simp only [Scripted.AddTypeHandler] at hadd
    split at hadd
    · cases hadd
    · rename_i d1 heq
      simp only [Except.ok.injEq] at hadd
      subst hadd
      refine ⟨isCalling_AddTypeHandler _ d1 t k h once heq, fun t2 v hne => ⟨?_, fun k2 => ?_⟩⟩
      · exact AddTypeHandler_frame _ d1 t k h once heq t2 v hne
      · apply scriptAt_mapStore
        intro hEq
        simp only [Prod.mk.injEq] at hEq
        rcases hne with h1 | h1
        · exact h1 hEq.1.symm
        · exact h1 hEq.2.symm
  · intro t k
    exact ⟨isCalling_RemTypeHandler _ t k,
      fun t2 v hne => ⟨RemTypeHandler_frame _ t k t2 v hne, fun _ => rfl⟩⟩
  · intro evtId k h script once s1 hadd
    simp only [Scripted.AddHandler] at hadd
    split at hadd
    · cases hadd
    · rename_i d1 heq
      simp only [Except.ok.injEq] at hadd
      subst hadd
      refine ⟨isCalling_AddHandler _ d1 evtId k h once heq, fun t2 v hne => ⟨?_, fun k2 => ?_⟩⟩
      · exact AddHandler_frame _ d1 evtId k h once heq t2 v hne
      · apply scriptAt_mapStore
        intro hEq
        simp only [Prod.mk.injEq] at hEq
        rcases hne with h1 | h1
        · exact h1 hEq.1.symm
        · exact h1 hEq.2.symm
  · intro evtId k
    exact ⟨isCalling_RemHandler _ evtId k,
      fun t2 v hne => ⟨RemHandler_frame _ evtId k t2 v hne, fun _ => rfl⟩⟩
  · intro evtId k g p fuel pre post x hr hk hsplit hxk hsoftT hsoftP hnil hquiet hfuel
    obtain ⟨hidle, hcons⟩ := scripted_reachable_sound s hr
    have hnd : ∀ v, (addrsOf (s.dispatcher.elementsAt evtId.Typ v)).Nodup := by
      intro v
      cases hl : s.dispatcher.listAt evtId.Typ v with
      | none => simp [EventDispatcher.elementsAt, hl, addrsOf]
      | some hs =>
        rw [elementsAt_of_listAt _ _ _ hs hl]
        exact (listsConsistent_listAt _ hcons _ _ hs hl).addrs_nodup
    obtain ⟨-, hok⟩ := scripted_Dispatch_pass s evtId g p fuel hidle hfuel (hnd none)
      (hnd (some evtId.Val)) hquiet
    obtain ⟨s1, h1⟩ := hok hnil
    have hord : s.dispatcher.dispatchOrder evtId =
        (s.dispatcher.elementsAt evtId.Typ none).map (fun e => ((none : Option EV), e)) ++
          (pre.map (fun e => (some evtId.Val, e)) ++
            (some evtId.Val, x) :: post.map (fun e => (some evtId.Val, e))) := by
      simp [EventDispatcher.dispatchOrder, hsplit]
    rw [hord] at hnil h1
    obtain ⟨m1, m2⟩ := invoked_of_soft_ahead (taggedResult ⟨evtId, p, g⟩)
      ((s.dispatcher.elementsAt evtId.Typ none).map (fun e => ((none : Option EV), e)))
      (pre.map (fun e => (some evtId.Val, e))) (post.map (fun e => (some evtId.Val, e)))
      (some evtId.Val, x)
      (by intro y hy
          obtain ⟨e, he, rfl⟩ := List.mem_map.1 hy
          exact hsoftT e he)
      (by intro y hy
          obtain ⟨e, he, rfl⟩ := List.mem_map.1 hy
          exact hsoftP e he)
      hnil
    refine ⟨s1, _, _, h1, ?_, ?_⟩
    · obtain ⟨e, he, hke⟩ := List.mem_map.1 hk
      refine List.mem_map.2 ⟨(none, e), m1 _ (List.mem_map.2 ⟨e, he, rfl⟩), ?_⟩
      simp [toInvocation, hke]
    · refine List.mem_map.2 ⟨(some evtId.Val, x), m2, ?_⟩
      simp [toInvocation, hxk]

theorem handler_keys_are_scoped_and_both_entries_fire_witness :
    (∃ s1, sharedKeyLaterFailing.AddTypeHandler 1 5 (some (handlerHard 7)) silent true = .ok s1 ∧
        s1.dispatcher.listAt 1 (some 1) = sharedKeyLaterFailing.dispatcher.listAt 1 (some 1) ∧
        s1.dispatcher.listAt 2 none = sharedKeyLaterFailing.dispatcher.listAt 2 none) ∧
      (sharedKeyLaterFailing.RemHandler ⟨1, 1⟩ 5).dispatcher.listAt 1 none =
        sharedKeyLaterFailing.dispatcher.listAt 1 none ∧
      ∃ s1 r tr, sharedKeyLaterFailing.Dispatch ⟨1, 1⟩ 0 [] 3 = some (.ok (s1, r, tr)) ∧
        ({ evtType := 1, evtVal := none, key := 5, event := ⟨⟨1, 1⟩, [], 0⟩ } :
            Invocation Nat Nat Nat) ∈ tr ∧
        ({ evtType := 1, evtVal := some 1, key := 5, event := ⟨⟨1, 1⟩, [], 0⟩ } :
            Invocation Nat Nat Nat) ∈ tr :=
  ⟨⟨_, rfl,
      (((handler_keys_are_scoped_and_both_entries_fire sharedKeyLaterFailing).1 1 5
        (some (handlerHard 7)) silent true _ rfl).2 1 (some 1) (Or.inr (by decide))).1,
      (((handler_keys_are_scoped_and_both_entries_fire sharedKeyLaterFailing).1 1 5
        (some (handlerHard 7)) silent true _ rfl).2 2 none (Or.inl (by decide))).1⟩,
    (((handler_keys_are_scoped_and_both_entries_fire sharedKeyLaterFailing).2.2.2.1 ⟨1, 1⟩ 5).2
      1 none (Or.inr (by decide))).1,
    (handler_keys_are_scoped_and_both_entries_fire sharedKeyLaterFailing).2.2.2.2 ⟨1, 1⟩ 5 0 [] 3
      [] [⟨1, entry 6 (handlerHard 7) false⟩] ⟨0, entry 5 handlerNil false⟩
      (.addHandler _ _ ⟨1, 1⟩ 6 (some (handlerHard 7)) silent false
        (.addHandler _ _ ⟨1, 1⟩ 5 (some handlerNil) silent false
          (.addTypeHandler ⟨NewEventDispatcher, []⟩ _ 1 5 (some handlerNil)
            (fun _ => [Callback.remTypeHandler 1 5]) false .fresh rfl) rfl) rfl)
      (by decide) rfl rfl
      (by intro y hy
          have hy2 : y ∈ [(⟨0, entry 5 handlerNil false⟩ : Element Nat Nat Nat)] := hy
          simp only [List.mem_singleton] at hy2
          subst hy2
          exact ⟨none, rfl, rfl⟩)
      (fun y hy => nomatch hy)
      rfl
      (by intro y hy c hc
          have hy2 : y ∈ [((none : Option Nat), (⟨0, entry 5 handlerNil false⟩ : Element Nat Nat Nat)),
              (some 1, ⟨0, entry 5 handlerNil false⟩),
              (some 1, ⟨1, entry 6 (handlerHard 7) false⟩)] := hy
          simp only [List.mem_cons, List.mem_singleton, List.not_mem_nil, or_false] at hy2
          rcases hy2 with rfl | rfl | rfl
          · have hc2 : c ∈ [Callback.remTypeHandler (1 : Nat) (5 : Nat)] := hc
            simp only [List.mem_singleton] at hc2
            subst hc2
            exact ⟨rfl, rfl, fun _ => rfl⟩
          · exact nomatch hc
          · exact nomatch hc)
      (by decide)⟩

end Claim20

end GoEvent
